import Mathlib

/-!
# Viry3D scene-asset deserializer (`lib/src/Resources.cpp`)

A shallow embedding of the binary scene reader: the byte stream, the session
cache `g_loading_cache`, the texture, material, renderer and animation readers,
the recursive `ReadNode` and the top-level `Resources::Load`, followed by the
theorems proved about them. The instancing fields that `graphics/Renderer.h`
declares are modelled with the definitions used to state the theorems.

Conventions of the embedding.
* A stream is the list of bytes that are still unread; reading past the end
  fails instead of yielding indeterminate bytes.
* `int` is a 32-bit two's complement integer stored little-endian and is
  decoded to an `Int`; every other plain-data value (`float`, `Vector3`,
  `Quaternion`, `Vector4`, `Color`) is kept as its object representation, the
  list of the bytes that `Read<T>` copies.
* Objects live in two heaps of the `World`: `nodes` for `Node` and its
  subclasses, `objects` for textures, materials and meshes. A `Ref` is an
  optional index into a heap, `none` being the empty reference.
* `assert` is active: a failed assertion ends the run with `Err.assertFailed`.
* `Map::Add` (container/Map.h is not part of the sources) is the `Put` of the
  cache contract: on a key that has an entry it replaces the entry.
* The state that a failed run leaves behind is kept, so that it can be observed.
-/

deriving instance DecidableEq for Except

namespace Viry3D

/-- A byte of a file or of a stream. -/
abbrev Byte := Fin 256

/-- The engine's string: a sequence of bytes whose size is counted in bytes. -/
abbrev ByteStr := List Byte

/-- The object representation of a plain-data value. -/
abbrev Raw := List Byte

/-- The unread part of a `MemoryStream`. -/
abbrev MemoryStream := List Byte

/-- An optional index into a heap; `none` is the empty reference. -/
abbrev Ref := Option Nat

/-- The bytes of an ASCII literal of the source. -/
def ascii (s : String) : ByteStr := s.toList.map (fun c => Fin.ofNat c.toNat)

/-- The ways a run can end without returning. -/
inductive Err where
  | endOfStream
  | negativeSize
  | assertFailed
  | nullDeref
  | badAlloc
  | outOfFuel
  deriving DecidableEq, Repr

/-! ## Stream primitives -/

/-- Little-endian value of a list of bytes. -/
def leValue : List Byte → Nat
  | [] => 0
  | b :: bs => b.val + 256 * leValue bs

/-- The `int` whose object representation is the given four bytes. -/
def toInt32 (bs : List Byte) : Int :=
  let u : Nat := leValue bs % 2 ^ 32
  if u < 2 ^ 31 then (u : Int) else (u : Int) - 2 ^ 32

/-- Modelled from the spec: `MemoryStream::Read` (io/MemoryStream.h is not part of
the sources). A read of `size` bytes returns the next `size` bytes and advances
the position by `size`; it fails when fewer than `size` bytes are left. -/
def MemoryStream.Read (size : Nat) (ms : MemoryStream) : Except Err (Raw × MemoryStream) :=
  if size ≤ ms.length then .ok (ms.take size, ms.drop size) else .error .endOfStream

/-- The call `ms.Read<int>()`. -/
def MemoryStream.ReadInt (ms : MemoryStream) : Except Err (Int × MemoryStream) :=
  match MemoryStream.Read 4 ms with
  | .ok (bs, ms1) => .ok (toInt32 bs, ms1)
  | .error e => .error e

/-- The call `ms.Read<byte>()`. -/
def MemoryStream.ReadByte (ms : MemoryStream) : Except Err (Byte × MemoryStream) :=
  match ms with
  | b :: ms1 => .ok (b, ms1)
  | [] => .error .endOfStream

/-- Modelled from the spec: `MemoryStream::ReadString(size)` (io/MemoryStream.h is
not part of the sources), following `String := size:int32 bytes:size`: the next
`size` bytes, with no terminator. A negative size fails. -/
def MemoryStream.ReadStringN (size : Int) (ms : MemoryStream) : Except Err (ByteStr × MemoryStream) :=
  if size < 0 then .error .negativeSize else MemoryStream.Read size.toNat ms

/-- The function `ReadString` of Resources.cpp (lines 35-39). -/
def ReadString (ms : MemoryStream) : Except Err (ByteStr × MemoryStream) :=
  match MemoryStream.ReadInt ms with
  | .ok (size, ms1) => MemoryStream.ReadStringN size ms1
  | .error e => .error e

/-! ## Objects -/

/-- The dynamic class of an object held in the resource heap. -/
inductive ObjKind where
  | Texture
  | Material
  | Mesh
  deriving DecidableEq, Repr

/-- The value stored under a material property name. -/
inductive PropertyValue where
  | color (value : Raw)
  | vector (value : Raw)
  | float (value : Raw)
  | texture (value : Ref)
  deriving DecidableEq, Repr

/-- A texture, a material or a mesh. A texture records the arguments the
texture-loading collaborator was called with, a mesh the path it was loaded
from. -/
inductive Obj where
  | texture (name : ByteStr) (file : ByteStr) (filter_mode wrap_mode : Int) (mipmap : Bool)
  | material (name : ByteStr) (shader : Nat) (properties : List (ByteStr × PropertyValue))
  | mesh (file : ByteStr)
  deriving DecidableEq, Repr

/-- The dynamic class of an object. -/
def Obj.kind : Obj → ObjKind
  | .texture .. => .Texture
  | .material .. => .Material
  | .mesh .. => .Mesh

/-- One key of an `AnimationCurve`: time, value, in tangent, out tangent. -/
structure Keyframe where
  time : Raw
  value : Raw
  in_tangent : Raw
  out_tangent : Raw
  deriving DecidableEq, Repr

/-- The record `AnimationCurveWrapper`: the curves of one target path. -/
structure AnimationCurveWrapper where
  path : ByteStr
  property_types : List Int
  curves : List (List Keyframe)
  deriving DecidableEq, Repr

/-- The record `AnimationClip`. -/
structure AnimationClip where
  name : ByteStr
  length : Raw
  fps : Raw
  wrap_mode : Int
  curves : List AnimationCurveWrapper
  deriving DecidableEq, Repr

/-- The dynamic class of a node: `Node` itself or one of the three component
classes that derive from it. -/
inductive NodeKind where
  | Node
  | MeshRenderer
  | SkinnedMeshRenderer
  | Animation
  deriving DecidableEq, Repr

/-- The fields of a node object that the reader touches. `m_material` is the one
material slot that Renderer.h declares (line 102, read by `GetMaterial`). -/
structure NodeRec where
  kind : NodeKind
  name : ByteStr
  local_position : Raw
  local_rotation : Raw
  local_scale : Raw
  parent : Ref
  children : List Nat
  m_material : Ref
  mesh : Ref
  bone_paths : List ByteStr
  bones_root : Ref
  clips : List AnimationClip
  deriving DecidableEq, Repr

/-- What the run asked of the file system and of the collaborators. -/
inductive Event where
  | fileExist (full_path : ByteStr)
  | fileReadAllBytes (full_path : ByteStr)
  | shaderFind (shader_name : ByteStr)
  | loadTexture2D (file : ByteStr) (filter_mode wrap_mode : Int) (mipmap : Bool)
  | loadMesh (file : ByteStr)
  deriving DecidableEq, Repr

/-- The mutable state: the session cache `g_loading_cache`, the two heaps, and
the log of file-system and collaborator calls made so far (oldest first). -/
structure World where
  cache : List (ByteStr × Ref)
  objects : List Obj
  nodes : List NodeRec
  trace : List Event
  deriving DecidableEq, Repr

/-- The state before anything was loaded. -/
def World.initial : World := { cache := [], objects := [], nodes := [], trace := [] }

/-- The cases of the `switch` over `MaterialProperty::Type` in `ReadMaterial`;
`Other` is any value without a `case`. -/
inductive PropertyType where
  | Color
  | Vector
  | Float
  | Range
  | Texture
  | Other
  deriving DecidableEq, Repr

/-- What the reader takes from outside: the data root, the file system, the
collaborators, and the declarations that are not part of the sources.
* `files p` is the content of the file at `p`, if it exists.
* `shaderFind` is `Shader::Find`.
* `textureLoads` and `meshLoads` tell whether `Texture::LoadTexture2DFromFile`
  and `Mesh::LoadFromFile` return an object for the given arguments.
* `propertyType` maps the stored integer to the enumerator of
  `MaterialProperty::Type` it denotes (graphics/Material.h is missing).
* `crossCast` tells whether `RefCast<T>` keeps a reference to an object whose
  class is not `T` (memory/Ref.h is missing). -/
structure Env where
  dataPath : ByteStr
  files : ByteStr → Option (List Byte)
  shaderFind : ByteStr → Ref
  textureLoads : ByteStr → Int → Int → Bool → Bool
  meshLoads : ByteStr → Bool
  propertyType : Int → PropertyType
  crossCast : Bool

/-! ## The state-and-error monad -/

/-- How a run ends: with a value or with an error, and with the state reached. -/
inductive Res (α : Type) where
  | ok (a : α) (w : World)
  | error (e : Err) (w : World)
  deriving DecidableEq, Repr

/-- The state a run ended in. -/
def Res.world {α : Type} : Res α → World
  | .ok _ w => w
  | .error _ w => w

/-- A computation over the world that may fail. -/
def M (α : Type) : Type := World → Res α

/-- Continue a run that returned; an error stops the run and keeps the state
reached. -/
def Res.andThen {α β : Type} (r : Res α) (f : α → M β) : Res β :=
  match r with
  | .ok a w1 => f a w1
  | .error e w1 => .error e w1

/-- Sequencing of computations. -/
def M.bind {α β : Type} (x : M α) (f : α → M β) : M β := fun w => (x w).andThen f

instance : Monad M where
  pure a := fun w => .ok a w
  bind := M.bind

/-- End the run with an error. -/
def M.fail {α : Type} (e : Err) : M α := fun w => .error e w

/-- Run a stream operation, which does not touch the world. -/
def liftE {α : Type} : Except Err α → M α
  | .ok a => pure a
  | .error e => M.fail e

/-- The macro `assert`. -/
def assert (c : Bool) : M Unit := if c then pure () else M.fail .assertFailed

/-- Append an event to the log. -/
def emit (e : Event) : M Unit := fun w => .ok () { w with trace := w.trace ++ [e] }

/-! ## The session cache -/

/-- Modelled from the spec: `Map::Contains` (container/Map.h is not part of the
sources): whether the key has an entry. -/
def Map.Contains (m : List (ByteStr × Ref)) (k : ByteStr) : Bool := (m.lookup k).isSome

/-- Modelled from the spec: `Map::operator[]` on a key that has an entry: the
object stored under the key (`Get(path)`). -/
def Map.get (m : List (ByteStr × Ref)) (k : ByteStr) : Ref := (m.lookup k).getD none

/-- Modelled from the spec: `Map::Add`, the `Put(path, Object)` of the cache
contract: afterwards the key maps to the given object. -/
def Map.Add (m : List (ByteStr × Ref)) (k : ByteStr) (v : Ref) : List (ByteStr × Ref) :=
  (k, v) :: m.filter (fun e => e.1 ≠ k)

/-- The call `g_loading_cache.Contains(path)`. -/
def cacheContains (path : ByteStr) : M Bool := fun w => .ok (Map.Contains w.cache path) w

/-- The expression `g_loading_cache[path]`. -/
def cacheGet (path : ByteStr) : M Ref := fun w => .ok (Map.get w.cache path) w

/-- The call `g_loading_cache.Add(path, object)`. -/
def cacheAdd (path : ByteStr) (object : Ref) : M Unit := fun w =>
  .ok () { w with cache := Map.Add w.cache path object }

/-- The call `g_loading_cache.Clear()`. -/
def cacheClear : M Unit := fun w => .ok () { w with cache := [] }

/-- Modelled from the spec: `RefCast<T>` (memory/Ref.h is not part of the
sources). The cast keeps the identity of the object; a reference to an object of
class `T` and the empty reference are returned as they are, a reference to an
object of another class is kept or emptied as `Env.crossCast` says. -/
def RefCast (env : Env) (T : ObjKind) (r : Ref) : M Ref := fun w =>
  match r with
  | none => .ok none w
  | some i =>
    if (w.objects[i]?).map Obj.kind = some T || env.crossCast then .ok (some i) w
    else .ok none w

/-! ## Heaps -/

/-- Replace the element at an index by its image; out of range nothing changes. -/
def updateAt {α : Type} (l : List α) (i : Nat) (f : α → α) : List α :=
  match l[i]? with
  | some a => l.set i (f a)
  | none => l

/-- Put a new object on the resource heap and return the reference to it. -/
def allocObj (o : Obj) : M Ref := fun w =>
  .ok (some w.objects.length) { w with objects := w.objects ++ [o] }

/-- Change the object a non-empty reference points to; dereferencing the empty
reference ends the run. -/
def modifyObj (r : Ref) (f : Obj → Obj) : M Unit := fun w =>
  match r with
  | none => .error .nullDeref w
  | some i => .ok () { w with objects := updateAt w.objects i f }

/-- A node object as its constructor leaves it, before the reader sets any
field: no parent, no children, empty references. -/
def NodeRec.fresh (kind : NodeKind) : NodeRec :=
  { kind := kind, name := [], local_position := [], local_rotation := [], local_scale := [],
    parent := none, children := [], m_material := none, mesh := none, bone_paths := [],
    bones_root := none, clips := [] }

/-- The expression `RefMake<T>()` for `T` a node class: a new node object. -/
def RefMakeNode (kind : NodeKind) : M Nat := fun w =>
  .ok w.nodes.length { w with nodes := w.nodes ++ [NodeRec.fresh kind] }

/-- Change the fields of a node object. -/
def modifyNode (node : Nat) (f : NodeRec → NodeRec) : M Unit := fun w =>
  .ok () { w with nodes := updateAt w.nodes node f }

/-- The setter `Object::SetName` on a texture or a material. -/
def Obj.SetName (name : ByteStr) : Obj → Obj
  | .texture _ file filter_mode wrap_mode mipmap => .texture name file filter_mode wrap_mode mipmap
  | .material _ shader properties => .material name shader properties
  | .mesh file => .mesh file

/-- Modelled from the spec: the property setters of `Material` (graphics/Material.h
is not part of the sources): the property set is keyed by name, a later value for
a name replaces the earlier one. -/
def Obj.SetProperty (property_name : ByteStr) (value : PropertyValue) : Obj → Obj
  | .material name shader properties =>
    .material name shader ((properties.filter (fun e => e.1 ≠ property_name)) ++ [(property_name, value)])
  | o => o

/-! ## File system and collaborators -/

/-- The call `File::Exist(full_path)`. -/
def File.Exist (env : Env) (full_path : ByteStr) : M Bool := do
  emit (.fileExist full_path)
  pure (env.files full_path).isSome

/-- The call `File::ReadAllBytes(full_path)`. -/
def File.ReadAllBytes (env : Env) (full_path : ByteStr) : M MemoryStream := do
  emit (.fileReadAllBytes full_path)
  pure ((env.files full_path).getD [])

/-- The call `Shader::Find(shader_name)`. -/
def Shader.Find (env : Env) (shader_name : ByteStr) : M Ref := do
  emit (.shaderFind shader_name)
  pure (env.shaderFind shader_name)

/-- The call `Texture::LoadTexture2DFromFile(file, filter_mode, wrap_mode, mipmap)`:
a new texture object, or the empty reference. -/
def Texture.LoadTexture2DFromFile (env : Env) (file : ByteStr) (filter_mode wrap_mode : Int)
    (mipmap : Bool) : M Ref := do
  emit (.loadTexture2D file filter_mode wrap_mode mipmap)
  if env.textureLoads file filter_mode wrap_mode mipmap then
    allocObj (.texture [] file filter_mode wrap_mode mipmap)
  else pure none

/-- The call `Mesh::LoadFromFile(file)`: a new mesh object, or the empty reference. -/
def Mesh.LoadFromFile (env : Env) (file : ByteStr) : M Ref := do
  emit (.loadMesh file)
  if env.meshLoads file then allocObj (.mesh file) else pure none

/-- The expression `Application::Instance()->GetDataPath() + "/" + path`. -/
def fullPath (env : Env) (path : ByteStr) : ByteStr := env.dataPath ++ ascii "/" ++ path

/-! ## Textures and materials -/

/-- The part of `ReadTexture` that parses the sidecar file (lines 55-69). It
returns the texture and the stream as it is left. -/
def ReadTextureFile (env : Env) (ms : MemoryStream) : M (Ref × MemoryStream) := do
  let (texture_name, ms) ← liftE (ReadString ms)
  let (_, ms) ← liftE (MemoryStream.ReadInt ms)
  let (_, ms) ← liftE (MemoryStream.ReadInt ms)
  let (wrap_mode, ms) ← liftE (MemoryStream.ReadInt ms)
  let (filter_mode, ms) ← liftE (MemoryStream.ReadInt ms)
  let (texture_type, ms) ← liftE (ReadString ms)
  if texture_type = ascii "Texture2D" then do
    let (mipmap_count, ms) ← liftE (MemoryStream.ReadInt ms)
    let (png_path, ms) ← liftE (ReadString ms)
    let texture ← Texture.LoadTexture2DFromFile env (fullPath env png_path) filter_mode wrap_mode
      (decide (mipmap_count > 1))
    modifyObj texture (Obj.SetName texture_name)
    pure (texture, ms)
  else pure (none, ms)

/-- The function `ReadTexture` (lines 41-75). -/
def ReadTexture (env : Env) (path : ByteStr) : M Ref := do
  let cached ← cacheContains path
  if cached then do
    let object ← cacheGet path
    RefCast env .Texture object
  else do
    let full_path := fullPath env path
    let exist ← File.Exist env full_path
    let texture ← (if exist then do
        let ms ← File.ReadAllBytes env full_path
        let (texture, _) ← ReadTextureFile env ms
        pure texture
      else pure none)
    cacheAdd path texture
    pure texture

/-- The property loop of `ReadMaterial` (lines 102-152), `count` iterations
from the stream `ms`. -/
def ReadMaterialProperties (env : Env) (material : Ref) : Nat → MemoryStream → M MemoryStream
  | 0, ms => pure ms
  | count + 1, ms => do
    let (property_name, ms) ← liftE (ReadString ms)
    let (property_type, ms) ← liftE (MemoryStream.ReadInt ms)
    let ms ← (match env.propertyType property_type with
      | .Color => do
        let (value, ms) ← liftE (MemoryStream.Read 16 ms)
        (if material.isSome then modifyObj material (Obj.SetProperty property_name (.color value))
          else pure ())
        pure ms
      | .Vector => do
        let (value, ms) ← liftE (MemoryStream.Read 16 ms)
        (if material.isSome then modifyObj material (Obj.SetProperty property_name (.vector value))
          else pure ())
        pure ms
      | .Float => do
        let (value, ms) ← liftE (MemoryStream.Read 4 ms)
        (if material.isSome then modifyObj material (Obj.SetProperty property_name (.float value))
          else pure ())
        pure ms
      | .Range => do
        let (value, ms) ← liftE (MemoryStream.Read 4 ms)
        (if material.isSome then modifyObj material (Obj.SetProperty property_name (.float value))
          else pure ())
        pure ms
      | .Texture => do
        let (_, ms) ← liftE (MemoryStream.Read 16 ms)
        let (texture_path, ms) ← liftE (ReadString ms)
        (if texture_path.length > 0 then do
            let texture ← ReadTexture env texture_path
            (if material.isSome && texture.isSome then
                modifyObj material (Obj.SetProperty property_name (.texture texture))
              else pure ())
          else pure ())
        pure ms
      | .Other => pure ms)
    ReadMaterialProperties env material count ms

/-- The part of `ReadMaterial` that parses the sidecar file (lines 91-152). It
returns the material and the stream as it is left. -/
def ReadMaterialFile (env : Env) (ms : MemoryStream) : M (Ref × MemoryStream) := do
  let (material_name, ms) ← liftE (ReadString ms)
  let (shader_name, ms) ← liftE (ReadString ms)
  let (property_count, ms) ← liftE (MemoryStream.ReadInt ms)
  let shader ← Shader.Find env shader_name
  let material ← (match shader with
    | some sh => do
      let material ← allocObj (.material [] sh [])
      modifyObj material (Obj.SetName material_name)
      pure material
    | none => pure none)
  let ms ← ReadMaterialProperties env material property_count.toNat ms
  pure (material, ms)

/-- The function `ReadMaterial` (lines 77-158). -/
def ReadMaterial (env : Env) (path : ByteStr) : M Ref := do
  let cached ← cacheContains path
  if cached then do
    let object ← cacheGet path
    RefCast env .Material object
  else do
    let full_path := fullPath env path
    let exist ← File.Exist env full_path
    let material ← (if exist then do
        let ms ← File.ReadAllBytes env full_path
        let (material, _) ← ReadMaterialFile env ms
        pure material
      else pure none)
    cacheAdd path material
    pure material

/-! ## Renderers -/

/-- Modelled from the spec: `Renderer::SetMaterial` is declared in Renderer.h
(line 67) but its body is not part of the sources. Renderer.h gives a renderer
one material slot, `m_material`, which `GetMaterial` returns; assigning a
material stores it in that slot. -/
def Renderer.SetMaterial (renderer : Nat) (material : Ref) : M Unit :=
  modifyNode renderer (fun r => { r with m_material := material })

/-- The getter `Renderer::GetMaterial` (Renderer.h line 65) on the node heap. -/
def Renderer.GetMaterial (w : World) (renderer : Nat) : Ref :=
  match w.nodes[renderer]? with
  | some r => r.m_material
  | none => none

/-- The material loop of `ReadRenderer` (lines 173-184). -/
def ReadRendererMaterials (env : Env) (renderer : Nat) : Nat → MemoryStream → M MemoryStream
  | 0, ms => pure ms
  | count + 1, ms => do
    let (material_path, ms) ← liftE (ReadString ms)
    (if material_path.length > 0 then do
        let material ← ReadMaterial env material_path
        (if material.isSome then Renderer.SetMaterial renderer material else pure ())
      else pure ())
    ReadRendererMaterials env renderer count ms

/-- The function `ReadRenderer` (lines 160-185). -/
def ReadRenderer (env : Env) (ms : MemoryStream) (renderer : Nat) : M MemoryStream := do
  let (_, ms) ← liftE (MemoryStream.ReadInt ms)
  let (_, ms) ← liftE (MemoryStream.Read 16 ms)
  let (_, ms) ← liftE (MemoryStream.ReadByte ms)
  let (_, ms) ← liftE (MemoryStream.ReadByte ms)
  let (material_count, ms) ← liftE (MemoryStream.ReadInt ms)
  ReadRendererMaterials env renderer material_count.toNat ms

/-- The function `ReadMeshRenderer` (lines 187-194). -/
def ReadMeshRenderer (env : Env) (ms : MemoryStream) (renderer : Nat) : M MemoryStream := do
  let ms ← ReadRenderer env ms renderer
  let (mesh_path, ms) ← liftE (ReadString ms)
  let mesh ← Mesh.LoadFromFile env (fullPath env mesh_path)
  modifyNode renderer (fun r => { r with mesh := mesh })
  pure ms

/-- Modelled from the spec: the constructor `Vector<T>(count)` (container/Vector.h
is not part of the sources) cannot build a vector of negative size; the run ends
there. -/
def vectorOfSize (count : Int) : M Unit := if count < 0 then M.fail .badAlloc else pure ()

/-- The bone loop of `ReadSkinnedMeshRenderer` (lines 203-206). -/
def ReadBonePaths : Nat → MemoryStream → Except Err (List ByteStr × MemoryStream)
  | 0, ms => .ok ([], ms)
  | count + 1, ms =>
    match ReadString ms with
    | .ok (bone, ms1) =>
      match ReadBonePaths count ms1 with
      | .ok (bones, ms2) => .ok (bone :: bones, ms2)
      | .error e => .error e
    | .error e => .error e

/-- The function `ReadSkinnedMeshRenderer` (lines 196-208). -/
def ReadSkinnedMeshRenderer (env : Env) (ms : MemoryStream) (renderer : Nat) : M MemoryStream := do
  let ms ← ReadMeshRenderer env ms renderer
  let (bone_count, ms) ← liftE (MemoryStream.ReadInt ms)
  vectorOfSize bone_count
  let (bones, ms) ← liftE (ReadBonePaths bone_count.toNat ms)
  modifyNode renderer (fun r => { r with bone_paths := bones })
  pure ms

/-! ## Animation -/

/-- The key loop of `ReadAnimation` (lines 258-266): `count` keys of four floats. -/
def ReadKeys : Nat → MemoryStream → Except Err (List Keyframe × MemoryStream)
  | 0, ms => .ok ([], ms)
  | count + 1, ms =>
    match MemoryStream.Read 4 ms with
    | .error e => .error e
    | .ok (time, ms1) =>
      match MemoryStream.Read 4 ms1 with
      | .error e => .error e
      | .ok (value, ms2) =>
        match MemoryStream.Read 4 ms2 with
        | .error e => .error e
        | .ok (in_tangent, ms3) =>
          match MemoryStream.Read 4 ms3 with
          | .error e => .error e
          | .ok (out_tangent, ms4) =>
            match ReadKeys count ms4 with
            | .error e => .error e
            | .ok (keys, ms5) =>
              .ok ({ time := time, value := value, in_tangent := in_tangent,
                     out_tangent := out_tangent } :: keys, ms5)

/-- Lines 236-266 on the wrapper list of a clip: the first wrapper whose path is
`curve_path` gets the property type and the curve appended; when there is none,
a new wrapper for the path is appended first. -/
def addCurve (curve_path : ByteStr) (property_type : Int) (keys : List Keyframe) :
    List AnimationCurveWrapper → List AnimationCurveWrapper
  | [] => [{ path := curve_path, property_types := [property_type], curves := [keys] }]
  | c :: cs =>
    if c.path = curve_path then
      { c with property_types := c.property_types ++ [property_type],
               curves := c.curves ++ [keys] } :: cs
    else c :: addCurve curve_path property_type keys cs

/-- The curve loop of `ReadAnimation` (lines 230-267) on the wrappers of a clip. -/
def ReadCurves : Nat → MemoryStream → List AnimationCurveWrapper →
    Except Err (List AnimationCurveWrapper × MemoryStream)
  | 0, ms, curves => .ok (curves, ms)
  | count + 1, ms, curves =>
    match ReadString ms with
    | .error e => .error e
    | .ok (curve_path, ms1) =>
      match MemoryStream.ReadInt ms1 with
      | .error e => .error e
      | .ok (property_type, ms2) =>
        match MemoryStream.ReadInt ms2 with
        | .error e => .error e
        | .ok (key_count, ms3) =>
          match ReadKeys key_count.toNat ms3 with
          | .error e => .error e
          | .ok (keys, ms4) =>
            ReadCurves count ms4 (addCurve curve_path property_type keys curves)

/-- The clip loop of `ReadAnimation` (lines 216-268). -/
def ReadClips : Nat → MemoryStream → Except Err (List AnimationClip × MemoryStream)
  | 0, ms => .ok ([], ms)
  | count + 1, ms =>
    match ReadString ms with
    | .error e => .error e
    | .ok (clip_name, ms1) =>
      match MemoryStream.Read 4 ms1 with
      | .error e => .error e
      | .ok (clip_length, ms2) =>
        match MemoryStream.Read 4 ms2 with
        | .error e => .error e
        | .ok (clip_fps, ms3) =>
          match MemoryStream.ReadInt ms3 with
          | .error e => .error e
          | .ok (clip_wrap_mode, ms4) =>
            match MemoryStream.ReadInt ms4 with
            | .error e => .error e
            | .ok (curve_count, ms5) =>
              match ReadCurves curve_count.toNat ms5 [] with
              | .error e => .error e
              | .ok (curves, ms6) =>
                match ReadClips count ms6 with
                | .error e => .error e
                | .ok (clips, ms7) =>
                  .ok ({ name := clip_name, length := clip_length, fps := clip_fps,
                         wrap_mode := clip_wrap_mode, curves := curves } :: clips, ms7)

/-- The function `ReadAnimation` (lines 210-271). -/
def ReadAnimation (ms : MemoryStream) (animation : Nat) : M MemoryStream := do
  let (clip_count, ms) ← liftE (MemoryStream.ReadInt ms)
  vectorOfSize clip_count
  let (clips, ms) ← liftE (ReadClips clip_count.toNat ms)
  modifyNode animation (fun r => { r with clips := clips })
  pure ms

/-! ## The node tree -/

/-- Modelled from the spec: `Node::SetParent(node, parent)` (Node.h is not part of
the sources): the node gets `parent` as its parent link and is appended to the
ordered child list of `parent`. -/
def Node.SetParent (node parent : Nat) : M Unit := fun w =>
  let linked := updateAt w.nodes node (fun r => { r with parent := some parent })
  .ok () { w with nodes := updateAt linked parent (fun r => { r with children := r.children ++ [node] }) }

/-- Follow the parent links from a node, at most `steps` times. -/
def Node.rootFrom (nodes : List NodeRec) : Nat → Nat → Nat
  | 0, node => node
  | steps + 1, node =>
    match nodes[node]? with
    | some r =>
      match r.parent with
      | some p => Node.rootFrom nodes steps p
      | none => node
    | none => node

/-- Modelled from the spec: `Node::GetRoot(node)` (Node.h is not part of the
sources): the ancestor of the node that has no parent. -/
def Node.GetRoot (node : Nat) : M Nat := fun w =>
  .ok (Node.rootFrom w.nodes w.nodes.length node) w

/-- The component loop of `ReadNode` (lines 289-326): `count` iterations from the
stream `ms`, with the local variable `node` as it stands. -/
def ReadNodeComponents (env : Env) (parent : Ref) :
    Nat → MemoryStream → Ref → M (Ref × MemoryStream)
  | 0, ms, node => pure (node, ms)
  | count + 1, ms, node => do
    let (com_name, ms) ← liftE (ReadString ms)
    if com_name = ascii "MeshRenderer" then do
      assert node.isNone
      let com ← RefMakeNode .MeshRenderer
      let ms ← ReadMeshRenderer env ms com
      ReadNodeComponents env parent count ms (some com)
    else if com_name = ascii "SkinnedMeshRenderer" then do
      assert node.isNone
      let com ← RefMakeNode .SkinnedMeshRenderer
      let ms ← ReadSkinnedMeshRenderer env ms com
      (match parent with
        | some p => do
          let root ← Node.GetRoot p
          modifyNode com (fun r => { r with bones_root := some root })
        | none => modifyNode com (fun r => { r with bones_root := some com }))
      ReadNodeComponents env parent count ms (some com)
    else if com_name = ascii "Animation" then do
      assert node.isNone
      let com ← RefMakeNode .Animation
      let ms ← ReadAnimation ms com
      ReadNodeComponents env parent count ms (some com)
    else ReadNodeComponents env parent count ms node

/-- The child loop of `ReadNode` (lines 344-347): `count` calls of the reader
`rd`, each with `node` as the parent; what the calls return is dropped. -/
def ReadNodeChildren (rd : MemoryStream → Ref → M (Nat × MemoryStream)) (node : Nat) :
    Nat → MemoryStream → M MemoryStream
  | 0, ms => pure ms
  | count + 1, ms => do
    let (_, ms) ← rd ms (some node)
    ReadNodeChildren rd node count ms

/-- The part of `ReadNode` that reads the record of the node itself (lines
275-341): name, layer, active flag, transform and components; then the node is
made if no component made it, linked under the parent and given its name and
transform. It returns the node and the stream as it is left. -/
def ReadNodeHead (env : Env) (ms : MemoryStream) (parent : Ref) : M (Nat × MemoryStream) := do
  let (name, ms) ← liftE (ReadString ms)
  let (_, ms) ← liftE (MemoryStream.ReadInt ms)
  let (_, ms) ← liftE (MemoryStream.ReadByte ms)
  let (local_pos, ms) ← liftE (MemoryStream.Read 12 ms)
  let (local_rot, ms) ← liftE (MemoryStream.Read 16 ms)
  let (local_scale, ms) ← liftE (MemoryStream.Read 12 ms)
  let (com_count, ms) ← liftE (MemoryStream.ReadInt ms)
  let (com, ms) ← ReadNodeComponents env parent com_count.toNat ms none
  let node ← (match com with
    | some n => pure n
    | none => RefMakeNode .Node)
  (match parent with
    | some p => Node.SetParent node p
    | none => pure ())
  modifyNode node (fun r => { r with name := name })
  modifyNode node (fun r => { r with local_position := local_pos })
  modifyNode node (fun r => { r with local_rotation := local_rot })
  modifyNode node (fun r => { r with local_scale := local_scale })
  pure (node, ms)

/-- The function `ReadNode` (lines 273-350): the record of the node, then the
child count and the children (lines 343-349). The first argument bounds the
depth of the recursion; at depth zero the run ends with `Err.outOfFuel`. -/
def ReadNode (env : Env) : Nat → MemoryStream → Ref → M (Nat × MemoryStream)
  | 0, _, _ => M.fail .outOfFuel
  | fuel + 1, ms, parent => do
    let (node, ms) ← ReadNodeHead env ms parent
    let (child_count, ms) ← liftE (MemoryStream.ReadInt ms)
    let ms ← ReadNodeChildren (ReadNode env fuel) node child_count.toNat ms
    pure (node, ms)

/-- The function `Resources::Load` (lines 352-367). The depth bound handed to
`ReadNode` is the size of the file, which no record nesting can reach. -/
def Resources.Load (env : Env) (path : ByteStr) : M Ref := do
  let full_path := fullPath env path
  let exist ← File.Exist env full_path
  if exist then do
    let ms ← File.ReadAllBytes env full_path
    let (node, _) ← ReadNode env (ms.length + 1) ms none
    cacheClear
    pure (some node)
  else pure none

/-! ## Definitions used to state the theorems -/

/-- The state in which `Resources::Load` hands the file to `ReadNode`. -/
def World.opened (env : Env) (path : ByteStr) (w : World) : World :=
  { w with trace := w.trace ++ [.fileExist (fullPath env path), .fileReadAllBytes (fullPath env path)] }


/-- A relation between states that holds from a state to itself and along
chains. -/
structure Frame (R : World → World → Prop) : Prop where
  refl : ∀ w, R w w
  trans : ∀ a b c, R a b → R b c → R a c

/-- Every run of `x`, returning or failing, ends in a state that `R` relates to
the state it started in, and a failing run fails with an error in `E`. -/
def Keeps {α : Type} (R : World → World → Prop) (E : Err → Prop) (x : M α) : Prop :=
  ∀ w, R w (x w).world ∧ ∀ e w1, x w = .error e w1 → E e

/-- The errors other than a failed assertion. -/
def NotAssert (e : Err) : Prop := e ≠ .assertFailed

/-- Any error. -/
def AnyErr (_ : Err) : Prop := True

/-- A stream operation fails only by running out of bytes or on a negative size. -/
def StreamOnly {α : Type} (x : Except Err α) : Prop :=
  ∀ e, x = .error e → e = .endOfStream ∨ e = .negativeSize

/-- Objects stay where they are on the resource heap and keep their class. -/
def KindsKept (w w1 : World) : Prop :=
  ∀ (i : Nat) (o : Obj), w.objects[i]? = some o → ∃ o1 : Obj, w1.objects[i]? = some o1 ∧ o1.kind = o.kind

/-- If `path` has a cache entry, it keeps that entry, and the existence of its
backing file is not checked. -/
def EntryKept (env : Env) (path : ByteStr) (w w1 : World) : Prop :=
  ∀ v : Ref, w.cache.lookup path = some v →
    w1.cache.lookup path = some v ∧
      w1.trace.count (.fileExist (fullPath env path)) = w.trace.count (.fileExist (fullPath env path))

/-- The cache is left as it is. -/
def SameCache (w w1 : World) : Prop := w1.cache = w.cache

/-- The node heap is left as it is. -/
def SameNodes (w w1 : World) : Prop := w1.nodes = w.nodes

/-- Objects keep their place and class, and the node heap is left as it is. -/
def Quiet (w w1 : World) : Prop := KindsKept w w1 ∧ w1.nodes = w.nodes

/-- The fields of a node that the component readers do not write. -/
def NodeRec.core (r : NodeRec) : NodeRec :=
  { r with m_material := none, mesh := none, bone_paths := [], clips := [] }

/-- Only the node `n` changes, and only in its material, mesh, bone paths and
clips. -/
def PayloadOnly (n : Nat) (w w1 : World) : Prop :=
  (∀ j : Nat, j ≠ n → w1.nodes[j]? = w.nodes[j]?) ∧
    (w1.nodes[n]?).map NodeRec.core = (w.nodes[n]?).map NodeRec.core

/-- The relation that holds between any two states. -/
def AnyWorld (_ _ : World) : Prop := True

/-! ## Writing the file formats -/

/-- The object representation of an `int`: four bytes, least significant first. -/
def encInt32 (n : Int) : List Byte :=
  let u : Nat := (n % 2 ^ 32).toNat
  [Fin.ofNat (u % 256), Fin.ofNat (u / 256 % 256), Fin.ofNat (u / 65536 % 256),
   Fin.ofNat (u / 16777216 % 256)]

/-- The grammar rule `String := size:int32 bytes:size`. -/
def encString (s : ByteStr) : List Byte := encInt32 s.length ++ s

/-- A run of zero bytes. -/
def zeros (n : Nat) : List Byte := List.replicate n 0

/-- The fields of a node record up to the component count: name, layer 0,
active, and an all-zero transform. -/
def encNodeHeader (name : String) : List Byte :=
  encString (ascii name) ++ encInt32 0 ++ [1] ++ zeros 12 ++ zeros 16 ++ zeros 12

/-- The grammar rule `RendererCommon` for the given material paths. -/
def encRendererCommon (materials : List String) : List Byte :=
  encInt32 0 ++ zeros 16 ++ [1, 1] ++ encInt32 materials.length ++
    (materials.map (fun m => encString (ascii m))).flatten

/-- A `MeshRenderer` component entry. -/
def encMeshRenderer (materials : List String) (mesh : String) : List Byte :=
  encString (ascii "MeshRenderer") ++ encRendererCommon materials ++ encString (ascii mesh)

/-- A `SkinnedMeshRenderer` component entry. -/
def encSkinnedMeshRenderer (materials : List String) (mesh : String) (bones : List String) :
    List Byte :=
  encString (ascii "SkinnedMeshRenderer") ++ encRendererCommon materials ++ encString (ascii mesh) ++
    encInt32 bones.length ++ (bones.map (fun b => encString (ascii b))).flatten

/-- An `Animation` component entry without clips. -/
def encAnimationEmpty : List Byte := encString (ascii "Animation") ++ encInt32 0

/-! ## Example files -/

/-- A texture sidecar file of type `Texture2D`. -/
def demoTextureFile : List Byte :=
  encString (ascii "T") ++ encInt32 1 ++ encInt32 1 ++ encInt32 0 ++ encInt32 0 ++
    encString (ascii "Texture2D") ++ encInt32 1 ++ encString (ascii "t.png")

/-- A material sidecar file with one texture property that refers to the path `t`. -/
def demoMaterialFile (name : String) : List Byte :=
  encString (ascii name) ++ encString (ascii "s") ++ encInt32 1 ++
    encString (ascii "tex") ++ encInt32 4 ++ zeros 16 ++ encString (ascii "t")

/-- A scene: a mesh renderer with two materials at the root, under it a skinned
mesh renderer with one bone path and a plain node. -/
def demoScene : List Byte :=
  encNodeHeader "root" ++ encInt32 1 ++ encMeshRenderer ["m", "m2"] "mesh" ++ encInt32 2 ++
    (encNodeHeader "a" ++ encInt32 1 ++ encSkinnedMeshRenderer ["m"] "mesh" ["a/b"] ++ encInt32 0) ++
    (encNodeHeader "b" ++ encInt32 0 ++ encInt32 0)

/-- A scene whose only node has two recognized components: a mesh renderer,
whose one material path `x` has no file, and an animation. -/
def brokenScene : List Byte :=
  encNodeHeader "root" ++ encInt32 2 ++ encMeshRenderer ["x"] "mesh" ++ encAnimationEmpty ++
    encInt32 0

/-- A data root `d` with the example files, a shader registry that knows the
shader `s`, collaborators that load every texture and mesh, and the property
types numbered from `Color = 0` to `Texture = 4`. -/
def demoEnv : Env where
  dataPath := ascii "d"
  files := fun p =>
    if p = ascii "d/scene" then some demoScene
    else if p = ascii "d/broken" then some brokenScene
    else if p = ascii "d/m" then some (demoMaterialFile "M")
    else if p = ascii "d/m2" then some (demoMaterialFile "M2")
    else if p = ascii "d/t" then some demoTextureFile
    else none
  shaderFind := fun n => if n = ascii "s" then some 0 else none
  textureLoads := fun _ _ _ _ => true
  meshLoads := fun _ => true
  propertyType := fun n =>
    if n = 0 then .Color else if n = 1 then .Vector else if n = 2 then .Float
    else if n = 3 then .Range else if n = 4 then .Texture else .Other
  crossCast := false

/-- The states reached from a state with an empty cache by calls of
`Resources::Load` that return; the environment may change between the calls. -/
inductive AfterLoads : World → Prop where
  | start (w : World) (h : w.cache = []) : AfterLoads w
  | load (env : Env) (path : ByteStr) (w : World) (r : Ref) (w1 : World) (h : AfterLoads w)
      (hl : Resources.Load env path w = .ok r w1) : AfterLoads w1

/-! ## The materials of a renderer payload -/

/-- The spec's material references of a renderer, "assigned in order": the
non-empty materials that the `count` material paths at the head of `ms` resolve
to, in stream order, as the loop of `ReadRenderer` meets them. -/
def assignedMaterials (env : Env) (renderer : Nat) : Nat → MemoryStream → World → List Ref
  | 0, _, _ => []
  | count + 1, ms, w =>
    match ReadString ms with
    | .error _ => []
    | .ok (material_path, ms1) =>
      if material_path.length > 0 then
        match ReadMaterial env material_path w with
        | .error _ _ => []
        | .ok material w1 =>
          if material.isSome then
            material ::
              assignedMaterials env renderer count ms1 (Renderer.SetMaterial renderer material w1).world
          else assignedMaterials env renderer count ms1 w1
      else assignedMaterials env renderer count ms1 w

/-- The materials that the paths of a whole renderer payload resolve to: the
fields before the material count are skipped as `ReadRenderer` reads them. -/
def resolvedMaterials (env : Env) (renderer : Nat) (ms : MemoryStream) (w : World) : List Ref :=
  match MemoryStream.ReadInt ms with
  | .error _ => []
  | .ok (_, ms1) =>
    match MemoryStream.Read 16 ms1 with
    | .error _ => []
    | .ok (_, ms2) =>
      match MemoryStream.ReadByte ms2 with
      | .error _ => []
      | .ok (_, ms3) =>
        match MemoryStream.ReadByte ms3 with
        | .error _ => []
        | .ok (_, ms4) =>
          match MemoryStream.ReadInt ms4 with
          | .error _ => []
          | .ok (material_count, ms5) => assignedMaterials env renderer material_count.toNat ms5 w

/-- A state with one mesh renderer node, as `ReadNode` has it when it calls
`ReadMeshRenderer`. -/
def demoRendererWorld : World := (RefMakeNode .MeshRenderer World.initial).world

/-! ## The components of a node record -/

/-- Whether a component tag is one of the three that `ReadNode` knows. -/
def recognizedTag (tag : ByteStr) : Bool :=
  tag = ascii "MeshRenderer" || tag = ascii "SkinnedMeshRenderer" || tag = ascii "Animation"

/-- What `ReadNode` does with an entry whose tag is recognized, the assertion
apart: it makes the component and reads the payload that follows the tag. It
returns the component and the stream as it is left. -/
def readRecognized (env : Env) (parent : Ref) (tag : ByteStr) (ms : MemoryStream) :
    M (Nat × MemoryStream) :=
  if tag = ascii "MeshRenderer" then do
    let com ← RefMakeNode .MeshRenderer
    let ms ← ReadMeshRenderer env ms com
    pure (com, ms)
  else if tag = ascii "SkinnedMeshRenderer" then do
    let com ← RefMakeNode .SkinnedMeshRenderer
    let ms ← ReadSkinnedMeshRenderer env ms com
    (match parent with
      | some p => do
        let root ← Node.GetRoot p
        modifyNode com (fun r => { r with bones_root := some root })
      | none => modifyNode com (fun r => { r with bones_root := some com }))
    pure (com, ms)
  else do
    let com ← RefMakeNode .Animation
    let ms ← ReadAnimation ms com
    pure (com, ms)

/-- The node heap after the node `c` was linked under `parent`: the child list of
the parent has `c` appended; without a parent nothing changes. -/
def linkChild (nodes : List NodeRec) (parent : Ref) (c : Nat) : List NodeRec :=
  match parent with
  | some p => updateAt nodes p (fun r => { r with children := r.children ++ [c] })
  | none => nodes

/-- The value that `ReadNode` hands to `SetBonesRoot` for a skinned mesh renderer
`r0` made on top of the heap `nodes`: the root of the parent, or the renderer
itself when there is no parent. -/
def bonesRootFor (nodes : List NodeRec) (parent : Ref) (r0 : NodeRec) : Nat :=
  match parent with
  | some p => Node.rootFrom (nodes ++ [r0]) (nodes.length + 1) p
  | none => nodes.length

/-- The child loop of a node made the calls that returned the nodes `cs`, in this
order, each with `node` as the parent, taking the stream and the state from
`(ms, w)` to `(ms1, w1)`. -/
inductive ChildCalls (rd : MemoryStream → Ref → M (Nat × MemoryStream)) (node : Nat) :
    List Nat → MemoryStream → World → MemoryStream → World → Prop where
  | nil (ms : MemoryStream) (w : World) : ChildCalls rd node [] ms w ms w
  | cons (c : Nat) (cs : List Nat) (ms ms1 ms2 : MemoryStream) (w w1 w2 : World)
      (h : rd ms (some node) w = .ok (c, ms1) w1) (t : ChildCalls rd node cs ms1 w1 ms2 w2) :
      ChildCalls rd node (c :: cs) ms w ms2 w2

/-- What a call of `ReadNode` with the depth bound `fuel` that returns does to the
node heap: the node it returns is the first new node, the nodes that were
there are as before but for the link in the parent, and the new nodes follow,
the returned one with the parent link it was given. -/
def NodeFrame (env : Env) (fuel : Nat) : Prop :=
  ∀ (ms : MemoryStream) (parent : Ref) (w : World) (c : Nat) (ms1 : MemoryStream) (w1 : World),
    ReadNode env fuel ms parent w = .ok (c, ms1) w1 →
    (∀ p, parent = some p → p < w.nodes.length) →
    c = w.nodes.length ∧
      ∃ (r : NodeRec) (sub : List NodeRec),
        w1.nodes = linkChild w.nodes parent c ++ r :: sub ∧ r.parent = parent

/-! ## Trees of nodes without components -/

/-- A tree of component-less nodes as a writer of the scene format has it: the
name and the transform of a node, the layer and the active flag that the format
also stores, and the ordered children. -/
inductive NodeTree where
  | node (name : ByteStr) (layer : Int) (active : Byte) (position rotation scale : Raw)
      (children : List NodeTree)

mutual
/-- The grammar rule `Node` with `comp_count = 0`. -/
def encode : NodeTree → List Byte
  | .node name layer active position rotation scale children =>
    encString name ++ encInt32 layer ++ [active] ++ position ++ rotation ++ scale ++
      encInt32 0 ++ encInt32 children.length ++ encodeList children
/-- The records of a child list, one after the other. -/
def encodeList : List NodeTree → List Byte
  | [] => []
  | t :: ts => encode t ++ encodeList ts
end

mutual
/-- Whether every field of the tree fits the field that the format has for it:
sizes and counts below `2^31`, a position and a scale of 12 bytes, a rotation of
16 bytes. -/
def NodeTree.encodable : NodeTree → Bool
  | .node name _ _ position rotation scale children =>
    decide (name.length < 2 ^ 31) && decide (position.length = 12) &&
      decide (rotation.length = 16) && decide (scale.length = 12) &&
      decide (children.length < 2 ^ 31) && encodableList children
/-- Whether every tree of a list is encodable. -/
def encodableList : List NodeTree → Bool
  | [] => true
  | t :: ts => t.encodable && encodableList ts
end

mutual
/-- The number of nodes on the longest path from the root down. -/
def NodeTree.depth : NodeTree → Nat
  | .node _ _ _ _ _ _ children => 1 + depthList children
/-- The largest depth among the trees of a list. -/
def depthList : List NodeTree → Nat
  | [] => 0
  | t :: ts => max t.depth (depthList ts)
end

mutual
/-- The number of nodes of a tree. -/
def NodeTree.size : NodeTree → Nat
  | .node _ _ _ _ _ _ children => 1 + sizeList children
/-- The number of nodes of the trees of a list. -/
def sizeList : List NodeTree → Nat
  | [] => 0
  | t :: ts => t.size + sizeList ts
end

mutual
/-- Whether the node `id` of the heap, with what hangs under it, is the tree: a
plain node with the name and the transform of the root, the given parent link,
and as many children as the root has, which in their order are the children of
the root, each with `id` as its parent link. -/
def represents (nodes : List NodeRec) : Ref → NodeTree → Nat → Bool
  | parent, .node name _ _ position rotation scale children, id =>
    match nodes[id]? with
    | some r =>
      r.kind == .Node && r.name == name && r.local_position == position &&
        r.local_rotation == rotation && r.local_scale == scale && r.parent == parent &&
        representsList nodes (some id) children r.children
    | none => false
/-- Whether the nodes of a list are, one by one, the trees of a list. -/
def representsList (nodes : List NodeRec) : Ref → List NodeTree → List Nat → Bool
  | _, [], [] => true
  | parent, t :: ts, c :: cs => represents nodes parent t c && representsList nodes parent ts cs
  | _, _, _ => false
end

/-- The places of the roots of a list of trees that is laid out from the index
`b` on, one tree after the other. -/
def childIds (b : Nat) : List NodeTree → List Nat
  | [] => []
  | t :: ts => b :: childIds (b + t.size) ts

mutual
/-- The node records of a tree laid out from the index `c` on, in the order in
which the reader makes them: the root, then the subtrees of the children. -/
def layout (c : Nat) (parent : Ref) : NodeTree → List NodeRec
  | .node name _ _ position rotation scale children =>
    { NodeRec.fresh .Node with
      name := name, local_position := position, local_rotation := rotation,
      local_scale := scale, parent := parent, children := childIds (c + 1) children } ::
      layoutList (c + 1) (some c) children
/-- The node records of a list of trees laid out from the index `b` on. -/
def layoutList (b : Nat) (parent : Ref) : List NodeTree → List NodeRec
  | [] => []
  | t :: ts => layout b parent t ++ layoutList (b + t.size) parent ts
end

/-- A tree with two leaves under the root. -/
def demoTree : NodeTree :=
  .node (ascii "root") 5 1 (zeros 12) (zeros 16) (zeros 12)
    [.node (ascii "a") 0 1 (zeros 12) (zeros 16) (zeros 12) [],
     .node (ascii "b") 0 0 (zeros 12) (zeros 16) (zeros 12) []]

/-! ## The tree that a load builds -/

/-- The nodes of the heap from `R` on form one tree under `R`: the node `R` has
no parent link, every later node has a parent link to a node from `R` on that
was made before it, and every skinned mesh renderer among them has `R` as its
bones root. -/
def TreeUnder (R : Nat) (nodes : List NodeRec) : Prop :=
  (∃ r, nodes[R]? = some r ∧ r.parent = none) ∧
  (∀ n r, R < n → nodes[n]? = some r → ∃ q, r.parent = some q ∧ R ≤ q ∧ q < n) ∧
  (∀ n r, R ≤ n → nodes[n]? = some r → r.kind = .SkinnedMeshRenderer → r.bones_root = some R)

/-! ## More example files -/

/-- A texture sidecar file of the type `Cubemap`, with three more bytes after the
type tag. -/
def cubemapTextureFile : List Byte :=
  encString (ascii "C") ++ encInt32 4 ++ encInt32 4 ++ encInt32 0 ++ encInt32 1 ++
    encString (ascii "Cubemap") ++ [9, 9, 9]

/-- The example environment with the file `cubemapTextureFile` at the path `c`. -/
def cubemapEnv : Env :=
  { demoEnv with
    files := fun p => if p = ascii "d/c" then some cubemapTextureFile else demoEnv.files p }

/-- The payload of a skinned mesh renderer without materials, with the mesh path
`mesh` and the two bone paths `a/b` and `c`, followed by one more byte. -/
def demoSkinnedPayload : List Byte :=
  encRendererCommon [] ++ encString (ascii "mesh") ++ encInt32 2 ++
    (encString (ascii "a/b") ++ encString (ascii "c")) ++ [7]

/-- The state in which a new skinned mesh renderer is the only node. -/
def demoSkinnedWorld : World := (RefMakeNode .SkinnedMeshRenderer World.initial).world

/-! ## The properties of a material file -/

/-- A property record of a material file as the grammar has it
(`Property := name:String type:int32 payload`): the declared name, the stored
type tag, the floats of the payload as they are stored, and the texture path
that follows them in a `Texture` property. -/
structure PropertyEntry where
  name : ByteStr
  type : Int
  value : Raw
  texture_path : ByteStr
  deriving DecidableEq, Repr

/-- The bytes of a property record: the name string, the four bytes of the type
tag, the payload, and for a `Texture` property the path string. -/
def encProperty (env : Env) (p : PropertyEntry) : List Byte :=
  encString p.name ++ encInt32 p.type ++ p.value ++
    (if env.propertyType p.type = .Texture then encString p.texture_path else [])

/-- Whether a property record has one of the five known types and the payload
width of its type: 16 bytes for `Color`, `Vector` and the floats of `Texture`,
4 bytes for `Float` and `Range`; sizes and the tag fit their 32-bit fields. -/
def PropertyEntry.wellFormed (env : Env) (p : PropertyEntry) : Bool :=
  decide (p.name.length < 2 ^ 31) && decide (-(2 ^ 31) ≤ p.type) && decide (p.type < 2 ^ 31) &&
    (match env.propertyType p.type with
      | .Color => decide (p.value.length = 16)
      | .Vector => decide (p.value.length = 16)
      | .Float => decide (p.value.length = 4)
      | .Range => decide (p.value.length = 4)
      | .Texture => decide (p.value.length = 16) && decide (p.texture_path.length < 2 ^ 31)
      | .Other => false)

/-- What a property record asks for on the material `material`: a `Color`,
`Vector`, `Float` or `Range` value is set under the declared name; a `Texture`
property with a non-empty path has the texture read and, when there is one, set
under the declared name. -/
def applyProperty (env : Env) (material : Nat) (p : PropertyEntry) : M Unit :=
  match env.propertyType p.type with
  | .Color => modifyObj (some material) (Obj.SetProperty p.name (.color p.value))
  | .Vector => modifyObj (some material) (Obj.SetProperty p.name (.vector p.value))
  | .Float => modifyObj (some material) (Obj.SetProperty p.name (.float p.value))
  | .Range => modifyObj (some material) (Obj.SetProperty p.name (.float p.value))
  | .Texture =>
    if p.texture_path.length > 0 then do
      let texture ← ReadTexture env p.texture_path
      if texture.isSome then
        modifyObj (some material) (Obj.SetProperty p.name (.texture texture))
      else pure ()
    else pure ()
  | .Other => pure ()

/-- The property records applied one after the other. -/
def applyProperties (env : Env) (material : Nat) : List PropertyEntry → M Unit
  | [] => pure ()
  | p :: ps => do
    applyProperty env material p
    applyProperties env material ps

/-- Three property records for the example environment: a `Float` (tag 2), a
`Color` (tag 0) and a `Texture` (tag 4) that refers to the texture path `t`. -/
def demoProperties : List PropertyEntry :=
  [{ name := ascii "f", type := 2, value := [1, 2, 3, 4], texture_path := [] },
   { name := ascii "c", type := 0, value := zeros 16, texture_path := [] },
   { name := ascii "tex", type := 4, value := zeros 16, texture_path := ascii "t" }]

/-- The state in which a new material with the shader 0 is the only object. -/
def demoMaterialWorld : World := (allocObj (.material (ascii "M") 0 []) World.initial).world

/-! ## The curve entries of a clip -/

/-- A curve entry of a clip as the grammar has it
(`CurveEntry := path:String property_type:int32 key_count:int32 keys`). -/
structure CurveEntry where
  path : ByteStr
  property_type : Int
  keys : List Keyframe
  deriving DecidableEq, Repr

/-- A clip as the grammar has it
(`Clip := name:String length:float32 fps:float32 wrap_mode:int32 curve_count:int32 CurveEntry*`),
with its curve entries in the order of the stream. -/
structure ClipRecord where
  name : ByteStr
  length : Raw
  fps : Raw
  wrap_mode : Int
  entries : List CurveEntry
  deriving DecidableEq, Repr

/-- The next `count` curve entries of the stream, one after the other. -/
def ReadCurveEntries : Nat → MemoryStream → Except Err (List CurveEntry × MemoryStream)
  | 0, ms => .ok ([], ms)
  | count + 1, ms =>
    match ReadString ms with
    | .error e => .error e
    | .ok (path, ms1) =>
      match MemoryStream.ReadInt ms1 with
      | .error e => .error e
      | .ok (property_type, ms2) =>
        match MemoryStream.ReadInt ms2 with
        | .error e => .error e
        | .ok (key_count, ms3) =>
          match ReadKeys key_count.toNat ms3 with
          | .error e => .error e
          | .ok (keys, ms4) =>
            match ReadCurveEntries count ms4 with
            | .error e => .error e
            | .ok (entries, ms5) =>
              .ok ({ path := path, property_type := property_type, keys := keys } :: entries, ms5)

/-- The next `count` clips of the stream, one after the other, each with its own
curve entries. -/
def ReadClipRecords : Nat → MemoryStream → Except Err (List ClipRecord × MemoryStream)
  | 0, ms => .ok ([], ms)
  | count + 1, ms =>
    match ReadString ms with
    | .error e => .error e
    | .ok (name, ms1) =>
      match MemoryStream.Read 4 ms1 with
      | .error e => .error e
      | .ok (length, ms2) =>
        match MemoryStream.Read 4 ms2 with
        | .error e => .error e
        | .ok (fps, ms3) =>
          match MemoryStream.ReadInt ms3 with
          | .error e => .error e
          | .ok (wrap_mode, ms4) =>
            match MemoryStream.ReadInt ms4 with
            | .error e => .error e
            | .ok (curve_count, ms5) =>
              match ReadCurveEntries curve_count.toNat ms5 with
              | .error e => .error e
              | .ok (entries, ms6) =>
                match ReadClipRecords count ms6 with
                | .error e => .error e
                | .ok (clips, ms7) =>
                  .ok ({ name := name, length := length, fps := fps, wrap_mode := wrap_mode,
                         entries := entries } :: clips, ms7)

/-- The distinct paths of a list, in the order of their first occurrence. -/
def firstOccurrences : List ByteStr → List ByteStr
  | [] => []
  | p :: ps => p :: (firstOccurrences ps).filter (fun q => q ≠ p)

/-- The curve wrapper that the entries of a clip give for a path: the property
types and the curves of the entries with that path, in the order of the stream. -/
def wrapperFor (entries : List CurveEntry) (p : ByteStr) : AnimationCurveWrapper :=
  { path := p,
    property_types := (entries.filter (fun e => e.path = p)).map (fun e => e.property_type),
    curves := (entries.filter (fun e => e.path = p)).map (fun e => e.keys) }

/-- The curve entries of a clip grouped by target path: one wrapper for each
distinct path, in the order of first occurrence. -/
def groupByPath (entries : List CurveEntry) : List AnimationCurveWrapper :=
  (firstOccurrences (entries.map (fun e => e.path))).map (wrapperFor entries)

/-- The clip object for a clip of the stream: its curve entries grouped by path,
each clip on its own. -/
def ClipRecord.toClip (c : ClipRecord) : AnimationClip :=
  { name := c.name, length := c.length, fps := c.fps, wrap_mode := c.wrap_mode,
    curves := groupByPath c.entries }

/-- The payload of an `Animation` component with two clips. The clip `walk` has
the entries `a` (type 1, one key), `b` (type 2) and `a` (type 3); the clip `run`
has the entry `a` (type 7). One more byte follows. -/
def demoAnimationPayload : List Byte :=
  encInt32 2 ++
    (encString (ascii "walk") ++ zeros 4 ++ zeros 4 ++ encInt32 0 ++ encInt32 3 ++
      (encString (ascii "a") ++ encInt32 1 ++ encInt32 1 ++
        ([1, 0, 0, 0] ++ [2, 0, 0, 0] ++ [3, 0, 0, 0] ++ [4, 0, 0, 0])) ++
      (encString (ascii "b") ++ encInt32 2 ++ encInt32 0) ++
      (encString (ascii "a") ++ encInt32 3 ++ encInt32 0)) ++
    (encString (ascii "run") ++ zeros 4 ++ zeros 4 ++ encInt32 1 ++ encInt32 1 ++
      (encString (ascii "a") ++ encInt32 7 ++ encInt32 0)) ++
    [7]

/-- The state in which a new animation is the only node. -/
def demoAnimationWorld : World := (RefMakeNode .Animation World.initial).world

/-! ## The instance batch of a renderer -/

/-- The record `RendererInstanceTransform` of Renderer.h (lines 41-47); the field
`verctors` holds the extra vectors of the instance. -/
structure RendererInstanceTransform where
  position : Raw
  rotation : Raw
  scale : Raw
  verctors : List Raw
  deriving DecidableEq, Repr

/-- The instancing fields of `Renderer` (Renderer.h lines 105-108): the instances,
the flat instance buffer, the dirty flag and the extra vector count. `rebuilds`
is a probe that counts the runs of `UpdateInstanceBuffer`. -/
structure InstanceBatch where
  m_instances : List RendererInstanceTransform
  m_instance_buffer : List Byte
  m_instance_buffer_dirty : Bool
  m_instance_extra_vector_count : Nat
  rebuilds : Nat
  deriving DecidableEq, Repr

/-- Modelled from the spec: `Renderer::AddInstance` is declared in Renderer.h
(line 77) but its body (Renderer.cpp) is not part of the sources. Adding an
instance appends a record with the given transform and the extra slots of the
batch, and sets the dirty flag. -/
def Renderer.AddInstance (pos rot scale : Raw) (r : InstanceBatch) : InstanceBatch :=
  { r with
    m_instances := r.m_instances ++
      [{ position := pos, rotation := rot, scale := scale,
         verctors := List.replicate r.m_instance_extra_vector_count (zeros 16) }],
    m_instance_buffer_dirty := true }

/-- Modelled from the spec: `Renderer::SetInstanceTransform` (Renderer.h line 78,
body not part of the sources). Rewriting the transform of an instance sets the
dirty flag. -/
def Renderer.SetInstanceTransform (instance_index : Nat) (pos rot scale : Raw)
    (r : InstanceBatch) : InstanceBatch :=
  { r with
    m_instances := updateAt r.m_instances instance_index
      (fun i => { i with position := pos, rotation := rot, scale := scale }),
    m_instance_buffer_dirty := true }

/-- Modelled from the spec: `Renderer::SetInstanceExtraVector` (Renderer.h line 79,
body not part of the sources). Rewriting an extra slot of an instance sets the
dirty flag. -/
def Renderer.SetInstanceExtraVector (instance_index vector_index : Nat) (v : Raw)
    (r : InstanceBatch) : InstanceBatch :=
  { r with
    m_instances := updateAt r.m_instances instance_index
      (fun i => { i with verctors := updateAt i.verctors vector_index (fun _ => v) }),
    m_instance_buffer_dirty := true }

/-- The flat, upload-ready form of the instances: for each instance its position,
rotation, scale and extra vectors. -/
def flatInstances (instances : List RendererInstanceTransform) : List Byte :=
  (instances.map (fun i => i.position ++ i.rotation ++ i.scale ++ i.verctors.flatten)).flatten

/-- Modelled from the spec: the private `Renderer::UpdateInstanceBuffer`
(Renderer.h line 90, body not part of the sources): the rebuild of the flat
instance buffer from the instances. The probe counts the run. -/
def Renderer.UpdateInstanceBuffer (r : InstanceBatch) : InstanceBatch :=
  { r with m_instance_buffer := flatInstances r.m_instances, rebuilds := r.rebuilds + 1 }

/-- The getter `Renderer::GetInstanceBuffer` (Renderer.h line 60): the stored
buffer, as it is. -/
def Renderer.GetInstanceBuffer (r : InstanceBatch) : List Byte := r.m_instance_buffer

/-- Modelled from the spec: the query of the instance buffer ("rebuilt lazily,
exactly once, the next time it is queried"). The code that tests the dirty flag
and calls `UpdateInstanceBuffer` is in Renderer.cpp, which is not part of the
sources; the getter of the header only returns the buffer. A query rebuilds the
buffer when the flag is set, clearing the flag, and does nothing otherwise. -/
def Renderer.QueryInstanceBuffer (r : InstanceBatch) : InstanceBatch :=
  if r.m_instance_buffer_dirty then
    { Renderer.UpdateInstanceBuffer r with m_instance_buffer_dirty := false }
  else r

/-- The three instance mutations. -/
inductive InstanceMutation where
  | AddInstance (pos rot scale : Raw)
  | SetInstanceTransform (instance_index : Nat) (pos rot scale : Raw)
  | SetInstanceExtraVector (instance_index vector_index : Nat) (v : Raw)
  deriving DecidableEq, Repr

/-- The call that a mutation stands for. -/
def InstanceMutation.apply : InstanceMutation → InstanceBatch → InstanceBatch
  | .AddInstance pos rot scale => Renderer.AddInstance pos rot scale
  | .SetInstanceTransform i pos rot scale => Renderer.SetInstanceTransform i pos rot scale
  | .SetInstanceExtraVector i j v => Renderer.SetInstanceExtraVector i j v

/-- A sequence of mutations, made one after the other. -/
def applyMutations (ms : List InstanceMutation) (r : InstanceBatch) : InstanceBatch :=
  ms.foldl (fun s m => m.apply s) r

/-- A batch with one instance, a built buffer and a clear flag. -/
def demoBatch : InstanceBatch :=
  { m_instances := [{ position := zeros 12, rotation := zeros 16, scale := zeros 12,
                      verctors := [zeros 16] }],
    m_instance_buffer := zeros 56, m_instance_buffer_dirty := false,
    m_instance_extra_vector_count := 1, rebuilds := 0 }

/-! ## Runs that cannot be told apart -/

/-- Two states show the same to an observer of the cache keys and of the calls:
the cache has the same keys, in the same order, and the log of file-system and
collaborator calls is the same. -/
def SameObs (w1 w2 : World) : Prop :=
  w1.cache.map Prod.fst = w2.cache.map Prod.fst ∧ w1.trace = w2.trace

/-- Two runs end alike: both return, with values that `Q` relates, or both fail
with the same error, and `R` relates the states they end in. -/
def Alike {α β : Type} (R : World → World → Prop) (Q : α → β → Prop) (r1 : Res α) (r2 : Res β) :
    Prop :=
  match r1, r2 with
  | .ok a v1, .ok b v2 => Q a b ∧ R v1 v2
  | .error e1 v1, .error e2 v2 => e1 = e2 ∧ R v1 v2
  | _, _ => False

/-- Two computations run in lockstep: from states that `R` relates they end
alike. -/
def Lockstep {α β : Type} (R : World → World → Prop) (Q : α → β → Prop) (x : M α) (y : M β) :
    Prop :=
  ∀ w1 w2, R w1 w2 → Alike R Q (x w1) (y w2)

/-- No condition on the values. -/
def AnyVal {α β : Type} (_ : α) (_ : β) : Prop := True

/-- The property loop of `ReadMaterial` (lines 102-152) with a record of its
`ReadTexture` calls: the loop of `ReadMaterialProperties`, returning besides the
stream the paths that `ReadTexture` was called with, in the order of the calls. -/
def ReadMaterialPropertiesCalls (env : Env) (material : Ref) :
    Nat → MemoryStream → M (MemoryStream × List ByteStr)
  | 0, ms => pure (ms, [])
  | count + 1, ms => do
    let (property_name, ms) ← liftE (ReadString ms)
    let (property_type, ms) ← liftE (MemoryStream.ReadInt ms)
    let (ms, calls) ← (match env.propertyType property_type with
      | .Color => do
        let (value, ms) ← liftE (MemoryStream.Read 16 ms)
        (if material.isSome then modifyObj material (Obj.SetProperty property_name (.color value))
          else pure ())
        pure (ms, [])
      | .Vector => do
        let (value, ms) ← liftE (MemoryStream.Read 16 ms)
        (if material.isSome then modifyObj material (Obj.SetProperty property_name (.vector value))
          else pure ())
        pure (ms, [])
      | .Float => do
        let (value, ms) ← liftE (MemoryStream.Read 4 ms)
        (if material.isSome then modifyObj material (Obj.SetProperty property_name (.float value))
          else pure ())
        pure (ms, [])
      | .Range => do
        let (value, ms) ← liftE (MemoryStream.Read 4 ms)
        (if material.isSome then modifyObj material (Obj.SetProperty property_name (.float value))
          else pure ())
        pure (ms, [])
      | .Texture => do
        let (_, ms) ← liftE (MemoryStream.Read 16 ms)
        let (texture_path, ms) ← liftE (ReadString ms)
        (if texture_path.length > 0 then do
            let texture ← ReadTexture env texture_path
            (if material.isSome && texture.isSome then
                modifyObj material (Obj.SetProperty property_name (.texture texture))
              else pure ())
            pure (ms, [texture_path])
          else pure (ms, []))
      | .Other => pure (ms, []))
    let (ms, later) ← ReadMaterialPropertiesCalls env material count ms
    pure (ms, calls ++ later)

/-- The parser of `ReadMaterialFile` (lines 91-152) with the record of the
`ReadTexture` calls of its property loop. -/
def ReadMaterialFileCalls (env : Env) (ms : MemoryStream) :
    M (Ref × MemoryStream × List ByteStr) := do
  let (material_name, ms) ← liftE (ReadString ms)
  let (shader_name, ms) ← liftE (ReadString ms)
  let (property_count, ms) ← liftE (MemoryStream.ReadInt ms)
  let shader ← Shader.Find env shader_name
  let material ← (match shader with
    | some sh => do
      let material ← allocObj (.material [] sh [])
      modifyObj material (Obj.SetName material_name)
      pure material
    | none => pure none)
  let (ms, calls) ← ReadMaterialPropertiesCalls env material property_count.toNat ms
  pure (material, ms, calls)

/-- The example environment with a shader registry that knows no shader. -/
def noShaderEnv : Env := { demoEnv with shaderFind := fun _ => none }

/-! ## Termination -/

/-- The errors other than the exhausted depth bound of the embedding. -/
def NoFuel (e : Err) : Prop := e ≠ .outOfFuel
/-! ## The calls of a load

The readers once more, now keeping a record of the calls of `ReadTexture` and
`ReadMaterial` that a run makes and of the state each call is made in. The text
of each reader is the text of the reader above; only the two calls are recorded.
The theorems `erases_*` below show that the run itself is the same. -/

/-- A call of `ReadTexture`: the path, and the state in which the call is made. -/
structure TextureCall where
  path : ByteStr
  pre : World
  deriving DecidableEq, Repr

/-- A call of `ReadMaterial`: the path, the state in which the call is made, and
the calls of `ReadTexture` made while it runs, oldest first. -/
structure MaterialCall where
  path : ByteStr
  pre : World
  textures : List TextureCall
  deriving DecidableEq, Repr

/-- A computation that keeps a record: how the run ends, and the calls it made,
oldest first. A run that fails keeps the record of the calls made before. -/
def Logged (ε α : Type) : Type := World → Res α × List ε

/-- Sequencing of recording computations: the records are joined in order. -/
def Logged.bind {ε α β : Type} (x : Logged ε α) (f : α → Logged ε β) : Logged ε β := fun w =>
  match x w with
  | (.ok a w1, calls) => ((f a w1).1, calls ++ (f a w1).2)
  | (.error e w1, calls) => (.error e w1, calls)

instance {ε : Type} : Monad (Logged ε) where
  pure a := fun w => (.ok a w, [])
  bind := Logged.bind

/-- A computation that makes no recorded call. -/
def Logged.silent {ε α : Type} (x : M α) : Logged ε α := fun w => (x w, [])

instance {ε : Type} : MonadLift M (Logged ε) where
  monadLift := Logged.silent

/-- The state in which a call of `ReadTexture` ends. -/
def TextureCall.post (env : Env) (t : TextureCall) : World := (ReadTexture env t.path t.pre).world

/-- The state in which a call of `ReadMaterial` ends. -/
def MaterialCall.post (env : Env) (c : MaterialCall) : World :=
  (ReadMaterial env c.path c.pre).world

/-- The call `ReadTexture(path)` (line 143), recorded. -/
def ReadTextureLog (env : Env) (path : ByteStr) : Logged TextureCall Ref := fun w =>
  (ReadTexture env path w, [{ path := path, pre := w }])

/-- The property loop of `ReadMaterial` (lines 102-152) with the record of its
`ReadTexture` calls. -/
def ReadMaterialPropertiesLog (env : Env) (material : Ref) :
    Nat → MemoryStream → Logged TextureCall MemoryStream
  | 0, ms => pure ms
  | count + 1, ms => do
    let (property_name, ms) ← liftE (ReadString ms)
    let (property_type, ms) ← liftE (MemoryStream.ReadInt ms)
    let ms ← (match env.propertyType property_type with
      | .Color => do
        let (value, ms) ← liftE (MemoryStream.Read 16 ms)
        (if material.isSome then modifyObj material (Obj.SetProperty property_name (.color value))
          else pure ())
        pure ms
      | .Vector => do
        let (value, ms) ← liftE (MemoryStream.Read 16 ms)
        (if material.isSome then modifyObj material (Obj.SetProperty property_name (.vector value))
          else pure ())
        pure ms
      | .Float => do
        let (value, ms) ← liftE (MemoryStream.Read 4 ms)
        (if material.isSome then modifyObj material (Obj.SetProperty property_name (.float value))
          else pure ())
        pure ms
      | .Range => do
        let (value, ms) ← liftE (MemoryStream.Read 4 ms)
        (if material.isSome then modifyObj material (Obj.SetProperty property_name (.float value))
          else pure ())
        pure ms
      | .Texture => do
        let (_, ms) ← liftE (MemoryStream.Read 16 ms)
        let (texture_path, ms) ← liftE (ReadString ms)
        (if texture_path.length > 0 then do
            let texture ← ReadTextureLog env texture_path
            (if material.isSome && texture.isSome then
                modifyObj material (Obj.SetProperty property_name (.texture texture))
              else pure ())
          else pure ())
        pure ms
      | .Other => pure ms)
    ReadMaterialPropertiesLog env material count ms

/-- The parser of `ReadMaterial` (lines 91-152) with the record of the
`ReadTexture` calls of its property loop. -/
def ReadMaterialFileLog (env : Env) (ms : MemoryStream) :
    Logged TextureCall (Ref × MemoryStream) := do
  let (material_name, ms) ← liftE (ReadString ms)
  let (shader_name, ms) ← liftE (ReadString ms)
  let (property_count, ms) ← liftE (MemoryStream.ReadInt ms)
  let shader ← Shader.Find env shader_name
  let material ← (match shader with
    | some sh => do
      let material ← allocObj (.material [] sh [])
      modifyObj material (Obj.SetName material_name)
      pure material
    | none => pure none)
  let ms ← ReadMaterialPropertiesLog env material property_count.toNat ms
  pure (material, ms)

/-- The function `ReadMaterial` (lines 77-158) with the record of the
`ReadTexture` calls made while it runs. -/
def ReadMaterialLog (env : Env) (path : ByteStr) : Logged TextureCall Ref := do
  let cached ← cacheContains path
  if cached then do
    let object ← cacheGet path
    RefCast env .Material object
  else do
    let full_path := fullPath env path
    let exist ← File.Exist env full_path
    let material ← (if exist then do
        let ms ← File.ReadAllBytes env full_path
        let (material, _) ← ReadMaterialFileLog env ms
        pure material
      else pure none)
    cacheAdd path material
    pure material

/-- The call `ReadMaterial(path)` (line 178), recorded together with the
`ReadTexture` calls made while it runs. -/
def ReadMaterialCall (env : Env) (path : ByteStr) : Logged MaterialCall Ref := fun w =>
  ((ReadMaterialLog env path w).1,
    [{ path := path, pre := w, textures := (ReadMaterialLog env path w).2 }])

/-- The material loop of `ReadRenderer` (lines 173-184) with the record of its
`ReadMaterial` calls. -/
def ReadRendererMaterialsLog (env : Env) (renderer : Nat) :
    Nat → MemoryStream → Logged MaterialCall MemoryStream
  | 0, ms => pure ms
  | count + 1, ms => do
    let (material_path, ms) ← liftE (ReadString ms)
    (if material_path.length > 0 then do
        let material ← ReadMaterialCall env material_path
        (if material.isSome then Renderer.SetMaterial renderer material else pure ())
      else pure ())
    ReadRendererMaterialsLog env renderer count ms

/-- The function `ReadRenderer` (lines 160-185) with the record. -/
def ReadRendererLog (env : Env) (ms : MemoryStream) (renderer : Nat) :
    Logged MaterialCall MemoryStream := do
  let (_, ms) ← liftE (MemoryStream.ReadInt ms)
  let (_, ms) ← liftE (MemoryStream.Read 16 ms)
  let (_, ms) ← liftE (MemoryStream.ReadByte ms)
  let (_, ms) ← liftE (MemoryStream.ReadByte ms)
  let (material_count, ms) ← liftE (MemoryStream.ReadInt ms)
  ReadRendererMaterialsLog env renderer material_count.toNat ms

/-- The function `ReadMeshRenderer` (lines 187-194) with the record. -/
def ReadMeshRendererLog (env : Env) (ms : MemoryStream) (renderer : Nat) :
    Logged MaterialCall MemoryStream := do
  let ms ← ReadRendererLog env ms renderer
  let (mesh_path, ms) ← liftE (ReadString ms)
  let mesh ← Mesh.LoadFromFile env (fullPath env mesh_path)
  modifyNode renderer (fun r => { r with mesh := mesh })
  pure ms

/-- The function `ReadSkinnedMeshRenderer` (lines 196-208) with the record. -/
def ReadSkinnedMeshRendererLog (env : Env) (ms : MemoryStream) (renderer : Nat) :
    Logged MaterialCall MemoryStream := do
  let ms ← ReadMeshRendererLog env ms renderer
  let (bone_count, ms) ← liftE (MemoryStream.ReadInt ms)
  vectorOfSize bone_count
  let (bones, ms) ← liftE (ReadBonePaths bone_count.toNat ms)
  modifyNode renderer (fun r => { r with bone_paths := bones })
  pure ms

/-- The component loop of `ReadNode` (lines 289-326) with the record. -/
def ReadNodeComponentsLog (env : Env) (parent : Ref) :
    Nat → MemoryStream → Ref → Logged MaterialCall (Ref × MemoryStream)
  | 0, ms, node => pure (node, ms)
  | count + 1, ms, node => do
    let (com_name, ms) ← liftE (ReadString ms)
    if com_name = ascii "MeshRenderer" then do
      assert node.isNone
      let com ← RefMakeNode .MeshRenderer
      let ms ← ReadMeshRendererLog env ms com
      ReadNodeComponentsLog env parent count ms (some com)
    else if com_name = ascii "SkinnedMeshRenderer" then do
      assert node.isNone
      let com ← RefMakeNode .SkinnedMeshRenderer
      let ms ← ReadSkinnedMeshRendererLog env ms com
      (match parent with
        | some p => do
          let root ← Node.GetRoot p
          modifyNode com (fun r => { r with bones_root := some root })
        | none => modifyNode com (fun r => { r with bones_root := some com }))
      ReadNodeComponentsLog env parent count ms (some com)
    else if com_name = ascii "Animation" then do
      assert node.isNone
      let com ← RefMakeNode .Animation
      let ms ← ReadAnimation ms com
      ReadNodeComponentsLog env parent count ms (some com)
    else ReadNodeComponentsLog env parent count ms node

/-- The child loop of `ReadNode` (lines 344-347) with the record. -/
def ReadNodeChildrenLog (rd : MemoryStream → Ref → Logged MaterialCall (Nat × MemoryStream))
    (node : Nat) : Nat → MemoryStream → Logged MaterialCall MemoryStream
  | 0, ms => pure ms
  | count + 1, ms => do
    let (_, ms) ← rd ms (some node)
    ReadNodeChildrenLog rd node count ms

/-- The part of `ReadNode` that reads the record of the node itself (lines
275-341) with the record of the calls. -/
def ReadNodeHeadLog (env : Env) (ms : MemoryStream) (parent : Ref) :
    Logged MaterialCall (Nat × MemoryStream) := do
  let (name, ms) ← liftE (ReadString ms)
  let (_, ms) ← liftE (MemoryStream.ReadInt ms)
  let (_, ms) ← liftE (MemoryStream.ReadByte ms)
  let (local_pos, ms) ← liftE (MemoryStream.Read 12 ms)
  let (local_rot, ms) ← liftE (MemoryStream.Read 16 ms)
  let (local_scale, ms) ← liftE (MemoryStream.Read 12 ms)
  let (com_count, ms) ← liftE (MemoryStream.ReadInt ms)
  let (com, ms) ← ReadNodeComponentsLog env parent com_count.toNat ms none
  let node ← (match com with
    | some n => pure n
    | none => RefMakeNode .Node)
  (match parent with
    | some p => Node.SetParent node p
    | none => pure ())
  modifyNode node (fun r => { r with name := name })
  modifyNode node (fun r => { r with local_position := local_pos })
  modifyNode node (fun r => { r with local_rotation := local_rot })
  modifyNode node (fun r => { r with local_scale := local_scale })
  pure (node, ms)

/-- The function `ReadNode` (lines 273-350) with the record of the calls; the
first argument bounds the depth of the recursion as in `ReadNode`. -/
def ReadNodeLog (env : Env) : Nat → MemoryStream → Ref → Logged MaterialCall (Nat × MemoryStream)
  | 0, _, _ => Logged.silent (M.fail .outOfFuel)
  | fuel + 1, ms, parent => do
    let (node, ms) ← ReadNodeHeadLog env ms parent
    let (child_count, ms) ← liftE (MemoryStream.ReadInt ms)
    let ms ← ReadNodeChildrenLog (ReadNodeLog env fuel) node child_count.toNat ms
    pure (node, ms)

/-- The function `Resources::Load` (lines 352-367) with the record of the
`ReadMaterial` and `ReadTexture` calls that the load makes. -/
def Resources.LoadLog (env : Env) (path : ByteStr) : Logged MaterialCall Ref := do
  let full_path := fullPath env path
  let exist ← File.Exist env full_path
  if exist then do
    let ms ← File.ReadAllBytes env full_path
    let (node, _) ← ReadNodeLog env (ms.length + 1) ms none
    cacheClear
    pure (some node)
  else pure none

/-- The `ReadMaterial` calls of a load, oldest first, each with the `ReadTexture`
calls made while it ran. -/
def Resources.LoadCalls (env : Env) (path : ByteStr) (w : World) : List MaterialCall :=
  (Resources.LoadLog env path w).2

/-- The recording computation `x` runs as the computation `y` does: from every
state both end the same way. -/
def Erases {ε α : Type} (x : Logged ε α) (y : M α) : Prop := ∀ w, (x w).1 = y w

/-! ## What a load keeps between two calls -/

/-- Every cache entry is empty or refers to an object on the resource heap. -/
def CacheValid (w : World) : Prop :=
  ∀ (p : ByteStr) (i : Nat), w.cache.lookup p = some (some i) → i < w.objects.length

/-- Objects keep their place and class, and the cache entries go on referring to
objects on the heap. -/
def ValidKept (w w1 : World) : Prop := KindsKept w w1 ∧ (CacheValid w → CacheValid w1)

/-- As long as `path`, whose file does not exist, has no cache entry, the
existence of its file has not been checked. -/
def Unasked (env : Env) (path : ByteStr) (w w1 : World) : Prop :=
  env.files (fullPath env path) = none → w1.cache.lookup path = none →
    w.cache.lookup path = none ∧
      w1.trace.count (.fileExist (fullPath env path))
        = w.trace.count (.fileExist (fullPath env path))

/-- The cache is left as it is, objects keep their place and class, and no file
is checked for existence. -/
def Calm (w w1 : World) : Prop :=
  w1.cache = w.cache ∧ KindsKept w w1 ∧
    ∀ f : ByteStr, w1.trace.count (.fileExist f) = w.trace.count (.fileExist f)

/-- What holds for `path` between two moments of a load: the cache stays valid,
an entry of `path` is kept without a check of its file, and without an entry no
check of a missing file has been made. -/
def Kept (env : Env) (path : ByteStr) (w w1 : World) : Prop :=
  ValidKept w w1 ∧ EntryKept env path w w1 ∧ Unasked env path w w1

/-- What holds for `path` up to the end of the call `ReadMaterial(reader)`: as
`Kept`, but the entry of `reader` itself is not promised to be kept, since the
call ends with `g_loading_cache.Add(reader, material)`. -/
def KeptBut (env : Env) (path reader : ByteStr) (w w1 : World) : Prop :=
  ValidKept w w1 ∧ Unasked env path w w1 ∧ (path ≠ reader → EntryKept env path w w1)

/-- A record of calls fits a run from `w` to `w1`: each call satisfies `P`, `R`
holds from the start to the first call, from the end of each call to the next
call, and `S` holds from the end of the last call to `w1`. -/
def Chain {ε : Type} (P : ε → Prop) (R S : World → World → Prop) (pre post : ε → World) :
    World → List ε → World → Prop
  | w, [], w1 => S w w1
  | w, e :: l, w1 => P e ∧ R w (pre e) ∧ Chain P R S pre post (post e) l w1

/-- Every run of the recording computation `x` has a record that fits it. -/
def Traced {ε α : Type} (P : ε → Prop) (R : World → World → Prop) (pre post : ε → World)
    (x : Logged ε α) : Prop :=
  ∀ w, Chain P R R pre post w (x w).2 (x w).1.world

/-- The record of a `ReadMaterial` call is the record of the run of
`ReadMaterial` for its path from its state. -/
def MaterialCall.Faithful (env : Env) (c : MaterialCall) : Prop :=
  c.textures = (ReadMaterialLog env c.path c.pre).2

/-! ## Example files that share a path between the two readers -/

/-- What a run returned, if it returned. -/
def Res.value {α : Type} : Res α → Option α
  | .ok a _ => some a
  | .error _ _ => none

/-- What is seen of a `ReadMaterial` call: its path, what it returned, and for
each `ReadTexture` call made within it the path and what that call returned. -/
structure CallResult where
  path : ByteStr
  value : Option Ref
  textures : List (ByteStr × Option Ref)
  deriving DecidableEq, Repr

/-- What is seen of the `ReadMaterial` calls of a record, in order. -/
def callResults (env : Env) (calls : List MaterialCall) : List CallResult :=
  calls.map (fun c =>
    { path := c.path, value := (ReadMaterial env c.path c.pre).value,
      textures := c.textures.map (fun t => (t.path, (ReadTexture env t.path t.pre).value)) })

/-- A file that reads both as a material and as a `Texture2D` texture. As a
material: name `P`, shader `shader01`, one property `Texture2D` of type 4
(texture) whose texture path is `p`. As a texture: name `P`, width 8 (the size
of the shader name), the eight bytes of the shader name as height and wrap mode,
filter mode 1 (the property count), type `Texture2D` (the property name),
mip-map count 4 (the property type), and as image path the twelve bytes after
the size 12, which is where the material has its sixteen bytes of uv scale and
offset. -/
def materialAndTextureFile : List Byte :=
  encString (ascii "P") ++ encString (ascii "shader01") ++ encInt32 1 ++
    encString (ascii "Texture2D") ++ encInt32 4 ++ (encInt32 12 ++ zeros 12) ++ encString (ascii "p")

/-- A material sidecar file with one texture property that refers to the given
path. -/
def materialFileNaming (name texture : String) : List Byte :=
  encString (ascii name) ++ encString (ascii "s") ++ encInt32 1 ++
    encString (ascii "tex") ++ encInt32 4 ++ zeros 16 ++ encString (ascii texture)

/-- A scene of one node, a mesh renderer with the given material paths. -/
def sceneOfMaterials (materials : List String) : List Byte :=
  encNodeHeader "root" ++ encInt32 1 ++ encMeshRenderer materials "mesh" ++ encInt32 0

/-- The example environment with more files: `p` is `materialAndTextureFile`
and names itself as its texture; the materials `m3`, `m5` and `m6` name the
texture paths `p`, `m` and `x`; the path `x` has no file; the scenes `self`,
`mix` and `gone` list the materials `p, m3, p`, then `m, t, m5`, then
`x, m6, x`. The shader registry also knows `shader01`. -/
def cacheEnv : Env :=
  { demoEnv with
    files := fun f =>
      if f = ascii "d/p" then some materialAndTextureFile
      else if f = ascii "d/m3" then some (materialFileNaming "M3" "p")
      else if f = ascii "d/m5" then some (materialFileNaming "M5" "m")
      else if f = ascii "d/m6" then some (materialFileNaming "M6" "x")
      else if f = ascii "d/self" then some (sceneOfMaterials ["p", "m3", "p"])
      else if f = ascii "d/mix" then some (sceneOfMaterials ["m", "t", "m5"])
      else if f = ascii "d/gone" then some (sceneOfMaterials ["x", "m6", "x"])
      else demoEnv.files f
    shaderFind := fun n => if n = ascii "shader01" then some 1 else demoEnv.shaderFind n }

/-! ## Basic facts about the monad -/

@[simp] theorem Res.andThen_ok {α β : Type} (a : α) (w : World) (f : α → M β) :
    (Res.ok a w).andThen f = f a w := rfl

@[simp] theorem Res.andThen_error {α β : Type} (e : Err) (w : World) (f : α → M β) :
    (Res.error e w : Res α).andThen f = .error e w := rfl

@[simp] theorem Res.world_ok {α : Type} (a : α) (w : World) : (Res.ok a w).world = w := rfl

@[simp] theorem Res.world_error {α : Type} (e : Err) (w : World) :
    (Res.error e w : Res α).world = w := rfl

@[simp] theorem M.pure_apply {α : Type} (a : α) (w : World) : (pure a : M α) w = .ok a w := rfl

@[simp] theorem M.bind_apply {α β : Type} (x : M α) (f : α → M β) (w : World) :
    (x >>= f) w = (x w).andThen f := id rfl

@[simp] theorem M.fail_apply {α : Type} (e : Err) (w : World) :
    (M.fail e : M α) w = .error e w := rfl

@[simp] theorem liftE_ok {α : Type} (a : α) (w : World) :
    liftE (Except.ok a : Except Err α) w = .ok a w := id rfl

@[simp] theorem liftE_error {α : Type} (e : Err) (w : World) :
    liftE (Except.error e : Except Err α) w = .error e w := id rfl

theorem Res.andThen_eq_ok {α β : Type} {r : Res α} {f : α → M β} {b : β} {w2 : World} :
    r.andThen f = .ok b w2 ↔ ∃ a w1, r = .ok a w1 ∧ f a w1 = .ok b w2 := by
  cases r with
  | ok a w1 =>
    constructor
    · intro h; exact ⟨a, w1, rfl, h⟩
    · rintro ⟨a1, w3, h1, h2⟩
      cases h1; exact h2
  | error e w1 => simp

theorem Res.world_andThen_error {α β : Type} {r : Res α} {f : α → M β} {e : Err} {w1 : World}
    (h : r = .error e w1) : r.andThen f = .error e w1 := by
  subst h; rfl

@[simp] theorem cacheClear_apply (w : World) : cacheClear w = .ok () { w with cache := [] } := id rfl

@[simp] theorem emit_apply (e : Event) (w : World) :
    emit e w = .ok () { w with trace := w.trace ++ [e] } := id rfl

@[simp] theorem assert_true_apply (w : World) : assert true w = .ok () w := id rfl

@[simp] theorem assert_false_apply (w : World) : assert false w = .error .assertFailed w := id rfl

@[simp] theorem cacheContains_apply (p : ByteStr) (w : World) :
    cacheContains p w = .ok (Map.Contains w.cache p) w := id rfl

@[simp] theorem cacheGet_apply (p : ByteStr) (w : World) :
    cacheGet p w = .ok (Map.get w.cache p) w := id rfl

@[simp] theorem cacheAdd_apply (p : ByteStr) (v : Ref) (w : World) :
    cacheAdd p v w = .ok () { w with cache := Map.Add w.cache p v } := id rfl

@[simp] theorem allocObj_apply (o : Obj) (w : World) :
    allocObj o w = .ok (some w.objects.length) { w with objects := w.objects ++ [o] } := id rfl

@[simp] theorem modifyObj_some_apply (i : Nat) (f : Obj → Obj) (w : World) :
    modifyObj (some i) f w = .ok () { w with objects := updateAt w.objects i f } := id rfl

@[simp] theorem modifyObj_none_apply (f : Obj → Obj) (w : World) :
    modifyObj none f w = .error .nullDeref w := id rfl

@[simp] theorem RefMakeNode_apply (kind : NodeKind) (w : World) :
    RefMakeNode kind w = .ok w.nodes.length { w with nodes := w.nodes ++ [NodeRec.fresh kind] } := id rfl

@[simp] theorem modifyNode_apply (node : Nat) (f : NodeRec → NodeRec) (w : World) :
    modifyNode node f w = .ok () { w with nodes := updateAt w.nodes node f } := id rfl

@[simp] theorem SetParent_apply (node parent : Nat) (w : World) :
    Node.SetParent node parent w =
      .ok () { w with nodes := updateAt (updateAt w.nodes node (fun r => { r with parent := some parent })) parent (fun r => { r with children := r.children ++ [node] }) } := id rfl

@[simp] theorem GetRoot_apply (node : Nat) (w : World) :
    Node.GetRoot node w = .ok (Node.rootFrom w.nodes w.nodes.length node) w := id rfl

@[simp] theorem RefCast_none_apply (env : Env) (T : ObjKind) (w : World) :
    RefCast env T none w = .ok none w := id rfl

theorem RefCast_some_apply (env : Env) (T : ObjKind) (i : Nat) (w : World) :
    RefCast env T (some i) w =
      .ok (if (w.objects[i]?).map Obj.kind = some T || env.crossCast then some i else none) w := by
  unfold RefCast
  dsimp only
  split <;> rfl

@[simp] theorem vectorOfSize_apply (n : Int) (w : World) :
    vectorOfSize n w = if n < 0 then .error .badAlloc w else .ok () w := by
  unfold vectorOfSize
  split <;> rfl

attribute [irreducible] M.bind liftE emit assert cacheContains cacheGet cacheAdd cacheClear RefCast
  allocObj modifyObj RefMakeNode modifyNode Node.SetParent Node.GetRoot vectorOfSize

@[simp] theorem File.Exist_apply (env : Env) (p : ByteStr) (w : World) :
    File.Exist env p w = .ok (env.files p).isSome { w with trace := w.trace ++ [.fileExist p] } := by
  simp only [File.Exist, M.bind_apply, emit_apply, Res.andThen_ok, M.pure_apply]

@[simp] theorem File.ReadAllBytes_apply (env : Env) (p : ByteStr) (w : World) :
    File.ReadAllBytes env p w =
      .ok ((env.files p).getD []) { w with trace := w.trace ++ [.fileReadAllBytes p] } := by
  simp only [File.ReadAllBytes, M.bind_apply, emit_apply, Res.andThen_ok, M.pure_apply]


attribute [irreducible] File.Exist File.ReadAllBytes

theorem Load_absent (env : Env) (path : ByteStr) (w : World)
    (h : env.files (fullPath env path) = none) :
    Resources.Load env path w
      = .ok none { w with trace := w.trace ++ [.fileExist (fullPath env path)] } := by
  simp [Resources.Load, h]

theorem Load_present (env : Env) (path : ByteStr) (w : World) (bytes : List Byte)
    (h : env.files (fullPath env path) = some bytes) :
    Resources.Load env path w
      = match ReadNode env (bytes.length + 1) bytes none (w.opened env path) with
        | .ok (node, _) w1 => .ok (some node) { w1 with cache := [] }
        | .error e w1 => .error e w1 := by
  simp only [Resources.Load, M.bind_apply, File.Exist_apply, Res.andThen_ok, h, Option.isSome_some,
    if_true, File.ReadAllBytes_apply, Option.getD_some, World.opened, List.append_assoc,
    List.singleton_append]
  cases hr : ReadNode env (bytes.length + 1) bytes none _ with
  | ok a w1 => obtain ⟨node, ms⟩ := a; simp
  | error e w1 => simp


/-! ## Relations kept by every run -/

theorem keeps_pure {α : Type} {R : World → World → Prop} {E : Err → Prop} (hR : Frame R) (a : α) :
    Keeps R E (pure a : M α) := fun w => ⟨hR.refl w, fun _ _ h => by cases h⟩

theorem keeps_fail {α : Type} {R : World → World → Prop} {E : Err → Prop} (hR : Frame R) (e : Err)
    (he : E e) : Keeps R E (M.fail e : M α) := by
  intro w
  refine ⟨hR.refl w, fun e1 w1 h => ?_⟩
  rw [M.fail_apply] at h
  cases h
  exact he

theorem keeps_liftE {α : Type} {R : World → World → Prop} {E : Err → Prop} (hR : Frame R)
    (x : Except Err α) (hx : ∀ e, x = .error e → E e) : Keeps R E (liftE x) := by
  intro w
  cases x with
  | ok a => rw [liftE_ok]; exact ⟨hR.refl w, fun _ _ h => by cases h⟩
  | error e =>
    rw [liftE_error]
    refine ⟨hR.refl w, fun e1 w1 h => ?_⟩
    cases h
    exact hx e rfl

theorem keeps_liftE_stream {α : Type} {R : World → World → Prop} (hR : Frame R)
    (x : Except Err α) (hx : StreamOnly x) : Keeps R NotAssert (liftE x) := by
  refine keeps_liftE hR x (fun e he => ?_)
  rcases hx e he with h | h <;> subst h <;> simp [NotAssert]

theorem keeps_liftE_any {α : Type} {R : World → World → Prop} (hR : Frame R)
    (x : Except Err α) : Keeps R AnyErr (liftE x) :=
  keeps_liftE hR x (fun _ _ => trivial)

theorem keeps_assert {R : World → World → Prop} (hR : Frame R) (c : Bool) :
    Keeps R AnyErr (assert c) := by
  intro w
  cases c with
  | true => rw [assert_true_apply]; exact ⟨hR.refl w, fun _ _ _ => trivial⟩
  | false => rw [assert_false_apply]; exact ⟨hR.refl w, fun _ _ _ => trivial⟩

theorem keeps_vectorOfSize {R : World → World → Prop} {E : Err → Prop} (hR : Frame R) (n : Int)
    (he : E .badAlloc) : Keeps R E (vectorOfSize n) := by
  intro w
  rw [vectorOfSize_apply]
  split
  · refine ⟨hR.refl w, fun e1 w1 h => ?_⟩
    cases h
    exact he
  · exact ⟨hR.refl w, fun _ _ h => by cases h⟩

theorem keeps_bind {α β : Type} {R : World → World → Prop} {E : Err → Prop} (hR : Frame R)
    {x : M α} {f : α → M β} (hx : Keeps R E x) (hf : ∀ a, Keeps R E (f a)) :
    Keeps R E (x >>= f) := by
  intro w
  obtain ⟨h1, h2⟩ := hx w
  simp only [M.bind_apply]
  cases hxw : x w with
  | ok a w1 =>
    rw [hxw] at h1
    obtain ⟨h3, h4⟩ := hf a w1
    exact ⟨hR.trans _ _ _ h1 h3, h4⟩
  | error e w1 =>
    rw [hxw] at h1
    refine ⟨h1, fun e1 w2 h => ?_⟩
    cases h
    exact h2 e w1 hxw

theorem keeps_mono {α : Type} {R S : World → World → Prop} {E F : Err → Prop}
    (h : ∀ w w1, R w w1 → S w w1) (hE : ∀ e, E e → F e) {x : M α} (hx : Keeps R E x) :
    Keeps S F x :=
  fun w => ⟨h _ _ (hx w).1, fun e w1 he => hE e ((hx w).2 e w1 he)⟩

/-- A computation that never fails and always ends in a related state. -/
theorem keeps_total {α : Type} {R : World → World → Prop} {E : Err → Prop} {x : M α}
    (h : ∀ w, ∃ a w1, x w = .ok a w1 ∧ R w w1) : Keeps R E x := by
  intro w
  obtain ⟨a, w1, h1, h2⟩ := h w
  rw [h1]
  exact ⟨h2, fun _ _ h => by cases h⟩

theorem keeps_world {α : Type} {R : World → World → Prop} {E : Err → Prop} {x : M α}
    (h : Keeps R E x) (w : World) : R w (x w).world := (h w).1

theorem keeps_ok {α : Type} {R : World → World → Prop} {E : Err → Prop} {x : M α}
    (h : Keeps R E x) {w : World} {a : α} {w1 : World} (hx : x w = .ok a w1) : R w w1 := by
  have := (h w).1
  rw [hx] at this
  exact this

theorem keeps_error {α : Type} {R : World → World → Prop} {E : Err → Prop} {x : M α}
    (h : Keeps R E x) {w : World} {e : Err} {w1 : World} (he : x w = .error e w1) : E e :=
  (h w).2 e w1 he

theorem keeps_intro {α : Type} {R : World → World → Prop} {E : Err → Prop} {x : M α}
    (h : ∀ w, R w (x w).world ∧ ∀ e w1, x w = .error e w1 → E e) : Keeps R E x := h

attribute [irreducible] Keeps

theorem notAssert_nullDeref : NotAssert .nullDeref := by simp [NotAssert]

theorem notAssert_badAlloc : NotAssert .badAlloc := by simp [NotAssert]

/-! ## Errors of the stream operations -/

@[simp] theorem streamOnly_Read (n : Nat) (ms : MemoryStream) : StreamOnly (MemoryStream.Read n ms) := by
  intro e h
  unfold MemoryStream.Read at h
  split at h
  · cases h
  · cases h; exact Or.inl rfl

@[simp] theorem streamOnly_ReadInt (ms : MemoryStream) : StreamOnly (MemoryStream.ReadInt ms) := by
  intro e h
  unfold MemoryStream.ReadInt at h
  split at h
  · cases h
  · next e1 he => cases h; exact streamOnly_Read _ _ _ he

@[simp] theorem streamOnly_ReadByte (ms : MemoryStream) : StreamOnly (MemoryStream.ReadByte ms) := by
  intro e h
  unfold MemoryStream.ReadByte at h
  split at h
  · cases h
  · cases h; exact Or.inl rfl

@[simp] theorem streamOnly_ReadStringN (n : Int) (ms : MemoryStream) :
    StreamOnly (MemoryStream.ReadStringN n ms) := by
  intro e h
  unfold MemoryStream.ReadStringN at h
  split at h
  · cases h; exact Or.inr rfl
  · exact streamOnly_Read _ _ _ h

@[simp] theorem streamOnly_ReadString (ms : MemoryStream) : StreamOnly (ReadString ms) := by
  intro e h
  unfold ReadString at h
  split at h
  · exact streamOnly_ReadStringN _ _ _ h
  · next e1 he => cases h; exact streamOnly_ReadInt _ _ he

theorem length_updateAt {α : Type} (l : List α) (i : Nat) (f : α → α) :
    (updateAt l i f).length = l.length := by
  unfold updateAt
  split <;> simp

theorem getElem?_updateAt {α : Type} (l : List α) (i j : Nat) (f : α → α) :
    (updateAt l i f)[j]? = if j = i then (l[j]?).map f else l[j]? := by
  unfold updateAt
  split
  · next a ha =>
    by_cases hji : j = i
    · subst hji
      have hlt : j < l.length := by
        by_contra hge
        rw [List.getElem?_eq_none (by omega)] at ha
        cases ha
      simp [List.getElem?_set, hlt, ha]
    · have : i ≠ j := fun h => hji h.symm
      simp [List.getElem?_set, hji, this]
  · next hnone =>
    by_cases hji : j = i
    · subst hji; simp [hnone]
    · simp [hji]

theorem kindsKept_frame : Frame KindsKept where
  refl := fun w i o h => ⟨o, h, rfl⟩
  trans := fun a b c hab hbc i o h => by
    unfold KindsKept at hab hbc
    obtain ⟨o1, h1, k1⟩ := hab i o h
    obtain ⟨o2, h2, k2⟩ := hbc i o1 h1
    exact ⟨o2, h2, k2.trans k1⟩

theorem kindsKept_of_objects_eq {w w1 : World} (h : w1.objects = w.objects) : KindsKept w w1 := by
  unfold KindsKept
  intro i o hi
  exact ⟨o, by rw [h]; exact hi, rfl⟩


@[simp] theorem streamOnly_ReadBonePaths (n : Nat) (ms : MemoryStream) :
    StreamOnly (ReadBonePaths n ms) := by
  induction n generalizing ms with
  | zero => intro e h; cases h
  | succ n ih =>
    intro e h
    unfold ReadBonePaths at h
    split at h
    · next bone ms1 h1 =>
      split at h
      · cases h
      · next e1 h2 => cases h; exact ih _ _ h2
    · next e1 h1 => cases h; exact streamOnly_ReadString _ _ h1

@[simp] theorem streamOnly_ReadKeys (n : Nat) (ms : MemoryStream) : StreamOnly (ReadKeys n ms) := by
  induction n generalizing ms with
  | zero => intro e h; cases h
  | succ n ih =>
    intro e h
    unfold ReadKeys at h
    repeat (first
      | (split at h <;> [(next e1 h1 => cases h; first | exact streamOnly_Read _ _ _ h1 | exact ih _ _ h1); skip])
      | cases h)

@[simp] theorem streamOnly_ReadCurves (n : Nat) (ms : MemoryStream)
    (curves : List AnimationCurveWrapper) : StreamOnly (ReadCurves n ms curves) := by
  induction n generalizing ms curves with
  | zero => intro e h; cases h
  | succ n ih =>
    intro e h
    unfold ReadCurves at h
    repeat (first
      | exact ih _ _ _ h
      | (split at h <;> [(next e1 h1 => cases h; first
          | exact streamOnly_ReadString _ _ h1
          | exact streamOnly_ReadInt _ _ h1
          | exact streamOnly_ReadKeys _ _ _ h1); skip]))

@[simp] theorem streamOnly_ReadClips (n : Nat) (ms : MemoryStream) : StreamOnly (ReadClips n ms) := by
  induction n generalizing ms with
  | zero => intro e h; cases h
  | succ n ih =>
    intro e h
    unfold ReadClips at h
    repeat (first
      | (split at h <;> [(next e1 h1 => cases h; first
          | exact streamOnly_ReadString _ _ h1
          | exact streamOnly_Read _ _ _ h1
          | exact streamOnly_ReadInt _ _ h1
          | exact streamOnly_ReadCurves _ _ _ _ h1
          | exact ih _ _ h1); skip])
      | cases h)

/-! ## Textures and materials leave the nodes alone and keep the classes of objects -/

theorem quiet_frame : Frame Quiet where
  refl := fun w => ⟨kindsKept_frame.refl w, rfl⟩
  trans := fun a b c hab hbc =>
    ⟨kindsKept_frame.trans a b c hab.1 hbc.1, hbc.2.trans hab.2⟩

theorem quiet_of_eq {w w1 : World} (ho : w1.objects = w.objects) (hn : w1.nodes = w.nodes) :
    Quiet w w1 := by
  refine ⟨?_, hn⟩
  intro i o hi
  exact ⟨o, by rw [ho]; exact hi, rfl⟩

theorem quiet_emit {E : Err → Prop} (e : Event) : Keeps Quiet E (emit e) :=
  keeps_total (fun w => ⟨(), _, emit_apply e w, quiet_of_eq rfl rfl⟩)

theorem quiet_cacheContains {E : Err → Prop} (p : ByteStr) : Keeps Quiet E (cacheContains p) :=
  keeps_total (fun w => ⟨_, _, cacheContains_apply p w, quiet_of_eq rfl rfl⟩)

theorem quiet_cacheGet {E : Err → Prop} (p : ByteStr) : Keeps Quiet E (cacheGet p) :=
  keeps_total (fun w => ⟨_, _, cacheGet_apply p w, quiet_of_eq rfl rfl⟩)

theorem quiet_cacheAdd {E : Err → Prop} (p : ByteStr) (v : Ref) : Keeps Quiet E (cacheAdd p v) :=
  keeps_total (fun w => ⟨_, _, cacheAdd_apply p v w, quiet_of_eq rfl rfl⟩)

theorem quiet_RefCast {E : Err → Prop} (env : Env) (T : ObjKind) (r : Ref) :
    Keeps Quiet E (RefCast env T r) := by
  cases r with
  | none => exact keeps_total (fun w => ⟨_, _, RefCast_none_apply env T w, quiet_frame.refl w⟩)
  | some i => exact keeps_total (fun w => ⟨_, _, RefCast_some_apply env T i w, quiet_frame.refl w⟩)

theorem quiet_allocObj {E : Err → Prop} (o : Obj) : Keeps Quiet E (allocObj o) := by
  refine keeps_total (fun w => ⟨_, _, allocObj_apply o w, ?_, rfl⟩)
  intro i o1 hi
  refine ⟨o1, ?_, rfl⟩
  have hlt : i < w.objects.length := by
    by_contra hge
    rw [List.getElem?_eq_none (by omega)] at hi
    cases hi
  simp [List.getElem?_append_left hlt, hi]

theorem kind_SetName (name : ByteStr) (o : Obj) : (Obj.SetName name o).kind = o.kind := by
  cases o <;> rfl

theorem kind_SetProperty (n : ByteStr) (v : PropertyValue) (o : Obj) :
    (Obj.SetProperty n v o).kind = o.kind := by
  cases o <;> rfl

theorem quiet_modifyObj {E : Err → Prop} (hE : E .nullDeref) (r : Ref) (f : Obj → Obj)
    (hf : ∀ o, (f o).kind = o.kind) : Keeps Quiet E (modifyObj r f) := by
  cases r with
  | none =>
    refine keeps_intro (fun w => ?_)
    rw [modifyObj_none_apply]
    exact ⟨quiet_frame.refl w, fun e w1 h => by cases h; exact hE⟩
  | some j =>
    refine keeps_total (fun w => ⟨_, _, modifyObj_some_apply j f w, ?_, rfl⟩)
    intro i o hi
    simp only [getElem?_updateAt]
    by_cases hij : i = j
    · subst hij
      rw [if_pos rfl, hi]
      exact ⟨f o, rfl, hf o⟩
    · rw [if_neg hij, hi]
      exact ⟨o, rfl, rfl⟩

theorem quiet_fileExist {E : Err → Prop} (env : Env) (p : ByteStr) :
    Keeps Quiet E (File.Exist env p) :=
  keeps_total (fun w => ⟨_, _, File.Exist_apply env p w, quiet_of_eq rfl rfl⟩)

theorem quiet_fileReadAllBytes {E : Err → Prop} (env : Env) (p : ByteStr) :
    Keeps Quiet E (File.ReadAllBytes env p) :=
  keeps_total (fun w => ⟨_, _, File.ReadAllBytes_apply env p w, quiet_of_eq rfl rfl⟩)

theorem quiet_shaderFind {E : Err → Prop} (env : Env) (n : ByteStr) :
    Keeps Quiet E (Shader.Find env n) := by
  unfold Shader.Find
  exact keeps_bind quiet_frame (quiet_emit _) (fun _ => keeps_pure quiet_frame _)

theorem quiet_loadTexture2D {E : Err → Prop} (env : Env) (file : ByteStr) (f wr : Int) (m : Bool) :
    Keeps Quiet E (Texture.LoadTexture2DFromFile env file f wr m) := by
  unfold Texture.LoadTexture2DFromFile
  refine keeps_bind quiet_frame (quiet_emit _) (fun _ => ?_)
  split
  · exact quiet_allocObj _
  · exact keeps_pure quiet_frame _

theorem quiet_loadMesh {E : Err → Prop} (env : Env) (file : ByteStr) :
    Keeps Quiet E (Mesh.LoadFromFile env file) := by
  unfold Mesh.LoadFromFile
  refine keeps_bind quiet_frame (quiet_emit _) (fun _ => ?_)
  split
  · exact quiet_allocObj _
  · exact keeps_pure quiet_frame _

attribute [irreducible] Shader.Find Texture.LoadTexture2DFromFile Mesh.LoadFromFile

theorem quiet_ReadTextureFile (env : Env) (ms : MemoryStream) :
    Keeps Quiet NotAssert (ReadTextureFile env ms) := by
  unfold ReadTextureFile
  repeat (first
    | exact quiet_loadTexture2D _ _ _ _ _
    | (refine keeps_bind quiet_frame ?_ ?_ <;> [skip; intro _])
    | split
    | exact keeps_pure quiet_frame _
    | exact keeps_liftE_stream quiet_frame _ (by simp)
    | exact quiet_modifyObj notAssert_nullDeref _ _ (kind_SetName _))

attribute [irreducible] ReadTextureFile

theorem quiet_ReadTexture (env : Env) (p : ByteStr) : Keeps Quiet NotAssert (ReadTexture env p) := by
  unfold ReadTexture
  repeat (first
    | exact quiet_fileExist _ _
    | exact quiet_fileReadAllBytes _ _
    | exact quiet_ReadTextureFile _ _
    | (refine keeps_bind quiet_frame ?_ ?_ <;> [skip; intro _])
    | split
    | exact keeps_pure quiet_frame _
    | exact quiet_cacheContains _
    | exact quiet_cacheGet _
    | exact quiet_cacheAdd _ _
    | exact quiet_RefCast _ _ _)

attribute [irreducible] ReadTexture

theorem quiet_ReadMaterialProperties (env : Env) (material : Ref) (count : Nat) (ms : MemoryStream) :
    Keeps Quiet NotAssert (ReadMaterialProperties env material count ms) := by
  induction count generalizing ms with
  | zero => unfold ReadMaterialProperties; exact keeps_pure quiet_frame _
  | succ n ih =>
    unfold ReadMaterialProperties
    repeat (first
      | exact ih _
      | exact quiet_ReadTexture _ _
      | (refine keeps_bind quiet_frame ?_ ?_ <;> [skip; intro _])
      | split
      | exact keeps_pure quiet_frame _
      | exact keeps_liftE_stream quiet_frame _ (by simp)
      | exact quiet_modifyObj notAssert_nullDeref _ _ (kind_SetProperty _ _))

attribute [irreducible] ReadMaterialProperties

theorem quiet_ReadMaterialFile (env : Env) (ms : MemoryStream) :
    Keeps Quiet NotAssert (ReadMaterialFile env ms) := by
  unfold ReadMaterialFile
  repeat (first
    | exact quiet_shaderFind _ _
    | exact quiet_ReadMaterialProperties _ _ _ _
    | (refine keeps_bind quiet_frame ?_ ?_ <;> [skip; intro _])
    | split
    | exact keeps_pure quiet_frame _
    | exact keeps_liftE_stream quiet_frame _ (by simp)
    | exact quiet_allocObj _
    | exact quiet_modifyObj notAssert_nullDeref _ _ (kind_SetName _))

attribute [irreducible] ReadMaterialFile

theorem quiet_ReadMaterial (env : Env) (p : ByteStr) : Keeps Quiet NotAssert (ReadMaterial env p) := by
  unfold ReadMaterial
  repeat (first
    | exact quiet_fileExist _ _
    | exact quiet_fileReadAllBytes _ _
    | exact quiet_ReadMaterialFile _ _
    | (refine keeps_bind quiet_frame ?_ ?_ <;> [skip; intro _])
    | split
    | exact keeps_pure quiet_frame _
    | exact quiet_cacheContains _
    | exact quiet_cacheGet _
    | exact quiet_cacheAdd _ _
    | exact quiet_RefCast _ _ _)

attribute [irreducible] ReadMaterial

/-! ## Cache entries are kept -/

theorem lookup_filter_ne (m : List (ByteStr × Ref)) (p q : ByteStr) (h : p ≠ q) :
    (m.filter (fun e => e.1 ≠ q)).lookup p = m.lookup p := by
  induction m with
  | nil => rfl
  | cons e m ih =>
    obtain ⟨k, v⟩ := e
    by_cases hk : k = q
    · subst hk
      have hpk : (p == k) = false := by simpa using h
      simp only [ne_eq, List.filter_cons, not_true_eq_false, decide_False, Bool.false_eq_true,
        if_false, List.lookup_cons, hpk]
      exact ih
    · by_cases hpk : p = k
      · subst hpk
        simp [List.filter_cons, List.lookup_cons, hk]
      · have hpk2 : (p == k) = false := by simpa using hpk
        simp only [ne_eq, List.filter_cons, hk, not_false_eq_true, decide_True, if_true,
          List.lookup_cons, hpk2]
        exact ih

theorem lookup_Add_self (m : List (ByteStr × Ref)) (p : ByteStr) (v : Ref) :
    (Map.Add m p v).lookup p = some v := by
  simp [Map.Add, List.lookup_cons]

theorem lookup_Add_ne (m : List (ByteStr × Ref)) (p q : ByteStr) (v : Ref) (h : p ≠ q) :
    (Map.Add m q v).lookup p = m.lookup p := by
  have hpq : (p == q) = false := by simpa using h
  simp only [Map.Add, List.lookup_cons, hpq]
  exact lookup_filter_ne m p q h

theorem fullPath_injective (env : Env) {p q : ByteStr} (h : fullPath env p = fullPath env q) :
    p = q := by
  unfold fullPath at h
  exact List.append_cancel_left h

theorem entryKept_frame (env : Env) (p : ByteStr) : Frame (EntryKept env p) where
  refl := fun _ _ hv => ⟨hv, rfl⟩
  trans := fun a b c hab hbc v hv => by
    obtain ⟨h1, h2⟩ := hab v hv
    obtain ⟨h3, h4⟩ := hbc v h1
    exact ⟨h3, h4.trans h2⟩

theorem entryKept_of_eq {env : Env} {p : ByteStr} {w w1 : World} (hc : w1.cache = w.cache)
    (ht : w1.trace.count (.fileExist (fullPath env p)) = w.trace.count (.fileExist (fullPath env p))) :
    EntryKept env p w w1 := by
  intro v hv
  exact ⟨by rw [hc]; exact hv, ht⟩

theorem entryKept_emit {E : Err → Prop} (env : Env) (p : ByteStr) (e : Event)
    (he : e ≠ .fileExist (fullPath env p)) : Keeps (EntryKept env p) E (emit e) := by
  refine keeps_total (fun w => ⟨(), _, emit_apply e w, entryKept_of_eq rfl ?_⟩)
  have : ¬ (e == Event.fileExist (fullPath env p)) = true := by simpa using he
  simp [List.count_append, List.count_singleton, this]

theorem entryKept_cacheContains {E : Err → Prop} (env : Env) (p q : ByteStr) :
    Keeps (EntryKept env p) E (cacheContains q) :=
  keeps_total (fun w => ⟨_, _, cacheContains_apply q w, entryKept_of_eq rfl rfl⟩)

theorem entryKept_cacheGet {E : Err → Prop} (env : Env) (p q : ByteStr) :
    Keeps (EntryKept env p) E (cacheGet q) :=
  keeps_total (fun w => ⟨_, _, cacheGet_apply q w, entryKept_of_eq rfl rfl⟩)

theorem entryKept_cacheAdd {E : Err → Prop} (env : Env) (p q : ByteStr) (v : Ref) (h : q ≠ p) :
    Keeps (EntryKept env p) E (cacheAdd q v) := by
  refine keeps_total (fun w => ⟨_, _, cacheAdd_apply q v w, ?_⟩)
  intro v1 hv1
  exact ⟨by simpa [lookup_Add_ne _ p q v (fun h1 => h h1.symm)] using hv1, rfl⟩

theorem entryKept_RefCast {E : Err → Prop} (env : Env) (p : ByteStr) (T : ObjKind) (r : Ref) :
    Keeps (EntryKept env p) E (RefCast env T r) := by
  cases r with
  | none =>
    exact keeps_total (fun w => ⟨_, _, RefCast_none_apply env T w, (entryKept_frame env p).refl w⟩)
  | some i =>
    exact keeps_total (fun w => ⟨_, _, RefCast_some_apply env T i w, (entryKept_frame env p).refl w⟩)

theorem entryKept_allocObj {E : Err → Prop} (env : Env) (p : ByteStr) (o : Obj) :
    Keeps (EntryKept env p) E (allocObj o) :=
  keeps_total (fun w => ⟨_, _, allocObj_apply o w, entryKept_of_eq rfl rfl⟩)

theorem entryKept_modifyObj (env : Env) (p : ByteStr) (r : Ref) (f : Obj → Obj) :
    Keeps (EntryKept env p) AnyErr (modifyObj r f) := by
  cases r with
  | none =>
    refine keeps_intro (fun w => ?_)
    rw [modifyObj_none_apply]
    exact ⟨(entryKept_frame env p).refl w, fun _ _ _ => trivial⟩
  | some j =>
    exact keeps_total (fun w => ⟨_, _, modifyObj_some_apply j f w, entryKept_of_eq rfl rfl⟩)

theorem entryKept_fileExist {E : Err → Prop} (env : Env) (p q : ByteStr) (h : q ≠ p) :
    Keeps (EntryKept env p) E (File.Exist env (fullPath env q)) := by
  refine keeps_total (fun w => ⟨_, _, File.Exist_apply env _ w, entryKept_of_eq rfl ?_⟩)
  have hne : ¬ fullPath env q = fullPath env p := fun h1 => h (fullPath_injective env h1)
  simp [List.count_append, List.count_singleton, hne]

theorem entryKept_fileReadAllBytes {E : Err → Prop} (env : Env) (p f : ByteStr) :
    Keeps (EntryKept env p) E (File.ReadAllBytes env f) := by
  refine keeps_total (fun w => ⟨_, _, File.ReadAllBytes_apply env _ w, entryKept_of_eq rfl ?_⟩)
  simp [List.count_append, List.count_singleton]

theorem entryKept_shaderFind {E : Err → Prop} (env : Env) (p n : ByteStr) :
    Keeps (EntryKept env p) E (Shader.Find env n) := by
  unfold Shader.Find
  exact keeps_bind (entryKept_frame env p) (entryKept_emit env p _ (by simp))
    (fun _ => keeps_pure (entryKept_frame env p) _)

theorem entryKept_loadTexture2D {E : Err → Prop} (env : Env) (p file : ByteStr) (f wr : Int)
    (m : Bool) : Keeps (EntryKept env p) E (Texture.LoadTexture2DFromFile env file f wr m) := by
  unfold Texture.LoadTexture2DFromFile
  refine keeps_bind (entryKept_frame env p) (entryKept_emit env p _ (by simp)) (fun _ => ?_)
  split
  · exact entryKept_allocObj env p _
  · exact keeps_pure (entryKept_frame env p) _

theorem entryKept_ReadTextureFile (env : Env) (p : ByteStr) (ms : MemoryStream) :
    Keeps (EntryKept env p) AnyErr (ReadTextureFile env ms) := by
  unfold ReadTextureFile
  repeat (first
    | exact entryKept_loadTexture2D _ _ _ _ _ _
    | (refine keeps_bind (entryKept_frame env p) ?_ ?_ <;> [skip; intro _])
    | split
    | exact keeps_pure (entryKept_frame env p) _
    | exact keeps_liftE_any (entryKept_frame env p) _
    | exact entryKept_modifyObj _ _ _ _)

theorem entryKept_ReadTexture_ne (env : Env) (p q : ByteStr) (h : q ≠ p) :
    Keeps (EntryKept env p) AnyErr (ReadTexture env q) := by
  unfold ReadTexture
  repeat (first
    | exact entryKept_fileExist _ _ _ h
    | exact entryKept_fileReadAllBytes _ _ _
    | exact entryKept_ReadTextureFile _ _ _
    | (refine keeps_bind (entryKept_frame env p) ?_ ?_ <;> [skip; intro _])
    | split
    | exact keeps_pure (entryKept_frame env p) _
    | exact entryKept_cacheContains _ _ _
    | exact entryKept_cacheGet _ _ _
    | exact entryKept_cacheAdd _ _ _ _ h
    | exact entryKept_RefCast _ _ _ _)

theorem Contains_of_lookup {m : List (ByteStr × Ref)} {p : ByteStr} {v : Ref}
    (h : m.lookup p = some v) : Map.Contains m p = true := by
  simp [Map.Contains, h]

theorem get_of_lookup {m : List (ByteStr × Ref)} {p : ByteStr} {v : Ref}
    (h : m.lookup p = some v) : Map.get m p = v := by
  simp [Map.get, h]

theorem Contains_of_lookup_none {m : List (ByteStr × Ref)} {p : ByteStr}
    (h : m.lookup p = none) : Map.Contains m p = false := by
  simp [Map.Contains, h]

theorem ReadTexture_hit (env : Env) (p : ByteStr) (w : World) (v : Ref)
    (h : w.cache.lookup p = some v) : ReadTexture env p w = RefCast env .Texture v w := by
  simp only [ReadTexture, M.bind_apply, cacheContains_apply, Res.andThen_ok,
    Contains_of_lookup h, if_true, cacheGet_apply, get_of_lookup h]

theorem ReadMaterial_hit (env : Env) (p : ByteStr) (w : World) (v : Ref)
    (h : w.cache.lookup p = some v) : ReadMaterial env p w = RefCast env .Material v w := by
  simp only [ReadMaterial, M.bind_apply, cacheContains_apply, Res.andThen_ok,
    Contains_of_lookup h, if_true, cacheGet_apply, get_of_lookup h]

theorem ReadTexture_miss_absent (env : Env) (p : ByteStr) (w : World)
    (h : w.cache.lookup p = none) (hf : env.files (fullPath env p) = none) :
    ReadTexture env p w = .ok none { w with cache := Map.Add w.cache p none,
                                            trace := w.trace ++ [.fileExist (fullPath env p)] } := by
  simp [ReadTexture, Contains_of_lookup_none h, hf]

theorem ReadMaterial_miss_absent (env : Env) (p : ByteStr) (w : World)
    (h : w.cache.lookup p = none) (hf : env.files (fullPath env p) = none) :
    ReadMaterial env p w = .ok none { w with cache := Map.Add w.cache p none,
                                             trace := w.trace ++ [.fileExist (fullPath env p)] } := by
  simp [ReadMaterial, Contains_of_lookup_none h, hf]

theorem World.opened_eq (env : Env) (p : ByteStr) (w : World) :
    ({ w with trace := w.trace ++ [.fileExist (fullPath env p)] ++ [.fileReadAllBytes (fullPath env p)] } : World)
      = w.opened env p := by
  simp [World.opened]

theorem ReadTexture_miss_present (env : Env) (p : ByteStr) (w : World) (bytes : List Byte)
    (h : w.cache.lookup p = none) (hf : env.files (fullPath env p) = some bytes) :
    ReadTexture env p w =
      (ReadTextureFile env bytes (w.opened env p)).andThen
        (fun r w1 => .ok r.1 { w1 with cache := Map.Add w1.cache p r.1 }) := by
  simp only [ReadTexture, M.bind_apply, cacheContains_apply, Res.andThen_ok,
    Contains_of_lookup_none h, File.Exist_apply, hf, Option.isSome_some, if_true,
    File.ReadAllBytes_apply, Option.getD_some, World.opened_eq, Bool.false_eq_true, if_false]
  cases ReadTextureFile env bytes (w.opened env p) with
  | ok a w1 => simp
  | error e w1 => simp

theorem ReadMaterial_miss_present (env : Env) (p : ByteStr) (w : World) (bytes : List Byte)
    (h : w.cache.lookup p = none) (hf : env.files (fullPath env p) = some bytes) :
    ReadMaterial env p w =
      (ReadMaterialFile env bytes (w.opened env p)).andThen
        (fun r w1 => .ok r.1 { w1 with cache := Map.Add w1.cache p r.1 }) := by
  simp only [ReadMaterial, M.bind_apply, cacheContains_apply, Res.andThen_ok,
    Contains_of_lookup_none h, File.Exist_apply, hf, Option.isSome_some, if_true,
    File.ReadAllBytes_apply, Option.getD_some, World.opened_eq, Bool.false_eq_true, if_false]
  cases ReadMaterialFile env bytes (w.opened env p) with
  | ok a w1 => simp
  | error e w1 => simp

theorem RefCast_world (env : Env) (T : ObjKind) (v : Ref) (w : World) :
    ∃ r, RefCast env T v w = .ok r w := by
  cases v with
  | none => exact ⟨_, RefCast_none_apply env T w⟩
  | some i => exact ⟨_, RefCast_some_apply env T i w⟩

theorem entryKept_ReadTexture (env : Env) (p q : ByteStr) :
    Keeps (EntryKept env p) AnyErr (ReadTexture env q) := by
  by_cases hq : q = p
  · subst hq
    refine keeps_intro (fun w => ⟨?_, fun _ _ _ => trivial⟩)
    intro v hv
    obtain ⟨r, hr⟩ := RefCast_world env .Texture v w
    rw [ReadTexture_hit env q w v hv, hr]
    exact ⟨hv, rfl⟩
  · exact entryKept_ReadTexture_ne env p q hq

theorem entryKept_ReadMaterialProperties (env : Env) (p : ByteStr) (material : Ref) (count : Nat)
    (ms : MemoryStream) :
    Keeps (EntryKept env p) AnyErr (ReadMaterialProperties env material count ms) := by
  induction count generalizing ms with
  | zero => unfold ReadMaterialProperties; exact keeps_pure (entryKept_frame env p) _
  | succ n ih =>
    unfold ReadMaterialProperties
    repeat (first
      | exact ih _
      | exact entryKept_ReadTexture _ _ _
      | (refine keeps_bind (entryKept_frame env p) ?_ ?_ <;> [skip; intro _])
      | split
      | exact keeps_pure (entryKept_frame env p) _
      | exact keeps_liftE_any (entryKept_frame env p) _
      | exact entryKept_modifyObj _ _ _ _)

theorem entryKept_ReadMaterialFile (env : Env) (p : ByteStr) (ms : MemoryStream) :
    Keeps (EntryKept env p) AnyErr (ReadMaterialFile env ms) := by
  unfold ReadMaterialFile
  repeat (first
    | exact entryKept_shaderFind _ _ _
    | exact entryKept_ReadMaterialProperties _ _ _ _ _
    | (refine keeps_bind (entryKept_frame env p) ?_ ?_ <;> [skip; intro _])
    | split
    | exact keeps_pure (entryKept_frame env p) _
    | exact keeps_liftE_any (entryKept_frame env p) _
    | exact entryKept_allocObj _ _ _
    | exact entryKept_modifyObj _ _ _ _)

theorem entryKept_ReadMaterial_ne (env : Env) (p q : ByteStr) (h : q ≠ p) :
    Keeps (EntryKept env p) AnyErr (ReadMaterial env q) := by
  unfold ReadMaterial
  repeat (first
    | exact entryKept_fileExist _ _ _ h
    | exact entryKept_fileReadAllBytes _ _ _
    | exact entryKept_ReadMaterialFile _ _ _
    | (refine keeps_bind (entryKept_frame env p) ?_ ?_ <;> [skip; intro _])
    | split
    | exact keeps_pure (entryKept_frame env p) _
    | exact entryKept_cacheContains _ _ _
    | exact entryKept_cacheGet _ _ _
    | exact entryKept_cacheAdd _ _ _ _ h
    | exact entryKept_RefCast _ _ _ _)

theorem entryKept_ReadMaterial (env : Env) (p q : ByteStr) :
    Keeps (EntryKept env p) AnyErr (ReadMaterial env q) := by
  by_cases hq : q = p
  · subst hq
    refine keeps_intro (fun w => ⟨?_, fun _ _ _ => trivial⟩)
    intro v hv
    obtain ⟨r, hr⟩ := RefCast_world env .Material v w
    rw [ReadMaterial_hit env q w v hv, hr]
    exact ⟨hv, rfl⟩
  · exact entryKept_ReadMaterial_ne env p q hq

/-! ## What a cache miss returns -/

theorem liftE_eq_ok {α : Type} {x : Except Err α} {w w1 : World} {a : α} :
    liftE x w = .ok a w1 ↔ x = .ok a ∧ w = w1 := by
  cases x with
  | ok b =>
    rw [liftE_ok]
    constructor
    · intro h; cases h; exact ⟨rfl, rfl⟩
    · rintro ⟨h1, h2⟩; cases h1; subst h2; rfl
  | error e =>
    rw [liftE_error]
    constructor
    · intro h; cases h
    · rintro ⟨h1, _⟩; cases h1

theorem LoadTexture2DFromFile_apply (env : Env) (file : ByteStr) (f wr : Int) (m : Bool) (w : World) :
    Texture.LoadTexture2DFromFile env file f wr m w =
      if env.textureLoads file f wr m then
        .ok (some w.objects.length)
          { w with objects := w.objects ++ [.texture [] file f wr m],
                   trace := w.trace ++ [.loadTexture2D file f wr m] }
      else .ok none { w with trace := w.trace ++ [.loadTexture2D file f wr m] } := by
  unfold Texture.LoadTexture2DFromFile
  simp only [M.bind_apply, emit_apply, Res.andThen_ok]
  split <;> simp

theorem LoadFromFile_apply (env : Env) (file : ByteStr) (w : World) :
    Mesh.LoadFromFile env file w =
      if env.meshLoads file then
        .ok (some w.objects.length)
          { w with objects := w.objects ++ [.mesh file], trace := w.trace ++ [.loadMesh file] }
      else .ok none { w with trace := w.trace ++ [.loadMesh file] } := by
  unfold Mesh.LoadFromFile
  simp only [M.bind_apply, emit_apply, Res.andThen_ok]
  split <;> simp

theorem Find_apply (env : Env) (n : ByteStr) (w : World) :
    Shader.Find env n w = .ok (env.shaderFind n) { w with trace := w.trace ++ [.shaderFind n] } := by
  unfold Shader.Find
  simp only [M.bind_apply, emit_apply, Res.andThen_ok, M.pure_apply]

theorem ReadTextureFile_kind {env : Env} {ms ms1 : MemoryStream} {w w1 : World} {i : Nat}
    (h : ReadTextureFile env ms w = .ok (some i, ms1) w1) :
    (w1.objects[i]?).map Obj.kind = some .Texture := by
  unfold ReadTextureFile at h
  simp only [M.bind_apply, Res.andThen_eq_ok, liftE_eq_ok] at h
  obtain ⟨a1, _, ⟨-, rfl⟩, a2, _, ⟨-, rfl⟩, a3, _, ⟨-, rfl⟩, a4, _, ⟨-, rfl⟩, a5, _, ⟨-, rfl⟩,
    a6, _, ⟨-, rfl⟩, h⟩ := h
  split at h
  · simp only [M.bind_apply, Res.andThen_eq_ok, liftE_eq_ok] at h
    obtain ⟨b1, _, ⟨-, rfl⟩, b2, _, ⟨-, rfl⟩, t, w2, ht, u, w3, hu, hp⟩ := h
    simp only [M.pure_apply, Res.ok.injEq, Prod.mk.injEq] at hp
    obtain ⟨⟨rfl, -⟩, rfl⟩ := hp
    rw [LoadTexture2DFromFile_apply] at ht
    split at ht
    · simp only [Res.ok.injEq] at ht
      obtain ⟨hi, rfl⟩ := ht
      cases hi
      simp only [modifyObj_some_apply, Res.ok.injEq] at hu
      obtain ⟨-, rfl⟩ := hu
      simp [getElem?_updateAt, Obj.SetName, Obj.kind]
    · simp only [Res.ok.injEq] at ht
      obtain ⟨hi, -⟩ := ht
      cases hi
  · simp only [M.pure_apply, Res.ok.injEq, Prod.mk.injEq] at h
    obtain ⟨⟨hi, -⟩, -⟩ := h
    cases hi

theorem ReadMaterialFile_kind {env : Env} {ms ms1 : MemoryStream} {w w1 : World} {i : Nat}
    (h : ReadMaterialFile env ms w = .ok (some i, ms1) w1) :
    (w1.objects[i]?).map Obj.kind = some .Material := by
  unfold ReadMaterialFile at h
  simp only [M.bind_apply, Res.andThen_eq_ok, liftE_eq_ok, Find_apply, Res.ok.injEq] at h
  obtain ⟨a1, _, ⟨-, rfl⟩, a2, _, ⟨-, rfl⟩, a3, _, ⟨-, rfl⟩, sh, w2, ⟨rfl, rfl⟩, m, w3, hm, ms2, w4,
    hp, hr⟩ := h
  simp only [M.pure_apply, Res.ok.injEq, Prod.mk.injEq] at hr
  obtain ⟨⟨rfl, -⟩, rfl⟩ := hr
  cases hsh : env.shaderFind a2.1 with
  | some sh =>
    rw [hsh] at hm
    simp only [M.bind_apply, allocObj_apply, Res.andThen_ok, modifyObj_some_apply, M.pure_apply,
      Res.ok.injEq] at hm
    obtain ⟨hi, hw3⟩ := hm
    cases hi
    have hq := keeps_ok (quiet_ReadMaterialProperties env _ a3.1.toNat a3.2) hp
    obtain ⟨o1, h1, h2⟩ := hq.1 w.objects.length (Obj.SetName a1.1 (.material [] sh []))
      (by rw [← hw3]; simp [getElem?_updateAt])
    rw [h1, Option.map_some', h2]
    rfl
  | none =>
    rw [hsh] at hm
    simp only [M.pure_apply, Res.ok.injEq] at hm
    obtain ⟨hi, -⟩ := hm
    cases hi

/-! ## Cache entries -/

/-- C6, as the code has it: for a scene file that exists, the cache is empty when
`Load` returns, whatever it held before and whatever sub-resources came out
empty; a `Load` that fails ends in the very state in which `ReadNode` failed,
the cache not being cleared. -/
theorem Load_clears_cache_on_return (env : Env) (path : ByteStr) (w : World) (bytes : List Byte)
    (hf : env.files (fullPath env path) = some bytes) :
    (∀ r w1, Resources.Load env path w = .ok r w1 → w1.cache = []) ∧
    (∀ e w1, Resources.Load env path w = .error e w1 →
      ReadNode env (bytes.length + 1) bytes none (w.opened env path) = .error e w1) := by
  rw [Load_present env path w bytes hf]
  constructor
  · intro r w1 h
    split at h
    · cases h; rfl
    · cases h
  · intro e w1 h
    split at h
    · cases h
    · next e1 w2 h2 => cases h; exact h2

/-- C7: starting from an empty cache, after any finite sequence of `Load` calls
that return, for present and for missing files alike, the cache has no entry. -/
theorem cache_empty_after_loads (w : World) (h : AfterLoads w) : w.cache = [] := by
  induction h with
  | start w h => exact h
  | load env path w r w1 _ hl ih =>
    cases hfile : env.files (fullPath env path) with
    | none =>
      rw [Load_absent env path w hfile] at hl
      cases hl
      exact ih
    | some bytes =>
      rw [Load_present env path w bytes hfile] at hl
      split at hl
      · cases hl; rfl
      · cases hl

theorem Load_clears_cache_on_return_witness :
    demoEnv.files (fullPath demoEnv (ascii "scene")) = some demoScene ∧
    (Resources.Load demoEnv (ascii "scene") World.initial).world.cache = [] :=
  ⟨by decide!,
    (Load_clears_cache_on_return demoEnv (ascii "scene") World.initial demoScene (by decide!)).1
      (some 0) _ (by decide!)⟩

/-- C6 as stated fails: the scene `brokenScene` exists, its only node claims two
components, the load ends with the failed assertion, and the cache still holds
the entry made for the material path `x`. -/
theorem Load_keeps_cache_on_assert :
    demoEnv.files (fullPath demoEnv (ascii "broken")) = some brokenScene ∧
    Resources.Load demoEnv (ascii "broken") World.initial
      = .error .assertFailed (Resources.Load demoEnv (ascii "broken") World.initial).world ∧
    (Resources.Load demoEnv (ascii "broken") World.initial).world.cache = [(ascii "x", none)] := by
  decide!

theorem cache_empty_after_loads_witness :
    (Resources.Load demoEnv (ascii "scene")
      (Resources.Load demoEnv (ascii "nofile") World.initial).world).world.cache = [] :=
  cache_empty_after_loads _
    (AfterLoads.load demoEnv (ascii "scene")
      (Resources.Load demoEnv (ascii "nofile") World.initial).world (some 0) _
      (AfterLoads.load demoEnv (ascii "nofile") World.initial none
        (Resources.Load demoEnv (ascii "nofile") World.initial).world
        (AfterLoads.start _ rfl) (by decide!))
      (by decide!))

/-! ## The component readers write only the payload fields of their node -/

theorem payloadOnly_frame (n : Nat) : Frame (PayloadOnly n) where
  refl := fun _ => ⟨fun _ _ => rfl, rfl⟩
  trans := fun _ _ _ hab hbc =>
    ⟨fun j hj => (hbc.1 j hj).trans (hab.1 j hj), hbc.2.trans hab.2⟩

theorem payloadOnly_of_nodes_eq {n : Nat} {w w1 : World} (h : w1.nodes = w.nodes) :
    PayloadOnly n w w1 := by
  unfold PayloadOnly
  rw [h]
  exact ⟨fun _ _ => rfl, rfl⟩

theorem payloadOnly_of_quiet {α : Type} {E : Err → Prop} (n : Nat) {x : M α}
    (h : Keeps Quiet E x) : Keeps (PayloadOnly n) E x :=
  keeps_mono (fun _ _ hq => payloadOnly_of_nodes_eq hq.2) (fun _ he => he) h

theorem payloadOnly_modifyNode {E : Err → Prop} (n : Nat) (f : NodeRec → NodeRec)
    (hf : ∀ r, (f r).core = r.core) : Keeps (PayloadOnly n) E (modifyNode n f) := by
  refine keeps_total (fun w => ⟨_, _, modifyNode_apply n f w, ?_, ?_⟩)
  · intro j hj
    simp [getElem?_updateAt, hj]
  · simp only [getElem?_updateAt, if_true]
    cases w.nodes[n]? with
    | none => rfl
    | some r => simp [hf r]

theorem payloadOnly_SetMaterial {E : Err → Prop} (n : Nat) (m : Ref) :
    Keeps (PayloadOnly n) E (Renderer.SetMaterial n m) := by
  unfold Renderer.SetMaterial
  exact payloadOnly_modifyNode n _ (fun _ => rfl)

attribute [irreducible] Renderer.SetMaterial

theorem payloadOnly_ReadRendererMaterials (env : Env) (n : Nat) (count : Nat) (ms : MemoryStream) :
    Keeps (PayloadOnly n) NotAssert (ReadRendererMaterials env n count ms) := by
  induction count generalizing ms with
  | zero => unfold ReadRendererMaterials; exact keeps_pure (payloadOnly_frame n) _
  | succ k ih =>
    unfold ReadRendererMaterials
    repeat (first
      | exact ih _
      | exact payloadOnly_of_quiet n (quiet_ReadMaterial _ _)
      | exact payloadOnly_SetMaterial _ _
      | (refine keeps_bind (payloadOnly_frame n) ?_ ?_ <;> [skip; intro _])
      | split
      | exact keeps_pure (payloadOnly_frame n) _
      | exact keeps_liftE_stream (payloadOnly_frame n) _ (by simp))

attribute [irreducible] ReadRendererMaterials

theorem payloadOnly_ReadRenderer (env : Env) (ms : MemoryStream) (n : Nat) :
    Keeps (PayloadOnly n) NotAssert (ReadRenderer env ms n) := by
  unfold ReadRenderer
  repeat (first
    | exact payloadOnly_ReadRendererMaterials _ _ _ _
    | (refine keeps_bind (payloadOnly_frame n) ?_ ?_ <;> [skip; intro _])
    | split
    | exact keeps_pure (payloadOnly_frame n) _
    | exact keeps_liftE_stream (payloadOnly_frame n) _ (by simp))

attribute [irreducible] ReadRenderer

theorem payloadOnly_ReadMeshRenderer (env : Env) (ms : MemoryStream) (n : Nat) :
    Keeps (PayloadOnly n) NotAssert (ReadMeshRenderer env ms n) := by
  unfold ReadMeshRenderer
  repeat (first
    | exact payloadOnly_ReadRenderer _ _ _
    | exact payloadOnly_of_quiet n (quiet_loadMesh _ _)
    | exact payloadOnly_modifyNode n _ (fun _ => rfl)
    | (refine keeps_bind (payloadOnly_frame n) ?_ ?_ <;> [skip; intro _])
    | split
    | exact keeps_pure (payloadOnly_frame n) _
    | exact keeps_liftE_stream (payloadOnly_frame n) _ (by simp))

attribute [irreducible] ReadMeshRenderer

theorem payloadOnly_ReadSkinnedMeshRenderer (env : Env) (ms : MemoryStream) (n : Nat) :
    Keeps (PayloadOnly n) NotAssert (ReadSkinnedMeshRenderer env ms n) := by
  unfold ReadSkinnedMeshRenderer
  repeat (first
    | exact payloadOnly_ReadMeshRenderer _ _ _
    | exact payloadOnly_modifyNode n _ (fun _ => rfl)
    | exact keeps_vectorOfSize (payloadOnly_frame n) _ notAssert_badAlloc
    | (refine keeps_bind (payloadOnly_frame n) ?_ ?_ <;> [skip; intro _])
    | split
    | exact keeps_pure (payloadOnly_frame n) _
    | exact keeps_liftE_stream (payloadOnly_frame n) _ (by simp))

attribute [irreducible] ReadSkinnedMeshRenderer

theorem payloadOnly_ReadAnimation (ms : MemoryStream) (n : Nat) :
    Keeps (PayloadOnly n) NotAssert (ReadAnimation ms n) := by
  unfold ReadAnimation
  repeat (first
    | exact payloadOnly_modifyNode n _ (fun _ => rfl)
    | exact keeps_vectorOfSize (payloadOnly_frame n) _ notAssert_badAlloc
    | (refine keeps_bind (payloadOnly_frame n) ?_ ?_ <;> [skip; intro _])
    | split
    | exact keeps_pure (payloadOnly_frame n) _
    | exact keeps_liftE_stream (payloadOnly_frame n) _ (by simp))

attribute [irreducible] ReadAnimation

/-! ## The material of a renderer -/

theorem SetMaterial_apply (renderer : Nat) (material : Ref) (w : World) :
    Renderer.SetMaterial renderer material w =
      .ok () { w with nodes := updateAt w.nodes renderer (fun r => { r with m_material := material }) } := by
  unfold Renderer.SetMaterial
  rw [modifyNode_apply]

theorem getLast?_cons_getD {α : Type} (a x : α) (l : List α) :
    ((a :: l).getLast?).getD x = (l.getLast?).getD a := by
  cases l with
  | nil => rfl
  | cons b l =>
    rw [List.getLast?_cons_cons]
    cases h : (b :: l).getLast? with
    | none => simp at h
    | some v => rfl

theorem GetMaterial_of_nodes_eq {w w1 : World} (h : w1.nodes = w.nodes) (r : Nat) :
    Renderer.GetMaterial w1 r = Renderer.GetMaterial w r := by
  unfold Renderer.GetMaterial
  rw [h]

theorem ReadRendererMaterials_last (env : Env) (renderer : Nat) (count : Nat) (ms : MemoryStream)
    (w : World) (ms1 : MemoryStream) (w1 : World)
    (h : ReadRendererMaterials env renderer count ms w = .ok ms1 w1)
    (hr : renderer < w.nodes.length) :
    Renderer.GetMaterial w1 renderer
      = ((assignedMaterials env renderer count ms w).getLast?).getD (Renderer.GetMaterial w renderer) := by
  induction count generalizing ms w with
  | zero =>
    unfold ReadRendererMaterials at h
    simp only [M.pure_apply, Res.ok.injEq] at h
    obtain ⟨-, rfl⟩ := h
    rfl
  | succ n ih =>
    unfold ReadRendererMaterials at h
    simp only [M.bind_apply, Res.andThen_eq_ok, liftE_eq_ok] at h
    obtain ⟨a, _, ⟨ha, rfl⟩, u, w2, hbody, hrest⟩ := h
    obtain ⟨material_path, ms2⟩ := a
    unfold assignedMaterials
    simp only [ha]
    by_cases hlen : material_path.length > 0
    · simp only [hlen, if_true, M.bind_apply, Res.andThen_eq_ok] at hbody ⊢
      obtain ⟨m, w3, hm, hset⟩ := hbody
      have hn : w3.nodes = w.nodes := (keeps_ok (quiet_ReadMaterial env material_path) hm).2
      simp only [hm]
      cases m with
      | none =>
        simp only [Option.isSome_none, Bool.false_eq_true, if_false, M.pure_apply,
          Res.ok.injEq, true_and] at hset ⊢
        subst hset
        rw [ih ms2 w3 hrest (by rw [hn]; exact hr), GetMaterial_of_nodes_eq hn]
      | some i =>
        simp only [Option.isSome_some, if_true, SetMaterial_apply, Res.ok.injEq, true_and,
          Res.world_ok] at hset ⊢
        subst hset
        rw [getLast?_cons_getD]
        rw [ih ms2 _ hrest (by simp [length_updateAt, hn]; exact hr)]
        congr 1
        unfold Renderer.GetMaterial
        simp only [getElem?_updateAt, if_true, hn]
        rw [List.getElem?_eq_getElem hr]
        rfl
    · simp only [hlen, if_false, M.pure_apply, Res.ok.injEq, true_and] at hbody ⊢
      subst hbody
      exact ih ms2 w hrest hr

/-- C9, as the code has it: a renderer has one material slot, and every non-empty
material resolved from the payload is assigned to it in stream order, each
replacing the one before. After `ReadRenderer` the renderer holds the last of
the materials resolved from its paths, or the material it had when none was
resolved. -/
theorem ReadRenderer_holds_last_material (env : Env) (ms : MemoryStream) (renderer : Nat)
    (w : World) (ms1 : MemoryStream) (w1 : World)
    (h : ReadRenderer env ms renderer w = .ok ms1 w1) (hr : renderer < w.nodes.length) :
    Renderer.GetMaterial w1 renderer
      = ((resolvedMaterials env renderer ms w).getLast?).getD (Renderer.GetMaterial w renderer) := by
  unfold ReadRenderer at h
  simp only [M.bind_apply, Res.andThen_eq_ok, liftE_eq_ok] at h
  obtain ⟨a1, _, ⟨h1, rfl⟩, a2, _, ⟨h2, rfl⟩, a3, _, ⟨h3, rfl⟩, a4, _, ⟨h4, rfl⟩, a5, _,
    ⟨h5, rfl⟩, h⟩ := h
  unfold resolvedMaterials
  simp only [h1, h2, h3, h4, h5]
  exact ReadRendererMaterials_last env renderer _ _ _ _ _ h hr

theorem ReadRenderer_holds_last_material_witness :
    0 < demoRendererWorld.nodes.length ∧
    Renderer.GetMaterial
        (ReadRenderer demoEnv (encRendererCommon ["m", "m2"]) 0 demoRendererWorld).world 0
      = ((resolvedMaterials demoEnv 0 (encRendererCommon ["m", "m2"]) demoRendererWorld).getLast?).getD
          (Renderer.GetMaterial demoRendererWorld 0) :=
  ⟨by decide!,
    ReadRenderer_holds_last_material demoEnv (encRendererCommon ["m", "m2"]) 0 demoRendererWorld []
      (ReadRenderer demoEnv (encRendererCommon ["m", "m2"]) 0 demoRendererWorld).world
      (by decide!) (by decide!)⟩

/-- C9 as stated fails: the payload names two material paths, `m` and `m2`, which
resolve to two different non-empty materials; after `ReadRenderer` the renderer
holds the second one only, the first has been overwritten. -/
theorem ReadRenderer_overwrites_first_material :
    resolvedMaterials demoEnv 0 (encRendererCommon ["m", "m2"]) demoRendererWorld
      = [some 0, some 2] ∧
    ReadRenderer demoEnv (encRendererCommon ["m", "m2"]) 0 demoRendererWorld
      = .ok [] (ReadRenderer demoEnv (encRendererCommon ["m", "m2"]) 0 demoRendererWorld).world ∧
    Renderer.GetMaterial
      (ReadRenderer demoEnv (encRendererCommon ["m", "m2"]) 0 demoRendererWorld).world 0 = some 2 := by
  decide!

/-! ## One step of the component loop -/

theorem Res.andThen_assoc {α β γ : Type} (r : Res α) (f : α → M β) (g : β → M γ) :
    (r.andThen f).andThen g = r.andThen (fun a w => (f a w).andThen g) := by
  cases r <;> rfl

theorem liftE_apply_eq_error {α : Type} {x : Except Err α} {w w1 : World} {e : Err}
    (h : liftE x w = .error e w1) : x = .error e ∧ w1 = w := by
  cases x with
  | ok a => rw [liftE_ok] at h; cases h
  | error e1 => rw [liftE_error] at h; cases h; exact ⟨rfl, rfl⟩

theorem recognizedTag_iff (tag : ByteStr) :
    recognizedTag tag = true ↔
      tag = ascii "MeshRenderer" ∨ tag = ascii "SkinnedMeshRenderer" ∨ tag = ascii "Animation" := by
  simp [recognizedTag, or_assoc]

/-- An entry with a recognized tag: the assertion, then the component and its
payload, then the rest of the loop with the component as the node. -/
theorem ReadNodeComponents_recognized (env : Env) (parent : Ref) (count : Nat)
    (ms ms1 : MemoryStream) (tag : ByteStr) (node : Ref) (w : World)
    (hs : ReadString ms = .ok (tag, ms1)) (ht : recognizedTag tag = true) :
    ReadNodeComponents env parent (count + 1) ms node w =
      if node.isNone then
        (readRecognized env parent tag ms1 w).andThen
          (fun r => ReadNodeComponents env parent count r.2 (some r.1))
      else .error .assertFailed w := by
  rw [ReadNodeComponents]
  simp only [M.bind_apply, hs, liftE_ok, Res.andThen_ok]
  unfold readRecognized
  rcases (recognizedTag_iff tag).mp ht with h | h | h
  · subst h
    cases node <;>
      simp [M.bind_apply, Res.andThen_assoc]
  · subst h
    have h1 : ¬ ascii "SkinnedMeshRenderer" = ascii "MeshRenderer" := by decide
    cases node with
    | some c => simp [M.bind_apply, h1]
    | none =>
      simp only [h1, if_false, if_true, Option.isNone_none, assert_true_apply, M.bind_apply,
        Res.andThen_ok, RefMakeNode_apply, Res.andThen_assoc, M.pure_apply]
      congr 1
      funext a w1
      rw [M.bind_apply]
  · subst h
    have h1 : ¬ ascii "Animation" = ascii "MeshRenderer" := by decide
    have h2 : ¬ ascii "Animation" = ascii "SkinnedMeshRenderer" := by decide
    cases node <;>
      simp [M.bind_apply, Res.andThen_assoc, h1, h2]

/-- An entry with another tag is skipped: nothing but the tag is read. -/
theorem ReadNodeComponents_unrecognized (env : Env) (parent : Ref) (count : Nat)
    (ms ms1 : MemoryStream) (tag : ByteStr) (node : Ref) (w : World)
    (hs : ReadString ms = .ok (tag, ms1)) (ht : recognizedTag tag = false) :
    ReadNodeComponents env parent (count + 1) ms node w =
      ReadNodeComponents env parent count ms1 node w := by
  rw [ReadNodeComponents]
  simp only [M.bind_apply, hs, liftE_ok, Res.andThen_ok]
  simp only [recognizedTag, Bool.or_eq_false_iff, decide_eq_false_iff_not] at ht
  simp [ht.1.1, ht.1.2, ht.2]

theorem ReadNodeComponents_unreadable (env : Env) (parent : Ref) (count : Nat)
    (ms : MemoryStream) (node : Ref) (w : World) (e : Err)
    (hs : ReadString ms = .error e) :
    ReadNodeComponents env parent (count + 1) ms node w = .error e w := by
  rw [ReadNodeComponents]
  simp only [M.bind_apply, hs, liftE_error, Res.andThen_error]

theorem ReadNodeComponents_zero (env : Env) (parent : Ref) (ms : MemoryStream) (node : Ref)
    (w : World) : ReadNodeComponents env parent 0 ms node w = .ok (node, ms) w := by
  rw [ReadNodeComponents]
  rfl

theorem anyWorld_frame : Frame AnyWorld where
  refl := fun _ => trivial
  trans := fun _ _ _ _ _ => trivial

theorem anyWorld_of {α : Type} {R : World → World → Prop} {E : Err → Prop} {x : M α}
    (h : Keeps R E x) : Keeps AnyWorld E x :=
  keeps_mono (fun _ _ _ => trivial) (fun _ he => he) h

theorem Res.andThen_eq_error {α β : Type} {r : Res α} {f : α → M β} {e : Err} {w2 : World}
    (h : r.andThen f = .error e w2) :
    r = .error e w2 ∨ ∃ a w1, r = .ok a w1 ∧ f a w1 = .error e w2 := by
  cases r with
  | ok a w1 => exact Or.inr ⟨a, w1, rfl, h⟩
  | error e1 w1 =>
    rw [Res.andThen_error] at h
    cases h
    exact Or.inl rfl

theorem ReadNode_succ (env : Env) (fuel : Nat) (ms : MemoryStream) (parent : Ref) (w : World) :
    ReadNode env (fuel + 1) ms parent w =
      (ReadNodeHead env ms parent w).andThen (fun r =>
        liftE (MemoryStream.ReadInt r.2) >>= fun c =>
          ReadNodeChildren (ReadNode env fuel) r.1 c.1.toNat c.2 >>= fun ms1 => pure (r.1, ms1)) := by
  rw [ReadNode, M.bind_apply]

theorem updateAt_append_left {α : Type} (l x : List α) (i : Nat) (f : α → α) (h : i < l.length) :
    updateAt (l ++ x) i f = updateAt l i f ++ x := by
  apply List.ext_getElem?
  intro j
  by_cases hj : j < l.length
  · rw [getElem?_updateAt, List.getElem?_append_left hj,
      List.getElem?_append_left (by rw [length_updateAt]; exact hj), getElem?_updateAt]
  · have hji : j ≠ i := by omega
    rw [getElem?_updateAt, if_neg hji, List.getElem?_append_right (by omega),
      List.getElem?_append_right (by rw [length_updateAt]; omega), length_updateAt]

theorem updateAt_append_length {α : Type} (l : List α) (r : α) (f : α → α) :
    updateAt (l ++ [r]) l.length f = l ++ [f r] := by
  apply List.ext_getElem?
  intro j
  rw [getElem?_updateAt]
  by_cases hj : j = l.length
  · subst hj
    simp
  · rw [if_neg hj]
    by_cases hlt : j < l.length
    · rw [List.getElem?_append_left hlt, List.getElem?_append_left hlt]
    · rw [List.getElem?_eq_none (by simp; omega), List.getElem?_eq_none (by simp; omega)]

theorem updateAt_concat_of_length {α : Type} (l : List α) (r : α) (i : Nat) (f : α → α)
    (h : l.length = i) : updateAt (l ++ [r]) i f = l ++ [f r] := by
  subst h
  exact updateAt_append_length l r f

theorem updateAt_updateAt {α : Type} (l : List α) (i : Nat) (f g : α → α) :
    updateAt (updateAt l i f) i g = updateAt l i (fun r => g (f r)) := by
  apply List.ext_getElem?
  intro j
  simp only [getElem?_updateAt]
  by_cases hj : j = i
  · simp only [hj, if_true, Option.map_map]
    rfl
  · simp [hj]

theorem updateAt_id {α : Type} (l : List α) (i : Nat) (f : α → α) (h : ∀ r, f r = r) :
    updateAt l i f = l := by
  apply List.ext_getElem?
  intro j
  rw [getElem?_updateAt]
  split
  · cases l[j]? with
    | none => rfl
    | some r => simp [h r]
  · rfl

theorem updateAt_congr {α : Type} (l : List α) (i : Nat) (f g : α → α) (h : ∀ r, f r = g r) :
    updateAt l i f = updateAt l i g := by
  have : f = g := funext h
  rw [this]

/-! ## The node that a component entry makes -/

theorem payloadOnly_last {w w1 : World} {N : List NodeRec} {r : NodeRec}
    (h : PayloadOnly N.length w w1) (hw : w.nodes = N ++ [r]) :
    ∃ r1, w1.nodes = N ++ [r1] ∧ r1.core = r.core := by
  obtain ⟨h1, h2⟩ := h
  rw [hw] at h1 h2
  simp only [List.getElem?_concat_length, Option.map_some'] at h2
  cases hr : w1.nodes[N.length]? with
  | none => rw [hr] at h2; cases h2
  | some r1 =>
    rw [hr] at h2
    simp only [Option.map_some', Option.some.injEq] at h2
    refine ⟨r1, ?_, h2⟩
    apply List.ext_getElem?
    intro j
    by_cases hj : j = N.length
    · subst hj
      rw [hr]
      simp
    · rw [h1 j hj]
      by_cases hlt : j < N.length
      · rw [List.getElem?_append_left hlt, List.getElem?_append_left hlt]
      · rw [List.getElem?_eq_none (by simp; omega), List.getElem?_eq_none (by simp; omega)]

theorem core_fresh_fields {r : NodeRec} {k : NodeKind} (h : r.core = (NodeRec.fresh k).core) :
    r.kind = k ∧ r.parent = none ∧ r.children = [] ∧ r.bones_root = none ∧ r.name = [] := by
  have h1 := congrArg NodeRec.kind h
  have h2 := congrArg NodeRec.parent h
  have h3 := congrArg NodeRec.children h
  have h4 := congrArg NodeRec.bones_root h
  have h5 := congrArg NodeRec.name h
  exact ⟨h1, h2, h3, h4, h5⟩

theorem readRecognized_ok {env : Env} {parent : Ref} {tag : ByteStr} {ms ms1 : MemoryStream}
    {w w1 : World} {com : Nat} (h : readRecognized env parent tag ms w = .ok (com, ms1) w1) :
    com = w.nodes.length ∧ ∃ r, w1.nodes = w.nodes ++ [r] ∧ r.parent = none ∧ r.children = [] ∧
      r.kind ≠ .Node ∧
      (r.kind = .SkinnedMeshRenderer → ∃ r0 : NodeRec, r0.parent = none ∧
        r.bones_root = some (bonesRootFor w.nodes parent r0)) := by
  unfold readRecognized at h
  split at h
  · simp only [M.bind_apply, RefMakeNode_apply, Res.andThen_ok, Res.andThen_eq_ok, M.pure_apply,
      Res.ok.injEq, Prod.mk.injEq] at h
    obtain ⟨ms2, w2, hp, ⟨rfl, rfl⟩, rfl⟩ := h
    obtain ⟨r1, hr1, hc⟩ := payloadOnly_last (keeps_ok (payloadOnly_ReadMeshRenderer env ms _) hp) rfl
    obtain ⟨hk, hpar, hch, -, -⟩ := core_fresh_fields hc
    exact ⟨rfl, r1, hr1, hpar, hch, by rw [hk]; decide, fun h => by rw [hk] at h; cases h⟩
  · split at h
    · simp only [M.bind_apply, RefMakeNode_apply, Res.andThen_ok, Res.andThen_eq_ok, M.pure_apply,
        Res.ok.injEq, Prod.mk.injEq] at h
      obtain ⟨ms2, w2, hp, u, w3, hb, ⟨rfl, rfl⟩, rfl⟩ := h
      obtain ⟨r1, hr1, hc⟩ :=
        payloadOnly_last (keeps_ok (payloadOnly_ReadSkinnedMeshRenderer env ms _) hp) rfl
      obtain ⟨hk, hpar, hch, -, -⟩ := core_fresh_fields hc
      refine ⟨rfl, ?_⟩
      cases parent with
      | none =>
        simp only [modifyNode_apply, Res.ok.injEq, true_and] at hb
        subst hb
        simp only [hr1, updateAt_append_length]
        exact ⟨_, rfl, hpar, hch, by simp [hk], fun _ => ⟨r1, hpar, rfl⟩⟩
      | some p =>
        simp only [M.bind_apply, GetRoot_apply, Res.andThen_ok, modifyNode_apply, Res.ok.injEq,
          true_and] at hb
        subst hb
        simp only [hr1, updateAt_append_length, List.length_append, List.length_singleton]
        exact ⟨_, rfl, hpar, hch, by simp [hk], fun _ => ⟨r1, hpar, rfl⟩⟩
    · simp only [M.bind_apply, RefMakeNode_apply, Res.andThen_ok, Res.andThen_eq_ok, M.pure_apply,
        Res.ok.injEq, Prod.mk.injEq] at h
      obtain ⟨ms2, w2, hp, ⟨rfl, rfl⟩, rfl⟩ := h
      obtain ⟨r1, hr1, hc⟩ := payloadOnly_last (keeps_ok (payloadOnly_ReadAnimation ms _) hp) rfl
      obtain ⟨hk, hpar, hch, -, -⟩ := core_fresh_fields hc
      exact ⟨rfl, r1, hr1, hpar, hch, by rw [hk]; decide, fun h => by rw [hk] at h; cases h⟩

/-! ## The record of a node -/

theorem ReadNodeComponents_some_ok {env : Env} {parent : Ref} {count : Nat} {ms ms1 : MemoryStream}
    {c : Nat} {r : Ref} {w w1 : World}
    (h : ReadNodeComponents env parent count ms (some c) w = .ok (r, ms1) w1) :
    r = some c ∧ w1 = w := by
  induction count generalizing ms with
  | zero =>
    rw [ReadNodeComponents_zero] at h
    cases h
    exact ⟨rfl, rfl⟩
  | succ n ih =>
    cases hs : ReadString ms with
    | error e =>
      rw [ReadNodeComponents_unreadable env parent n ms _ w e hs] at h
      cases h
    | ok a =>
      obtain ⟨tag, ms2⟩ := a
      cases ht : recognizedTag tag with
      | false =>
        rw [ReadNodeComponents_unrecognized env parent n ms ms2 tag _ w hs ht] at h
        exact ih h
      | true =>
        rw [ReadNodeComponents_recognized env parent n ms ms2 tag _ w hs ht] at h
        simp at h

theorem ReadNodeComponents_none_ok {env : Env} {parent : Ref} {count : Nat} {ms ms1 : MemoryStream}
    {r : Ref} {w w1 : World}
    (h : ReadNodeComponents env parent count ms none w = .ok (r, ms1) w1) :
    (r = none ∧ w1 = w) ∨
      ∃ tag ms2 ms3 com, readRecognized env parent tag ms2 w = .ok (com, ms3) w1 ∧ r = some com := by
  induction count generalizing ms with
  | zero =>
    rw [ReadNodeComponents_zero] at h
    cases h
    exact Or.inl ⟨rfl, rfl⟩
  | succ n ih =>
    cases hs : ReadString ms with
    | error e =>
      rw [ReadNodeComponents_unreadable env parent n ms _ w e hs] at h
      cases h
    | ok a =>
      obtain ⟨tag, ms2⟩ := a
      cases ht : recognizedTag tag with
      | false =>
        rw [ReadNodeComponents_unrecognized env parent n ms ms2 tag _ w hs ht] at h
        exact ih h
      | true =>
        rw [ReadNodeComponents_recognized env parent n ms ms2 tag _ w hs ht] at h
        simp only [Option.isNone_none, if_true] at h
        obtain ⟨a, w2, h1, h2⟩ := Res.andThen_eq_ok.mp h
        obtain ⟨com, ms3⟩ := a
        obtain ⟨rfl, rfl⟩ := ReadNodeComponents_some_ok h2
        exact Or.inr ⟨tag, ms2, ms3, com, h1, rfl⟩

theorem ReadNodeHead_ok {env : Env} {ms ms1 : MemoryStream} {parent : Ref} {w w1 : World} {c : Nat}
    (h : ReadNodeHead env ms parent w = .ok (c, ms1) w1)
    (hp : ∀ p, parent = some p → p < w.nodes.length) :
    c = w.nodes.length ∧ ∃ r, w1.nodes = linkChild w.nodes parent c ++ [r] ∧ r.parent = parent ∧
      r.children = [] ∧
      (r.kind = .SkinnedMeshRenderer → ∃ r0 : NodeRec, r0.parent = none ∧
        r.bones_root = some (bonesRootFor w.nodes parent r0)) := by
  unfold ReadNodeHead at h
  simp only [M.bind_apply, Res.andThen_eq_ok, liftE_eq_ok] at h
  obtain ⟨a1, _, ⟨-, rfl⟩, a2, _, ⟨-, rfl⟩, a3, _, ⟨-, rfl⟩, a4, _, ⟨-, rfl⟩, a5, _, ⟨-, rfl⟩,
    a6, _, ⟨-, rfl⟩, a7, _, ⟨-, rfl⟩, a8, w2, hcomp, node, w3, hnode, u, w4, hlink,
    u1, w5, h5, u2, w6, h6, u3, w7, h7, u4, w8, h8, h⟩ := h
  simp only [modifyNode_apply, Res.ok.injEq, true_and] at h5 h6 h7 h8
  simp only [M.pure_apply, Res.ok.injEq, Prod.mk.injEq] at h
  obtain ⟨⟨rfl, -⟩, rfl⟩ := h
  subst h8 h7 h6 h5
  -- the state after the node was made
  have hmid : node = w.nodes.length ∧ ∃ r0, w3.nodes = w.nodes ++ [r0] ∧ r0.parent = none ∧
      r0.children = [] ∧
      (r0.kind = .SkinnedMeshRenderer → ∃ r1 : NodeRec, r1.parent = none ∧
        r0.bones_root = some (bonesRootFor w.nodes parent r1)) := by
    obtain ⟨com, ms2⟩ := a8
    rcases ReadNodeComponents_none_ok hcomp with ⟨rfl, rfl⟩ | ⟨tag, ms3, ms4, com1, hr, rfl⟩
    · simp only [RefMakeNode_apply, Res.ok.injEq] at hnode
      obtain ⟨rfl, rfl⟩ := hnode
      exact ⟨rfl, _, rfl, rfl, rfl, fun h => by cases h⟩
    · simp only [M.pure_apply, Res.ok.injEq] at hnode
      obtain ⟨rfl, rfl⟩ := hnode
      obtain ⟨h1, r, h2, h3, h4, -, h5⟩ := readRecognized_ok hr
      exact ⟨h1, r, h2, h3, h4, h5⟩
  obtain ⟨rfl, r0, hn3, hpar, hch, hb⟩ := hmid
  refine ⟨rfl, ?_⟩
  cases parent with
  | none =>
    simp only [M.pure_apply, Res.ok.injEq, true_and] at hlink
    subst hlink
    dsimp only
    simp only [hn3, linkChild, updateAt_append_length]
    exact ⟨_, rfl, hpar, hch, hb⟩
  | some p =>
    have hpl := hp p rfl
    simp only [SetParent_apply, Res.ok.injEq, true_and] at hlink
    subst hlink
    dsimp only
    simp only [hn3, linkChild, updateAt_append_length, updateAt_append_left _ _ _ _ hpl,
      updateAt_concat_of_length, length_updateAt]
    exact ⟨_, rfl, rfl, hch, hb⟩

/-! ## The children of a node -/

theorem ReadNodeChildren_ok {rd : MemoryStream → Ref → M (Nat × MemoryStream)} {node : Nat}
    {count : Nat} {ms ms1 : MemoryStream} {w w1 : World}
    (h : ReadNodeChildren rd node count ms w = .ok ms1 w1) :
    ∃ cs, cs.length = count ∧ ChildCalls rd node cs ms w ms1 w1 := by
  induction count generalizing ms w with
  | zero =>
    rw [ReadNodeChildren] at h
    cases h
    exact ⟨[], rfl, ChildCalls.nil _ _⟩
  | succ n ih =>
    rw [ReadNodeChildren, M.bind_apply] at h
    obtain ⟨a, w2, h1, h2⟩ := Res.andThen_eq_ok.mp h
    obtain ⟨c, ms2⟩ := a
    obtain ⟨cs, hlen, hcs⟩ := ih h2
    exact ⟨c :: cs, by simp [hlen], ChildCalls.cons c cs ms ms2 ms1 w w2 w1 h1 hcs⟩

theorem ChildCalls_nodes {env : Env} {fuel : Nat} (hP : NodeFrame env fuel) {c : Nat}
    {cs : List Nat} {ms ms1 : MemoryStream} {w w1 : World}
    (h : ChildCalls (ReadNode env fuel) c cs ms w ms1 w1) (hc : c < w.nodes.length) :
    ∃ sub, w1.nodes =
      updateAt w.nodes c (fun r => { r with children := r.children ++ cs }) ++ sub := by
  induction h with
  | nil ms w =>
    exact ⟨[], by rw [updateAt_id _ _ _ (fun r => by simp), List.append_nil]⟩
  | cons c1 cs ms ms2 ms3 w w2 w3 h1 _ ih =>
    obtain ⟨-, r, sub1, hn, -⟩ := hP ms (some c) w c1 ms2 w2 h1 (fun p hp => by cases hp; exact hc)
    have hc2 : c < w2.nodes.length := by
      rw [hn]
      simp only [linkChild, List.length_append, length_updateAt]
      omega
    obtain ⟨sub2, hn2⟩ := ih hc2
    refine ⟨r :: sub1 ++ sub2, ?_⟩
    rw [hn2, hn]
    simp only [linkChild]
    rw [updateAt_append_left _ _ _ _ (by rw [length_updateAt]; exact hc), updateAt_updateAt]
    simp only [List.append_assoc, List.singleton_append]

theorem ReadNode_frame (env : Env) (fuel : Nat) : NodeFrame env fuel := by
  induction fuel with
  | zero =>
    intro ms parent w c ms1 w1 h _
    rw [ReadNode] at h
    cases h
  | succ k ih =>
    intro ms parent w c ms1 w1 h hp
    rw [ReadNode_succ] at h
    obtain ⟨a, wh, hh, h2⟩ := Res.andThen_eq_ok.mp h
    obtain ⟨c1, msh⟩ := a
    simp only [M.bind_apply, Res.andThen_eq_ok, liftE_eq_ok, M.pure_apply, Res.ok.injEq,
      Prod.mk.injEq] at h2
    obtain ⟨cnt, _, ⟨-, rfl⟩, ms2, w2, hch, ⟨rfl, rfl⟩, rfl⟩ := h2
    obtain ⟨rfl, r, hn, hpar, -, -⟩ := ReadNodeHead_ok hh hp
    obtain ⟨cs, -, hcs⟩ := ReadNodeChildren_ok hch
    have hc : w.nodes.length < wh.nodes.length := by
      rw [hn]
      cases parent <;> simp [linkChild, length_updateAt]
    obtain ⟨sub, hsub⟩ := ChildCalls_nodes ih hcs hc
    refine ⟨rfl, { r with children := r.children ++ cs }, sub, ?_, hpar⟩
    rw [hsub, hn]
    rw [updateAt_concat_of_length _ _ _ _ (by cases parent <;> simp [linkChild, length_updateAt])]
    simp only [List.append_assoc, List.singleton_append]

/-- C2: when `ReadNode` returns for a node record, the child loop has made as many
recursive calls as the declared child count says (none for a negative count),
and the ordered child list of the returned node is the list of the nodes that
these calls returned, in the order of the calls; the node has the parent link
it was read with, so a node read with no parent has none and is its own root. -/
theorem ReadNode_children_in_call_order (env : Env) (fuel : Nat) (ms : MemoryStream) (parent : Ref)
    (w : World) (node : Nat) (ms1 : MemoryStream) (w1 : World)
    (h : ReadNode env (fuel + 1) ms parent w = .ok (node, ms1) w1)
    (hp : ∀ p, parent = some p → p < w.nodes.length) :
    ∃ msh wh child_count msc cs,
      ReadNodeHead env ms parent w = .ok (node, msh) wh ∧
      MemoryStream.ReadInt msh = .ok (child_count, msc) ∧
      cs.length = child_count.toNat ∧
      ChildCalls (ReadNode env fuel) node cs msc wh ms1 w1 ∧
      ∃ r, w1.nodes[node]? = some r ∧ r.children = cs ∧ r.parent = parent ∧
        (parent = none → ∀ steps, Node.rootFrom w1.nodes steps node = node) := by
  rw [ReadNode_succ] at h
  obtain ⟨a, wh, hh, h2⟩ := Res.andThen_eq_ok.mp h
  obtain ⟨c1, msh⟩ := a
  simp only [M.bind_apply, Res.andThen_eq_ok, liftE_eq_ok, M.pure_apply, Res.ok.injEq,
    Prod.mk.injEq] at h2
  obtain ⟨cnt, _, ⟨hcnt, rfl⟩, ms2, w2, hch, ⟨rfl, rfl⟩, rfl⟩ := h2
  obtain ⟨rfl, r, hn, hpar, hchild, -⟩ := ReadNodeHead_ok hh hp
  obtain ⟨cs, hlen, hcs⟩ := ReadNodeChildren_ok hch
  have hc : w.nodes.length < wh.nodes.length := by
    rw [hn]
    cases parent <;> simp [linkChild, length_updateAt]
  obtain ⟨sub, hsub⟩ := ChildCalls_nodes (ReadNode_frame env fuel) hcs hc
  have hl : (linkChild w.nodes parent w.nodes.length).length = w.nodes.length := by
    cases parent <;> simp [linkChild, length_updateAt]
  have hnode : w2.nodes[w.nodes.length]? = some { r with children := r.children ++ cs } := by
    rw [hsub, hn, updateAt_concat_of_length _ _ _ _ hl, List.append_assoc,
      List.getElem?_append_right (by omega), hl]
    simp
  refine ⟨msh, wh, cnt.1, cnt.2, cs, hh, hcnt, hlen, hcs, _, hnode, by simp [hchild], hpar, ?_⟩
  intro hnone steps
  cases steps with
  | zero => rfl
  | succ k =>
    rw [Node.rootFrom, hnode]
    simp only
    rw [hpar, hnone]

/-! ## What `Load` returns -/

/-- C8: `Load` returns the empty result when the file does not exist, having made
the existence check only, with no byte read and the cache as it was; and when
`Load` returns for a file that exists, it returns a node that is on the node
heap; so a `Load` that returns has returned empty if and only if the file is
absent. -/
theorem Load_empty_iff_absent (env : Env) (path : ByteStr) (w : World) :
    (env.files (fullPath env path) = none →
      Resources.Load env path w
        = .ok none { w with trace := w.trace ++ [.fileExist (fullPath env path)] }) ∧
    (∀ r w1, Resources.Load env path w = .ok r w1 →
      (r = none ↔ env.files (fullPath env path) = none) ∧
      (env.files (fullPath env path) ≠ none → ∃ n, r = some n ∧ n < w1.nodes.length)) := by
  refine ⟨Load_absent env path w, fun r w1 h => ?_⟩
  cases hf : env.files (fullPath env path) with
  | none =>
    rw [Load_absent env path w hf] at h
    cases h
    exact ⟨⟨fun _ => rfl, fun _ => rfl⟩, fun hne => absurd rfl hne⟩
  | some bytes =>
    rw [Load_present env path w bytes hf] at h
    split at h
    · next node ms1 w2 hrn =>
      cases h
      obtain ⟨rfl, r, sub, hn, -⟩ :=
        ReadNode_frame env _ _ _ _ _ _ _ hrn (fun p hp => by cases hp)
      refine ⟨⟨fun h => (by cases h), fun h => (by cases h)⟩, fun _ => ⟨_, rfl, ?_⟩⟩
      show _ < w2.nodes.length
      rw [hn]
      simp [linkChild, World.opened]
    · cases h

theorem Load_empty_iff_absent_witness :
    (demoEnv.files (fullPath demoEnv (ascii "nofile")) = none ∧
      Resources.Load demoEnv (ascii "nofile") World.initial
        = .ok none { World.initial with
            trace := World.initial.trace ++ [.fileExist (fullPath demoEnv (ascii "nofile"))] }) ∧
    ((some 0 : Ref) = none ↔ demoEnv.files (fullPath demoEnv (ascii "scene")) = none) :=
  ⟨⟨by decide!, (Load_empty_iff_absent demoEnv (ascii "nofile") World.initial).1 (by decide!)⟩,
    ((Load_empty_iff_absent demoEnv (ascii "scene") World.initial).2 (some 0)
      (Resources.Load demoEnv (ascii "scene") World.initial).world (by decide!)).1⟩

theorem ReadNode_children_in_call_order_witness :
    ∃ msh wh child_count msc cs,
      ReadNodeHead demoEnv demoScene none (World.initial.opened demoEnv (ascii "scene"))
        = .ok (0, msh) wh ∧
      MemoryStream.ReadInt msh = .ok (child_count, msc) ∧
      cs.length = child_count.toNat ∧
      ChildCalls (ReadNode demoEnv demoScene.length) 0 cs msc wh []
        (ReadNode demoEnv (demoScene.length + 1) demoScene none
          (World.initial.opened demoEnv (ascii "scene"))).world ∧
      ∃ r, (ReadNode demoEnv (demoScene.length + 1) demoScene none
          (World.initial.opened demoEnv (ascii "scene"))).world.nodes[0]? = some r ∧
        r.children = cs ∧ r.parent = none ∧
        ((none : Ref) = none → ∀ steps,
          Node.rootFrom (ReadNode demoEnv (demoScene.length + 1) demoScene none
            (World.initial.opened demoEnv (ascii "scene"))).world.nodes steps 0 = 0) :=
  ReadNode_children_in_call_order demoEnv demoScene.length demoScene none
    (World.initial.opened demoEnv (ascii "scene")) 0 []
    (ReadNode demoEnv (demoScene.length + 1) demoScene none
      (World.initial.opened demoEnv (ascii "scene"))).world
    (by decide!) (fun p hp => by cases hp)

/-! ## Reading what was written -/

theorem leValue_encInt32 (n : Int) : leValue (encInt32 n) = (n % 2 ^ 32).toNat := by
  have h : (n % 2 ^ 32).toNat < 2 ^ 32 := by omega
  simp only [encInt32, leValue, Fin.ofNat, Nat.mod_mod, Nat.mul_zero, Nat.add_zero]
  omega

theorem toInt32_encInt32 (n : Int) (h1 : -(2 ^ 31) ≤ n) (h2 : n < 2 ^ 31) :
    toInt32 (encInt32 n) = n := by
  unfold toInt32
  rw [leValue_encInt32]
  simp only
  split <;> omega

theorem Read_append (bs rest : List Byte) (k : Nat) (h : bs.length = k) :
    MemoryStream.Read k (bs ++ rest) = .ok (bs, rest) := by
  subst h
  simp [MemoryStream.Read]

theorem ReadInt_encInt32 (n : Int) (rest : List Byte) :
    MemoryStream.ReadInt (encInt32 n ++ rest) = .ok (toInt32 (encInt32 n), rest) := by
  unfold MemoryStream.ReadInt
  rw [Read_append (encInt32 n) rest 4 (by simp [encInt32])]

theorem ReadByte_cons (b : Byte) (rest : List Byte) :
    MemoryStream.ReadByte (b :: rest) = .ok (b, rest) := rfl

theorem ReadString_encString (s : ByteStr) (rest : List Byte) (h : s.length < 2 ^ 31) :
    ReadString (encString s ++ rest) = .ok (s, rest) := by
  unfold ReadString encString
  rw [List.append_assoc, ReadInt_encInt32]
  simp only
  rw [toInt32_encInt32 _ (by omega) (by exact_mod_cast h)]
  unfold MemoryStream.ReadStringN
  rw [if_neg (by omega)]
  exact Read_append s rest _ (by simp)

/-- The node record that `ReadNode` makes for a record without components. -/
theorem ReadNodeHead_plain (env : Env) (name : ByteStr) (layer : Int) (active : Byte)
    (pos rot scale : Raw) (tail : List Byte) (parent : Ref) (w : World)
    (hn : name.length < 2 ^ 31) (hpos : pos.length = 12) (hrot : rot.length = 16)
    (hscale : scale.length = 12) (hp : ∀ p, parent = some p → p < w.nodes.length) :
    ReadNodeHead env
        (encString name ++ (encInt32 layer ++ (active :: (pos ++ (rot ++ (scale ++
          (encInt32 0 ++ tail)))))))
        parent w
      = .ok (w.nodes.length, tail)
          { w with nodes := linkChild w.nodes parent w.nodes.length ++
              [{ NodeRec.fresh .Node with
                  name := name, local_position := pos, local_rotation := rot,
                  local_scale := scale, parent := parent }] } := by
  unfold ReadNodeHead
  simp only [M.bind_apply, ReadString_encString _ _ hn, liftE_ok, Res.andThen_ok,
    ReadInt_encInt32, ReadByte_cons, Read_append _ _ 12 hpos, Read_append _ _ 16 hrot,
    Read_append _ _ 12 hscale, toInt32_encInt32 0 (by omega) (by omega), Int.toNat_zero,
    ReadNodeComponents_zero, RefMakeNode_apply, modifyNode_apply, M.pure_apply]
  cases parent with
  | none =>
    simp only [M.bind_apply, M.pure_apply, Res.andThen_ok, modifyNode_apply, linkChild,
      updateAt_append_length]
    rfl
  | some p =>
    have hpl := hp p rfl
    simp only [M.bind_apply, M.pure_apply, SetParent_apply, Res.andThen_ok, modifyNode_apply,
      linkChild, updateAt_append_length, updateAt_append_left _ _ _ _ hpl,
      updateAt_concat_of_length, length_updateAt]

theorem length_layout (c : Nat) (parent : Ref) (t : NodeTree) :
    (layout c parent t).length = t.size := by
  have key : ∀ k : Nat,
      (∀ (t : NodeTree) (c : Nat) (parent : Ref), t.depth ≤ k → (layout c parent t).length = t.size) := by
    intro k
    induction k with
    | zero =>
      intro t c parent h
      cases t
      simp [NodeTree.depth] at h
    | succ k ih =>
      intro t c parent h
      cases t with
      | node name layer active position rotation scale children =>
        simp only [NodeTree.depth] at h
        simp only [layout, NodeTree.size, List.length_cons]
        have hl : ∀ (ts : List NodeTree) (b : Nat) (par : Ref), depthList ts ≤ k →
            (layoutList b par ts).length = sizeList ts := by
          intro ts
          induction ts with
          | nil => intro b par _; simp [layoutList, sizeList]
          | cons t ts iht =>
            intro b par hd
            simp only [depthList] at hd
            simp only [layoutList, sizeList, List.length_append]
            rw [ih t b par (by omega), iht _ par (by omega)]
        rw [hl children _ _ (by omega)]
        omega
  exact key t.depth t c parent (Nat.le_refl _)

theorem length_layoutList (b : Nat) (parent : Ref) (ts : List NodeTree) :
    (layoutList b parent ts).length = sizeList ts := by
  induction ts generalizing b with
  | nil => simp [layoutList, sizeList]
  | cons t ts ih =>
    simp only [layoutList, sizeList, List.length_append, length_layout, ih]

/-- The child loop on the records of encodable trees: every call reads one
subtree, and the subtrees are laid out one after the other. -/
theorem ReadNodeChildren_encode (env : Env) (fuel : Nat)
    (ih : ∀ (t : NodeTree) (rest : List Byte) (parent : Ref) (w : World),
      t.encodable = true → t.depth ≤ fuel → (∀ p, parent = some p → p < w.nodes.length) →
      ReadNode env fuel (encode t ++ rest) parent w
        = .ok (w.nodes.length, rest)
            { w with nodes := linkChild w.nodes parent w.nodes.length ++
                layout w.nodes.length parent t })
    (ts : List NodeTree) (rest : List Byte) (c : Nat) (w : World)
    (he : encodableList ts = true) (hd : depthList ts ≤ fuel) (hc : c < w.nodes.length) :
    ReadNodeChildren (ReadNode env fuel) c ts.length (encodeList ts ++ rest) w
      = .ok rest
          { w with nodes :=
              updateAt w.nodes c (fun r => { r with children := r.children ++ childIds w.nodes.length ts }) ++
              layoutList w.nodes.length (some c) ts } := by
  induction ts generalizing w with
  | nil =>
    rw [List.length_nil, ReadNodeChildren]
    simp only [encodeList, List.nil_append, childIds, List.append_nil, layoutList, M.pure_apply]
    rw [updateAt_id _ _ _ (fun r => rfl)]
  | cons t ts iht =>
    simp only [encodableList, Bool.and_eq_true] at he
    simp only [depthList] at hd
    rw [List.length_cons, ReadNodeChildren, M.bind_apply]
    simp only [encodeList, List.append_assoc]
    rw [ih t _ (some c) w he.1 (by omega) (fun p hp => by cases hp; exact hc)]
    simp only [Res.andThen_ok]
    rw [iht _ he.2 (by omega) (by simp [linkChild, length_updateAt]; omega)]
    simp only [linkChild, List.length_append, length_updateAt, length_layout, childIds, layoutList]
    rw [updateAt_append_left _ _ _ _ (by rw [length_updateAt]; exact hc), updateAt_updateAt]
    simp only [List.append_assoc, List.singleton_append]

/-- Reading the record of an encodable tree, with a depth bound that the tree
does not exceed: the call returns the first new node, consumes the record and
nothing after it, and puts the nodes of the tree on the heap. -/
theorem ReadNode_encode (env : Env) (fuel : Nat) :
    ∀ (t : NodeTree) (rest : List Byte) (parent : Ref) (w : World),
      t.encodable = true → t.depth ≤ fuel → (∀ p, parent = some p → p < w.nodes.length) →
      ReadNode env fuel (encode t ++ rest) parent w
        = .ok (w.nodes.length, rest)
            { w with nodes := linkChild w.nodes parent w.nodes.length ++
                layout w.nodes.length parent t } := by
  induction fuel with
  | zero =>
    intro t rest parent w _ hd _
    cases t
    simp [NodeTree.depth] at hd
  | succ k ih =>
    intro t rest parent w he hd hp
    cases t with
    | node name layer active position rotation scale children =>
      simp only [NodeTree.encodable, Bool.and_eq_true, decide_eq_true_eq] at he
      obtain ⟨⟨⟨⟨⟨hn, hpos⟩, hrot⟩, hscale⟩, hcount⟩, hch⟩ := he
      simp only [NodeTree.depth] at hd
      rw [ReadNode_succ]
      simp only [encode, List.append_assoc, List.singleton_append, List.cons_append, List.nil_append]
      have hh := ReadNodeHead_plain env name layer active position rotation scale
        (encInt32 children.length ++ (encodeList children ++ rest)) parent w hn hpos hrot hscale hp
      rw [hh]
      simp only [Res.andThen_ok, M.bind_apply, ReadInt_encInt32, liftE_ok]
      rw [toInt32_encInt32 _ (by omega) (by exact_mod_cast hcount), Int.toNat_ofNat]
      have hl : (linkChild w.nodes parent w.nodes.length).length = w.nodes.length := by
        cases parent <;> simp [linkChild, length_updateAt]
      rw [ReadNodeChildren_encode env k ih children rest w.nodes.length _ hch (by omega)
        (by simp [hl])]
      simp only [Res.andThen_ok, M.pure_apply, List.length_append, hl, List.length_singleton,
        layout]
      rw [updateAt_concat_of_length _ _ _ _ hl]
      simp only [List.append_assoc, List.singleton_append, NodeRec.fresh, List.nil_append]

/-- The element right after a prefix. -/
theorem getElem?_length_append_cons {α : Type} (pre : List α) (x : α) (post : List α) :
    (pre ++ x :: post)[pre.length]? = some x := by
  rw [List.getElem?_append_right (le_refl _)]
  simp

/-- The laid-out records of trees no deeper than `n` are, wherever they stand on
the heap, the trees. -/
theorem represents_layout_aux (n : Nat) :
    ∀ (t : NodeTree), t.depth ≤ n → ∀ (pre post : List NodeRec) (parent : Ref),
      represents (pre ++ (layout pre.length parent t ++ post)) parent t pre.length = true := by
  induction n with
  | zero =>
    intro t hd
    cases t
    simp [NodeTree.depth] at hd
  | succ k ih =>
    intro t hd pre post parent
    cases t with
    | node name layer active position rotation scale children =>
      simp only [NodeTree.depth] at hd
      have hl : ∀ (ts : List NodeTree), depthList ts ≤ k →
          ∀ (pre2 post2 : List NodeRec) (p : Ref),
            representsList (pre2 ++ (layoutList pre2.length p ts ++ post2)) p ts
              (childIds pre2.length ts) = true := by
        intro ts
        induction ts with
        | nil => intro _ _ _ _; simp [representsList, childIds]
        | cons t ts iht =>
          intro hd2 pre2 post2 p
          simp only [depthList] at hd2
          simp only [representsList, childIds, layoutList, List.append_assoc, Bool.and_eq_true]
          refine ⟨ih t (by omega) pre2 _ p, ?_⟩
          have h2 := iht (by omega) (pre2 ++ layout pre2.length p t) post2 p
          simp only [List.length_append, length_layout, List.append_assoc] at h2
          exact h2
      have h3 := fun r => hl children (by omega) (pre ++ [r]) post (some pre.length)
      simp only [layout, List.cons_append, represents, getElem?_length_append_cons]
      simp only [List.length_append, List.length_singleton, List.append_assoc,
        List.singleton_append] at h3
      simp only [NodeRec.fresh, beq_self_eq_true, Bool.true_and, BEq.refl]
      exact h3 _

/-- The laid-out records of a tree, wherever they stand on the heap, are the
tree. -/
theorem represents_layout (t : NodeTree) (pre post : List NodeRec) (parent : Ref) :
    represents (pre ++ (layout pre.length parent t ++ post)) parent t pre.length = true :=
  represents_layout_aux t.depth t (le_refl _) pre post parent

/-- An encoded integer has four bytes. -/
theorem length_encInt32 (n : Int) : (encInt32 n).length = 4 := by
  simp [encInt32]

/-- A record is longer than its tree is deep, so the depth bound that
`Resources.Load` passes is enough for the record of any tree. -/
theorem depth_le_length_encode_aux (n : Nat) :
    ∀ (t : NodeTree), t.depth ≤ n → t.depth ≤ (encode t).length := by
  induction n with
  | zero =>
    intro t hd
    cases t
    simp [NodeTree.depth] at hd
  | succ k ih =>
    intro t hd
    cases t with
    | node name layer active position rotation scale children =>
      simp only [NodeTree.depth] at hd
      have hl : ∀ (ts : List NodeTree), depthList ts ≤ k →
          depthList ts ≤ (encodeList ts).length := by
        intro ts
        induction ts with
        | nil => intro _; simp [depthList]
        | cons t ts iht =>
          intro hd2
          simp only [depthList] at hd2
          have h1 := ih t (by omega)
          have h2 := iht (by omega)
          simp only [depthList, encodeList, List.length_append]
          omega
      have h3 := hl children (by omega)
      simp only [NodeTree.depth, encode, List.length_append, length_encInt32]
      omega

/-- A record is longer than its tree is deep. -/
theorem depth_le_length_encode (t : NodeTree) : t.depth ≤ (encode t).length :=
  depth_le_length_encode_aux t.depth t (le_refl _)

/-- C3: round trip with exact consumption. For every tree `t` of component-less
nodes whose fields fit the fields of the format, every trailing byte sequence
`rest`, every live parent and every depth bound that the tree does not exceed,
`ReadNode` applied to `encode t ++ rest` returns the first node it makes, leaves
exactly `rest` unread, and the returned node with what hangs under it is `t`: the
same names, transforms, child counts and child order. The cache, the objects and
the trace stay as they were. -/
theorem ReadNode_roundtrip (env : Env) (fuel : Nat) (t : NodeTree) (rest : List Byte)
    (parent : Ref) (w : World) (he : t.encodable = true) (hd : t.depth ≤ fuel)
    (hp : ∀ p, parent = some p → p < w.nodes.length) :
    ∃ w1, ReadNode env fuel (encode t ++ rest) parent w = .ok (w.nodes.length, rest) w1 ∧
      represents w1.nodes parent t w.nodes.length = true ∧
      w1.cache = w.cache ∧ w1.objects = w.objects ∧ w1.trace = w.trace := by
  refine ⟨_, ReadNode_encode env fuel t rest parent w he hd hp, ?_, rfl, rfl, rfl⟩
  have hl : (linkChild w.nodes parent w.nodes.length).length = w.nodes.length := by
    cases parent <;> simp [linkChild, length_updateAt]
  have h := represents_layout t (linkChild w.nodes parent w.nodes.length) [] parent
  rw [hl, List.append_nil] at h
  exact h

/-- The round trip on a tree with two leaves, followed by one more byte. -/
theorem ReadNode_roundtrip_witness :
    demoTree.encodable = true ∧ demoTree.depth ≤ 2 ∧
    ∃ w1, ReadNode demoEnv 2 (encode demoTree ++ [7]) none World.initial
        = .ok (World.initial.nodes.length, [7]) w1 ∧
      represents w1.nodes none demoTree World.initial.nodes.length = true ∧
      w1.cache = World.initial.cache ∧ w1.objects = World.initial.objects ∧
      w1.trace = World.initial.trace :=
  ⟨by decide!, by decide!,
    ReadNode_roundtrip demoEnv 2 demoTree [7] none World.initial (by decide!) (by decide!)
      (by intro p h; cases h)⟩

/-! ## The bones root -/

/-- Following the parent links from a node of a tree ends at the root of the
tree, when the steps allowed are as many as the nodes in between. -/
theorem rootFrom_eq_root (nodes : List NodeRec) (R : Nat)
    (hR : ∃ r, nodes[R]? = some r ∧ r.parent = none) :
    ∀ (steps p : Nat), R ≤ p → p - R ≤ steps →
      (∀ n, R < n → n ≤ p →
        ∃ r q, nodes[n]? = some r ∧ r.parent = some q ∧ R ≤ q ∧ q < n) →
      Node.rootFrom nodes steps p = R := by
  intro steps
  induction steps with
  | zero =>
    intro p h1 h2 _
    rw [Node.rootFrom]
    omega
  | succ k ih =>
    intro p h1 h2 h3
    rw [Node.rootFrom]
    by_cases hp : p = R
    · subst hp
      obtain ⟨r, hr, hpar⟩ := hR
      rw [hr]
      simp only [hpar]
    · obtain ⟨r, q, hr, hpar, hq1, hq2⟩ := h3 p (by omega) (le_refl _)
      rw [hr]
      simp only [hpar]
      exact ih q hq1 (by omega) (fun n hn1 hn2 => h3 n hn1 (by omega))

/-- In a tree under `R`, the root of every node of the tree is `R`. -/
theorem TreeUnder.rootFrom {R : Nat} {nodes : List NodeRec} (h : TreeUnder R nodes)
    (ext : List NodeRec) (steps p : Nat) (h1 : R ≤ p) (h2 : p < nodes.length)
    (h3 : p - R ≤ steps) : Node.rootFrom (nodes ++ ext) steps p = R := by
  obtain ⟨⟨r, hr, hpar⟩, hdown, -⟩ := h
  have hRlt : R < nodes.length := by omega
  refine rootFrom_eq_root _ R ⟨r, ?_, hpar⟩ steps p h1 h3 ?_
  · rw [List.getElem?_append_left hRlt]
    exact hr
  · intro n hn1 hn2
    have hn : n < nodes.length := by omega
    rw [List.getElem?_append_left hn]
    obtain ⟨rn, hrn⟩ : ∃ rn, nodes[n]? = some rn := ⟨nodes[n], List.getElem?_eq_getElem hn⟩
    obtain ⟨q, hq⟩ := hdown n rn hn1 hrn
    exact ⟨rn, q, hrn, hq⟩

/-- A node of the heap after a link was added to a node and a new node was put at
the end: it is the new node, or an old one with its kind, parent link and bones
root as they were. -/
theorem getElem?_link_push {nodes : List NodeRec} (p : Nat) (r : NodeRec) (f : NodeRec → NodeRec)
    (hf : ∀ x, (f x).parent = x.parent ∧ (f x).kind = x.kind ∧ (f x).bones_root = x.bones_root)
    (n : Nat) (x : NodeRec) (h : (updateAt nodes p f ++ [r])[n]? = some x) :
    (∃ x0, nodes[n]? = some x0 ∧ x.parent = x0.parent ∧ x.kind = x0.kind ∧
      x.bones_root = x0.bones_root) ∨ (n = nodes.length ∧ x = r) := by
  by_cases hn : n < nodes.length
  · left
    rw [List.getElem?_append_left (by rw [length_updateAt]; exact hn), getElem?_updateAt] at h
    split at h
    · cases hx : nodes[n]? with
      | none => rw [hx] at h; cases h
      | some x0 =>
        rw [hx] at h
        cases h
        exact ⟨x0, rfl, hf x0⟩
    · exact ⟨x, h, rfl, rfl, rfl⟩
  · right
    rw [List.getElem?_append_right (by rw [length_updateAt]; omega), length_updateAt] at h
    cases hk : n - nodes.length with
    | zero =>
      rw [hk] at h
      cases h
      exact ⟨by omega, rfl⟩
    | succ k =>
      rw [hk] at h
      cases h

/-- A tree under `R` stays one when a node of it gets a new child at the end of
the heap, a skinned mesh renderer only with `R` as its bones root. -/
theorem TreeUnder.push {R : Nat} {nodes : List NodeRec} (h : TreeUnder R nodes) (p : Nat)
    (r : NodeRec) (f : NodeRec → NodeRec)
    (hf : ∀ x, (f x).parent = x.parent ∧ (f x).kind = x.kind ∧ (f x).bones_root = x.bones_root)
    (hp1 : R ≤ p) (hp2 : p < nodes.length) (hpar : r.parent = some p)
    (hb : r.kind = .SkinnedMeshRenderer → r.bones_root = some R) :
    TreeUnder R (updateAt nodes p f ++ [r]) := by
  obtain ⟨⟨r0, hr0, hpar0⟩, hdown, hbones⟩ := h
  refine ⟨?_, ?_, ?_⟩
  · have hlt : R < (updateAt nodes p f ++ [r]).length := by
      rw [List.length_append, length_updateAt]
      omega
    refine ⟨_, List.getElem?_eq_getElem hlt, ?_⟩
    rcases getElem?_link_push p r f hf R _ (List.getElem?_eq_getElem hlt) with
      ⟨x0, hx0, hp0, -, -⟩ | ⟨hn, -⟩
    · rw [hr0] at hx0
      cases hx0
      rw [hp0, hpar0]
    · omega
  · intro n x hn hx
    rcases getElem?_link_push p r f hf n x hx with ⟨x0, hx0, hp0, -, -⟩ | ⟨hnl, hxr⟩
    · rw [hp0]
      exact hdown n x0 hn hx0
    · subst hxr
      exact ⟨p, hpar, hp1, by omega⟩
  · intro n x hn hx hk
    rcases getElem?_link_push p r f hf n x hx with ⟨x0, hx0, -, hk0, hb0⟩ | ⟨-, hxr⟩
    · rw [hb0]
      exact hbones n x0 hn hx0 (by rw [← hk0]; exact hk)
    · subst hxr
      exact hb hk

/-- The child loop keeps the tree under `R` when each of its calls does. -/
theorem ChildCalls_treeUnder {env : Env} {fuel : Nat}
    (hQ : ∀ ms p w c ms1 w1 R, ReadNode env fuel ms (some p) w = .ok (c, ms1) w1 →
      p < w.nodes.length → R ≤ p → TreeUnder R w.nodes → TreeUnder R w1.nodes)
    {c : Nat} {cs : List Nat} {ms ms1 : MemoryStream} {w w1 : World}
    (h : ChildCalls (ReadNode env fuel) c cs ms w ms1 w1) (R : Nat) (hc : c < w.nodes.length)
    (hR : R ≤ c) (ht : TreeUnder R w.nodes) : TreeUnder R w1.nodes := by
  induction h with
  | nil ms w => exact ht
  | cons c1 cs ms ms2 ms3 w w2 w3 h1 _ ih =>
    obtain ⟨-, r, sub1, hn, -⟩ :=
      ReadNode_frame env fuel ms (some c) w c1 ms2 w2 h1 (fun p hp => by cases hp; exact hc)
    have hc2 : c < w2.nodes.length := by
      rw [hn]
      simp only [linkChild, List.length_append, length_updateAt]
      omega
    exact ih hc2 (hQ _ _ _ _ _ _ R h1 hc hR ht)

/-- A call of `ReadNode` under a node of the tree under `R` that returns keeps
the tree: the nodes it makes are linked into the tree, and the skinned mesh
renderers among them get `R` as their bones root. -/
theorem ReadNode_treeUnder (env : Env) (fuel : Nat) :
    ∀ ms p w c ms1 w1 R, ReadNode env fuel ms (some p) w = .ok (c, ms1) w1 →
      p < w.nodes.length → R ≤ p → TreeUnder R w.nodes → TreeUnder R w1.nodes := by
  induction fuel with
  | zero =>
    intro ms p w c ms1 w1 R h
    rw [ReadNode] at h
    cases h
  | succ k ih =>
    intro ms p w c ms1 w1 R h hp hR ht
    rw [ReadNode_succ] at h
    obtain ⟨a, wh, hh, h2⟩ := Res.andThen_eq_ok.mp h
    obtain ⟨c1, msh⟩ := a
    simp only [M.bind_apply, Res.andThen_eq_ok, liftE_eq_ok, M.pure_apply, Res.ok.injEq,
      Prod.mk.injEq] at h2
    obtain ⟨cnt, _, ⟨-, rfl⟩, ms2, w2, hch, ⟨rfl, rfl⟩, rfl⟩ := h2
    obtain ⟨rfl, r, hn, hpar, -, hb⟩ := ReadNodeHead_ok hh (fun q hq => by cases hq; exact hp)
    obtain ⟨cs, -, hcs⟩ := ReadNodeChildren_ok hch
    have hth : TreeUnder R wh.nodes := by
      rw [hn]
      refine ht.push p r _ (fun x => ⟨rfl, rfl, rfl⟩) hR hp hpar (fun hk => ?_)
      obtain ⟨r0, -, hbr⟩ := hb hk
      rw [hbr, bonesRootFor, ht.rootFrom [r0] _ p hR hp (by omega)]
    refine ChildCalls_treeUnder ih hcs R ?_ (by omega) hth
    rw [hn]
    simp [linkChild, length_updateAt]

/-- A call of `ReadNode` with no parent that returns has built one tree under the
node it returns. -/
theorem ReadNode_root_treeUnder {env : Env} {fuel : Nat} {ms ms1 : MemoryStream} {w w1 : World}
    {c : Nat} (h : ReadNode env fuel ms none w = .ok (c, ms1) w1) :
    c = w.nodes.length ∧ TreeUnder c w1.nodes := by
  cases fuel with
  | zero =>
    rw [ReadNode] at h
    cases h
  | succ k =>
    rw [ReadNode_succ] at h
    obtain ⟨a, wh, hh, h2⟩ := Res.andThen_eq_ok.mp h
    obtain ⟨c1, msh⟩ := a
    simp only [M.bind_apply, Res.andThen_eq_ok, liftE_eq_ok, M.pure_apply, Res.ok.injEq,
      Prod.mk.injEq] at h2
    obtain ⟨cnt, _, ⟨-, rfl⟩, ms2, w2, hch, ⟨rfl, rfl⟩, rfl⟩ := h2
    obtain ⟨rfl, r, hn, hpar, -, hb⟩ := ReadNodeHead_ok hh (fun q hq => by cases hq)
    obtain ⟨cs, -, hcs⟩ := ReadNodeChildren_ok hch
    simp only [linkChild] at hn
    have hget : ∀ n x, w.nodes.length ≤ n → (w.nodes ++ [r])[n]? = some x →
        n = w.nodes.length ∧ x = r := by
      intro n x hn1 hx
      rw [List.getElem?_append_right hn1] at hx
      cases hk : n - w.nodes.length with
      | zero =>
        rw [hk] at hx
        cases hx
        exact ⟨by omega, rfl⟩
      | succ k =>
        rw [hk] at hx
        cases hx
    have hth : TreeUnder w.nodes.length wh.nodes := by
      rw [hn]
      refine ⟨⟨r, getElem?_length_append_cons _ _ _, hpar⟩, ?_, ?_⟩
      · intro n x hn1 hx
        have := (hget n x (by omega) hx).1
        omega
      · intro n x hn1 hx hk
        obtain ⟨-, rfl⟩ := hget n x hn1 hx
        obtain ⟨r0, -, hbr⟩ := hb hk
        rw [hbr, bonesRootFor]
    refine ⟨rfl, ChildCalls_treeUnder (ReadNode_treeUnder env k) hcs _ ?_ (le_refl _) hth⟩
    rw [hn]
    simp

/-- C10: when `Load` returns a node for a scene stream, the node is the first one
made and every node made by the load has it as its root; every skinned mesh
renderer among them has a bones root that follows the rule: read with no parent,
it is the returned root itself and is its own bones root; read under a parent,
its bones root is `Node::GetRoot(parent)`, which is the returned root of the tree
that is being loaded. -/
theorem Load_bones_root (env : Env) (path : ByteStr) (w : World) (root : Nat) (w1 : World)
    (h : Resources.Load env path w = .ok (some root) w1) :
    root = w.nodes.length ∧
    ∀ n r, w.nodes.length ≤ n → w1.nodes[n]? = some r →
      Node.GetRoot n w1 = .ok root w1 ∧
      (r.kind = .SkinnedMeshRenderer →
        (r.parent = none → n = root ∧ r.bones_root = some n) ∧
        (∀ p, r.parent = some p →
          n ≠ root ∧ Node.GetRoot p w1 = .ok root w1 ∧ r.bones_root = some root)) := by
  cases hf : env.files (fullPath env path) with
  | none =>
    rw [Load_absent env path w hf] at h
    cases h
  | some bytes =>
    rw [Load_present env path w bytes hf] at h
    split at h
    · next node ms1 w2 hrn =>
      cases h
      obtain ⟨rfl, ht⟩ := ReadNode_root_treeUnder hrn
      have hlen : (w.opened env path).nodes.length = w.nodes.length := rfl
      rw [hlen] at ht
      refine ⟨rfl, fun n r hn hr => ?_⟩
      have hr2 : w2.nodes[n]? = some r := hr
      have hnlt : n < w2.nodes.length := by
        by_contra hge
        rw [List.getElem?_eq_none (by omega)] at hr2
        cases hr2
      have hroot : ∀ p, w.nodes.length ≤ p → p < w2.nodes.length →
          Node.rootFrom w2.nodes w2.nodes.length p = w.nodes.length := by
        intro p hp1 hp2
        have := ht.rootFrom [] w2.nodes.length p hp1 hp2 (by omega)
        rw [List.append_nil] at this
        exact this
      refine ⟨?_, fun hk => ⟨fun hpar => ?_, fun p hpar => ?_⟩⟩
      · rw [GetRoot_apply]
        show Res.ok (Node.rootFrom w2.nodes w2.nodes.length n) _ = _
        rw [hroot n hn hnlt]
        rfl
      · have hn2 : n = w.nodes.length := by
          by_contra hne
          obtain ⟨q, hq, -⟩ := ht.2.1 n r (by omega) hr2
          rw [hpar] at hq
          cases hq
        refine ⟨hn2, ?_⟩
        rw [ht.2.2 n r hn hr2 hk, hn2]
      · obtain ⟨r0, hr0, hpar0⟩ := ht.1
        have hne : n ≠ w.nodes.length := by
          intro heq
          rw [heq, hr0] at hr2
          cases hr2
          rw [hpar0] at hpar
          cases hpar
        obtain ⟨q, hq, hq1, hq2⟩ := ht.2.1 n r (by omega) hr2
        rw [hpar] at hq
        cases hq
        refine ⟨hne, ?_, ht.2.2 n r hn hr2 hk⟩
        rw [GetRoot_apply]
        show Res.ok (Node.rootFrom w2.nodes w2.nodes.length p) _ = _
        rw [hroot p hq1 (by omega)]
        rfl
    · cases h

/-- The load of the example scene: the root is the node 0, the node 1 is a
skinned mesh renderer under it, and its bones root is the node 0. -/
theorem Load_bones_root_witness :
    Resources.Load demoEnv (ascii "scene") World.initial
      = .ok (some 0) (Resources.Load demoEnv (ascii "scene") World.initial).world ∧
    ((Resources.Load demoEnv (ascii "scene") World.initial).world.nodes[1]?).map
      (fun r => (r.kind, r.parent, r.bones_root))
      = some (NodeKind.SkinnedMeshRenderer, some 0, some 0) ∧
    (0 = World.initial.nodes.length ∧
    ∀ n r, World.initial.nodes.length ≤ n →
      (Resources.Load demoEnv (ascii "scene") World.initial).world.nodes[n]? = some r →
      Node.GetRoot n (Resources.Load demoEnv (ascii "scene") World.initial).world
        = .ok 0 (Resources.Load demoEnv (ascii "scene") World.initial).world ∧
      (r.kind = .SkinnedMeshRenderer →
        (r.parent = none → n = 0 ∧ r.bones_root = some n) ∧
        (∀ p, r.parent = some p →
          n ≠ 0 ∧
          Node.GetRoot p (Resources.Load demoEnv (ascii "scene") World.initial).world
            = .ok 0 (Resources.Load demoEnv (ascii "scene") World.initial).world ∧
          r.bones_root = some 0))) :=
  ⟨by decide!, by decide!,
    Load_bones_root demoEnv (ascii "scene") World.initial 0 _ (by decide!)⟩

/-! ## Strings -/

/-- C17: on a stream that holds a 32-bit size `n >= 0` and then at least `n`
bytes, `ReadString` returns exactly the `n` bytes that follow the size, whatever
they are, and leaves the stream right after them: `4 + n` bytes further. -/
theorem ReadString_reads_counted_bytes (size bytes rest : List Byte) (hsize : size.length = 4)
    (hn : toInt32 size = (bytes.length : Int)) :
    ReadString (size ++ bytes ++ rest) = .ok (bytes, rest) ∧
      (size ++ bytes ++ rest).length = 4 + bytes.length + rest.length := by
  constructor
  · unfold ReadString MemoryStream.ReadInt
    rw [List.append_assoc, Read_append size (bytes ++ rest) 4 hsize]
    simp only
    unfold MemoryStream.ReadStringN
    rw [hn, if_neg (by omega)]
    exact Read_append bytes rest _ (by simp)
  · simp only [List.length_append, hsize]

/-- The size 2 followed by the bytes `A`, `b` and two more bytes decodes to `Ab`. -/
theorem ReadString_reads_counted_bytes_witness :
    ReadString ([2, 0, 0, 0] ++ [65, 98] ++ [0, 7]) = .ok (ascii "Ab", [0, 7]) ∧
      ([2, 0, 0, 0] ++ [65, 98] ++ [0, 7] : List Byte).length = 4 + 2 + 2 :=
  ReadString_reads_counted_bytes [2, 0, 0, 0] [65, 98] [0, 7] (by decide) (by decide!)

/-! ## Tags without a case -/

/-- C20: a material property whose type tag has no case in the `switch` raises no
error and sets nothing: the loop goes on in the same state with the stream right
after the four bytes of the tag, where the next property name is read; as the
last property it ends the loop there. -/
theorem unknown_property_type_skipped (env : Env) (material : Ref) (count : Nat)
    (ms ms1 ms2 : MemoryStream) (property_name : ByteStr) (property_type : Int) (w : World)
    (hname : ReadString ms = .ok (property_name, ms1))
    (htype : MemoryStream.ReadInt ms1 = .ok (property_type, ms2))
    (hother : env.propertyType property_type = .Other) :
    ReadMaterialProperties env material (count + 1) ms w
        = ReadMaterialProperties env material count ms2 w ∧
      ReadMaterialProperties env material 1 ms w = .ok ms2 w ∧
      ms2 = ms1.drop 4 := by
  have hstep : ∀ n, ReadMaterialProperties env material (n + 1) ms w
      = ReadMaterialProperties env material n ms2 w := by
    intro n
    rw [ReadMaterialProperties]
    simp only [M.bind_apply, hname, htype, hother, liftE_ok, Res.andThen_ok, M.pure_apply]
  refine ⟨hstep count, ?_, ?_⟩
  · rw [hstep 0, ReadMaterialProperties]
    rfl
  · unfold MemoryStream.ReadInt MemoryStream.Read at htype
    split at htype
    · next bs ms3 h3 =>
      split at h3
      · cases h3
        cases htype
        rfl
      · cases h3
    · cases htype

/-- The type tag 9 has no case: the one property of the stream is passed over,
and the three bytes after the tag are left unread. -/
theorem unknown_property_type_skipped_witness :
    demoEnv.propertyType 9 = .Other ∧
    ReadMaterialProperties demoEnv none 1 (encString (ascii "p") ++ encInt32 9 ++ [1, 2, 3])
      World.initial = .ok [1, 2, 3] World.initial :=
  ⟨by decide!,
    (unknown_property_type_skipped demoEnv none 0 (encString (ascii "p") ++ encInt32 9 ++ [1, 2, 3])
      (encInt32 9 ++ [1, 2, 3]) [1, 2, 3] (ascii "p") 9 World.initial (by decide!) (by decide!)
      (by decide!)).2.1⟩

/-! ## Components without a reader -/

/-- The component loop over entries whose tags are all unrecognized: they are
passed over one by one. -/
theorem ReadNodeComponents_unrecognized_list (env : Env) (parent : Ref) (tags : List ByteStr)
    (rest : List Byte) (node : Ref) (w : World)
    (ht : ∀ tag ∈ tags, recognizedTag tag = false ∧ tag.length < 2 ^ 31) :
    ReadNodeComponents env parent tags.length ((tags.map encString).flatten ++ rest) node w
      = .ok (node, rest) w := by
  induction tags with
  | nil => simp [ReadNodeComponents_zero]
  | cons t ts ih =>
    have h1 := ht t (List.mem_cons_self _ _)
    simp only [List.length_cons, List.map_cons, List.flatten_cons, List.append_assoc]
    rw [ReadNodeComponents_unrecognized env parent ts.length _ _ t node w
      (ReadString_encString t _ h1.2) h1.1]
    exact ih (fun tag hm => ht tag (List.mem_cons_of_mem _ hm))

/-- C19: a component entry whose tag is none of `MeshRenderer`,
`SkinnedMeshRenderer`, `Animation` is passed over without an error and without
reading anything after the tag string, the loop going on in the same state; and
for a node record none of whose entries has a recognized tag, a component count
of zero or less included, `ReadNode` makes a plain node without a component,
with the name, the transform and the parent link of the record. -/
theorem unrecognized_components_ignored (env : Env) (name : ByteStr) (layer comp_count : Int)
    (active : Byte) (pos rot scale : Raw) (tags : List ByteStr) (rest : List Byte) (parent : Ref)
    (w : World) (hn : name.length < 2 ^ 31) (hpos : pos.length = 12) (hrot : rot.length = 16)
    (hscale : scale.length = 12) (hc1 : -(2 ^ 31) ≤ comp_count) (hc2 : comp_count < 2 ^ 31)
    (hcount : comp_count.toNat = tags.length)
    (ht : ∀ tag ∈ tags, recognizedTag tag = false ∧ tag.length < 2 ^ 31)
    (hp : ∀ p, parent = some p → p < w.nodes.length) :
    (∀ (count : Nat) (tag : ByteStr) (tail : List Byte) (node : Ref) (w0 : World),
      recognizedTag tag = false → tag.length < 2 ^ 31 →
      ReadNodeComponents env parent (count + 1) (encString tag ++ tail) node w0
        = ReadNodeComponents env parent count tail node w0) ∧
    ReadNodeHead env
        (encString name ++ (encInt32 layer ++ (active :: (pos ++ (rot ++ (scale ++
          (encInt32 comp_count ++ ((tags.map encString).flatten ++ rest))))))))
        parent w
      = .ok (w.nodes.length, rest)
          { w with nodes := linkChild w.nodes parent w.nodes.length ++
              [{ NodeRec.fresh .Node with
                  name := name, local_position := pos, local_rotation := rot,
                  local_scale := scale, parent := parent }] } := by
  constructor
  · intro count tag tail node w0 h1 h2
    exact ReadNodeComponents_unrecognized env parent count _ _ tag node w0
      (ReadString_encString tag tail h2) h1
  · unfold ReadNodeHead
    simp only [M.bind_apply, ReadString_encString _ _ hn, liftE_ok, Res.andThen_ok,
      ReadInt_encInt32, ReadByte_cons, Read_append _ _ 12 hpos, Read_append _ _ 16 hrot,
      Read_append _ _ 12 hscale, toInt32_encInt32 comp_count hc1 hc2, hcount,
      ReadNodeComponents_unrecognized_list env parent tags rest none _ ht, RefMakeNode_apply,
      modifyNode_apply, M.pure_apply]
    cases parent with
    | none =>
      simp only [M.bind_apply, M.pure_apply, Res.andThen_ok, modifyNode_apply, linkChild,
        updateAt_append_length]
      rfl
    | some p =>
      have hpl := hp p rfl
      simp only [M.bind_apply, M.pure_apply, SetParent_apply, Res.andThen_ok, modifyNode_apply,
        linkChild, updateAt_append_length, updateAt_append_left _ _ _ _ hpl,
        updateAt_concat_of_length, length_updateAt]

/-- A root record with the two unknown components `Light` and `Camera`. -/
theorem unrecognized_components_ignored_witness :
    (∀ tag ∈ [ascii "Light", ascii "Camera"], recognizedTag tag = false ∧ tag.length < 2 ^ 31) ∧
    ReadNodeHead demoEnv
        (encString (ascii "n") ++ (encInt32 0 ++ (1 :: (zeros 12 ++ (zeros 16 ++ (zeros 12 ++
          (encInt32 2 ++ (([ascii "Light", ascii "Camera"].map encString).flatten ++ [7]))))))))
        none World.initial
      = .ok (0, [7])
          { World.initial with nodes :=
              [{ NodeRec.fresh .Node with
                  name := ascii "n", local_position := zeros 12, local_rotation := zeros 16,
                  local_scale := zeros 12, parent := none }] } :=
  ⟨by decide!,
    (unrecognized_components_ignored demoEnv (ascii "n") 0 2 1 (zeros 12) (zeros 16) (zeros 12)
      [ascii "Light", ascii "Camera"] [7] none World.initial (by decide!) (by decide!) (by decide!)
      (by decide!) (by decide) (by decide) (by decide!) (by decide!)
      (fun p h => by cases h)).2⟩

/-! ## Texture sidecar files -/

/-- The sidecar parser on a file whose type tag is not `Texture2D`: the empty
texture, the stream left right after the tag, the state untouched. -/
theorem ReadTextureFile_other_type (env : Env) (bytes ms1 ms2 ms3 ms4 ms5 ms6 : MemoryStream)
    (texture_name texture_type : ByteStr) (width height wrap_mode filter_mode : Int) (w : World)
    (h1 : ReadString bytes = .ok (texture_name, ms1))
    (h2 : MemoryStream.ReadInt ms1 = .ok (width, ms2))
    (h3 : MemoryStream.ReadInt ms2 = .ok (height, ms3))
    (h4 : MemoryStream.ReadInt ms3 = .ok (wrap_mode, ms4))
    (h5 : MemoryStream.ReadInt ms4 = .ok (filter_mode, ms5))
    (h6 : ReadString ms5 = .ok (texture_type, ms6))
    (htype : texture_type ≠ ascii "Texture2D") :
    ReadTextureFile env bytes w = .ok (none, ms6) w := by
  unfold ReadTextureFile
  simp only [M.bind_apply, h1, h2, h3, h4, h5, h6, liftE_ok, Res.andThen_ok, if_neg htype,
    M.pure_apply]

/-- The sidecar parser on a file of type `Texture2D`: the call of the
texture-loading collaborator, then the name set on what it returned. -/
theorem ReadTextureFile_texture2D (env : Env) (bytes ms1 ms2 ms3 ms4 ms5 ms6 ms7 ms8 : MemoryStream)
    (texture_name png_path : ByteStr) (width height wrap_mode filter_mode mipmap_count : Int)
    (w : World)
    (h1 : ReadString bytes = .ok (texture_name, ms1))
    (h2 : MemoryStream.ReadInt ms1 = .ok (width, ms2))
    (h3 : MemoryStream.ReadInt ms2 = .ok (height, ms3))
    (h4 : MemoryStream.ReadInt ms3 = .ok (wrap_mode, ms4))
    (h5 : MemoryStream.ReadInt ms4 = .ok (filter_mode, ms5))
    (h6 : ReadString ms5 = .ok (ascii "Texture2D", ms6))
    (h7 : MemoryStream.ReadInt ms6 = .ok (mipmap_count, ms7))
    (h8 : ReadString ms7 = .ok (png_path, ms8)) :
    ReadTextureFile env bytes w =
      if env.textureLoads (fullPath env png_path) filter_mode wrap_mode (decide (mipmap_count > 1))
      then .ok (some w.objects.length, ms8)
        { w with
          objects := w.objects ++ [.texture texture_name (fullPath env png_path) filter_mode
            wrap_mode (decide (mipmap_count > 1))],
          trace := w.trace ++ [.loadTexture2D (fullPath env png_path) filter_mode wrap_mode
            (decide (mipmap_count > 1))] }
      else .error .nullDeref
        { w with
          trace := w.trace ++ [.loadTexture2D (fullPath env png_path) filter_mode wrap_mode
            (decide (mipmap_count > 1))] } := by
  unfold ReadTextureFile
  simp only [M.bind_apply, h1, h2, h3, h4, h5, h6, h7, h8, liftE_ok, Res.andThen_ok, if_true,
    LoadTexture2DFromFile_apply]
  split
  · simp only [M.bind_apply, Res.andThen_ok, modifyObj_some_apply, M.pure_apply,
      updateAt_append_length, Obj.SetName]
  · simp only [M.bind_apply, Res.andThen_ok, modifyObj_none_apply, Res.andThen_error]

/-- C14: for a texture sidecar file of type `Texture2D` that is read because the
path is not cached, `ReadTexture` reads the mipmap count and the pixel path and
calls the texture-loading collaborator with the data root, `/` and the pixel
path, the filter mode and the wrap mode of the file, and a mipmap flag that is
`mipmap_count > 1`; the call is the only collaborator call. When `ReadTexture`
returns, and it does whenever the collaborator produces an object, it returns
that object, which carries the name read from the file, and caches it. -/
theorem ReadTexture_texture2D (env : Env) (path : ByteStr) (w : World)
    (bytes ms1 ms2 ms3 ms4 ms5 ms6 ms7 ms8 : MemoryStream)
    (texture_name png_path : ByteStr) (width height wrap_mode filter_mode mipmap_count : Int)
    (hmiss : w.cache.lookup path = none) (hfile : env.files (fullPath env path) = some bytes)
    (h1 : ReadString bytes = .ok (texture_name, ms1))
    (h2 : MemoryStream.ReadInt ms1 = .ok (width, ms2))
    (h3 : MemoryStream.ReadInt ms2 = .ok (height, ms3))
    (h4 : MemoryStream.ReadInt ms3 = .ok (wrap_mode, ms4))
    (h5 : MemoryStream.ReadInt ms4 = .ok (filter_mode, ms5))
    (h6 : ReadString ms5 = .ok (ascii "Texture2D", ms6))
    (h7 : MemoryStream.ReadInt ms6 = .ok (mipmap_count, ms7))
    (h8 : ReadString ms7 = .ok (png_path, ms8)) :
    (ReadTexture env path w).world.trace
      = w.trace ++ [.fileExist (fullPath env path), .fileReadAllBytes (fullPath env path),
          .loadTexture2D (fullPath env png_path) filter_mode wrap_mode
            (decide (mipmap_count > 1))] ∧
    (env.textureLoads (fullPath env png_path) filter_mode wrap_mode (decide (mipmap_count > 1))
        = true →
      ReadTexture env path w = .ok (some w.objects.length)
        { cache := Map.Add w.cache path (some w.objects.length),
          objects := w.objects ++ [.texture texture_name (fullPath env png_path) filter_mode
            wrap_mode (decide (mipmap_count > 1))],
          nodes := w.nodes,
          trace := w.trace ++ [.fileExist (fullPath env path),
            .fileReadAllBytes (fullPath env path),
            .loadTexture2D (fullPath env png_path) filter_mode wrap_mode
              (decide (mipmap_count > 1))] }) ∧
    (∀ r w1, ReadTexture env path w = .ok r w1 →
      r = some w.objects.length ∧
      w1.objects = w.objects ++ [.texture texture_name (fullPath env png_path) filter_mode
        wrap_mode (decide (mipmap_count > 1))] ∧
      w1.cache.lookup path = some r) := by
  have hrt := ReadTexture_miss_present env path w bytes hmiss hfile
  rw [ReadTextureFile_texture2D env bytes ms1 ms2 ms3 ms4 ms5 ms6 ms7 ms8 texture_name png_path
    width height wrap_mode filter_mode mipmap_count _ h1 h2 h3 h4 h5 h6 h7 h8] at hrt
  by_cases hl : env.textureLoads (fullPath env png_path) filter_mode wrap_mode
      (decide (mipmap_count > 1)) = true
  · rw [if_pos hl, Res.andThen_ok] at hrt
    simp only [World.opened, List.append_assoc, List.cons_append, List.nil_append] at hrt
    refine ⟨by rw [hrt]; rfl, fun _ => hrt, fun r w1 h => ?_⟩
    rw [hrt] at h
    cases h
    exact ⟨rfl, rfl, lookup_Add_self _ _ _⟩
  · rw [if_neg hl, Res.andThen_error] at hrt
    simp only [World.opened, List.append_assoc, List.cons_append, List.nil_append] at hrt
    refine ⟨by rw [hrt]; rfl, fun h => absurd h hl, fun r w1 h => ?_⟩
    rw [hrt] at h
    cases h

/-- The example texture file, whose mipmap count is 1: the collaborator is called
without mip generation, and the texture it makes is returned with the name `T`. -/
theorem ReadTexture_texture2D_witness :
    ReadTexture demoEnv (ascii "t") World.initial = .ok (some 0)
      { cache := [(ascii "t", some 0)],
        objects := [.texture (ascii "T") (ascii "d/t.png") 0 0 false],
        nodes := [],
        trace := [.fileExist (ascii "d/t"), .fileReadAllBytes (ascii "d/t"),
          .loadTexture2D (ascii "d/t.png") 0 0 false] } :=
  (ReadTexture_texture2D demoEnv (ascii "t") World.initial demoTextureFile
    (demoTextureFile.drop 5) (demoTextureFile.drop 9) (demoTextureFile.drop 13)
    (demoTextureFile.drop 17) (demoTextureFile.drop 21) (demoTextureFile.drop 34)
    (demoTextureFile.drop 38) [] (ascii "T") (ascii "t.png") 1 1 0 0 1
    (by decide!) (by decide!) (by decide!) (by decide!) (by decide!) (by decide!) (by decide!)
    (by decide!) (by decide!) (by decide!)).2.1 (by decide!)

/-- C15: for an existing texture sidecar file whose type tag is not `Texture2D`
and that is read because the path is not cached, `ReadTexture` returns the empty
texture; the parser stops right after the type tag, leaving every later byte
unread; the only calls made are the existence check and the read of the file,
so the texture-loading collaborator is not called; and the path is cached with
the empty entry. -/
theorem ReadTexture_other_type (env : Env) (path : ByteStr) (w : World)
    (bytes ms1 ms2 ms3 ms4 ms5 ms6 : MemoryStream)
    (texture_name texture_type : ByteStr) (width height wrap_mode filter_mode : Int)
    (hmiss : w.cache.lookup path = none) (hfile : env.files (fullPath env path) = some bytes)
    (h1 : ReadString bytes = .ok (texture_name, ms1))
    (h2 : MemoryStream.ReadInt ms1 = .ok (width, ms2))
    (h3 : MemoryStream.ReadInt ms2 = .ok (height, ms3))
    (h4 : MemoryStream.ReadInt ms3 = .ok (wrap_mode, ms4))
    (h5 : MemoryStream.ReadInt ms4 = .ok (filter_mode, ms5))
    (h6 : ReadString ms5 = .ok (texture_type, ms6))
    (htype : texture_type ≠ ascii "Texture2D") :
    ReadTextureFile env bytes (w.opened env path) = .ok (none, ms6) (w.opened env path) ∧
    ReadTexture env path w = .ok none
      { w with
        cache := Map.Add w.cache path none,
        trace := w.trace ++ [.fileExist (fullPath env path),
          .fileReadAllBytes (fullPath env path)] } ∧
    (Map.Add w.cache path none).lookup path = some none := by
  have hf := ReadTextureFile_other_type env bytes ms1 ms2 ms3 ms4 ms5 ms6 texture_name
    texture_type width height wrap_mode filter_mode (w.opened env path) h1 h2 h3 h4 h5 h6 htype
  refine ⟨hf, ?_, lookup_Add_self _ _ _⟩
  rw [ReadTexture_miss_present env path w bytes hmiss hfile, hf, Res.andThen_ok]
  rfl

/-- The example file of type `Cubemap`: the three bytes after the type tag are
left, no texture is loaded, and the path `c` is cached as empty. -/
theorem ReadTexture_other_type_witness :
    ReadTextureFile cubemapEnv cubemapTextureFile (World.initial.opened cubemapEnv (ascii "c"))
      = .ok (none, [9, 9, 9]) (World.initial.opened cubemapEnv (ascii "c")) ∧
    ReadTexture cubemapEnv (ascii "c") World.initial = .ok none
      { World.initial with
        cache := [(ascii "c", none)],
        trace := [.fileExist (ascii "d/c"), .fileReadAllBytes (ascii "d/c")] } :=
  have h := ReadTexture_other_type cubemapEnv (ascii "c") World.initial cubemapTextureFile
    (cubemapTextureFile.drop 5) (cubemapTextureFile.drop 9) (cubemapTextureFile.drop 13)
    (cubemapTextureFile.drop 17) (cubemapTextureFile.drop 21) [9, 9, 9]
    (ascii "C") (ascii "Cubemap") 4 4 0 1
    (by decide!) (by decide!) (by decide!) (by decide!) (by decide!) (by decide!) (by decide!)
    (by decide!) (by decide!)
  ⟨h.1, h.2.1⟩

/-! ## Streams as sequences of encoded fields -/

/-- Every four bytes are the encoding of the integer they decode to. -/
theorem encInt32_toInt32 (bs : List Byte) (h : bs.length = 4) : encInt32 (toInt32 bs) = bs := by
  match bs, h with
  | [a, b, c, d], _ =>
    have ha := a.isLt
    have hb := b.isLt
    have hc := c.isLt
    have hd := d.isLt
    have hu : leValue [a, b, c, d] = a.val + 256 * (b.val + 256 * (c.val + 256 * d.val)) := by
      simp [leValue]
    have hv : ((toInt32 [a, b, c, d]) % 2 ^ 32).toNat
        = a.val + 256 * (b.val + 256 * (c.val + 256 * d.val)) := by
      unfold toInt32
      rw [hu]
      simp only
      split <;> omega
    unfold encInt32
    simp only [hv, List.cons.injEq, and_true]
    refine ⟨?_, ?_, ?_, ?_⟩ <;> apply Fin.ext <;> simp only [Fin.ofNat, Fin.val_mk] <;> omega

/-- A read of an integer that returns has taken the four bytes that encode it. -/
theorem ReadInt_eq_ok {ms ms1 : MemoryStream} {n : Int}
    (h : MemoryStream.ReadInt ms = .ok (n, ms1)) :
    ms = encInt32 n ++ ms1 ∧ -(2 ^ 31) ≤ n ∧ n < 2 ^ 31 := by
  unfold MemoryStream.ReadInt MemoryStream.Read at h
  by_cases h4 : 4 ≤ ms.length
  · rw [if_pos h4] at h
    simp only [Except.ok.injEq, Prod.mk.injEq] at h
    obtain ⟨rfl, rfl⟩ := h
    refine ⟨?_, ?_, ?_⟩
    · rw [encInt32_toInt32 _ (by simp; omega), List.take_append_drop]
    · unfold toInt32
      simp only
      split <;> omega
    · unfold toInt32
      simp only
      split <;> omega
  · rw [if_neg h4] at h
    cases h

/-- A read of a string that returns has taken the size and the bytes of the
string, and nothing else. -/
theorem ReadString_eq_ok {ms ms1 : MemoryStream} {s : ByteStr}
    (h : ReadString ms = .ok (s, ms1)) : ms = encString s ++ ms1 ∧ s.length < 2 ^ 31 := by
  unfold ReadString at h
  cases hi : MemoryStream.ReadInt ms with
  | error e => rw [hi] at h; cases h
  | ok a =>
    obtain ⟨size, ms2⟩ := a
    rw [hi] at h
    simp only at h
    obtain ⟨hms, h1, h2⟩ := ReadInt_eq_ok hi
    unfold MemoryStream.ReadStringN MemoryStream.Read at h
    by_cases hneg : size < 0
    · rw [if_pos hneg] at h
      cases h
    · rw [if_neg hneg] at h
      by_cases hlen : size.toNat ≤ ms2.length
      · rw [if_pos hlen] at h
        simp only [Except.ok.injEq, Prod.mk.injEq] at h
        obtain ⟨rfl, rfl⟩ := h
        have hl : (List.take size.toNat ms2).length = size.toNat := by
          rw [List.length_take]
          omega
        refine ⟨?_, by rw [hl]; omega⟩
        unfold encString
        rw [hl, Int.toNat_of_nonneg (by omega), List.append_assoc, List.take_append_drop]
        exact hms
      · rw [if_neg hlen] at h
        cases h

/-- The bone loop that returns has taken as many encoded strings as it was asked
for, and these are the bone paths, in the order of the stream. -/
theorem ReadBonePaths_eq_ok {count : Nat} {ms ms1 : MemoryStream} {bones : List ByteStr}
    (h : ReadBonePaths count ms = .ok (bones, ms1)) :
    bones.length = count ∧ ms = (bones.map encString).flatten ++ ms1 ∧
      ∀ b ∈ bones, b.length < 2 ^ 31 := by
  induction count generalizing ms bones with
  | zero =>
    rw [ReadBonePaths] at h
    cases h
    simp
  | succ n ih =>
    rw [ReadBonePaths] at h
    cases hs : ReadString ms with
    | error e => rw [hs] at h; cases h
    | ok a =>
      obtain ⟨bone, ms2⟩ := a
      rw [hs] at h
      simp only at h
      cases hr : ReadBonePaths n ms2 with
      | error e => rw [hr] at h; cases h
      | ok b =>
        obtain ⟨bs, ms3⟩ := b
        rw [hr] at h
        cases h
        obtain ⟨h1, h2, h3⟩ := ih hr
        obtain ⟨h4, h5⟩ := ReadString_eq_ok hs
        refine ⟨by simp [h1], ?_, ?_⟩
        · rw [h4, h2]
          simp
        · intro b hb
          rcases List.mem_cons.mp hb with rfl | hb
          · exact h5
          · exact h3 b hb

/-- The bone loop on a stream of encoded strings returns the strings. -/
theorem ReadBonePaths_encoded (bones : List ByteStr) (rest : List Byte)
    (hb : ∀ b ∈ bones, b.length < 2 ^ 31) :
    ReadBonePaths bones.length ((bones.map encString).flatten ++ rest) = .ok (bones, rest) := by
  induction bones with
  | nil => rfl
  | cons b bs ih =>
    simp only [List.length_cons, List.map_cons, List.flatten_cons, List.append_assoc]
    rw [ReadBonePaths, ReadString_encString b _ (hb b (List.mem_cons_self _ _))]
    simp only
    rw [ih (fun x hx => hb x (List.mem_cons_of_mem _ hx))]

/-- C16: for a skinned mesh renderer payload whose mesh renderer part has been
read and whose bone count is `n >= 0`: when `ReadSkinnedMeshRenderer` returns,
the stream after the bone count began with `n` length-prefixed strings, the bone
path list of the renderer is the list of these `n` strings in the order of the
stream, and nothing else has changed since the mesh renderer part was read, so
no node was looked up; and on every stream that holds `n` strings after the bone
count the reader does return, leaving the stream right after them. -/
theorem ReadSkinnedMeshRenderer_bone_paths (env : Env) (ms msb msc : MemoryStream)
    (renderer : Nat) (w wb : World) (n : Int)
    (hm : ReadMeshRenderer env ms renderer w = .ok msb wb)
    (hcount : MemoryStream.ReadInt msb = .ok (n, msc)) (hn : 0 ≤ n) :
    (∀ ms1 w1, ReadSkinnedMeshRenderer env ms renderer w = .ok ms1 w1 →
      ∃ bones : List ByteStr, bones.length = n.toNat ∧
        msc = (bones.map encString).flatten ++ ms1 ∧
        w1 = { wb with nodes := updateAt wb.nodes renderer (fun r => { r with bone_paths := bones }) } ∧
        ∀ r, wb.nodes[renderer]? = some r →
          w1.nodes[renderer]? = some { r with bone_paths := bones }) ∧
    (∀ (bones : List ByteStr) (rest : List Byte), bones.length = n.toNat →
      (∀ b ∈ bones, b.length < 2 ^ 31) → msc = (bones.map encString).flatten ++ rest →
      ReadSkinnedMeshRenderer env ms renderer w = .ok rest
        { wb with nodes := updateAt wb.nodes renderer (fun r => { r with bone_paths := bones }) }) := by
  have hrun : ReadSkinnedMeshRenderer env ms renderer w =
      (liftE (ReadBonePaths n.toNat msc) wb).andThen (fun r w2 =>
        .ok r.2 { w2 with nodes := updateAt w2.nodes renderer (fun x => { x with bone_paths := r.1 }) }) := by
    unfold ReadSkinnedMeshRenderer
    simp only [M.bind_apply, hm, hcount, liftE_ok, Res.andThen_ok, vectorOfSize_apply,
      if_neg (not_lt.mpr hn)]
    cases ReadBonePaths n.toNat msc with
    | ok a => simp only [M.bind_apply, liftE_ok, Res.andThen_ok, modifyNode_apply, M.pure_apply]
    | error e => simp only [liftE_error, Res.andThen_error]
  constructor
  · intro ms1 w1 h
    rw [hrun] at h
    cases hb : ReadBonePaths n.toNat msc with
    | error e =>
      rw [hb, liftE_error, Res.andThen_error] at h
      cases h
    | ok a =>
      obtain ⟨bones, ms2⟩ := a
      rw [hb, liftE_ok, Res.andThen_ok] at h
      cases h
      obtain ⟨h1, h2, -⟩ := ReadBonePaths_eq_ok hb
      refine ⟨bones, h1, h2, rfl, fun r hr => ?_⟩
      simp only [getElem?_updateAt, if_true, hr, Option.map_some']
  · intro bones rest hlen hb hms
    rw [hrun, hms, ← hlen, ReadBonePaths_encoded bones rest hb, liftE_ok, Res.andThen_ok]

/-- The example payload with the bone count 2: the renderer gets the bone paths
`a/b` and `c`, and the byte after them is left. -/
theorem ReadSkinnedMeshRenderer_bone_paths_witness :
    ReadSkinnedMeshRenderer demoEnv demoSkinnedPayload 0 demoSkinnedWorld = .ok [7]
      { (ReadMeshRenderer demoEnv demoSkinnedPayload 0 demoSkinnedWorld).world with
        nodes := updateAt (ReadMeshRenderer demoEnv demoSkinnedPayload 0 demoSkinnedWorld).world.nodes
          0 (fun r => { r with bone_paths := [ascii "a/b", ascii "c"] }) } ∧
    ((ReadSkinnedMeshRenderer demoEnv demoSkinnedPayload 0 demoSkinnedWorld).world.nodes[0]?).map
      (fun r => r.bone_paths) = some [ascii "a/b", ascii "c"] :=
  ⟨(ReadSkinnedMeshRenderer_bone_paths demoEnv demoSkinnedPayload
      (encInt32 2 ++ (encString (ascii "a/b") ++ encString (ascii "c")) ++ [7])
      ((encString (ascii "a/b") ++ encString (ascii "c")) ++ [7]) 0 demoSkinnedWorld
      (ReadMeshRenderer demoEnv demoSkinnedPayload 0 demoSkinnedWorld).world 2
      (by decide!) (by decide!) (by decide)).2 [ascii "a/b", ascii "c"] [7] (by decide!)
      (by decide!) (by decide!),
    by decide!⟩

/-! ## The properties of a material -/

/-- One well-formed property record at the head of the stream: the loop applies
it and goes on right after its bytes. -/
theorem ReadMaterialProperties_encProperty (env : Env) (material count : Nat) (p : PropertyEntry)
    (tail : List Byte) (w : World) (hp : p.wellFormed env = true) :
    ReadMaterialProperties env (some material) (count + 1) (encProperty env p ++ tail) w
      = (applyProperty env material p w).andThen
          (fun _ => ReadMaterialProperties env (some material) count tail) := by
  simp only [PropertyEntry.wellFormed, Bool.and_eq_true, decide_eq_true_eq] at hp
  obtain ⟨⟨⟨hn, ht1⟩, ht2⟩, hk⟩ := hp
  rw [ReadMaterialProperties]
  unfold encProperty applyProperty
  simp only [List.append_assoc, M.bind_apply, ReadString_encString _ _ hn, liftE_ok,
    Res.andThen_ok, ReadInt_encInt32, toInt32_encInt32 _ ht1 ht2]
  cases hty : env.propertyType p.type with
  | Color =>
    rw [hty] at hk
    simp only [decide_eq_true_eq] at hk
    simp only [M.bind_apply, Read_append _ _ 16 hk, liftE_ok, Res.andThen_ok, Option.isSome_some,
      if_true, List.nil_append, reduceCtorEq, if_false, Res.andThen_assoc, M.pure_apply]
  | Vector =>
    rw [hty] at hk
    simp only [decide_eq_true_eq] at hk
    simp only [M.bind_apply, Read_append _ _ 16 hk, liftE_ok, Res.andThen_ok, Option.isSome_some,
      if_true, List.nil_append, reduceCtorEq, if_false, Res.andThen_assoc, M.pure_apply]
  | Float =>
    rw [hty] at hk
    simp only [decide_eq_true_eq] at hk
    simp only [M.bind_apply, Read_append _ _ 4 hk, liftE_ok, Res.andThen_ok, Option.isSome_some,
      if_true, List.nil_append, reduceCtorEq, if_false, Res.andThen_assoc, M.pure_apply]
  | Range =>
    rw [hty] at hk
    simp only [decide_eq_true_eq] at hk
    simp only [M.bind_apply, Read_append _ _ 4 hk, liftE_ok, Res.andThen_ok, Option.isSome_some,
      if_true, List.nil_append, reduceCtorEq, if_false, Res.andThen_assoc, M.pure_apply]
  | Texture =>
    rw [hty] at hk
    simp only [Bool.and_eq_true, decide_eq_true_eq] at hk
    simp only [M.bind_apply, Read_append _ _ 16 hk.1, liftE_ok, Res.andThen_ok,
      if_true, ReadString_encString _ _ hk.2, Option.isSome_some, Bool.true_and,
      Res.andThen_assoc, M.pure_apply]
  | Other =>
    rw [hty] at hk
    cases hk

/-- The property loop on a stream of well-formed property records. -/
theorem ReadMaterialProperties_encoded (env : Env) (material : Nat) (ps : List PropertyEntry)
    (rest : List Byte) (w : World) (hp : ∀ p ∈ ps, p.wellFormed env = true) :
    ReadMaterialProperties env (some material) ps.length
        ((ps.map (encProperty env)).flatten ++ rest) w
      = (applyProperties env material ps w).andThen (fun _ w1 => .ok rest w1) := by
  induction ps generalizing w with
  | nil =>
    simp only [List.length_nil, List.map_nil, List.flatten_nil, List.nil_append]
    rw [ReadMaterialProperties, applyProperties]
    rfl
  | cons p ps ih =>
    simp only [List.length_cons, List.map_cons, List.flatten_cons, List.append_assoc]
    rw [ReadMaterialProperties_encProperty env material ps.length p _ w
      (hp p (List.mem_cons_self _ _)), applyProperties, M.bind_apply, Res.andThen_assoc]
    congr 1
    funext _ w1
    exact ih w1 (fun q hq => hp q (List.mem_cons_of_mem _ hq))

/-- C13: with a material at hand (the shader resolved), the property loop on a
list of property records whose type tags are all among `Color`, `Vector`,
`Float`, `Range`, `Texture` and whose payloads have the width of their type (16,
16, 4, 4 bytes, and 16 bytes and a path string) takes for each record exactly
its name string, its four tag bytes and its payload, applies it to the material
under the declared name, and ends right after the last record; in particular a
`Float` property followed by 4 bytes sets exactly these 4 bytes as the float
under that name. -/
theorem ReadMaterialProperties_applies (env : Env) (material : Nat) (ps : List PropertyEntry)
    (rest : List Byte) (w : World) (hp : ∀ p ∈ ps, p.wellFormed env = true) :
    ReadMaterialProperties env (some material) ps.length
        ((ps.map (encProperty env)).flatten ++ rest) w
      = (applyProperties env material ps w).andThen (fun _ w1 => .ok rest w1) ∧
    (∀ (count : Nat) (name : ByteStr) (tag : Int) (value : Raw) (tail : List Byte) (w0 : World),
      name.length < 2 ^ 31 → -(2 ^ 31) ≤ tag → tag < 2 ^ 31 →
      env.propertyType tag = .Float → value.length = 4 →
      ReadMaterialProperties env (some material) (count + 1)
          (encString name ++ encInt32 tag ++ value ++ tail) w0
        = ReadMaterialProperties env (some material) count tail
            { w0 with objects := updateAt w0.objects material (Obj.SetProperty name (.float value)) }) := by
  refine ⟨ReadMaterialProperties_encoded env material ps rest w hp, ?_⟩
  intro count name tag value tail w0 hn h1 h2 hty hv
  have h := ReadMaterialProperties_encProperty env material count
    { name := name, type := tag, value := value, texture_path := [] } tail w0
    (by
      simp only [PropertyEntry.wellFormed, hty, Bool.and_eq_true, decide_eq_true_eq]
      exact ⟨⟨⟨hn, h1⟩, h2⟩, hv⟩)
  simp only [encProperty, applyProperty, hty, reduceCtorEq, if_false, List.append_nil,
    modifyObj_some_apply, Res.andThen_ok] at h
  exact h

/-- The three example properties on a new material: the float `f` is set to the
four bytes 1, 2, 3, 4, the color `c` to its 16 bytes, the texture read from the
path `t` is set under `tex`, and the byte after the records is left. -/
theorem ReadMaterialProperties_applies_witness :
    (∀ p ∈ demoProperties, p.wellFormed demoEnv = true) ∧
    ReadMaterialProperties demoEnv (some 0) demoProperties.length
        ((demoProperties.map (encProperty demoEnv)).flatten ++ [7]) demoMaterialWorld
      = (applyProperties demoEnv 0 demoProperties demoMaterialWorld).andThen
          (fun _ w1 => .ok [7] w1) ∧
    ReadMaterialProperties demoEnv (some 0) demoProperties.length
        ((demoProperties.map (encProperty demoEnv)).flatten ++ [7]) demoMaterialWorld
      = .ok [7] (applyProperties demoEnv 0 demoProperties demoMaterialWorld).world ∧
    (applyProperties demoEnv 0 demoProperties demoMaterialWorld).world.objects[0]?
      = some (.material (ascii "M") 0
          [(ascii "f", .float [1, 2, 3, 4]), (ascii "c", .color (zeros 16)),
           (ascii "tex", .texture (some 1))]) :=
  ⟨by decide!,
    (ReadMaterialProperties_applies demoEnv 0 demoProperties [7] demoMaterialWorld (by decide!)).1,
    by decide!, by decide!⟩

/-! ## The curves of a clip -/

/-- The curve loop reads the entries one after the other and adds each to the
wrappers. -/
theorem ReadCurves_eq_foldl (count : Nat) (ms : MemoryStream) (acc : List AnimationCurveWrapper) :
    ReadCurves count ms acc =
      match ReadCurveEntries count ms with
      | .ok (es, ms1) =>
        .ok (es.foldl (fun a e => addCurve e.path e.property_type e.keys a) acc, ms1)
      | .error e => .error e := by
  induction count generalizing ms acc with
  | zero => rfl
  | succ n ih =>
    rw [ReadCurves, ReadCurveEntries]
    cases ReadString ms with
    | error e => rfl
    | ok a1 =>
      obtain ⟨path, ms1⟩ := a1
      simp only
      cases MemoryStream.ReadInt ms1 with
      | error e => rfl
      | ok a2 =>
        obtain ⟨ty, ms2⟩ := a2
        simp only
        cases MemoryStream.ReadInt ms2 with
        | error e => rfl
        | ok a3 =>
          obtain ⟨kc, ms3⟩ := a3
          simp only
          cases ReadKeys kc.toNat ms3 with
          | error e => rfl
          | ok a4 =>
            obtain ⟨keys, ms4⟩ := a4
            simp only
            rw [ih]
            cases ReadCurveEntries n ms4 with
            | error e => rfl
            | ok a5 => rfl

theorem mem_firstOccurrences (l : List ByteStr) (q : ByteStr) :
    q ∈ firstOccurrences l ↔ q ∈ l := by
  induction l with
  | nil => simp [firstOccurrences]
  | cons p ps ih =>
    simp only [firstOccurrences, List.mem_cons, List.mem_filter, ih, decide_eq_true_eq]
    by_cases h : q = p <;> simp [h]

theorem nodup_firstOccurrences (l : List ByteStr) : (firstOccurrences l).Nodup := by
  induction l with
  | nil => simp [firstOccurrences]
  | cons p ps ih =>
    simp only [firstOccurrences, List.nodup_cons, List.mem_filter, decide_eq_true_eq]
    exact ⟨fun h => h.2 rfl, ih.filter _⟩

theorem firstOccurrences_append_singleton (l : List ByteStr) (p : ByteStr) :
    firstOccurrences (l ++ [p]) = if p ∈ l then firstOccurrences l else firstOccurrences l ++ [p] := by
  induction l with
  | nil => simp [firstOccurrences]
  | cons q qs ih =>
    rw [List.cons_append, firstOccurrences, firstOccurrences, ih]
    by_cases hpq : p = q
    · subst hpq
      rw [if_pos (List.mem_cons_self _ _)]
      by_cases hm : p ∈ qs
      · rw [if_pos hm]
      · rw [if_neg hm, List.filter_append]
        simp
    · by_cases hm : p ∈ qs
      · rw [if_pos hm, if_pos (List.mem_cons_of_mem _ hm)]
      · rw [if_neg hm, if_neg (by simp [hpq, hm]), List.filter_append]
        simp [hpq]

/-- Without a wrapper for the path, `addCurve` appends a new wrapper. -/
theorem addCurve_of_not_mem (p : ByteStr) (t : Int) (k : List Keyframe)
    (cs : List AnimationCurveWrapper) (h : ∀ c ∈ cs, c.path ≠ p) :
    addCurve p t k cs = cs ++ [{ path := p, property_types := [t], curves := [k] }] := by
  induction cs with
  | nil => rfl
  | cons c cs ih =>
    rw [addCurve, if_neg (h c (List.mem_cons_self _ _)),
      ih (fun x hx => h x (List.mem_cons_of_mem _ hx))]
    rfl

/-- With one wrapper for each of the distinct paths `qs`, `addCurve` appends to
the wrapper of the path and leaves the others. -/
theorem addCurve_map (p : ByteStr) (t : Int) (k : List Keyframe) (qs : List ByteStr)
    (f : ByteStr → AnimationCurveWrapper) (hf : ∀ q, (f q).path = q) (hn : qs.Nodup)
    (hp : p ∈ qs) :
    addCurve p t k (qs.map f) =
      qs.map (fun q => if q = p then
        { f q with property_types := (f q).property_types ++ [t], curves := (f q).curves ++ [k] }
        else f q) := by
  induction qs with
  | nil => cases hp
  | cons q qs ih =>
    rw [List.nodup_cons] at hn
    rw [List.map_cons, addCurve, hf q, List.map_cons]
    by_cases hq : q = p
    · subst hq
      rw [if_pos rfl, if_pos rfl]
      refine congrArg₂ _ ?_ ?_
      · simp only [hf]
      · apply List.map_congr_left
        intro x hx
        have hne : ¬ x = q := fun h => hn.1 (h ▸ hx)
        rw [if_neg hne]
    · rw [if_neg hq, if_neg hq, ih hn.2 (by
        rcases List.mem_cons.mp hp with h | h
        · exact absurd h.symm hq
        · exact h)]

/-- Grouping one more entry is what `addCurve` does to the grouping so far. -/
theorem groupByPath_append_singleton (es : List CurveEntry) (e : CurveEntry) :
    groupByPath (es ++ [e]) = addCurve e.path e.property_type e.keys (groupByPath es) := by
  unfold groupByPath
  rw [List.map_append, List.map_singleton, firstOccurrences_append_singleton]
  by_cases hm : e.path ∈ es.map (fun x => x.path)
  · rw [if_pos hm, addCurve_map e.path e.property_type e.keys _ (wrapperFor es) (fun _ => rfl)
      (nodup_firstOccurrences _) ((mem_firstOccurrences _ _).mpr hm)]
    apply List.map_congr_left
    intro q _
    by_cases hq : q = e.path
    · subst hq
      simp [wrapperFor, List.filter_append]
    · have hq2 : ¬ e.path = q := fun h => hq h.symm
      simp [wrapperFor, List.filter_append, hq, hq2]
  · rw [if_neg hm, List.map_append, List.map_singleton]
    have hnone : es.filter (fun x => decide (x.path = e.path)) = [] := by
      rw [List.filter_eq_nil_iff]
      intro x hx
      simp only [decide_eq_true_eq]
      intro h
      exact hm (List.mem_map.mpr ⟨x, hx, h⟩)
    rw [addCurve_of_not_mem]
    · congr 1
      · apply List.map_congr_left
        intro q hq
        have hq2 : ¬ e.path = q := by
          intro h
          exact hm (h ▸ (mem_firstOccurrences _ _).mp hq)
        simp [wrapperFor, List.filter_append, hq2]
      · simp [wrapperFor, List.filter_append, hnone]
    · intro c hc
      obtain ⟨q, hq, rfl⟩ := List.mem_map.mp hc
      intro h
      exact hm (h ▸ (mem_firstOccurrences _ _).mp hq)

/-- Adding the entries of a clip one by one, from no wrapper, groups them by
path. -/
theorem foldl_addCurve (es : List CurveEntry) :
    es.foldl (fun a e => addCurve e.path e.property_type e.keys a) [] = groupByPath es := by
  induction es using List.reverseRecOn with
  | nil => rfl
  | append_singleton es e ih =>
    rw [List.foldl_append, List.foldl_cons, List.foldl_nil, ih, groupByPath_append_singleton]

/-- The curve loop of a clip groups the entries it reads by their path. -/
theorem ReadCurves_eq_groupByPath (count : Nat) (ms : MemoryStream) :
    ReadCurves count ms [] =
      match ReadCurveEntries count ms with
      | .ok (es, ms1) => .ok (groupByPath es, ms1)
      | .error e => .error e := by
  rw [ReadCurves_eq_foldl]
  cases ReadCurveEntries count ms with
  | error e => rfl
  | ok a =>
    obtain ⟨es, ms1⟩ := a
    simp only [foldl_addCurve]

/-- The entries read for a curve count are as many as the count. -/
theorem length_ReadCurveEntries {count : Nat} {ms ms1 : MemoryStream} {es : List CurveEntry}
    (h : ReadCurveEntries count ms = .ok (es, ms1)) : es.length = count := by
  induction count generalizing ms es with
  | zero =>
    rw [ReadCurveEntries] at h
    cases h
    rfl
  | succ n ih =>
    rw [ReadCurveEntries] at h
    split at h
    · cases h
    · split at h
      · cases h
      · split at h
        · cases h
        · split at h
          · cases h
          · split at h
            · cases h
            · next entries ms5 hrec =>
              cases h
              simp [ih hrec]

/-- The clip loop makes of each clip of the stream the clip object whose wrappers
are the grouping of the entries of that clip. -/
theorem ReadClips_eq_records (count : Nat) (ms : MemoryStream) :
    ReadClips count ms =
      match ReadClipRecords count ms with
      | .ok (records, ms1) => .ok (records.map ClipRecord.toClip, ms1)
      | .error e => .error e := by
  induction count generalizing ms with
  | zero => rfl
  | succ n ih =>
    rw [ReadClips, ReadClipRecords]
    cases ReadString ms with
    | error e => rfl
    | ok a1 =>
      obtain ⟨name, ms1⟩ := a1
      simp only
      cases MemoryStream.Read 4 ms1 with
      | error e => rfl
      | ok a2 =>
        obtain ⟨len, ms2⟩ := a2
        simp only
        cases MemoryStream.Read 4 ms2 with
        | error e => rfl
        | ok a3 =>
          obtain ⟨fps, ms3⟩ := a3
          simp only
          cases MemoryStream.ReadInt ms3 with
          | error e => rfl
          | ok a4 =>
            obtain ⟨wm, ms4⟩ := a4
            simp only
            cases MemoryStream.ReadInt ms4 with
            | error e => rfl
            | ok a5 =>
              obtain ⟨cc, ms5⟩ := a5
              simp only
              rw [ReadCurves_eq_groupByPath]
              cases ReadCurveEntries cc.toNat ms5 with
              | error e => rfl
              | ok a6 =>
                obtain ⟨es, ms6⟩ := a6
                simp only
                rw [ih]
                cases ReadClipRecords n ms6 with
                | error e => rfl
                | ok a7 => rfl

/-- Every call of `addCurve` adds one curve. -/
theorem sum_addCurve (p : ByteStr) (t : Int) (k : List Keyframe) (cs : List AnimationCurveWrapper) :
    ((addCurve p t k cs).map (fun c => c.curves.length)).sum
      = (cs.map (fun c => c.curves.length)).sum + 1 := by
  induction cs with
  | nil => simp [addCurve]
  | cons c cs ih =>
    rw [addCurve]
    split
    · simp only [List.map_cons, List.sum_cons, List.length_append, List.length_singleton]
      omega
    · simp only [List.map_cons, List.sum_cons, ih]
      omega

/-- The wrappers of a clip hold as many curves as the clip has entries. -/
theorem sum_groupByPath (es : List CurveEntry) :
    ((groupByPath es).map (fun c => c.curves.length)).sum = es.length := by
  induction es using List.reverseRecOn with
  | nil => rfl
  | append_singleton es e ih =>
    rw [groupByPath_append_singleton, sum_addCurve, ih, List.length_append, List.length_singleton]

/-- C11: the clips that `ReadAnimation` stores are the clips of the stream, each
with the wrappers that its own curve entries `e_1..e_m` give, `m` being the
curve count (none when it is negative): one wrapper for each distinct path, in
the order of first occurrence, the wrapper of a path holding the property types
and the curves of the entries with that path, element for element in the order
of the stream; the two lists of a wrapper have the same length, and the lengths
over the wrappers of a clip sum to `m`. The entries of a clip go to the
wrappers of that clip only. -/
theorem curves_grouped_by_path (count : Nat) (ms : MemoryStream) :
    (ReadClips count ms =
      match ReadClipRecords count ms with
      | .ok (records, ms1) => .ok (records.map ClipRecord.toClip, ms1)
      | .error e => .error e) ∧
    (∀ (animation : Nat) (w w1 : World) (ms0 ms1 : MemoryStream),
      ReadAnimation ms0 animation w = .ok ms1 w1 →
      ∃ clip_count msc records, MemoryStream.ReadInt ms0 = .ok (clip_count, msc) ∧
        ReadClipRecords clip_count.toNat msc = .ok (records, ms1) ∧
        w1 = { w with nodes :=
                 updateAt w.nodes animation (fun r => { r with clips := records.map ClipRecord.toClip }) }) ∧
    (∀ (m : Nat) (ms0 : MemoryStream),
      (ReadCurves m ms0 [] =
        match ReadCurveEntries m ms0 with
        | .ok (es, ms1) => .ok (groupByPath es, ms1)
        | .error e => .error e) ∧
      ∀ es ms1, ReadCurveEntries m ms0 = .ok (es, ms1) → es.length = m) ∧
    ∀ es : List CurveEntry,
      ((groupByPath es).map (fun c => c.path)).Nodup ∧
      (groupByPath es).map (fun c => c.path) = firstOccurrences (es.map (fun e => e.path)) ∧
      (∀ c ∈ groupByPath es,
        c.property_types
          = (es.filter (fun e => e.path = c.path)).map (fun e => e.property_type) ∧
        c.curves = (es.filter (fun e => e.path = c.path)).map (fun e => e.keys) ∧
        c.property_types.length = c.curves.length) ∧
      ((groupByPath es).map (fun c => c.property_types.length)).sum = es.length ∧
      ((groupByPath es).map (fun c => c.curves.length)).sum = es.length := by
  refine ⟨ReadClips_eq_records count ms, ?_, fun m ms0 =>
    ⟨ReadCurves_eq_groupByPath m ms0, fun es ms1 h => length_ReadCurveEntries h⟩, fun es => ?_⟩
  · intro animation w w1 ms0 ms1 h
    unfold ReadAnimation at h
    simp only [M.bind_apply, Res.andThen_eq_ok, liftE_eq_ok] at h
    obtain ⟨a1, _, ⟨h1, rfl⟩, u, w2, hv, a2, _, ⟨h2, rfl⟩, u2, w3, h3, h4⟩ := h
    obtain ⟨clip_count, msc⟩ := a1
    obtain ⟨clips, ms2⟩ := a2
    rw [vectorOfSize_apply] at hv
    split at hv
    · cases hv
    · cases hv
      simp only [modifyNode_apply, Res.ok.injEq, true_and] at h3
      simp only [M.pure_apply, Res.ok.injEq] at h4
      obtain ⟨rfl, rfl⟩ := h4
      subst h3
      rw [ReadClips_eq_records] at h2
      cases hr : ReadClipRecords clip_count.toNat msc with
      | error e => rw [hr] at h2; cases h2
      | ok a =>
        obtain ⟨records, ms3⟩ := a
        rw [hr] at h2
        cases h2
        exact ⟨clip_count, msc, records, h1, hr, rfl⟩
  · have hpaths : (groupByPath es).map (fun c => c.path)
        = firstOccurrences (es.map (fun e => e.path)) := by
      unfold groupByPath
      rw [List.map_map]
      exact List.map_id _
    have hlen : ∀ c ∈ groupByPath es, c.property_types.length = c.curves.length := by
      intro c hc
      obtain ⟨q, -, rfl⟩ := List.mem_map.mp hc
      simp [wrapperFor]
    refine ⟨?_, hpaths, ?_, ?_, sum_groupByPath es⟩
    · rw [hpaths]
      exact nodup_firstOccurrences _
    · intro c hc
      obtain ⟨q, -, rfl⟩ := List.mem_map.mp hc
      exact ⟨rfl, rfl, by simp [wrapperFor]⟩
    · rw [← sum_groupByPath es]
      congr 1
      exact List.map_congr_left hlen

/-- The example payload: the clip `walk` gets the wrapper `a` with the types 1
and 3 and the wrapper `b` with the type 2; the entry `a` of the clip `run` has a
wrapper of its own. -/
theorem curves_grouped_by_path_witness :
    ((ReadAnimation demoAnimationPayload 0 demoAnimationWorld).world.nodes[0]?).map
        (fun r => r.clips.map (fun c => (c.name, c.curves.map (fun x => (x.path, x.property_types)))))
      = some [(ascii "walk", [(ascii "a", [1, 3]), (ascii "b", [2])]),
              (ascii "run", [(ascii "a", [7])])] ∧
    (ReadClips 2 (demoAnimationPayload.drop 4) =
      match ReadClipRecords 2 (demoAnimationPayload.drop 4) with
      | .ok (records, ms1) => .ok (records.map ClipRecord.toClip, ms1)
      | .error e => .error e) :=
  ⟨by decide!, (curves_grouped_by_path 2 (demoAnimationPayload.drop 4)).1⟩

/-! ## The instance batch -/

/-- A mutation sets the dirty flag and leaves the buffer and the rebuild count. -/
theorem InstanceMutation.apply_keeps (m : InstanceMutation) (r : InstanceBatch) :
    (m.apply r).m_instance_buffer_dirty = true ∧
      (m.apply r).m_instance_buffer = r.m_instance_buffer ∧ (m.apply r).rebuilds = r.rebuilds := by
  cases m <;> exact ⟨rfl, rfl, rfl⟩

/-- Mutations leave the buffer and the rebuild count, and the flag stays set once
it is set. -/
theorem applyMutations_keeps (ms : List InstanceMutation) (r : InstanceBatch) :
    (applyMutations ms r).m_instance_buffer = r.m_instance_buffer ∧
      (applyMutations ms r).rebuilds = r.rebuilds ∧
      ((ms ≠ [] ∨ r.m_instance_buffer_dirty = true) →
        (applyMutations ms r).m_instance_buffer_dirty = true) := by
  induction ms generalizing r with
  | nil => exact ⟨rfl, rfl, fun h => h.elim (fun h => absurd rfl h) id⟩
  | cons m ms ih =>
    obtain ⟨h1, h2, h3⟩ := ih (m.apply r)
    obtain ⟨k1, k2, k3⟩ := m.apply_keeps r
    exact ⟨h1.trans k2, h2.trans k3, fun _ => h3 (Or.inr k1)⟩

/-- C18: from every state of the instance batch, a sequence of `N >= 1` instance
mutations does not rebuild the flat buffer and leaves the dirty flag set; the
query that follows rebuilds the buffer once, from the instances as they are
then, and clears the flag; a query made with the flag clear, so with no mutation
since the last rebuild, changes nothing; and the getter of the buffer changes
nothing either. -/
theorem instance_buffer_rebuilt_once (r : InstanceBatch) (ms : List InstanceMutation)
    (hN : 1 ≤ ms.length) :
    (applyMutations ms r).rebuilds = r.rebuilds ∧
    (applyMutations ms r).m_instance_buffer = r.m_instance_buffer ∧
    (applyMutations ms r).m_instance_buffer_dirty = true ∧
    (Renderer.QueryInstanceBuffer (applyMutations ms r)).rebuilds = r.rebuilds + 1 ∧
    Renderer.GetInstanceBuffer (Renderer.QueryInstanceBuffer (applyMutations ms r))
      = flatInstances (applyMutations ms r).m_instances ∧
    (Renderer.QueryInstanceBuffer (applyMutations ms r)).m_instance_buffer_dirty = false ∧
    Renderer.QueryInstanceBuffer (Renderer.QueryInstanceBuffer (applyMutations ms r))
      = Renderer.QueryInstanceBuffer (applyMutations ms r) ∧
    (∀ s : InstanceBatch, s.m_instance_buffer_dirty = false →
      Renderer.QueryInstanceBuffer s = s) ∧
    (∀ (s : InstanceBatch) (m : InstanceMutation), (m.apply s).m_instance_buffer_dirty = true) := by
  have hne : ms ≠ [] := by
    intro h
    rw [h] at hN
    simp at hN
  obtain ⟨h1, h2, h3⟩ := applyMutations_keeps ms r
  have hd := h3 (Or.inl hne)
  have hq : ∀ s : InstanceBatch, s.m_instance_buffer_dirty = false →
      Renderer.QueryInstanceBuffer s = s := by
    intro s hs
    unfold Renderer.QueryInstanceBuffer
    rw [hs]
    rfl
  have hqd : Renderer.QueryInstanceBuffer (applyMutations ms r)
      = { Renderer.UpdateInstanceBuffer (applyMutations ms r) with
          m_instance_buffer_dirty := false } := by
    unfold Renderer.QueryInstanceBuffer
    rw [hd]
    rfl
  refine ⟨h2, h1, hd, ?_, ?_, ?_, ?_, hq, fun s m => (m.apply_keeps s).1⟩
  · rw [hqd]
    show (applyMutations ms r).rebuilds + 1 = _
    rw [h2]
  · rw [hqd]
    rfl
  · rw [hqd]
  · exact hq _ (by rw [hqd])

/-- Two mutations of the example batch and then a query: one rebuild. -/
theorem instance_buffer_rebuilt_once_witness :
    (Renderer.QueryInstanceBuffer (applyMutations
      [.AddInstance (zeros 12) (zeros 16) (zeros 12), .SetInstanceExtraVector 1 0 (zeros 16)]
      demoBatch)).rebuilds = demoBatch.rebuilds + 1 ∧
    (Renderer.GetInstanceBuffer (Renderer.QueryInstanceBuffer (applyMutations
      [.AddInstance (zeros 12) (zeros 16) (zeros 12), .SetInstanceExtraVector 1 0 (zeros 16)]
      demoBatch))).length = 112 :=
  ⟨(instance_buffer_rebuilt_once demoBatch
      [.AddInstance (zeros 12) (zeros 16) (zeros 12), .SetInstanceExtraVector 1 0 (zeros 16)]
      (by decide)).2.2.2.1,
    by decide!⟩

/-! ## Runs in lockstep -/

theorem sameObs_refl (w : World) : SameObs w w := ⟨rfl, rfl⟩

theorem alike_mono {α β : Type} {R : World → World → Prop} {Q Q1 : α → β → Prop}
    (h : ∀ a b, Q a b → Q1 a b) {r1 : Res α} {r2 : Res β} (hr : Alike R Q r1 r2) :
    Alike R Q1 r1 r2 := by
  cases r1 <;> cases r2
  · exact ⟨h _ _ hr.1, hr.2⟩
  · exact hr
  · exact hr
  · exact hr

theorem lockstep_mono {α β : Type} {R : World → World → Prop} {Q Q1 : α → β → Prop}
    (h : ∀ a b, Q a b → Q1 a b) {x : M α} {y : M β} (hx : Lockstep R Q x y) : Lockstep R Q1 x y :=
  fun w1 w2 hw => alike_mono h (hx w1 w2 hw)

theorem lockstep_pure {α β : Type} {R : World → World → Prop} {Q : α → β → Prop} {a : α} {b : β}
    (h : Q a b) : Lockstep R Q (pure a : M α) (pure b : M β) :=
  fun _ _ hw => ⟨h, hw⟩

theorem lockstep_bind {α β γ δ : Type} {R : World → World → Prop} {Q : α → β → Prop}
    {Q1 : γ → δ → Prop} {x : M α} {y : M β} {f : α → M γ} {g : β → M δ} (hx : Lockstep R Q x y)
    (hf : ∀ a b, Q a b → Lockstep R Q1 (f a) (g b)) : Lockstep R Q1 (x >>= f) (y >>= g) := by
  intro w1 w2 hw
  have h := hx w1 w2 hw
  simp only [M.bind_apply]
  cases h1 : x w1 with
  | ok a v1 =>
    cases h2 : y w2 with
    | ok b v2 =>
      rw [h1, h2] at h
      exact hf a b h.1 v1 v2 h.2
    | error e v2 =>
      rw [h1, h2] at h
      exact h.elim
  | error e v1 =>
    cases h2 : y w2 with
    | ok b v2 =>
      rw [h1, h2] at h
      exact h.elim
    | error e2 v2 =>
      rw [h1, h2] at h
      exact h

theorem lockstep_bind_eq {α γ δ : Type} {R : World → World → Prop} {Q1 : γ → δ → Prop}
    {x y : M α} {f : α → M γ} {g : α → M δ} (hx : Lockstep R Eq x y)
    (hf : ∀ a, Lockstep R Q1 (f a) (g a)) : Lockstep R Q1 (x >>= f) (y >>= g) :=
  lockstep_bind hx (fun a _ hab => hab ▸ hf a)

theorem lockstep_bind_any {α β γ δ : Type} {R : World → World → Prop} {Q : α → β → Prop}
    {Q1 : γ → δ → Prop} {x : M α} {y : M β} {f : α → M γ} {g : β → M δ} (hx : Lockstep R Q x y)
    (hf : ∀ a b, Lockstep R Q1 (f a) (g b)) : Lockstep R Q1 (x >>= f) (y >>= g) :=
  lockstep_bind hx (fun a b _ => hf a b)

theorem M.bind_assoc1 {α β γ : Type} (x : M α) (f : α → M β) (g : β → M γ) :
    (x >>= f) >>= g = x >>= fun a => f a >>= g := by
  funext w
  simp only [M.bind_apply, Res.andThen_assoc]
  congr 1
  funext a w1
  rw [M.bind_apply]

theorem M.pure_bind1 {α β : Type} (a : α) (f : α → M β) : (pure a : M α) >>= f = f a := by
  funext w
  simp only [M.bind_apply, M.pure_apply, Res.andThen_ok]

/-- A value mapped on the right at the end of a run. -/
theorem lockstep_bind_pure_right {α β γ : Type} {R : World → World → Prop} {Q : α → γ → Prop}
    {x : M α} {y : M β} {g : β → γ} (h : Lockstep R (fun a b => Q a (g b)) x y) :
    Lockstep R Q x (y >>= fun b => pure (g b)) := by
  intro w1 w2 hw
  have k := h w1 w2 hw
  simp only [M.bind_apply]
  cases hx : x w1 with
  | ok a v1 =>
    cases hy : y w2 with
    | ok b v2 =>
      rw [hx, hy] at k
      exact k
    | error e v2 => rw [hx, hy] at k; exact k.elim
  | error e v1 =>
    cases hy : y w2 with
    | ok b v2 => rw [hx, hy] at k; exact k.elim
    | error e2 v2 =>
      rw [hx, hy] at k
      exact k

/-- A computation runs in lockstep with itself from equal states. -/
theorem lockstep_refl {α : Type} (x : M α) : Lockstep Eq Eq x x := by
  intro w1 w2 hw
  subst hw
  cases x w1 with
  | ok a v => exact ⟨rfl, rfl⟩
  | error e v => exact ⟨rfl, rfl⟩

/-- Lockstep from equal states on the left of a lockstep. -/
theorem lockstep_comp_left {α β γ : Type} {R : World → World → Prop} {Q1 : α → β → Prop}
    {Q2 : β → γ → Prop} {x : M α} {y : M β} {z : M γ} (h1 : Lockstep Eq Q1 x y)
    (h2 : Lockstep R Q2 y z) : Lockstep R (fun a c => ∃ b, Q1 a b ∧ Q2 b c) x z := by
  intro w1 w2 hw
  have k1 := h1 w1 w1 rfl
  have k2 := h2 w1 w2 hw
  cases hx : x w1 with
  | ok a v1 =>
    cases hy : y w1 with
    | ok b v2 =>
      rw [hx, hy] at k1
      rw [hy] at k2
      cases hz : z w2 with
      | ok c v3 =>
        rw [hz] at k2
        exact ⟨⟨b, k1.1, k2.1⟩, k1.2 ▸ k2.2⟩
      | error e v3 => rw [hz] at k2; exact k2.elim
    | error e v2 => rw [hx, hy] at k1; exact k1.elim
  | error e v1 =>
    cases hy : y w1 with
    | ok b v2 => rw [hx, hy] at k1; exact k1.elim
    | error e2 v2 =>
      rw [hx, hy] at k1
      rw [hy] at k2
      cases hz : z w2 with
      | ok c v3 => rw [hz] at k2; exact k2.elim
      | error e3 v3 =>
        rw [hz] at k2
        exact ⟨k1.1.trans k2.1, k1.2 ▸ k2.2⟩

/-- Lockstep from equal states on the right of a lockstep. -/
theorem lockstep_comp_right {α β γ : Type} {R : World → World → Prop} {Q1 : α → β → Prop}
    {Q2 : γ → β → Prop} {x : M α} {y : M β} {z : M γ} (h1 : Lockstep R Q1 x y)
    (h2 : Lockstep Eq Q2 z y) : Lockstep R (fun a c => ∃ b, Q1 a b ∧ Q2 c b) x z := by
  intro w1 w2 hw
  have k1 := h1 w1 w2 hw
  have k2 := h2 w2 w2 rfl
  cases hx : x w1 with
  | ok a v1 =>
    cases hy : y w2 with
    | ok b v2 =>
      rw [hx, hy] at k1
      rw [hy] at k2
      cases hz : z w2 with
      | ok c v3 =>
        rw [hz] at k2
        exact ⟨⟨b, k1.1, k2.1⟩, k2.2 ▸ k1.2⟩
      | error e v3 => rw [hz] at k2; exact k2.elim
    | error e v2 => rw [hx, hy] at k1; exact k1.elim
  | error e v1 =>
    cases hy : y w2 with
    | ok b v2 => rw [hx, hy] at k1; exact k1.elim
    | error e2 v2 =>
      rw [hx, hy] at k1
      rw [hy] at k2
      cases hz : z w2 with
      | ok c v3 => rw [hz] at k2; exact k2.elim
      | error e3 v3 =>
        rw [hz] at k2
        exact ⟨k1.1.trans k2.1.symm, k2.2 ▸ k1.2⟩

theorem lockstep_liftE {α : Type} {R : World → World → Prop} (x : Except Err α) :
    Lockstep R Eq (liftE x) (liftE x) := by
  intro w1 w2 hw
  cases x with
  | ok a => simp only [liftE_ok]; exact ⟨rfl, hw⟩
  | error e => simp only [liftE_error]; exact ⟨rfl, hw⟩

/-- Two computations that return whatever the state and leave what the state
shows, or add the same to the log. -/
theorem lockstep_total {α β : Type} {Q : α → β → Prop} {x : M α} {y : M β}
    (h : ∀ w1 w2, SameObs w1 w2 →
      ∃ a v1 b v2, x w1 = .ok a v1 ∧ y w2 = .ok b v2 ∧ Q a b ∧ SameObs v1 v2) :
    Lockstep SameObs Q x y := by
  intro w1 w2 hw
  obtain ⟨a, v1, b, v2, h1, h2, h3, h4⟩ := h w1 w2 hw
  rw [h1, h2]
  exact ⟨h3, h4⟩

theorem lockstep_emit (e : Event) : Lockstep SameObs Eq (emit e) (emit e) :=
  lockstep_total (fun w1 w2 hw => ⟨_, _, _, _, emit_apply e w1, emit_apply e w2, rfl,
    hw.1, by show w1.trace ++ [e] = w2.trace ++ [e]; rw [hw.2]⟩)

theorem lookup_isSome_of_keys {m1 m2 : List (ByteStr × Ref)} (h : m1.map Prod.fst = m2.map Prod.fst)
    (p : ByteStr) : (m1.lookup p).isSome = (m2.lookup p).isSome := by
  induction m1 generalizing m2 with
  | nil =>
    cases m2 with
    | nil => rfl
    | cons b m2 => simp at h
  | cons a m1 ih =>
    cases m2 with
    | nil => simp at h
    | cons b m2 =>
      simp only [List.map_cons, List.cons.injEq] at h
      obtain ⟨k1, v1⟩ := a
      obtain ⟨k2, v2⟩ := b
      simp only at h
      obtain ⟨rfl, h2⟩ := h
      simp only [List.lookup_cons]
      cases hpk : p == k1 with
      | true => rfl
      | false => exact ih h2

theorem lockstep_cacheContains (p : ByteStr) : Lockstep SameObs Eq (cacheContains p) (cacheContains p) :=
  lockstep_total (fun w1 w2 hw => ⟨_, _, _, _, cacheContains_apply p w1, cacheContains_apply p w2,
    lookup_isSome_of_keys hw.1 p, hw⟩)

theorem lockstep_cacheGet (p : ByteStr) : Lockstep SameObs AnyVal (cacheGet p) (cacheGet p) :=
  lockstep_total (fun w1 w2 hw => ⟨_, _, _, _, cacheGet_apply p w1, cacheGet_apply p w2,
    trivial, hw⟩)

theorem lockstep_RefCast (env : Env) (T : ObjKind) (r1 r2 : Ref) :
    Lockstep SameObs AnyVal (RefCast env T r1) (RefCast env T r2) :=
  lockstep_total (fun w1 w2 hw => by
    obtain ⟨a, ha⟩ := RefCast_world env T r1 w1
    obtain ⟨b, hb⟩ := RefCast_world env T r2 w2
    exact ⟨a, w1, b, w2, ha, hb, trivial, hw⟩)

theorem keys_filter_of_keys {m1 m2 : List (ByteStr × Ref)} (h : m1.map Prod.fst = m2.map Prod.fst)
    (p : ByteStr) :
    (m1.filter (fun e => e.1 ≠ p)).map Prod.fst = (m2.filter (fun e => e.1 ≠ p)).map Prod.fst := by
  induction m1 generalizing m2 with
  | nil =>
    cases m2 with
    | nil => rfl
    | cons b m2 => simp at h
  | cons a m1 ih =>
    cases m2 with
    | nil => simp at h
    | cons b m2 =>
      simp only [List.map_cons, List.cons.injEq] at h
      obtain ⟨h1, h2⟩ := h
      simp only [List.filter_cons, h1]
      split
      · simp only [List.map_cons, h1, ih h2]
      · exact ih h2

theorem lockstep_cacheAdd (p : ByteStr) (v1 v2 : Ref) :
    Lockstep SameObs Eq (cacheAdd p v1) (cacheAdd p v2) :=
  lockstep_total (fun w1 w2 hw => ⟨_, _, _, _, cacheAdd_apply p v1 w1, cacheAdd_apply p v2 w2, rfl,
    by
      show (Map.Add w1.cache p v1).map Prod.fst = (Map.Add w2.cache p v2).map Prod.fst
      simp only [Map.Add, List.map_cons, keys_filter_of_keys hw.1 p],
    hw.2⟩)

theorem lockstep_fileExist (env : Env) (p : ByteStr) :
    Lockstep SameObs Eq (File.Exist env p) (File.Exist env p) :=
  lockstep_total (fun w1 w2 hw => ⟨_, _, _, _, File.Exist_apply env p w1, File.Exist_apply env p w2,
    rfl, hw.1, by show w1.trace ++ _ = w2.trace ++ _; rw [hw.2]⟩)

theorem lockstep_fileReadAllBytes (env : Env) (p : ByteStr) :
    Lockstep SameObs Eq (File.ReadAllBytes env p) (File.ReadAllBytes env p) :=
  lockstep_total (fun w1 w2 hw => ⟨_, _, _, _, File.ReadAllBytes_apply env p w1,
    File.ReadAllBytes_apply env p w2, rfl, hw.1, by show w1.trace ++ _ = w2.trace ++ _; rw [hw.2]⟩)

theorem lockstep_shaderFind (env env2 : Env) (n : ByteStr) :
    Lockstep SameObs AnyVal (Shader.Find env n) (Shader.Find env2 n) :=
  lockstep_total (fun w1 w2 hw => ⟨_, _, _, _, Find_apply env n w1, Find_apply env2 n w2,
    trivial, hw.1, by show w1.trace ++ _ = w2.trace ++ _; rw [hw.2]⟩)

theorem lockstep_modifyObj {r1 r2 : Ref} (h : r1.isSome = r2.isSome) (f1 f2 : Obj → Obj) :
    Lockstep SameObs Eq (modifyObj r1 f1) (modifyObj r2 f2) := by
  intro w1 w2 hw
  cases r1 with
  | none =>
    cases r2 with
    | none =>
      rw [modifyObj_none_apply, modifyObj_none_apply]
      exact ⟨rfl, hw⟩
    | some j => cases h
  | some i =>
    cases r2 with
    | none => cases h
    | some j =>
      rw [modifyObj_some_apply, modifyObj_some_apply]
      exact ⟨rfl, hw.1, hw.2⟩

/-- A setter behind a null check runs alike whatever the two materials are. -/
theorem lockstep_guard (m1 m2 : Ref) (f1 f2 : Obj → Obj) :
    Lockstep SameObs Eq (if m1.isSome = true then modifyObj m1 f1 else pure ())
      (if m2.isSome = true then modifyObj m2 f2 else pure ()) := by
  intro w1 w2 hw
  cases m1 <;> cases m2 <;>
    simp only [Option.isSome_none, Option.isSome_some, if_true, if_false, Bool.false_eq_true,
      modifyObj_some_apply, M.pure_apply] <;>
    exact ⟨rfl, hw.1, hw.2⟩

theorem lockstep_setIfSome (m1 m2 : Ref) (c1 c2 : Bool) (f1 f2 : Obj → Obj) :
    Lockstep SameObs Eq (if (m1.isSome && c1) = true then modifyObj m1 f1 else pure ())
      (if (m2.isSome && c2) = true then modifyObj m2 f2 else pure ()) := by
  intro w1 w2 hw
  cases m1 <;> cases m2 <;> cases c1 <;> cases c2 <;>
    simp only [Option.isSome_none, Option.isSome_some, Bool.and_true, Bool.and_false,
      Bool.false_and, Bool.true_and, if_true, if_false, Bool.false_eq_true,
      modifyObj_some_apply, M.pure_apply] <;>
    exact ⟨rfl, hw.1, hw.2⟩

theorem lockstep_loadTexture2D (env : Env) (file : ByteStr) (f wr : Int) (m : Bool) :
    Lockstep SameObs (fun a b => a.isSome = b.isSome) (Texture.LoadTexture2DFromFile env file f wr m)
      (Texture.LoadTexture2DFromFile env file f wr m) := by
  intro w1 w2 hw
  rw [LoadTexture2DFromFile_apply, LoadTexture2DFromFile_apply]
  split
  · exact ⟨rfl, hw.1, by show w1.trace ++ _ = w2.trace ++ _; rw [hw.2]⟩
  · exact ⟨rfl, hw.1, by show w1.trace ++ _ = w2.trace ++ _; rw [hw.2]⟩

/-- The sidecar parser of a texture runs alike from states that show the same. -/
theorem lockstep_ReadTextureFile (env : Env) (ms : MemoryStream) :
    Lockstep SameObs (fun a b => a.2 = b.2) (ReadTextureFile env ms) (ReadTextureFile env ms) := by
  unfold ReadTextureFile
  refine lockstep_bind_eq (lockstep_liftE _) ?_
  rintro ⟨texture_name, ms1⟩
  refine lockstep_bind_eq (lockstep_liftE _) ?_
  rintro ⟨width, ms2⟩
  refine lockstep_bind_eq (lockstep_liftE _) ?_
  rintro ⟨height, ms3⟩
  refine lockstep_bind_eq (lockstep_liftE _) ?_
  rintro ⟨wrap_mode, ms4⟩
  refine lockstep_bind_eq (lockstep_liftE _) ?_
  rintro ⟨filter_mode, ms5⟩
  refine lockstep_bind_eq (lockstep_liftE _) ?_
  rintro ⟨texture_type, ms6⟩
  dsimp only
  split
  · refine lockstep_bind_eq (lockstep_liftE _) ?_
    rintro ⟨mipmap_count, ms7⟩
    refine lockstep_bind_eq (lockstep_liftE _) ?_
    rintro ⟨png_path, ms8⟩
    refine lockstep_bind (lockstep_loadTexture2D _ _ _ _ _) ?_
    intro a b hab
    refine lockstep_bind_eq (lockstep_modifyObj hab _ _) ?_
    intro _
    exact lockstep_pure rfl
  · exact lockstep_pure rfl

/-- `ReadTexture` runs alike from states that show the same. -/
theorem lockstep_ReadTexture (env : Env) (p : ByteStr) :
    Lockstep SameObs AnyVal (ReadTexture env p) (ReadTexture env p) := by
  unfold ReadTexture
  refine lockstep_bind_eq (lockstep_cacheContains _) ?_
  intro cached
  split
  · refine lockstep_bind_any (lockstep_cacheGet _) ?_
    intro a b
    exact lockstep_RefCast _ _ _ _
  · refine lockstep_bind_eq (lockstep_fileExist _ _) ?_
    intro exist
    refine lockstep_bind (Q := AnyVal) ?_ ?_
    · split
      · refine lockstep_bind_eq (lockstep_fileReadAllBytes _ _) ?_
        intro bytes
        refine lockstep_bind (lockstep_ReadTextureFile _ _) ?_
        rintro ⟨t1, m1⟩ ⟨t2, m2⟩ _
        exact lockstep_pure trivial
      · exact lockstep_pure trivial
    · intro a b _
      refine lockstep_bind_eq (lockstep_cacheAdd _ _ _) ?_
      intro _
      exact lockstep_pure trivial

/-! ## A material whose shader does not resolve -/

/-- The property loop runs alike whatever the material is: with no material the
setters are left out, and nothing else. -/
theorem lockstep_ReadMaterialPropertiesCalls (env : Env) (m1 m2 : Ref) (count : Nat)
    (ms : MemoryStream) :
    Lockstep SameObs Eq (ReadMaterialPropertiesCalls env m1 count ms)
      (ReadMaterialPropertiesCalls env m2 count ms) := by
  induction count generalizing ms with
  | zero =>
    rw [ReadMaterialPropertiesCalls, ReadMaterialPropertiesCalls]
    exact lockstep_pure rfl
  | succ n ih =>
    rw [ReadMaterialPropertiesCalls, ReadMaterialPropertiesCalls]
    refine lockstep_bind_eq (lockstep_liftE _) ?_
    rintro ⟨property_name, ms1⟩
    refine lockstep_bind_eq (lockstep_liftE _) ?_
    rintro ⟨property_type, ms2⟩
    dsimp only
    refine lockstep_bind_eq ?_ ?_
    · cases env.propertyType property_type
      · dsimp only
        refine lockstep_bind_eq (lockstep_liftE _) ?_
        rintro ⟨value, ms3⟩
        refine lockstep_bind_eq (lockstep_guard _ _ _ _) ?_
        intro _
        exact lockstep_pure rfl
      · dsimp only
        refine lockstep_bind_eq (lockstep_liftE _) ?_
        rintro ⟨value, ms3⟩
        refine lockstep_bind_eq (lockstep_guard _ _ _ _) ?_
        intro _
        exact lockstep_pure rfl
      · dsimp only
        refine lockstep_bind_eq (lockstep_liftE _) ?_
        rintro ⟨value, ms3⟩
        refine lockstep_bind_eq (lockstep_guard _ _ _ _) ?_
        intro _
        exact lockstep_pure rfl
      · dsimp only
        refine lockstep_bind_eq (lockstep_liftE _) ?_
        rintro ⟨value, ms3⟩
        refine lockstep_bind_eq (lockstep_guard _ _ _ _) ?_
        intro _
        exact lockstep_pure rfl
      · dsimp only
        refine lockstep_bind_eq (lockstep_liftE _) ?_
        rintro ⟨uv, ms3⟩
        refine lockstep_bind_eq (lockstep_liftE _) ?_
        rintro ⟨texture_path, ms4⟩
        dsimp only
        split
        · refine lockstep_bind_any (lockstep_ReadTexture _ _) ?_
          intro t1 t2
          refine lockstep_bind_eq (lockstep_setIfSome _ _ _ _ _ _) ?_
          intro _
          exact lockstep_pure rfl
        · exact lockstep_pure rfl
      · exact lockstep_pure rfl
    · rintro ⟨ms3, calls⟩
      refine lockstep_bind_eq (ih ms3) ?_
      rintro ⟨ms4, later⟩
      exact lockstep_pure rfl

/-- The property loop with the record of its calls is the property loop. -/
theorem erase_ReadMaterialPropertiesCalls (env : Env) (material : Ref) (count : Nat)
    (ms : MemoryStream) :
    Lockstep Eq (fun a b => a = b.1) (ReadMaterialProperties env material count ms)
      (ReadMaterialPropertiesCalls env material count ms) := by
  induction count generalizing ms with
  | zero =>
    rw [ReadMaterialProperties, ReadMaterialPropertiesCalls]
    exact lockstep_pure rfl
  | succ n ih =>
    rw [ReadMaterialProperties, ReadMaterialPropertiesCalls]
    refine lockstep_bind_eq (lockstep_refl _) ?_
    rintro ⟨property_name, ms1⟩
    refine lockstep_bind_eq (lockstep_refl _) ?_
    rintro ⟨property_type, ms2⟩
    dsimp only
    refine lockstep_bind (Q := fun a b => a = b.1) ?_ ?_
    · cases env.propertyType property_type
      · dsimp only
        refine lockstep_bind_eq (lockstep_refl _) ?_
        rintro ⟨value, ms3⟩
        refine lockstep_bind_eq (lockstep_refl _) ?_
        intro _
        exact lockstep_pure rfl
      · dsimp only
        refine lockstep_bind_eq (lockstep_refl _) ?_
        rintro ⟨value, ms3⟩
        refine lockstep_bind_eq (lockstep_refl _) ?_
        intro _
        exact lockstep_pure rfl
      · dsimp only
        refine lockstep_bind_eq (lockstep_refl _) ?_
        rintro ⟨value, ms3⟩
        refine lockstep_bind_eq (lockstep_refl _) ?_
        intro _
        exact lockstep_pure rfl
      · dsimp only
        refine lockstep_bind_eq (lockstep_refl _) ?_
        rintro ⟨value, ms3⟩
        refine lockstep_bind_eq (lockstep_refl _) ?_
        intro _
        exact lockstep_pure rfl
      · dsimp only
        refine lockstep_bind_eq (lockstep_refl _) ?_
        rintro ⟨uv, ms3⟩
        refine lockstep_bind_eq (lockstep_refl _) ?_
        rintro ⟨texture_path, ms4⟩
        dsimp only
        by_cases hlen : texture_path.length > 0
        · rw [if_pos hlen, if_pos hlen, M.bind_assoc1]
          refine lockstep_bind_eq (lockstep_refl _) ?_
          intro texture
          refine lockstep_bind_eq (lockstep_refl _) ?_
          intro _
          exact lockstep_pure rfl
        · rw [if_neg hlen, if_neg hlen, M.pure_bind1]
          exact lockstep_pure rfl
      · exact lockstep_pure rfl
    · rintro ms3 ⟨ms3b, calls⟩ h
      dsimp only at h
      subst h
      exact lockstep_bind_pure_right
        (Q := fun (a : MemoryStream) (c : MemoryStream × List ByteStr) => a = c.1)
        (g := fun (b : MemoryStream × List ByteStr) => (b.1, calls ++ b.2)) (ih ms3)

/-- `ReadTexture` does not ask the shader registry. -/
theorem ReadTexture_shaderFind (env : Env) (find : ByteStr → Ref) (p : ByteStr) :
    ReadTexture { env with shaderFind := find } p = ReadTexture env p := by
  with_unfolding_all rfl

theorem File.Exist_shaderFind (env : Env) (find : ByteStr → Ref) (p : ByteStr) :
    File.Exist { env with shaderFind := find } p = File.Exist env p := by
  with_unfolding_all rfl

theorem File.ReadAllBytes_shaderFind (env : Env) (find : ByteStr → Ref) (p : ByteStr) :
    File.ReadAllBytes { env with shaderFind := find } p = File.ReadAllBytes env p := by
  with_unfolding_all rfl

theorem RefCast_shaderFind (env : Env) (find : ByteStr → Ref) (T : ObjKind) (r : Ref) :
    RefCast { env with shaderFind := find } T r = RefCast env T r := by
  with_unfolding_all rfl

theorem fullPath_shaderFind (env : Env) (find : ByteStr → Ref) (p : ByteStr) :
    fullPath { env with shaderFind := find } p = fullPath env p := rfl

/-- The property loop does not ask the shader registry. -/
theorem ReadMaterialPropertiesCalls_shaderFind (env : Env) (find : ByteStr → Ref) (material : Ref)
    (count : Nat) (ms : MemoryStream) :
    ReadMaterialPropertiesCalls { env with shaderFind := find } material count ms
      = ReadMaterialPropertiesCalls env material count ms := by
  induction count generalizing ms with
  | zero => rw [ReadMaterialPropertiesCalls, ReadMaterialPropertiesCalls]
  | succ n ih =>
    rw [ReadMaterialPropertiesCalls, ReadMaterialPropertiesCalls]
    simp only [ReadTexture_shaderFind, ih]

/-- The parser of a material file runs alike with another shader registry: the
stream it leaves and the `ReadTexture` calls it makes are the same. -/
theorem lockstep_ReadMaterialFileCalls (env : Env) (find : ByteStr → Ref) (ms : MemoryStream) :
    Lockstep SameObs (fun a b => a.2 = b.2) (ReadMaterialFileCalls env ms)
      (ReadMaterialFileCalls { env with shaderFind := find } ms) := by
  unfold ReadMaterialFileCalls
  refine lockstep_bind_eq (lockstep_liftE _) ?_
  rintro ⟨material_name, ms1⟩
  refine lockstep_bind_eq (lockstep_liftE _) ?_
  rintro ⟨shader_name, ms2⟩
  refine lockstep_bind_eq (lockstep_liftE _) ?_
  rintro ⟨property_count, ms3⟩
  dsimp only
  refine lockstep_bind_any (lockstep_shaderFind _ _ _) ?_
  intro s1 s2
  refine lockstep_bind_any (Q := AnyVal) ?_ ?_
  · intro w1 w2 hw
    cases s1 <;> cases s2 <;>
      simp only [M.bind_apply, allocObj_apply, Res.andThen_ok, modifyObj_some_apply,
        M.pure_apply] <;>
      exact ⟨trivial, hw.1, hw.2⟩
  · intro m1 m2
    simp only [ReadMaterialPropertiesCalls_shaderFind]
    refine lockstep_bind_eq (lockstep_ReadMaterialPropertiesCalls env m1 m2 _ _) ?_
    rintro ⟨ms4, calls⟩
    exact lockstep_pure rfl

/-- The parser with the record of the calls is the parser of `ReadMaterial`. -/
theorem erase_ReadMaterialFileCalls (env : Env) (ms : MemoryStream) :
    Lockstep Eq (fun a b => a = (b.1, b.2.1)) (ReadMaterialFile env ms)
      (ReadMaterialFileCalls env ms) := by
  unfold ReadMaterialFile ReadMaterialFileCalls
  refine lockstep_bind_eq (lockstep_refl _) ?_
  rintro ⟨material_name, ms1⟩
  refine lockstep_bind_eq (lockstep_refl _) ?_
  rintro ⟨shader_name, ms2⟩
  refine lockstep_bind_eq (lockstep_refl _) ?_
  rintro ⟨property_count, ms3⟩
  dsimp only
  refine lockstep_bind_eq (lockstep_refl _) ?_
  intro shader
  refine lockstep_bind_eq (lockstep_refl _) ?_
  intro material
  refine lockstep_bind (erase_ReadMaterialPropertiesCalls env material _ _) ?_
  rintro ms4 ⟨ms4b, calls⟩ h
  dsimp only at h
  subst h
  exact lockstep_pure rfl

/-- `ReadMaterial` runs alike with another shader registry. -/
theorem lockstep_ReadMaterial (env : Env) (find : ByteStr → Ref) (p : ByteStr) :
    Lockstep SameObs AnyVal (ReadMaterial env p) (ReadMaterial { env with shaderFind := find } p) := by
  have hfile : ∀ ms, Lockstep SameObs AnyVal (ReadMaterialFile env ms)
      (ReadMaterialFile { env with shaderFind := find } ms) := fun ms =>
    lockstep_mono (fun _ _ _ => trivial)
      (lockstep_comp_right
        (lockstep_comp_left (erase_ReadMaterialFileCalls env ms)
          (lockstep_ReadMaterialFileCalls env find ms))
        (erase_ReadMaterialFileCalls { env with shaderFind := find } ms))
  unfold ReadMaterial
  simp only [File.Exist_shaderFind, File.ReadAllBytes_shaderFind, RefCast_shaderFind,
    fullPath_shaderFind]
  refine lockstep_bind_eq (lockstep_cacheContains _) ?_
  intro cached
  split
  · refine lockstep_bind_any (lockstep_cacheGet _) ?_
    intro a b
    exact lockstep_RefCast _ _ _ _
  · refine lockstep_bind_eq (lockstep_fileExist _ _) ?_
    intro exist
    refine lockstep_bind_any (Q := AnyVal) ?_ ?_
    · split
      · refine lockstep_bind_eq (lockstep_fileReadAllBytes _ _) ?_
        intro bytes
        refine lockstep_bind_any (hfile _) ?_
        rintro ⟨t1, m1⟩ ⟨t2, m2⟩
        exact lockstep_pure trivial
      · exact lockstep_pure trivial
    · intro a b
      refine lockstep_bind_eq (lockstep_cacheAdd _ _ _) ?_
      intro _
      exact lockstep_pure trivial

/-- With a shader name that does not resolve, the parser of a material file
returns no material. -/
theorem ReadMaterialFile_unresolved {env : Env} {bytes ms1 ms2 ms3 : MemoryStream}
    {material_name shader_name : ByteStr} {w w1 : World} {r : Ref}
    (hname : ReadString bytes = .ok (material_name, ms1))
    (hshader : ReadString ms1 = .ok (shader_name, ms2))
    (hnone : env.shaderFind shader_name = none)
    (h : ReadMaterialFile env bytes w = .ok (r, ms3) w1) : r = none := by
  unfold ReadMaterialFile at h
  simp only [M.bind_apply, hname, hshader, liftE_ok, Res.andThen_ok, Res.andThen_eq_ok,
    liftE_eq_ok, Find_apply, hnone, M.pure_apply, Res.ok.injEq, Prod.mk.injEq] at h
  obtain ⟨a, w2, -, b, w3, -, h3⟩ := h
  exact h3.1.1.symm

/-- C12: for a material file that is read because the path is not cached and
whose shader name does not resolve in the shader registry, `ReadMaterial`
returns the empty material when it returns; and its run cannot be told from the
run of the same file with any other shader registry, one in which the shader
resolves included: both runs return or both fail with the same error, they
leave the same stream (so they take the same number of bytes), they make the
same `ReadTexture` calls in the same order, they make the same file-system and
collaborator calls, and the cache ends with the same keys. -/
theorem unresolved_shader_same_run (env : Env) (find : ByteStr → Ref) (path : ByteStr)
    (bytes ms1 ms2 : MemoryStream) (material_name shader_name : ByteStr) (w : World)
    (hmiss : w.cache.lookup path = none) (hfile : env.files (fullPath env path) = some bytes)
    (hname : ReadString bytes = .ok (material_name, ms1))
    (hshader : ReadString ms1 = .ok (shader_name, ms2))
    (hnone : env.shaderFind shader_name = none) :
    (∀ r w1, ReadMaterial env path w = .ok r w1 → r = none) ∧
    Alike SameObs AnyVal (ReadMaterial env path w)
      (ReadMaterial { env with shaderFind := find } path w) ∧
    Alike SameObs (fun a b => a.2 = b.2) (ReadMaterialFileCalls env bytes (w.opened env path))
      (ReadMaterialFileCalls { env with shaderFind := find } bytes (w.opened env path)) ∧
    Alike Eq (fun a b => a = (b.1, b.2.1)) (ReadMaterialFile env bytes (w.opened env path))
      (ReadMaterialFileCalls env bytes (w.opened env path)) ∧
    Alike Eq (fun a b => a = (b.1, b.2.1))
      (ReadMaterialFile { env with shaderFind := find } bytes (w.opened env path))
      (ReadMaterialFileCalls { env with shaderFind := find } bytes (w.opened env path)) := by
  refine ⟨fun r w1 h => ?_, lockstep_ReadMaterial env find path w w (sameObs_refl w),
    lockstep_ReadMaterialFileCalls env find bytes _ _ (sameObs_refl _),
    erase_ReadMaterialFileCalls env bytes _ _ rfl,
    erase_ReadMaterialFileCalls { env with shaderFind := find } bytes _ _ rfl⟩
  rw [ReadMaterial_miss_present env path w bytes hmiss hfile] at h
  obtain ⟨a, w2, h1, h2⟩ := Res.andThen_eq_ok.mp h
  obtain ⟨m, ms3⟩ := a
  cases h2
  exact ReadMaterialFile_unresolved hname hshader hnone h1

/-- The example material file with a registry that knows no shader, and with the
registry of the example environment: the material is empty in the first run and
the object 0 in the second; both runs leave no byte of the file, call
`ReadTexture` once, for the path `t`, and end with the keys `m` and `t` in the
cache. -/
theorem unresolved_shader_same_run_witness :
    (ReadMaterial noShaderEnv (ascii "m") World.initial).world.cache.map Prod.fst
      = [ascii "m", ascii "t"] ∧
    (ReadMaterial demoEnv (ascii "m") World.initial).world.cache.map Prod.fst
      = [ascii "m", ascii "t"] ∧
    ReadMaterialFileCalls noShaderEnv (demoMaterialFile "M") World.initial
      = .ok (none, [], [ascii "t"])
          (ReadMaterialFileCalls noShaderEnv (demoMaterialFile "M") World.initial).world ∧
    ReadMaterialFileCalls demoEnv (demoMaterialFile "M") World.initial
      = .ok (some 0, [], [ascii "t"])
          (ReadMaterialFileCalls demoEnv (demoMaterialFile "M") World.initial).world ∧
    ∀ r w1, ReadMaterial noShaderEnv (ascii "m") World.initial = .ok r w1 → r = none :=
  ⟨by decide!, by decide!, by decide!, by decide!,
    (unresolved_shader_same_run noShaderEnv demoEnv.shaderFind (ascii "m") (demoMaterialFile "M")
      ((demoMaterialFile "M").drop 5) ((demoMaterialFile "M").drop 10) (ascii "M") (ascii "s")
      World.initial (by decide!) (by decide!) (by decide!) (by decide!) (by decide!)).1⟩

/-! ## Cache entries and the classes of objects -/

theorem Read_length {n : Nat} {ms ms1 : MemoryStream} {bs : Raw}
    (h : MemoryStream.Read n ms = .ok (bs, ms1)) : ms1.length + n = ms.length := by
  unfold MemoryStream.Read at h
  split at h
  · cases h
    simp only [List.length_drop]
    omega
  · cases h

theorem ReadInt_length {ms ms1 : MemoryStream} {n : Int}
    (h : MemoryStream.ReadInt ms = .ok (n, ms1)) : ms1.length + 4 = ms.length := by
  obtain ⟨h1, -, -⟩ := ReadInt_eq_ok h
  rw [h1, List.length_append, length_encInt32]
  omega

theorem ReadByte_length {ms ms1 : MemoryStream} {b : Byte}
    (h : MemoryStream.ReadByte ms = .ok (b, ms1)) : ms1.length + 1 = ms.length := by
  unfold MemoryStream.ReadByte at h
  split at h
  · cases h
    rfl
  · cases h

theorem ReadString_length {ms ms1 : MemoryStream} {s : ByteStr}
    (h : ReadString ms = .ok (s, ms1)) : ms1.length + 4 ≤ ms.length := by
  obtain ⟨h1, -⟩ := ReadString_eq_ok h
  rw [h1, List.length_append]
  unfold encString
  rw [List.length_append, length_encInt32]
  omega

theorem ReadBonePaths_length {count : Nat} {ms ms1 : MemoryStream} {bones : List ByteStr}
    (h : ReadBonePaths count ms = .ok (bones, ms1)) : ms1.length ≤ ms.length := by
  obtain ⟨-, h1, -⟩ := ReadBonePaths_eq_ok h
  rw [h1, List.length_append]
  omega

theorem ReadKeys_length {count : Nat} {ms ms1 : MemoryStream} {keys : List Keyframe}
    (h : ReadKeys count ms = .ok (keys, ms1)) : ms1.length ≤ ms.length := by
  induction count generalizing ms keys with
  | zero =>
    rw [ReadKeys] at h
    cases h
    exact le_refl _
  | succ n ih =>
    rw [ReadKeys] at h
    split at h
    · cases h
    · next t m1 h1 =>
      split at h
      · cases h
      · next v m2 h2 =>
        split at h
        · cases h
        · next a m3 h3 =>
          split at h
          · cases h
          · next b m4 h4 =>
            split at h
            · cases h
            · next ks m5 h5 =>
              cases h
              have := ih h5
              have := Read_length h1
              have := Read_length h2
              have := Read_length h3
              have := Read_length h4
              omega

theorem ReadCurveEntries_length {count : Nat} {ms ms1 : MemoryStream} {es : List CurveEntry}
    (h : ReadCurveEntries count ms = .ok (es, ms1)) : ms1.length ≤ ms.length := by
  induction count generalizing ms es with
  | zero =>
    rw [ReadCurveEntries] at h
    cases h
    exact le_refl _
  | succ n ih =>
    rw [ReadCurveEntries] at h
    split at h
    · cases h
    · next p m1 h1 =>
      split at h
      · cases h
      · next t m2 h2 =>
        split at h
        · cases h
        · next kc m3 h3 =>
          split at h
          · cases h
          · next ks m4 h4 =>
            split at h
            · cases h
            · next r m5 h5 =>
              cases h
              have := ih h5
              have := ReadString_length h1
              have := ReadInt_length h2
              have := ReadInt_length h3
              have := ReadKeys_length h4
              omega

theorem ReadClipRecords_length {count : Nat} {ms ms1 : MemoryStream} {cs : List ClipRecord}
    (h : ReadClipRecords count ms = .ok (cs, ms1)) : ms1.length ≤ ms.length := by
  induction count generalizing ms cs with
  | zero =>
    rw [ReadClipRecords] at h
    cases h
    exact le_refl _
  | succ n ih =>
    rw [ReadClipRecords] at h
    split at h
    · cases h
    · next p m1 h1 =>
      split at h
      · cases h
      · next l m2 h2 =>
        split at h
        · cases h
        · next f m3 h3 =>
          split at h
          · cases h
          · next wm m4 h4 =>
            split at h
            · cases h
            · next cc m5 h5 =>
              split at h
              · cases h
              · next es m6 h6 =>
                split at h
                · cases h
                · next r m7 h7 =>
                  cases h
                  have := ih h7
                  have := ReadString_length h1
                  have := Read_length h2
                  have := Read_length h3
                  have := ReadInt_length h4
                  have := ReadInt_length h5
                  have := ReadCurveEntries_length h6
                  omega

theorem ReadClips_length {count : Nat} {ms ms1 : MemoryStream} {clips : List AnimationClip}
    (h : ReadClips count ms = .ok (clips, ms1)) : ms1.length ≤ ms.length := by
  rw [ReadClips_eq_records] at h
  cases hr : ReadClipRecords count ms with
  | error e => rw [hr] at h; cases h
  | ok a =>
    obtain ⟨rs, ms2⟩ := a
    rw [hr] at h
    cases h
    exact ReadClipRecords_length hr

theorem ReadRendererMaterials_length {env : Env} {renderer count : Nat} {ms ms1 : MemoryStream}
    {w w1 : World} (h : ReadRendererMaterials env renderer count ms w = .ok ms1 w1) :
    ms1.length ≤ ms.length := by
  induction count generalizing ms w with
  | zero =>
    rw [ReadRendererMaterials] at h
    cases h
    exact le_refl _
  | succ n ih =>
    rw [ReadRendererMaterials] at h
    simp only [M.bind_apply, Res.andThen_eq_ok, liftE_eq_ok] at h
    obtain ⟨a, _, ⟨h1, rfl⟩, u, w2, -, hrec⟩ := h
    have := ih hrec
    have := ReadString_length h1
    omega

theorem ReadRenderer_length {env : Env} {renderer : Nat} {ms ms1 : MemoryStream} {w w1 : World}
    (h : ReadRenderer env ms renderer w = .ok ms1 w1) : ms1.length ≤ ms.length := by
  unfold ReadRenderer at h
  simp only [M.bind_apply, Res.andThen_eq_ok, liftE_eq_ok] at h
  obtain ⟨a1, _, ⟨h1, rfl⟩, a2, _, ⟨h2, rfl⟩, a3, _, ⟨h3, rfl⟩, a4, _, ⟨h4, rfl⟩,
    a5, _, ⟨h5, rfl⟩, hrec⟩ := h
  have := ReadRendererMaterials_length hrec
  have := ReadInt_length h1
  have := Read_length h2
  have := ReadByte_length h3
  have := ReadByte_length h4
  have := ReadInt_length h5
  omega

theorem ReadMeshRenderer_length {env : Env} {renderer : Nat} {ms ms1 : MemoryStream}
    {w w1 : World} (h : ReadMeshRenderer env ms renderer w = .ok ms1 w1) :
    ms1.length ≤ ms.length := by
  unfold ReadMeshRenderer at h
  simp only [M.bind_apply, Res.andThen_eq_ok, liftE_eq_ok, M.pure_apply, Res.ok.injEq] at h
  obtain ⟨m1, w2, h1, a2, _, ⟨h2, rfl⟩, mesh, w3, -, u, w4, -, rfl, -⟩ := h
  have := ReadRenderer_length h1
  have := ReadString_length h2
  omega

theorem ReadSkinnedMeshRenderer_length {env : Env} {renderer : Nat} {ms ms1 : MemoryStream}
    {w w1 : World} (h : ReadSkinnedMeshRenderer env ms renderer w = .ok ms1 w1) :
    ms1.length ≤ ms.length := by
  unfold ReadSkinnedMeshRenderer at h
  simp only [M.bind_apply, Res.andThen_eq_ok, liftE_eq_ok, M.pure_apply, Res.ok.injEq] at h
  obtain ⟨m1, w2, h1, a2, _, ⟨h2, rfl⟩, u, w3, -, a3, _, ⟨h3, rfl⟩, u2, w4, -, rfl, -⟩ := h
  have := ReadMeshRenderer_length h1
  have := ReadInt_length h2
  have := ReadBonePaths_length h3
  omega

theorem ReadAnimation_length {animation : Nat} {ms ms1 : MemoryStream} {w w1 : World}
    (h : ReadAnimation ms animation w = .ok ms1 w1) : ms1.length ≤ ms.length := by
  unfold ReadAnimation at h
  simp only [M.bind_apply, Res.andThen_eq_ok, liftE_eq_ok, M.pure_apply, Res.ok.injEq] at h
  obtain ⟨a1, _, ⟨h1, rfl⟩, u, w2, -, a2, _, ⟨h2, rfl⟩, u2, w3, -, rfl, -⟩ := h
  have := ReadInt_length h1
  have := ReadClips_length h2
  omega

theorem readRecognized_length {env : Env} {parent : Ref} {tag : ByteStr} {ms ms1 : MemoryStream}
    {com : Nat} {w w1 : World} (h : readRecognized env parent tag ms w = .ok (com, ms1) w1) :
    ms1.length ≤ ms.length := by
  unfold readRecognized at h
  split at h
  · simp only [M.bind_apply, Res.andThen_eq_ok, M.pure_apply, Res.ok.injEq, Prod.mk.injEq] at h
    obtain ⟨c, w2, -, m1, w3, h1, ⟨-, rfl⟩, -⟩ := h
    exact ReadMeshRenderer_length h1
  · split at h
    · simp only [M.bind_apply, Res.andThen_eq_ok, M.pure_apply, Res.ok.injEq, Prod.mk.injEq] at h
      obtain ⟨c, w2, -, m1, w3, h1, u, w4, -, ⟨-, rfl⟩, -⟩ := h
      exact ReadSkinnedMeshRenderer_length h1
    · simp only [M.bind_apply, Res.andThen_eq_ok, M.pure_apply, Res.ok.injEq, Prod.mk.injEq] at h
      obtain ⟨c, w2, -, m1, w3, h1, ⟨-, rfl⟩, -⟩ := h
      exact ReadAnimation_length h1

theorem ReadNodeComponents_length {env : Env} {parent : Ref} {count : Nat} {ms ms1 : MemoryStream}
    {node r : Ref} {w w1 : World}
    (h : ReadNodeComponents env parent count ms node w = .ok (r, ms1) w1) :
    ms1.length ≤ ms.length := by
  induction count generalizing ms node w with
  | zero =>
    rw [ReadNodeComponents_zero] at h
    cases h
    exact le_refl _
  | succ n ih =>
    cases hs : ReadString ms with
    | error e =>
      rw [ReadNodeComponents_unreadable env parent n ms node w e hs] at h
      cases h
    | ok a =>
      obtain ⟨tag, ms2⟩ := a
      have hl := ReadString_length hs
      cases ht : recognizedTag tag with
      | false =>
        rw [ReadNodeComponents_unrecognized env parent n ms ms2 tag node w hs ht] at h
        have := ih h
        omega
      | true =>
        rw [ReadNodeComponents_recognized env parent n ms ms2 tag node w hs ht] at h
        split at h
        · obtain ⟨a, w2, h1, h2⟩ := Res.andThen_eq_ok.mp h
          obtain ⟨com, ms3⟩ := a
          have := readRecognized_length h1
          have := ih h2
          simp only at this
          omega
        · cases h

/-- The reading of a node record that returns has made one node and has taken at
least 53 bytes: the size of the name, the layer, the active flag, the transform
and the component count. -/
theorem ReadNodeHead_size {env : Env} {ms ms1 : MemoryStream} {parent : Ref} {w w1 : World}
    {c : Nat} (h : ReadNodeHead env ms parent w = .ok (c, ms1) w1) :
    ms1.length + 53 ≤ ms.length ∧ w1.nodes.length = w.nodes.length + 1 ∧ c = w.nodes.length := by
  unfold ReadNodeHead at h
  simp only [M.bind_apply, Res.andThen_eq_ok, liftE_eq_ok] at h
  obtain ⟨a1, _, ⟨k1, rfl⟩, a2, _, ⟨k2, rfl⟩, a3, _, ⟨k3, rfl⟩, a4, _, ⟨k4, rfl⟩, a5, _, ⟨k5, rfl⟩,
    a6, _, ⟨k6, rfl⟩, a7, _, ⟨k7, rfl⟩, a8, w2, hcomp, node, w3, hnode, u, w4, hlink,
    u1, w5, h5, u2, w6, h6, u3, w7, h7, u4, w8, h8, h⟩ := h
  simp only [modifyNode_apply, Res.ok.injEq, true_and] at h5 h6 h7 h8
  simp only [M.pure_apply, Res.ok.injEq, Prod.mk.injEq] at h
  obtain ⟨⟨rfl, rfl⟩, rfl⟩ := h
  subst h8 h7 h6 h5
  have hlen : a8.2.length + 53 ≤ ms.length := by
    have := ReadString_length k1
    have := ReadInt_length k2
    have := ReadByte_length k3
    have := Read_length k4
    have := Read_length k5
    have := Read_length k6
    have := ReadInt_length k7
    have := ReadNodeComponents_length (show ReadNodeComponents _ _ _ _ _ _ = .ok (a8.1, a8.2) _ from hcomp)
    omega
  have hmid : node = w.nodes.length ∧ w3.nodes.length = w.nodes.length + 1 := by
    obtain ⟨com, ms2⟩ := a8
    rcases ReadNodeComponents_none_ok hcomp with ⟨rfl, rfl⟩ | ⟨tag, ms3, ms4, com1, hr, rfl⟩
    · simp only [RefMakeNode_apply, Res.ok.injEq] at hnode
      obtain ⟨rfl, rfl⟩ := hnode
      exact ⟨rfl, by simp⟩
    · simp only [M.pure_apply, Res.ok.injEq] at hnode
      obtain ⟨rfl, rfl⟩ := hnode
      obtain ⟨h1, r, h2, -⟩ := readRecognized_ok hr
      exact ⟨h1, by rw [h2]; simp⟩
  obtain ⟨rfl, hn3⟩ := hmid
  refine ⟨hlen, ?_, rfl⟩
  cases parent with
  | none =>
    simp only [M.pure_apply, Res.ok.injEq, true_and] at hlink
    subst hlink
    simp only [length_updateAt, hn3]
  | some p =>
    simp only [SetParent_apply, Res.ok.injEq, true_and] at hlink
    subst hlink
    simp only [length_updateAt, hn3]

/-- The child loop over a reader that pays 57 bytes for every node it makes. -/
theorem ReadNodeChildren_size {rd : MemoryStream → Ref → M (Nat × MemoryStream)}
    (hrd : ∀ ms parent w c ms1 w1, rd ms parent w = .ok (c, ms1) w1 →
      w.nodes.length + 1 ≤ w1.nodes.length ∧
        57 * w1.nodes.length + ms1.length ≤ 57 * w.nodes.length + ms.length)
    {node count : Nat} {ms ms1 : MemoryStream} {w w1 : World}
    (h : ReadNodeChildren rd node count ms w = .ok ms1 w1) :
    w.nodes.length ≤ w1.nodes.length ∧
      57 * w1.nodes.length + ms1.length ≤ 57 * w.nodes.length + ms.length := by
  induction count generalizing ms w with
  | zero =>
    rw [ReadNodeChildren] at h
    cases h
    exact ⟨le_refl _, le_refl _⟩
  | succ n ih =>
    rw [ReadNodeChildren, M.bind_apply] at h
    obtain ⟨a, w2, h1, h2⟩ := Res.andThen_eq_ok.mp h
    obtain ⟨c, ms2⟩ := a
    obtain ⟨k1, k2⟩ := hrd _ _ _ _ _ _ h1
    obtain ⟨k3, k4⟩ := ih h2
    exact ⟨by omega, by omega⟩

/-- Every call of `ReadNode` that returns has made at least one node and has
taken at least 57 bytes from the stream for every node it has made. -/
theorem ReadNode_size (env : Env) (fuel : Nat) :
    ∀ ms parent w c ms1 w1, ReadNode env fuel ms parent w = .ok (c, ms1) w1 →
      w.nodes.length + 1 ≤ w1.nodes.length ∧
        57 * w1.nodes.length + ms1.length ≤ 57 * w.nodes.length + ms.length := by
  induction fuel with
  | zero =>
    intro ms parent w c ms1 w1 h
    rw [ReadNode] at h
    cases h
  | succ k ih =>
    intro ms parent w c ms1 w1 h
    rw [ReadNode_succ] at h
    obtain ⟨a, wh, hh, h2⟩ := Res.andThen_eq_ok.mp h
    obtain ⟨c1, msh⟩ := a
    simp only [M.bind_apply, Res.andThen_eq_ok, liftE_eq_ok, M.pure_apply, Res.ok.injEq,
      Prod.mk.injEq] at h2
    obtain ⟨cnt, _, ⟨hcnt, rfl⟩, ms2, w2, hch, ⟨rfl, rfl⟩, rfl⟩ := h2
    obtain ⟨k1, k2, -⟩ := ReadNodeHead_size hh
    have k3 := ReadInt_length hcnt
    obtain ⟨k4, k5⟩ := ReadNodeChildren_size ih hch
    exact ⟨by omega, by omega⟩

/-! ## The depth bound is the only source of its error -/

theorem noFuel_nullDeref : NoFuel .nullDeref := by simp [NoFuel]

theorem noFuel_badAlloc : NoFuel .badAlloc := by simp [NoFuel]

theorem nofuel_liftE {α : Type} (x : Except Err α) (hx : StreamOnly x) :
    Keeps AnyWorld NoFuel (liftE x) := by
  refine keeps_liftE anyWorld_frame x (fun e he => ?_)
  rcases hx e he with h | h <;> subst h <;> simp [NoFuel]

theorem nofuel_assert (c : Bool) : Keeps AnyWorld NoFuel (assert c) := by
  refine keeps_intro (fun w => ⟨trivial, fun e w1 h => ?_⟩)
  cases c with
  | true => rw [assert_true_apply] at h; cases h
  | false =>
    rw [assert_false_apply] at h
    cases h
    simp [NoFuel]

theorem nofuel_ReadTextureFile (env : Env) (ms : MemoryStream) :
    Keeps AnyWorld NoFuel (ReadTextureFile env ms) := by
  unfold ReadTextureFile
  repeat (first
    | exact anyWorld_of (quiet_loadTexture2D _ _ _ _ _)
    | (refine keeps_bind anyWorld_frame ?_ ?_ <;> [skip; intro _])
    | split
    | exact keeps_pure anyWorld_frame _
    | exact nofuel_liftE _ (by simp)
    | exact anyWorld_of (quiet_modifyObj noFuel_nullDeref _ _ (kind_SetName _)))

theorem nofuel_ReadTexture (env : Env) (p : ByteStr) :
    Keeps AnyWorld NoFuel (ReadTexture env p) := by
  unfold ReadTexture
  repeat (first
    | exact anyWorld_of (quiet_fileExist _ _)
    | exact anyWorld_of (quiet_fileReadAllBytes _ _)
    | exact nofuel_ReadTextureFile _ _
    | (refine keeps_bind anyWorld_frame ?_ ?_ <;> [skip; intro _])
    | split
    | exact keeps_pure anyWorld_frame _
    | exact anyWorld_of (quiet_cacheContains _)
    | exact anyWorld_of (quiet_cacheGet _)
    | exact anyWorld_of (quiet_cacheAdd _ _)
    | exact anyWorld_of (quiet_RefCast _ _ _))

theorem nofuel_ReadMaterialProperties (env : Env) (material : Ref) (count : Nat)
    (ms : MemoryStream) : Keeps AnyWorld NoFuel (ReadMaterialProperties env material count ms) := by
  induction count generalizing ms with
  | zero => unfold ReadMaterialProperties; exact keeps_pure anyWorld_frame _
  | succ n ih =>
    unfold ReadMaterialProperties
    repeat (first
      | exact ih _
      | exact nofuel_ReadTexture _ _
      | (refine keeps_bind anyWorld_frame ?_ ?_ <;> [skip; intro _])
      | split
      | exact keeps_pure anyWorld_frame _
      | exact nofuel_liftE _ (by simp)
      | exact anyWorld_of (quiet_modifyObj noFuel_nullDeref _ _ (kind_SetProperty _ _)))

theorem nofuel_ReadMaterialFile (env : Env) (ms : MemoryStream) :
    Keeps AnyWorld NoFuel (ReadMaterialFile env ms) := by
  unfold ReadMaterialFile
  repeat (first
    | exact anyWorld_of (quiet_shaderFind _ _)
    | exact nofuel_ReadMaterialProperties _ _ _ _
    | (refine keeps_bind anyWorld_frame ?_ ?_ <;> [skip; intro _])
    | split
    | exact keeps_pure anyWorld_frame _
    | exact nofuel_liftE _ (by simp)
    | exact anyWorld_of (quiet_allocObj _)
    | exact anyWorld_of (quiet_modifyObj noFuel_nullDeref _ _ (kind_SetName _)))

theorem nofuel_ReadMaterial (env : Env) (p : ByteStr) :
    Keeps AnyWorld NoFuel (ReadMaterial env p) := by
  unfold ReadMaterial
  repeat (first
    | exact anyWorld_of (quiet_fileExist _ _)
    | exact anyWorld_of (quiet_fileReadAllBytes _ _)
    | exact nofuel_ReadMaterialFile _ _
    | (refine keeps_bind anyWorld_frame ?_ ?_ <;> [skip; intro _])
    | split
    | exact keeps_pure anyWorld_frame _
    | exact anyWorld_of (quiet_cacheContains _)
    | exact anyWorld_of (quiet_cacheGet _)
    | exact anyWorld_of (quiet_cacheAdd _ _)
    | exact anyWorld_of (quiet_RefCast _ _ _))

theorem nofuel_ReadRendererMaterials (env : Env) (n : Nat) (count : Nat) (ms : MemoryStream) :
    Keeps AnyWorld NoFuel (ReadRendererMaterials env n count ms) := by
  induction count generalizing ms with
  | zero => unfold ReadRendererMaterials; exact keeps_pure anyWorld_frame _
  | succ k ih =>
    unfold ReadRendererMaterials
    repeat (first
      | exact ih _
      | exact nofuel_ReadMaterial _ _
      | exact anyWorld_of (payloadOnly_SetMaterial _ _)
      | (refine keeps_bind anyWorld_frame ?_ ?_ <;> [skip; intro _])
      | split
      | exact keeps_pure anyWorld_frame _
      | exact nofuel_liftE _ (by simp))

theorem nofuel_ReadRenderer (env : Env) (ms : MemoryStream) (n : Nat) :
    Keeps AnyWorld NoFuel (ReadRenderer env ms n) := by
  unfold ReadRenderer
  repeat (first
    | exact nofuel_ReadRendererMaterials _ _ _ _
    | (refine keeps_bind anyWorld_frame ?_ ?_ <;> [skip; intro _])
    | split
    | exact keeps_pure anyWorld_frame _
    | exact nofuel_liftE _ (by simp))

theorem nofuel_ReadMeshRenderer (env : Env) (ms : MemoryStream) (n : Nat) :
    Keeps AnyWorld NoFuel (ReadMeshRenderer env ms n) := by
  unfold ReadMeshRenderer
  repeat (first
    | exact nofuel_ReadRenderer _ _ _
    | exact anyWorld_of (quiet_loadMesh _ _)
    | exact keeps_total (fun w => ⟨_, _, modifyNode_apply _ _ w, trivial⟩)
    | (refine keeps_bind anyWorld_frame ?_ ?_ <;> [skip; intro _])
    | split
    | exact keeps_pure anyWorld_frame _
    | exact nofuel_liftE _ (by simp))

theorem nofuel_ReadSkinnedMeshRenderer (env : Env) (ms : MemoryStream) (n : Nat) :
    Keeps AnyWorld NoFuel (ReadSkinnedMeshRenderer env ms n) := by
  unfold ReadSkinnedMeshRenderer
  repeat (first
    | exact nofuel_ReadMeshRenderer _ _ _
    | exact keeps_total (fun w => ⟨_, _, modifyNode_apply _ _ w, trivial⟩)
    | exact keeps_vectorOfSize anyWorld_frame _ noFuel_badAlloc
    | (refine keeps_bind anyWorld_frame ?_ ?_ <;> [skip; intro _])
    | split
    | exact keeps_pure anyWorld_frame _
    | exact nofuel_liftE _ (by simp))

theorem nofuel_ReadAnimation (ms : MemoryStream) (n : Nat) :
    Keeps AnyWorld NoFuel (ReadAnimation ms n) := by
  unfold ReadAnimation
  repeat (first
    | exact keeps_total (fun w => ⟨_, _, modifyNode_apply _ _ w, trivial⟩)
    | exact keeps_vectorOfSize anyWorld_frame _ noFuel_badAlloc
    | (refine keeps_bind anyWorld_frame ?_ ?_ <;> [skip; intro _])
    | split
    | exact keeps_pure anyWorld_frame _
    | exact nofuel_liftE _ (by simp))

theorem nofuel_ReadNodeComponents (env : Env) (parent : Ref) (count : Nat) (ms : MemoryStream)
    (node : Ref) : Keeps AnyWorld NoFuel (ReadNodeComponents env parent count ms node) := by
  induction count generalizing ms node with
  | zero => unfold ReadNodeComponents; exact keeps_pure anyWorld_frame _
  | succ k ih =>
    unfold ReadNodeComponents
    repeat (first
      | exact ih _ _
      | exact nofuel_ReadMeshRenderer _ _ _
      | exact nofuel_ReadSkinnedMeshRenderer _ _ _
      | exact nofuel_ReadAnimation _ _
      | exact nofuel_assert _
      | exact keeps_total (fun w => ⟨_, _, RefMakeNode_apply _ w, trivial⟩)
      | exact keeps_total (fun w => ⟨_, _, modifyNode_apply _ _ w, trivial⟩)
      | exact keeps_total (fun w => ⟨_, _, GetRoot_apply _ w, trivial⟩)
      | (refine keeps_bind anyWorld_frame ?_ ?_ <;> [skip; intro _])
      | split
      | exact keeps_pure anyWorld_frame _
      | exact nofuel_liftE _ (by simp))

theorem nofuel_ReadNodeHead (env : Env) (ms : MemoryStream) (parent : Ref) :
    Keeps AnyWorld NoFuel (ReadNodeHead env ms parent) := by
  unfold ReadNodeHead
  repeat (first
    | exact nofuel_ReadNodeComponents _ _ _ _ _
    | exact keeps_total (fun w => ⟨_, _, RefMakeNode_apply _ w, trivial⟩)
    | exact keeps_total (fun w => ⟨_, _, modifyNode_apply _ _ w, trivial⟩)
    | exact keeps_total (fun w => ⟨_, _, SetParent_apply _ _ w, trivial⟩)
    | (refine keeps_bind anyWorld_frame ?_ ?_ <;> [skip; intro _])
    | split
    | exact keeps_pure anyWorld_frame _
    | exact nofuel_liftE _ (by simp))

/-! ## The recursion of `ReadNode` ends -/

/-- The child loop does not depend on the reader beyond the streams it is given,
when the reader never returns a longer stream. -/
theorem ReadNodeChildren_congr {rd rd2 : MemoryStream → Ref → M (Nat × MemoryStream)} (L : Nat)
    (heq : ∀ ms parent w, ms.length ≤ L → rd ms parent w = rd2 ms parent w)
    (hshrink : ∀ ms parent w c ms1 w1, rd2 ms parent w = .ok (c, ms1) w1 →
      ms1.length ≤ ms.length)
    (node count : Nat) (ms : MemoryStream) (w : World) (hL : ms.length ≤ L) :
    ReadNodeChildren rd node count ms w = ReadNodeChildren rd2 node count ms w := by
  induction count generalizing ms w with
  | zero => rw [ReadNodeChildren, ReadNodeChildren]
  | succ n ih =>
    rw [ReadNodeChildren, ReadNodeChildren, M.bind_apply, M.bind_apply, heq ms _ w hL]
    cases h : rd2 ms (some node) w with
    | error e w2 => rfl
    | ok a w2 =>
      obtain ⟨c, ms2⟩ := a
      have := hshrink _ _ _ _ _ _ h
      simp only [Res.andThen_ok]
      exact ih ms2 w2 (by omega)

/-- The child loop does not fail with the error of the depth bound when the
reader does not on the streams it is given. -/
theorem ReadNodeChildren_noFuel {rd : MemoryStream → Ref → M (Nat × MemoryStream)} (L : Nat)
    (hrd : ∀ ms parent w w1, ms.length ≤ L → rd ms parent w ≠ .error .outOfFuel w1)
    (hshrink : ∀ ms parent w c ms1 w1, rd ms parent w = .ok (c, ms1) w1 →
      ms1.length ≤ ms.length)
    (node count : Nat) (ms : MemoryStream) (w w1 : World) (hL : ms.length ≤ L) :
    ReadNodeChildren rd node count ms w ≠ .error .outOfFuel w1 := by
  induction count generalizing ms w with
  | zero =>
    rw [ReadNodeChildren]
    intro h
    cases h
  | succ n ih =>
    rw [ReadNodeChildren, M.bind_apply]
    intro h
    rcases Res.andThen_eq_error h with h1 | ⟨a, w2, h1, h2⟩
    · exact hrd ms _ w w1 hL h1
    · obtain ⟨c, ms2⟩ := a
      have := hshrink _ _ _ _ _ _ h1
      exact ih ms2 w2 (by omega) h2

/-- A call of `ReadNode` that returns has not made the stream longer. -/
theorem ReadNode_shrinks (env : Env) (fuel : Nat) :
    ∀ ms parent w c ms1 w1, ReadNode env fuel ms parent w = .ok (c, ms1) w1 →
      ms1.length ≤ ms.length := by
  intro ms parent w c ms1 w1 h
  obtain ⟨h1, h2⟩ := ReadNode_size env fuel ms parent w c ms1 w1 h
  omega

/-- With a depth bound above a 57th of the length of the stream, `ReadNode` does
not run out of depth. -/
theorem ReadNode_noFuel (env : Env) (fuel : Nat) :
    ∀ ms parent w w1, ms.length < 57 * fuel →
      ReadNode env fuel ms parent w ≠ .error .outOfFuel w1 := by
  induction fuel with
  | zero =>
    intro ms parent w w1 h
    omega
  | succ k ih =>
    intro ms parent w w1 hlen h
    rw [ReadNode_succ] at h
    rcases Res.andThen_eq_error h with h1 | ⟨a, wh, h1, h2⟩
    · exact keeps_error (nofuel_ReadNodeHead env ms parent) h1 rfl
    · obtain ⟨c, msh⟩ := a
      obtain ⟨k1, -, -⟩ := ReadNodeHead_size h1
      rw [M.bind_apply] at h2
      rcases Res.andThen_eq_error h2 with h3 | ⟨cnt, w3, h3, h4⟩
      · obtain ⟨h5, -⟩ := liftE_apply_eq_error h3
        rcases streamOnly_ReadInt _ _ h5 with h6 | h6 <;> cases h6
      · obtain ⟨h5, rfl⟩ := liftE_eq_ok.mp h3
        have k2 : cnt.2.length + 4 = msh.length := ReadInt_length h5
        rw [M.bind_apply] at h4
        rcases Res.andThen_eq_error h4 with h6 | ⟨ms2, w4, -, h7⟩
        · exact ReadNodeChildren_noFuel cnt.2.length
            (fun ms0 p0 w0 w5 hl => ih ms0 p0 w0 w5 (by omega)) (ReadNode_shrinks env k)
            c cnt.1.toNat cnt.2 _ w1 (le_refl _) h6
        · rw [M.pure_apply] at h7
          cases h7

/-- Two depth bounds above a 57th of the length of the stream give the same
run. -/
theorem ReadNode_fuel_irrelevant (env : Env) (fuel : Nat) :
    ∀ fuel2 ms parent w, ms.length < 57 * fuel → ms.length < 57 * fuel2 →
      ReadNode env fuel ms parent w = ReadNode env fuel2 ms parent w := by
  induction fuel with
  | zero =>
    intro fuel2 ms parent w h
    omega
  | succ k ih =>
    intro fuel2 ms parent w hlen hlen2
    cases fuel2 with
    | zero => omega
    | succ k2 =>
      rw [ReadNode_succ, ReadNode_succ]
      cases hh : ReadNodeHead env ms parent w with
      | error e wh => rfl
      | ok a wh =>
        obtain ⟨c, msh⟩ := a
        obtain ⟨k1, -, -⟩ := ReadNodeHead_size hh
        simp only [Res.andThen_ok, M.bind_apply]
        cases hc : MemoryStream.ReadInt msh with
        | error e => simp only [liftE_error, Res.andThen_error]
        | ok cnt =>
          have k3 : cnt.2.length + 4 = msh.length := ReadInt_length (show MemoryStream.ReadInt msh = .ok (cnt.1, cnt.2) from hc)
          simp only [liftE_ok, Res.andThen_ok]
          rw [M.bind_apply, M.bind_apply, ReadNodeChildren_congr cnt.2.length
            (fun ms0 p0 w0 hl => ih k2 ms0 p0 w0 (by omega) (by omega))
            (ReadNode_shrinks env k2) c cnt.1.toNat cnt.2 wh (le_refl _)]

/-- C21: in the embedding, where a read past the end of the stream fails, every
call of `ReadNode` that returns has advanced the stream by at least 57 bytes
and by at least 57 bytes for every node it has made, its own and those of the
calls under it, so that a stream of `L` bytes gives at most `L / 57` nodes,
whatever child counts it declares. The recursion therefore ends: with any depth
bound above `L / 57` the run does not stop at the bound, and all such bounds
give the same run; the bound that `Resources::Load` passes is one of them, so
that a load never stops at it. -/
theorem ReadNode_terminates (env : Env) (ms : MemoryStream) (parent : Ref) (w : World) :
    (∀ fuel c ms1 w1, ReadNode env fuel ms parent w = .ok (c, ms1) w1 →
      ms1.length + 57 ≤ ms.length ∧
      57 * (w1.nodes.length - w.nodes.length) ≤ ms.length - ms1.length ∧
      w1.nodes.length - w.nodes.length ≤ ms.length / 57) ∧
    (∀ fuel, ms.length < 57 * fuel →
      (∀ w1, ReadNode env fuel ms parent w ≠ .error .outOfFuel w1) ∧
      ∀ fuel2, ms.length < 57 * fuel2 →
        ReadNode env fuel2 ms parent w = ReadNode env fuel ms parent w) ∧
    (∀ path w0 w1, Resources.Load env path w0 ≠ .error .outOfFuel w1) := by
  refine ⟨fun fuel c ms1 w1 h => ?_, fun fuel hlen => ⟨fun w1 =>
    ReadNode_noFuel env fuel ms parent w w1 hlen, fun fuel2 hlen2 =>
    ReadNode_fuel_irrelevant env fuel2 fuel ms parent w hlen2 hlen⟩, fun path w0 w1 h => ?_⟩
  · obtain ⟨h1, h2⟩ := ReadNode_size env fuel ms parent w c ms1 w1 h
    refine ⟨by omega, by omega, ?_⟩
    rw [Nat.le_div_iff_mul_le (by decide)]
    omega
  · cases hf : env.files (fullPath env path) with
    | none =>
      rw [Load_absent env path w0 hf] at h
      cases h
    | some bytes =>
      rw [Load_present env path w0 bytes hf] at h
      split at h
      · cases h
      · next e w2 hrn =>
        cases h
        exact ReadNode_noFuel env _ bytes none _ _ (by omega) hrn

/-- The example scene has three nodes and 311 bytes, more than three times 57;
no byte is left, and a depth bound of 6 and the one of `Load` give the same
run. -/
theorem ReadNode_terminates_witness :
    ReadNode demoEnv 6 demoScene none World.initial
      = .ok (0, []) (ReadNode demoEnv 6 demoScene none World.initial).world ∧
    (ReadNode demoEnv 6 demoScene none World.initial).world.nodes.length = 3 ∧
    demoScene.length = 311 ∧
    ([] : List Byte).length + 57 ≤ demoScene.length ∧
    57 * ((ReadNode demoEnv 6 demoScene none World.initial).world.nodes.length
        - World.initial.nodes.length) ≤ demoScene.length - ([] : List Byte).length ∧
    (ReadNode demoEnv 6 demoScene none World.initial).world.nodes.length
      - World.initial.nodes.length ≤ demoScene.length / 57 ∧
    ReadNode demoEnv (demoScene.length + 1) demoScene none World.initial
      = ReadNode demoEnv 6 demoScene none World.initial :=
  have h := ReadNode_terminates demoEnv demoScene none World.initial
  have h1 := h.1 6 0 [] (ReadNode demoEnv 6 demoScene none World.initial).world (by decide!)
  ⟨by decide!, by decide!, by decide!, h1.1, h1.2.1, h1.2.2,
    (h.2.1 6 (by decide!)).2 (demoScene.length + 1) (by decide!)⟩

/-! ## Runs with a record of calls -/

theorem Logged.pure_run {ε α : Type} (a : α) (w : World) :
    (pure a : Logged ε α) w = (.ok a w, []) := rfl

theorem Logged.bind_run {ε α β : Type} (x : Logged ε α) (f : α → Logged ε β) (w : World) :
    (x >>= f) w = match x w with
      | (.ok a w1, calls) => ((f a w1).1, calls ++ (f a w1).2)
      | (.error e w1, calls) => (.error e w1, calls) := rfl

theorem Logged.lift_run {ε α : Type} (y : M α) (w : World) :
    (MonadLiftT.monadLift y : Logged ε α) w = (y w, []) := rfl

theorem erases_pure {ε α : Type} (a : α) : Erases (pure a : Logged ε α) (pure a) := fun _ => rfl

theorem erases_lift {ε α : Type} (y : M α) : Erases (MonadLiftT.monadLift y : Logged ε α) y :=
  fun _ => rfl

theorem erases_silent {ε α : Type} (y : M α) : Erases (Logged.silent y : Logged ε α) y :=
  fun _ => rfl

theorem erases_bind {ε α β : Type} {x : Logged ε α} {f : α → Logged ε β} {y : M α} {g : α → M β}
    (hx : Erases x y) (hf : ∀ a, Erases (f a) (g a)) : Erases (x >>= f) (y >>= g) := by
  intro w
  rw [Logged.bind_run, M.bind_apply, ← hx w]
  cases hxw : x w with
  | mk r calls =>
    cases r with
    | ok a w1 => exact hf a w1
    | error e w1 => rfl

theorem erases_ReadTextureLog (env : Env) (path : ByteStr) :
    Erases (ReadTextureLog env path) (ReadTexture env path) := fun _ => rfl

theorem erases_intro {ε α : Type} {x : Logged ε α} {y : M α} (h : ∀ w, (x w).1 = y w) :
    Erases x y := h

theorem erases_apply {ε α : Type} {x : Logged ε α} {y : M α} (h : Erases x y) (w : World) :
    (x w).1 = y w := h w

attribute [irreducible] Erases

theorem erases_ReadMaterialPropertiesLog (env : Env) (material : Ref) (count : Nat)
    (ms : MemoryStream) :
    Erases (ReadMaterialPropertiesLog env material count ms)
      (ReadMaterialProperties env material count ms) := by
  induction count generalizing ms with
  | zero =>
    unfold ReadMaterialPropertiesLog ReadMaterialProperties
    exact erases_pure _
  | succ n ih =>
    unfold ReadMaterialPropertiesLog ReadMaterialProperties
    repeat (first
      | exact ih _
      | exact erases_pure _
      | exact erases_lift _
      | exact erases_ReadTextureLog _ _
      | (refine erases_bind ?_ ?_ <;> [skip; intro _])
      | (split <;> try simp only [*]))

theorem erases_ReadMaterialFileLog (env : Env) (ms : MemoryStream) :
    Erases (ReadMaterialFileLog env ms)
      (ReadMaterialFile env ms) := by
  unfold ReadMaterialFileLog ReadMaterialFile
  repeat (first
    | exact erases_pure _
    | exact erases_lift _
    | exact erases_silent _
    | exact erases_ReadMaterialPropertiesLog _ _ _ _
    | (refine erases_bind ?_ ?_ <;> [skip; intro _])
    | (split <;> try simp only [*]))

theorem erases_ReadMaterialLog (env : Env) (path : ByteStr) :
    Erases (ReadMaterialLog env path)
      (ReadMaterial env path) := by
  unfold ReadMaterialLog ReadMaterial
  repeat (first
    | exact erases_pure _
    | exact erases_lift _
    | exact erases_silent _
    | exact erases_ReadMaterialFileLog _ _
    | (refine erases_bind ?_ ?_ <;> [skip; intro _])
    | (split <;> try simp only [*]))

theorem erases_ReadMaterialCall (env : Env) (path : ByteStr) :
    Erases (ReadMaterialCall env path) (ReadMaterial env path) :=
  erases_intro (fun w => erases_apply (erases_ReadMaterialLog env path) w)

theorem erases_ReadRendererMaterialsLog (env : Env) (renderer : Nat) (count : Nat) (ms : MemoryStream) :
    Erases (ReadRendererMaterialsLog env renderer count ms)
      (ReadRendererMaterials env renderer count ms) := by
  induction count generalizing ms with
  | zero =>
    unfold ReadRendererMaterialsLog ReadRendererMaterials
    exact erases_pure _
  | succ n ih =>
    unfold ReadRendererMaterialsLog ReadRendererMaterials
    repeat (first
      | exact ih _ _
      | exact ih _
      | exact erases_pure _
      | exact erases_lift _
      | exact erases_silent _
      | exact erases_ReadMaterialCall _ _
      | (refine erases_bind ?_ ?_ <;> [skip; intro _])
      | (split <;> try simp only [*]))

theorem erases_ReadRendererLog (env : Env) (ms : MemoryStream) (renderer : Nat) :
    Erases (ReadRendererLog env ms renderer)
      (ReadRenderer env ms renderer) := by
  unfold ReadRendererLog ReadRenderer
  repeat (first
    | exact erases_pure _
    | exact erases_lift _
    | exact erases_silent _
    | exact erases_ReadRendererMaterialsLog _ _ _ _
    | (refine erases_bind ?_ ?_ <;> [skip; intro _]))

theorem erases_ReadMeshRendererLog (env : Env) (ms : MemoryStream) (renderer : Nat) :
    Erases (ReadMeshRendererLog env ms renderer)
      (ReadMeshRenderer env ms renderer) := by
  unfold ReadMeshRendererLog ReadMeshRenderer
  repeat (first
    | exact erases_pure _
    | exact erases_lift _
    | exact erases_silent _
    | exact erases_ReadRendererLog _ _ _
    | (refine erases_bind ?_ ?_ <;> [skip; intro _]))

theorem erases_ReadSkinnedMeshRendererLog (env : Env) (ms : MemoryStream) (renderer : Nat) :
    Erases (ReadSkinnedMeshRendererLog env ms renderer)
      (ReadSkinnedMeshRenderer env ms renderer) := by
  unfold ReadSkinnedMeshRendererLog ReadSkinnedMeshRenderer
  repeat (first
    | exact erases_pure _
    | exact erases_lift _
    | exact erases_silent _
    | exact erases_ReadMeshRendererLog _ _ _
    | (refine erases_bind ?_ ?_ <;> [skip; intro _]))

theorem erases_ReadNodeComponentsLog (env : Env) (parent : Ref) (count : Nat) (ms : MemoryStream)
    (node : Ref) :
    Erases (ReadNodeComponentsLog env parent count ms node)
      (ReadNodeComponents env parent count ms node) := by
  induction count generalizing ms node with
  | zero =>
    unfold ReadNodeComponentsLog ReadNodeComponents
    exact erases_pure _
  | succ n ih =>
    unfold ReadNodeComponentsLog ReadNodeComponents
    repeat (first
      | exact ih _ _
      | exact ih _
      | exact erases_pure _
      | exact erases_lift _
      | exact erases_silent _
      | exact erases_ReadMeshRendererLog _ _ _
      | exact erases_ReadSkinnedMeshRendererLog _ _ _
      | (refine erases_bind ?_ ?_ <;> [skip; intro _])
      | (split <;> try simp only [*]))

theorem erases_ReadNodeChildrenLog {rdl : MemoryStream → Ref → Logged MaterialCall (Nat × MemoryStream)}
    {rd : MemoryStream → Ref → M (Nat × MemoryStream)} (h : ∀ ms parent, Erases (rdl ms parent) (rd ms parent))
    (node : Nat) (count : Nat) (ms : MemoryStream) :
    Erases (ReadNodeChildrenLog rdl node count ms) (ReadNodeChildren rd node count ms) := by
  induction count generalizing ms with
  | zero =>
    unfold ReadNodeChildrenLog ReadNodeChildren
    exact erases_pure _
  | succ n ih =>
    unfold ReadNodeChildrenLog ReadNodeChildren
    repeat (first
      | exact ih _
      | exact h _ _
      | (refine erases_bind ?_ ?_ <;> [skip; intro _]))

theorem erases_ReadNodeHeadLog (env : Env) (ms : MemoryStream) (parent : Ref) :
    Erases (ReadNodeHeadLog env ms parent)
      (ReadNodeHead env ms parent) := by
  unfold ReadNodeHeadLog ReadNodeHead
  repeat (first
    | exact erases_pure _
    | exact erases_lift _
    | exact erases_silent _
    | exact erases_ReadNodeComponentsLog _ _ _ _ _
    | (refine erases_bind ?_ ?_ <;> [skip; intro _])
    | (split <;> try simp only [*]))

theorem erases_ReadNodeLog (env : Env) (fuel : Nat) (ms : MemoryStream) (parent : Ref) :
    Erases (ReadNodeLog env fuel ms parent) (ReadNode env fuel ms parent) := by
  induction fuel generalizing ms parent with
  | zero =>
    unfold ReadNodeLog ReadNode
    exact erases_silent _
  | succ n ih =>
    unfold ReadNodeLog ReadNode
    repeat (first
      | exact erases_pure _
      | exact erases_lift _
      | exact erases_ReadNodeHeadLog _ _ _
      | exact erases_ReadNodeChildrenLog ih _ _ _
      | (refine erases_bind ?_ ?_ <;> [skip; intro _]))

theorem erases_LoadLog (env : Env) (path : ByteStr) :
    Erases (Resources.LoadLog env path)
      (Resources.Load env path) := by
  unfold Resources.LoadLog Resources.Load
  repeat (first
    | exact erases_pure _
    | exact erases_lift _
    | exact erases_silent _
    | exact erases_ReadNodeLog _ _ _ _
    | (refine erases_bind ?_ ?_ <;> [skip; intro _])
    | (split <;> try simp only [*]))

/-! ## The relations kept between two calls -/

theorem kindsKept_length {w w1 : World} (h : KindsKept w w1) {i : Nat} (hi : i < w.objects.length) :
    i < w1.objects.length := by
  obtain ⟨o1, h1, -⟩ := h i _ (List.getElem?_eq_getElem hi)
  by_contra hge
  rw [List.getElem?_eq_none (by omega)] at h1
  cases h1

theorem validKept_frame : Frame ValidKept where
  refl := fun w => ⟨kindsKept_frame.refl w, fun h => h⟩
  trans := fun a b c hab hbc =>
    ⟨kindsKept_frame.trans a b c hab.1 hbc.1, fun h => hbc.2 (hab.2 h)⟩

theorem unasked_frame (env : Env) (p : ByteStr) : Frame (Unasked env p) where
  refl := fun _ _ h => ⟨h, rfl⟩
  trans := fun a b c hab hbc hf hc => by
    obtain ⟨h1, h2⟩ := hbc hf hc
    obtain ⟨h3, h4⟩ := hab hf h1
    exact ⟨h3, h2.trans h4⟩

theorem calm_frame : Frame Calm where
  refl := fun w => ⟨rfl, kindsKept_frame.refl w, fun _ => rfl⟩
  trans := fun a b c hab hbc =>
    ⟨hbc.1.trans hab.1, kindsKept_frame.trans a b c hab.2.1 hbc.2.1,
      fun f => (hbc.2.2 f).trans (hab.2.2 f)⟩

theorem kept_frame (env : Env) (p : ByteStr) : Frame (Kept env p) where
  refl := fun w => ⟨validKept_frame.refl w, (entryKept_frame env p).refl w,
    (unasked_frame env p).refl w⟩
  trans := fun a b c hab hbc =>
    ⟨validKept_frame.trans a b c hab.1 hbc.1, (entryKept_frame env p).trans a b c hab.2.1 hbc.2.1,
      (unasked_frame env p).trans a b c hab.2.2 hbc.2.2⟩

theorem keptBut_of_kept {env : Env} {p q : ByteStr} {w w1 : World} (h : Kept env p w w1) :
    KeptBut env p q w w1 := ⟨h.1, h.2.2, fun _ => h.2.1⟩

theorem kept_keptBut {env : Env} {p q : ByteStr} {a b c : World} (hab : Kept env p a b)
    (hbc : KeptBut env p q b c) : KeptBut env p q a c :=
  ⟨validKept_frame.trans a b c hab.1 hbc.1, (unasked_frame env p).trans a b c hab.2.2 hbc.2.1,
    fun h => (entryKept_frame env p).trans a b c hab.2.1 (hbc.2.2 h)⟩

theorem validKept_of_cache_eq {w w1 : World} (hc : w1.cache = w.cache) (hk : KindsKept w w1) :
    ValidKept w w1 := by
  refine ⟨hk, fun hv p i hp => ?_⟩
  rw [hc] at hp
  exact kindsKept_length hk (hv p i hp)

theorem kept_of_calm {env : Env} {p : ByteStr} {w w1 : World} (h : Calm w w1) :
    Kept env p w w1 := by
  obtain ⟨hc, hk, ht⟩ := h
  refine ⟨validKept_of_cache_eq hc hk, entryKept_of_eq hc (ht _), fun _ h1 => ?_⟩
  rw [hc] at h1
  exact ⟨h1, ht _⟩

theorem calm_of_eq {w w1 : World} (hc : w1.cache = w.cache) (ho : w1.objects = w.objects)
    (ht : ∀ f : ByteStr, w1.trace.count (.fileExist f) = w.trace.count (.fileExist f)) :
    Calm w w1 :=
  ⟨hc, kindsKept_of_objects_eq ho, ht⟩

theorem count_fileExist_append_other (t : List Event) (e : Event) (f : ByteStr)
    (he : e ≠ .fileExist f) : (t ++ [e]).count (.fileExist f) = t.count (.fileExist f) := by
  have : ¬ (e == Event.fileExist f) = true := by simpa using he
  simp [List.count_append, List.count_singleton, this]

theorem count_fileExist_append_self (t : List Event) (f : ByteStr) :
    (t ++ [Event.fileExist f]).count (.fileExist f) = t.count (.fileExist f) + 1 := by
  simp [List.count_append, List.count_singleton]

/-! ### Steps that leave the cache alone -/

theorem calm_emit {E : Err → Prop} (e : Event) (he : ∀ f, e ≠ .fileExist f) :
    Keeps Calm E (emit e) :=
  keeps_total (fun w => ⟨(), _, emit_apply e w,
    calm_of_eq rfl rfl (fun f => count_fileExist_append_other _ _ _ (he f))⟩)

theorem calm_RefCast {E : Err → Prop} (env : Env) (T : ObjKind) (r : Ref) :
    Keeps Calm E (RefCast env T r) := by
  cases r with
  | none => exact keeps_total (fun w => ⟨_, _, RefCast_none_apply env T w, calm_frame.refl w⟩)
  | some i => exact keeps_total (fun w => ⟨_, _, RefCast_some_apply env T i w, calm_frame.refl w⟩)

theorem calm_allocObj {E : Err → Prop} (o : Obj) : Keeps Calm E (allocObj o) :=
  keeps_total (fun w => ⟨_, _, allocObj_apply o w, rfl,
    (keeps_ok (quiet_allocObj (E := AnyErr) o) (allocObj_apply o w)).1, fun _ => rfl⟩)

theorem calm_modifyObj {E : Err → Prop} (hE : E .nullDeref) (r : Ref) (f : Obj → Obj)
    (hf : ∀ o, (f o).kind = o.kind) : Keeps Calm E (modifyObj r f) := by
  cases r with
  | none =>
    refine keeps_intro (fun w => ?_)
    rw [modifyObj_none_apply]
    exact ⟨calm_frame.refl w, fun e w1 h => by cases h; exact hE⟩
  | some j =>
    exact keeps_total (fun w => ⟨_, _, modifyObj_some_apply j f w, rfl,
      (keeps_ok (quiet_modifyObj (E := AnyErr) trivial (some j) f hf)
        (modifyObj_some_apply j f w)).1, fun _ => rfl⟩)

theorem calm_RefMakeNode {E : Err → Prop} (kind : NodeKind) : Keeps Calm E (RefMakeNode kind) :=
  keeps_total (fun w => ⟨_, _, RefMakeNode_apply kind w, calm_of_eq rfl rfl (fun _ => rfl)⟩)

theorem calm_modifyNode {E : Err → Prop} (node : Nat) (f : NodeRec → NodeRec) :
    Keeps Calm E (modifyNode node f) :=
  keeps_total (fun w => ⟨_, _, modifyNode_apply node f w, calm_of_eq rfl rfl (fun _ => rfl)⟩)

theorem calm_SetMaterial {E : Err → Prop} (renderer : Nat) (material : Ref) :
    Keeps Calm E (Renderer.SetMaterial renderer material) := by
  unfold Renderer.SetMaterial
  exact calm_modifyNode _ _

theorem calm_SetParent {E : Err → Prop} (node parent : Nat) :
    Keeps Calm E (Node.SetParent node parent) :=
  keeps_total (fun w => ⟨_, _, SetParent_apply node parent w, calm_of_eq rfl rfl (fun _ => rfl)⟩)

theorem calm_GetRoot {E : Err → Prop} (node : Nat) : Keeps Calm E (Node.GetRoot node) :=
  keeps_total (fun w => ⟨_, _, GetRoot_apply node w, calm_frame.refl w⟩)

theorem calm_fileReadAllBytes {E : Err → Prop} (env : Env) (f : ByteStr) :
    Keeps Calm E (File.ReadAllBytes env f) :=
  keeps_total (fun w => ⟨_, _, File.ReadAllBytes_apply env f w,
    calm_of_eq rfl rfl (fun _ => count_fileExist_append_other _ _ _ (by simp))⟩)

theorem calm_shaderFind {E : Err → Prop} (env : Env) (n : ByteStr) :
    Keeps Calm E (Shader.Find env n) :=
  keeps_total (fun w => ⟨_, _, Find_apply env n w,
    calm_of_eq rfl rfl (fun _ => count_fileExist_append_other _ _ _ (by simp))⟩)

theorem calm_loadTexture2D {E : Err → Prop} (env : Env) (file : ByteStr) (f wr : Int) (m : Bool) :
    Keeps Calm E (Texture.LoadTexture2DFromFile env file f wr m) := by
  unfold Texture.LoadTexture2DFromFile
  refine keeps_bind calm_frame (calm_emit _ (by simp)) (fun _ => ?_)
  split
  · exact calm_allocObj _
  · exact keeps_pure calm_frame _

theorem calm_loadMesh {E : Err → Prop} (env : Env) (file : ByteStr) :
    Keeps Calm E (Mesh.LoadFromFile env file) := by
  unfold Mesh.LoadFromFile
  refine keeps_bind calm_frame (calm_emit _ (by simp)) (fun _ => ?_)
  split
  · exact calm_allocObj _
  · exact keeps_pure calm_frame _

theorem calm_ReadTextureFile (env : Env) (ms : MemoryStream) :
    Keeps Calm AnyErr (ReadTextureFile env ms) := by
  unfold ReadTextureFile
  repeat (first
    | exact calm_loadTexture2D _ _ _ _ _
    | (refine keeps_bind calm_frame ?_ ?_ <;> [skip; intro _])
    | split
    | exact keeps_pure calm_frame _
    | exact keeps_liftE_any calm_frame _
    | exact calm_modifyObj trivial _ _ (kind_SetName _))

theorem calm_ReadAnimation (ms : MemoryStream) (animation : Nat) :
    Keeps Calm AnyErr (ReadAnimation ms animation) := by
  unfold ReadAnimation
  repeat (first
    | exact calm_modifyNode _ _
    | exact keeps_vectorOfSize calm_frame _ trivial
    | (refine keeps_bind calm_frame ?_ ?_ <;> [skip; intro _])
    | split
    | exact keeps_pure calm_frame _
    | exact keeps_liftE_any calm_frame _)

/-! ### A call of `ReadTexture` -/

theorem validKept_Add {u : World} (q : ByteStr) (m : Ref)
    (hm : ∀ i, m = some i → i < u.objects.length) :
    ValidKept u { u with cache := Map.Add u.cache q m } := by
  refine ⟨kindsKept_of_objects_eq rfl, fun hv p i hp => ?_⟩
  by_cases hpq : p = q
  · subst hpq
    simp only [lookup_Add_self] at hp
    exact hm i (Option.some.inj hp)
  · simp only [lookup_Add_ne _ _ _ _ hpq] at hp
    exact hv p i hp

theorem keptBut_Add (env : Env) (p q : ByteStr) (u : World) (m : Ref)
    (hm : ∀ i, m = some i → i < u.objects.length) :
    KeptBut env p q u { u with cache := Map.Add u.cache q m } := by
  refine ⟨validKept_Add q m hm, fun _ hc => ?_, fun hpq v hv => ?_⟩
  · by_cases hpq : p = q
    · subst hpq
      simp only [lookup_Add_self] at hc
      cases hc
    · simp only [lookup_Add_ne _ _ _ _ hpq] at hc
      exact ⟨hc, rfl⟩
  · refine ⟨?_, rfl⟩
    show (Map.Add u.cache q m).lookup p = some v
    rw [lookup_Add_ne _ _ _ _ hpq]
    exact hv

/-- The end of a call that missed the cache: the entry of `q` is added. -/
theorem kept_of_miss {env : Env} {p q : ByteStr} {w u : World} {m : Ref}
    (hq : w.cache.lookup q = none) (h1 : ValidKept w u) (h2 : EntryKept env p w u)
    (h3 : p ≠ q → Unasked env p w u) (hm : ∀ i, m = some i → i < u.objects.length) :
    Kept env p w { u with cache := Map.Add u.cache q m } := by
  obtain ⟨k1, k2, k3⟩ := keptBut_Add env p q u m hm
  refine ⟨validKept_frame.trans _ _ _ h1 k1, ?_, ?_⟩
  · intro v hv
    have hpq : p ≠ q := by
      rintro rfl
      rw [hq] at hv
      cases hv
    exact (entryKept_frame env p).trans _ _ _ h2 (k3 hpq) v hv
  · intro hf hc
    by_cases hpq : p = q
    · subst hpq
      simp only [lookup_Add_self] at hc
      cases hc
    · exact (unasked_frame env p).trans _ _ _ (h3 hpq) k2 hf hc

theorem fullPath_ne (env : Env) {p q : ByteStr} (h : p ≠ q) :
    Event.fileExist (fullPath env q) ≠ Event.fileExist (fullPath env p) := by
  intro he
  exact h (fullPath_injective env (Event.fileExist.inj he)).symm

theorem count_opened (env : Env) {p q : ByteStr} (h : p ≠ q) (w : World) :
    (w.opened env q).trace.count (.fileExist (fullPath env p))
      = w.trace.count (.fileExist (fullPath env p)) := by
  have h1 : ¬ (Event.fileExist (fullPath env q) == Event.fileExist (fullPath env p)) = true := by
    simpa using fullPath_ne env h
  simp [World.opened, List.count_append, List.count_cons, h1]

/-- The state in which the file of `q` has been opened after a miss. -/
theorem kept_opened (env : Env) (p q : ByteStr) (w : World) (bytes : List Byte)
    (hq : w.cache.lookup q = none) (hf : env.files (fullPath env q) = some bytes) :
    Kept env p w (w.opened env q) := by
  refine ⟨validKept_of_cache_eq rfl (kindsKept_of_objects_eq rfl), fun v hv => ?_, fun hfp hc => ?_⟩
  · have hpq : p ≠ q := by
      rintro rfl
      rw [hq] at hv
      cases hv
    exact ⟨hv, count_opened env hpq w⟩
  · have hpq : p ≠ q := by
      rintro rfl
      rw [hf] at hfp
      cases hfp
    exact ⟨hc, count_opened env hpq w⟩

/-- The state in which the file of `q` was found missing after a miss. -/
theorem kept_absent (env : Env) (p q : ByteStr) (w : World) (hq : w.cache.lookup q = none) :
    Kept env p w { w with cache := Map.Add w.cache q none,
                          trace := w.trace ++ [.fileExist (fullPath env q)] } := by
  have h1 : ValidKept w { w with trace := w.trace ++ [.fileExist (fullPath env q)] } :=
    validKept_of_cache_eq rfl (kindsKept_of_objects_eq rfl)
  have hm : ∀ i, (none : Ref) = some i →
      i < ({ w with trace := w.trace ++ [.fileExist (fullPath env q)] } : World).objects.length :=
    fun i hi => by cases hi
  have h : EntryKept env p w { w with trace := w.trace ++ [.fileExist (fullPath env q)] } →
      (p ≠ q → Unasked env p w { w with trace := w.trace ++ [.fileExist (fullPath env q)] }) →
      Kept env p w { w with cache := Map.Add w.cache q none,
                            trace := w.trace ++ [.fileExist (fullPath env q)] } :=
    fun h2 h3 => kept_of_miss hq h1 h2 h3 hm
  refine h ?_ ?_
  · intro v hv
    have hpq : p ≠ q := by
      rintro rfl
      rw [hq] at hv
      cases hv
    exact ⟨hv, count_fileExist_append_other _ _ _ (fullPath_ne env hpq)⟩
  · intro hpq _ hc
    exact ⟨hc, count_fileExist_append_other _ _ _ (fullPath_ne env hpq)⟩

theorem valid_of_kind {w : World} {i : Nat} {K : ObjKind}
    (h : (w.objects[i]?).map Obj.kind = some K) : i < w.objects.length := by
  by_contra hge
  rw [List.getElem?_eq_none (by omega)] at h
  cases h

/-- A call of `ReadTexture` keeps what holds for every path. -/
theorem kept_ReadTexture (env : Env) (p q : ByteStr) (w : World) :
    Kept env p w (ReadTexture env q w).world := by
  cases hc : w.cache.lookup q with
  | some v =>
    obtain ⟨r, hr⟩ := RefCast_world env .Texture v w
    rw [ReadTexture_hit env q w v hc, hr]
    exact (kept_frame env p).refl w
  | none =>
    cases hf : env.files (fullPath env q) with
    | none =>
      rw [ReadTexture_miss_absent env q w hc hf]
      exact kept_absent env p q w hc
    | some bytes =>
      rw [ReadTexture_miss_present env q w bytes hc hf]
      have ho := kept_opened env p q w bytes hc hf
      have hcalm := keeps_world (calm_ReadTextureFile env bytes) (w.opened env q)
      cases hr : ReadTextureFile env bytes (w.opened env q) with
      | ok a w2 =>
        rw [hr] at hcalm
        obtain ⟨t, ms1⟩ := a
        have h2 : Kept env p w w2 := (kept_frame env p).trans _ _ _ ho (kept_of_calm hcalm)
        refine kept_of_miss hc h2.1 h2.2.1 (fun _ => h2.2.2) (fun i hi => ?_)
        simp only at hi
        subst hi
        exact valid_of_kind (ReadTextureFile_kind hr)
      | error e w2 =>
        rw [hr] at hcalm
        exact (kept_frame env p).trans _ _ _ ho (kept_of_calm hcalm)

/-! ## Records that fit the run -/

theorem chain_prepend {ε : Type} {P : ε → Prop} {R S : World → World → Prop} {pre post : ε → World}
    (hR : Frame R) (hRS : ∀ a b c, R a b → S b c → S a c) {w w1 w2 : World} {l : List ε}
    (h : R w w1) (hl : Chain P R S pre post w1 l w2) : Chain P R S pre post w l w2 := by
  cases l with
  | nil => exact hRS _ _ _ h hl
  | cons e l => exact And.intro hl.1 (And.intro (hR.trans _ _ _ h hl.2.1) hl.2.2)

theorem chain_append {ε : Type} {P : ε → Prop} {R S : World → World → Prop} {pre post : ε → World}
    (hR : Frame R) (hRS : ∀ a b c, R a b → S b c → S a c) {w w1 w2 : World} {l1 l2 : List ε}
    (h1 : Chain P R R pre post w l1 w1) (h2 : Chain P R S pre post w1 l2 w2) :
    Chain P R S pre post w (l1 ++ l2) w2 := by
  induction l1 generalizing w with
  | nil => exact chain_prepend hR hRS h1 h2
  | cons e l ih => exact And.intro h1.1 (And.intro h1.2.1 (ih h1.2.2))

theorem chain_extend {ε : Type} {P : ε → Prop} {R S : World → World → Prop} {pre post : ε → World}
    (hR : Frame R) (hRS : ∀ a b c, R a b → S b c → S a c) {w w1 w2 : World} {l : List ε}
    (h1 : Chain P R R pre post w l w1) (h2 : S w1 w2) : Chain P R S pre post w l w2 := by
  have h3 : Chain P R S pre post w1 [] w2 := h2
  have h := chain_append hR hRS h1 h3
  rwa [List.append_nil] at h

/-- What a fitting record tells about its calls: each satisfies `P`; `R` holds
from the start to each call and from the end of each call to every later call;
`S` holds from the end of each call, and from the start, to the end of the run. -/
theorem chain_facts {ε : Type} {P : ε → Prop} {R S : World → World → Prop} {pre post : ε → World}
    (hR : Frame R) (hRS : ∀ a b c, R a b → S b c → S a c) (hcall : ∀ e, P e → R (pre e) (post e))
    {w w1 : World} {l : List ε} (h : Chain P R S pre post w l w1) :
    (∀ e ∈ l, P e ∧ R w (pre e) ∧ S (post e) w1) ∧
      l.Pairwise (fun e1 e2 => R (post e1) (pre e2)) ∧ S w w1 := by
  induction l generalizing w with
  | nil => exact ⟨fun e he => (by cases he), List.Pairwise.nil, h⟩
  | cons e l ih =>
    obtain ⟨hP, hRe, hrest⟩ := h
    obtain ⟨i1, i2, i3⟩ := ih hrest
    have hpost : R w (post e) := hR.trans _ _ _ hRe (hcall e hP)
    refine ⟨fun e1 he1 => ?_, List.Pairwise.cons (fun e1 he1 => (i1 e1 he1).2.1) i2,
      hRS _ _ _ hpost i3⟩
    rcases List.mem_cons.mp he1 with rfl | hmem
    · exact ⟨hP, hRe, i3⟩
    · exact ⟨(i1 e1 hmem).1, hR.trans _ _ _ hpost (i1 e1 hmem).2.1, (i1 e1 hmem).2.2⟩

theorem traced_pure {ε α : Type} {P : ε → Prop} {R : World → World → Prop} {pre post : ε → World}
    (hR : Frame R) (a : α) : Traced P R pre post (pure a : Logged ε α) := fun w => hR.refl w

theorem traced_lift {ε α : Type} {P : ε → Prop} {R : World → World → Prop} {pre post : ε → World}
    {E : Err → Prop} {y : M α} (h : Keeps R E y) :
    Traced P R pre post (MonadLiftT.monadLift y : Logged ε α) := fun w => keeps_world h w

theorem traced_silent {ε α : Type} {P : ε → Prop} {R : World → World → Prop} {pre post : ε → World}
    {E : Err → Prop} {y : M α} (h : Keeps R E y) :
    Traced P R pre post (Logged.silent y : Logged ε α) := fun w => keeps_world h w

theorem traced_bind {ε α β : Type} {P : ε → Prop} {R : World → World → Prop} {pre post : ε → World}
    (hR : Frame R) {x : Logged ε α} {f : α → Logged ε β} (hx : Traced P R pre post x)
    (hf : ∀ a, Traced P R pre post (f a)) : Traced P R pre post (x >>= f) := by
  intro w
  have h1 := hx w
  rw [Logged.bind_run]
  cases hxw : x w with
  | mk r calls =>
    rw [hxw] at h1
    cases r with
    | ok a w1 => exact chain_append hR hR.trans h1 (hf a w1)
    | error e w1 => exact h1

theorem traced_apply {ε α : Type} {P : ε → Prop} {R : World → World → Prop} {pre post : ε → World}
    {x : Logged ε α} (h : Traced P R pre post x) (w : World) :
    Chain P R R pre post w (x w).2 (x w).1.world := h w

theorem traced_intro {ε α : Type} {P : ε → Prop} {R : World → World → Prop} {pre post : ε → World}
    {x : Logged ε α} (h : ∀ w, Chain P R R pre post w (x w).2 (x w).1.world) :
    Traced P R pre post x := h

attribute [irreducible] Traced

theorem keeps_kept_of_calm {α : Type} {E : Err → Prop} {y : M α} (env : Env) (p : ByteStr)
    (h : Keeps Calm E y) : Keeps (Kept env p) E y :=
  keeps_mono (fun _ _ hc => kept_of_calm hc) (fun _ he => he) h

theorem traced_calm {ε α : Type} {P : ε → Prop} {pre post : ε → World} (env : Env) (p : ByteStr)
    {y : M α} (h : Keeps Calm AnyErr y) :
    Traced P (Kept env p) pre post (MonadLiftT.monadLift y : Logged ε α) :=
  traced_lift (keeps_kept_of_calm env p h)

/-! ### The calls of `ReadTexture` within a call of `ReadMaterial` -/

theorem traced_ReadTextureLog (env : Env) (p q : ByteStr) :
    Traced (fun _ => True) (Kept env p) TextureCall.pre (TextureCall.post env)
      (ReadTextureLog env q) :=
  traced_intro (fun w => And.intro trivial
    (And.intro ((kept_frame env p).refl w) ((kept_frame env p).refl _)))

theorem traced_ReadMaterialPropertiesLog (env : Env) (p : ByteStr) (material : Ref) (count : Nat)
    (ms : MemoryStream) :
    Traced (fun _ => True) (Kept env p) TextureCall.pre (TextureCall.post env)
      (ReadMaterialPropertiesLog env material count ms) := by
  induction count generalizing ms with
  | zero =>
    unfold ReadMaterialPropertiesLog
    exact traced_pure (kept_frame env p) _
  | succ n ih =>
    unfold ReadMaterialPropertiesLog
    repeat (first
      | exact ih _
      | exact traced_pure (kept_frame env p) _
      | exact traced_ReadTextureLog _ _ _
      | exact traced_calm env p (keeps_liftE_any calm_frame _)
      | exact traced_calm env p (calm_modifyObj trivial _ _ (kind_SetProperty _ _))
      | (refine traced_bind (kept_frame env p) ?_ ?_ <;> [skip; intro _])
      | split)

theorem traced_ReadMaterialFileLog (env : Env) (p : ByteStr) (ms : MemoryStream) :
    Traced (fun _ => True) (Kept env p) TextureCall.pre (TextureCall.post env)
      (ReadMaterialFileLog env ms) := by
  unfold ReadMaterialFileLog
  repeat (first
    | exact traced_pure (kept_frame env p) _
    | exact traced_ReadMaterialPropertiesLog _ _ _ _ _
    | exact traced_calm env p (keeps_liftE_any calm_frame _)
    | exact traced_calm env p (calm_shaderFind _ _)
    | exact traced_calm env p (calm_allocObj _)
    | exact traced_calm env p (calm_modifyObj trivial _ _ (kind_SetName _))
    | (refine traced_bind (kept_frame env p) ?_ ?_ <;> [skip; intro _])
    | split)

/-! ### A call of `ReadMaterial` -/

theorem ReadMaterialLog_calls_hit (env : Env) (q : ByteStr) (w : World) (v : Ref)
    (h : w.cache.lookup q = some v) : (ReadMaterialLog env q w).2 = [] := by
  simp only [ReadMaterialLog, Logged.bind_run, Logged.lift_run, cacheContains_apply,
    Contains_of_lookup h, if_true, cacheGet_apply, List.nil_append]

theorem ReadMaterialLog_calls_absent (env : Env) (q : ByteStr) (w : World)
    (h : w.cache.lookup q = none) (hf : env.files (fullPath env q) = none) :
    (ReadMaterialLog env q w).2 = [] := by
  simp only [ReadMaterialLog, Logged.bind_run, Logged.lift_run, cacheContains_apply,
    Contains_of_lookup_none h, File.Exist_apply, hf, Option.isSome_none, Bool.false_eq_true,
    if_false, Logged.pure_run, cacheAdd_apply, List.nil_append, List.append_nil]

theorem ReadMaterialLog_calls_present (env : Env) (q : ByteStr) (w : World) (bytes : List Byte)
    (h : w.cache.lookup q = none) (hf : env.files (fullPath env q) = some bytes) :
    (ReadMaterialLog env q w).2 = (ReadMaterialFileLog env bytes (w.opened env q)).2 := by
  simp only [ReadMaterialLog, Logged.bind_run, Logged.lift_run, cacheContains_apply,
    Contains_of_lookup_none h, File.Exist_apply, hf, Option.isSome_some, Bool.false_eq_true,
    if_false, if_true, File.ReadAllBytes_apply, Option.getD_some, World.opened_eq,
    Logged.pure_run, cacheAdd_apply, List.nil_append, List.append_nil]
  cases hr : ReadMaterialFileLog env bytes (w.opened env q) with
  | mk r calls =>
    cases r with
    | ok a w1 => simp
    | error e w1 => simp

theorem ReadMaterialLog_calls_ne_nil (env : Env) (q : ByteStr) (w : World)
    (h : (ReadMaterialLog env q w).2 ≠ []) :
    w.cache.lookup q = none ∧ ∃ bytes, env.files (fullPath env q) = some bytes := by
  cases hc : w.cache.lookup q with
  | some v => exact absurd (ReadMaterialLog_calls_hit env q w v hc) h
  | none =>
    cases hf : env.files (fullPath env q) with
    | none => exact absurd (ReadMaterialLog_calls_absent env q w hc hf) h
    | some bytes => exact ⟨rfl, bytes, rfl⟩

/-- The record of the `ReadTexture` calls of a `ReadMaterial(q)` call fits the
run of the call: up to the end of the call everything is kept for every path,
but for the entry of `q` itself. -/
theorem ReadMaterialLog_chain (env : Env) (p q : ByteStr) (w : World) :
    Chain (fun _ => True) (Kept env p) (KeptBut env p q) TextureCall.pre (TextureCall.post env) w
      (ReadMaterialLog env q w).2 (ReadMaterial env q w).world := by
  cases hc : w.cache.lookup q with
  | some v =>
    obtain ⟨r, hr⟩ := RefCast_world env .Material v w
    rw [ReadMaterialLog_calls_hit env q w v hc, ReadMaterial_hit env q w v hc, hr]
    exact keptBut_of_kept ((kept_frame env p).refl w)
  | none =>
    cases hf : env.files (fullPath env q) with
    | none =>
      rw [ReadMaterialLog_calls_absent env q w hc hf, ReadMaterial_miss_absent env q w hc hf]
      exact keptBut_of_kept (kept_absent env p q w hc)
    | some bytes =>
      rw [ReadMaterialLog_calls_present env q w bytes hc hf,
        ReadMaterial_miss_present env q w bytes hc hf]
      have ht := traced_apply (traced_ReadMaterialFileLog env p bytes) (w.opened env q)
      rw [erases_apply (erases_ReadMaterialFileLog env bytes) (w.opened env q)] at ht
      have ho := kept_opened env p q w bytes hc hf
      have hRS : ∀ a b c, Kept env p a b → KeptBut env p q b c → KeptBut env p q a c :=
        fun a b c h1 h2 => kept_keptBut h1 h2
      cases hr : ReadMaterialFile env bytes (w.opened env q) with
      | ok a w2 =>
        rw [hr] at ht
        obtain ⟨m, ms1⟩ := a
        refine chain_prepend (kept_frame env p) hRS ho
          (chain_extend (kept_frame env p) hRS ht (keptBut_Add env p q w2 m (fun i hi => ?_)))
        subst hi
        exact valid_of_kind (ReadMaterialFile_kind hr)
      | error e w2 =>
        rw [hr] at ht
        exact chain_prepend (kept_frame env p) hRS ho
          (chain_extend (kept_frame env p) hRS ht (keptBut_of_kept ((kept_frame env p).refl w2)))

/-- The `ReadTexture` calls made within a call `ReadMaterial(q)` from the state
`w`: everything is kept for every path `p` from `w` to each call and from the
end of each call to the later calls, and, but for the entry of `q`, to the end
of `ReadMaterial(q)`. -/
theorem ReadMaterialLog_facts (env : Env) (p q : ByteStr) (w : World) :
    (∀ t ∈ (ReadMaterialLog env q w).2,
      Kept env p w t.pre ∧ KeptBut env p q (t.post env) (ReadMaterial env q w).world) ∧
    (ReadMaterialLog env q w).2.Pairwise (fun t1 t2 => Kept env p (t1.post env) t2.pre) ∧
    KeptBut env p q w (ReadMaterial env q w).world := by
  have hcall : ∀ t : TextureCall, True → Kept env p (TextureCall.pre t) (TextureCall.post env t) :=
    fun t _ => kept_ReadTexture env p t.path t.pre
  have hRS : ∀ a b c, Kept env p a b → KeptBut env p q b c → KeptBut env p q a c :=
    fun a b c h1 h2 => kept_keptBut h1 h2
  obtain ⟨h1, h2, h3⟩ := chain_facts (kept_frame env p) hRS hcall (ReadMaterialLog_chain env p q w)
  exact ⟨fun t ht => (h1 t ht).2, h2, h3⟩

/-- A call of `ReadMaterial` keeps what holds for every path. -/
theorem kept_ReadMaterial (env : Env) (p q : ByteStr) (w : World) :
    Kept env p w (ReadMaterial env q w).world := by
  obtain ⟨-, -, h3⟩ := ReadMaterialLog_facts env p q w
  exact ⟨h3.1, keeps_world (entryKept_ReadMaterial env p q) w, h3.2.1⟩

/-! ### The calls of `ReadMaterial` within a load -/

theorem traced_ReadMaterialCall (env : Env) (p q : ByteStr) :
    Traced (MaterialCall.Faithful env) (Kept env p) MaterialCall.pre (MaterialCall.post env)
      (ReadMaterialCall env q) := by
  refine traced_intro (fun w => And.intro rfl (And.intro ((kept_frame env p).refl w) ?_))
  have h : (ReadMaterialCall env q w).1 = ReadMaterial env q w :=
    erases_apply (erases_ReadMaterialCall env q) w
  rw [h]
  exact (kept_frame env p).refl _

theorem traced_ReadRendererMaterialsLog (env : Env) (p : ByteStr) (renderer : Nat) (count : Nat)
    (ms : MemoryStream) :
    Traced (MaterialCall.Faithful env) (Kept env p) MaterialCall.pre (MaterialCall.post env)
      (ReadRendererMaterialsLog env renderer count ms) := by
  induction count generalizing ms with
  | zero =>
    unfold ReadRendererMaterialsLog
    exact traced_pure (kept_frame env p) _
  | succ n ih =>
    unfold ReadRendererMaterialsLog
    repeat (first
      | exact ih _
      | exact traced_pure (kept_frame env p) _
      | exact traced_ReadMaterialCall _ _ _
      | exact traced_calm env p (keeps_liftE_any calm_frame _)
      | exact traced_calm env p (calm_SetMaterial _ _)
      | (refine traced_bind (kept_frame env p) ?_ ?_ <;> [skip; intro _])
      | split)

theorem traced_ReadRendererLog (env : Env) (p : ByteStr) (ms : MemoryStream) (renderer : Nat) :
    Traced (MaterialCall.Faithful env) (Kept env p) MaterialCall.pre (MaterialCall.post env)
      (ReadRendererLog env ms renderer) := by
  unfold ReadRendererLog
  repeat (first
    | exact traced_pure (kept_frame env p) _
    | exact traced_ReadRendererMaterialsLog _ _ _ _ _
    | exact traced_calm env p (keeps_liftE_any calm_frame _)
    | (refine traced_bind (kept_frame env p) ?_ ?_ <;> [skip; intro _])
    | split)

theorem traced_ReadMeshRendererLog (env : Env) (p : ByteStr) (ms : MemoryStream) (renderer : Nat) :
    Traced (MaterialCall.Faithful env) (Kept env p) MaterialCall.pre (MaterialCall.post env)
      (ReadMeshRendererLog env ms renderer) := by
  unfold ReadMeshRendererLog
  repeat (first
    | exact traced_pure (kept_frame env p) _
    | exact traced_ReadRendererLog _ _ _ _
    | exact traced_calm env p (keeps_liftE_any calm_frame _)
    | exact traced_calm env p (calm_loadMesh _ _)
    | exact traced_calm env p (calm_modifyNode _ _)
    | (refine traced_bind (kept_frame env p) ?_ ?_ <;> [skip; intro _])
    | split)

theorem traced_ReadSkinnedMeshRendererLog (env : Env) (p : ByteStr) (ms : MemoryStream)
    (renderer : Nat) :
    Traced (MaterialCall.Faithful env) (Kept env p) MaterialCall.pre (MaterialCall.post env)
      (ReadSkinnedMeshRendererLog env ms renderer) := by
  unfold ReadSkinnedMeshRendererLog
  repeat (first
    | exact traced_pure (kept_frame env p) _
    | exact traced_ReadMeshRendererLog _ _ _ _
    | exact traced_calm env p (keeps_liftE_any calm_frame _)
    | exact traced_calm env p (keeps_vectorOfSize calm_frame _ trivial)
    | exact traced_calm env p (calm_modifyNode _ _)
    | (refine traced_bind (kept_frame env p) ?_ ?_ <;> [skip; intro _])
    | split)

theorem traced_ReadNodeComponentsLog (env : Env) (p : ByteStr) (parent : Ref) (count : Nat)
    (ms : MemoryStream) (node : Ref) :
    Traced (MaterialCall.Faithful env) (Kept env p) MaterialCall.pre (MaterialCall.post env)
      (ReadNodeComponentsLog env parent count ms node) := by
  induction count generalizing ms node with
  | zero =>
    unfold ReadNodeComponentsLog
    exact traced_pure (kept_frame env p) _
  | succ n ih =>
    unfold ReadNodeComponentsLog
    repeat (first
      | exact ih _ _
      | exact traced_pure (kept_frame env p) _
      | exact traced_ReadMeshRendererLog _ _ _ _
      | exact traced_ReadSkinnedMeshRendererLog _ _ _ _
      | exact traced_calm env p (keeps_liftE_any calm_frame _)
      | exact traced_calm env p (keeps_assert calm_frame _)
      | exact traced_calm env p (calm_RefMakeNode _)
      | exact traced_calm env p (calm_GetRoot _)
      | exact traced_calm env p (calm_modifyNode _ _)
      | exact traced_calm env p (calm_ReadAnimation _ _)
      | (refine traced_bind (kept_frame env p) ?_ ?_ <;> [skip; intro _])
      | split)

theorem traced_ReadNodeChildrenLog (env : Env) (p : ByteStr)
    {rd : MemoryStream → Ref → Logged MaterialCall (Nat × MemoryStream)}
    (h : ∀ ms parent, Traced (MaterialCall.Faithful env) (Kept env p) MaterialCall.pre
      (MaterialCall.post env) (rd ms parent))
    (node : Nat) (count : Nat) (ms : MemoryStream) :
    Traced (MaterialCall.Faithful env) (Kept env p) MaterialCall.pre (MaterialCall.post env)
      (ReadNodeChildrenLog rd node count ms) := by
  induction count generalizing ms with
  | zero =>
    unfold ReadNodeChildrenLog
    exact traced_pure (kept_frame env p) _
  | succ n ih =>
    unfold ReadNodeChildrenLog
    repeat (first
      | exact ih _
      | exact h _ _
      | (refine traced_bind (kept_frame env p) ?_ ?_ <;> [skip; intro _])
      | split)

theorem traced_ReadNodeHeadLog (env : Env) (p : ByteStr) (ms : MemoryStream) (parent : Ref) :
    Traced (MaterialCall.Faithful env) (Kept env p) MaterialCall.pre (MaterialCall.post env)
      (ReadNodeHeadLog env ms parent) := by
  unfold ReadNodeHeadLog
  repeat (first
    | exact traced_pure (kept_frame env p) _
    | exact traced_ReadNodeComponentsLog _ _ _ _ _ _
    | exact traced_calm env p (keeps_liftE_any calm_frame _)
    | exact traced_calm env p (calm_RefMakeNode _)
    | exact traced_calm env p (calm_SetParent _ _)
    | exact traced_calm env p (calm_modifyNode _ _)
    | (refine traced_bind (kept_frame env p) ?_ ?_ <;> [skip; intro _])
    | split)

theorem traced_ReadNodeLog (env : Env) (p : ByteStr) (fuel : Nat) (ms : MemoryStream)
    (parent : Ref) :
    Traced (MaterialCall.Faithful env) (Kept env p) MaterialCall.pre (MaterialCall.post env)
      (ReadNodeLog env fuel ms parent) := by
  induction fuel generalizing ms parent with
  | zero =>
    unfold ReadNodeLog
    exact traced_silent (keeps_fail (E := AnyErr) (kept_frame env p) _ trivial)
  | succ n ih =>
    unfold ReadNodeLog
    repeat (first
      | exact traced_pure (kept_frame env p) _
      | exact traced_ReadNodeHeadLog _ _ _ _
      | exact traced_ReadNodeChildrenLog env p ih _ _ _
      | exact traced_calm env p (keeps_liftE_any calm_frame _)
      | (refine traced_bind (kept_frame env p) ?_ ?_ <;> [skip; intro _])
      | split)

/-! ### The calls of a load -/

theorem LoadCalls_absent (env : Env) (path : ByteStr) (w : World)
    (h : env.files (fullPath env path) = none) : Resources.LoadCalls env path w = [] := by
  simp only [Resources.LoadCalls, Resources.LoadLog, Logged.bind_run, Logged.lift_run,
    File.Exist_apply, h, Option.isSome_none, Bool.false_eq_true, if_false, Logged.pure_run,
    List.nil_append]

theorem LoadCalls_present (env : Env) (path : ByteStr) (w : World) (bytes : List Byte)
    (h : env.files (fullPath env path) = some bytes) :
    Resources.LoadCalls env path w
      = (ReadNodeLog env (bytes.length + 1) bytes none (w.opened env path)).2 := by
  simp only [Resources.LoadCalls, Resources.LoadLog, Logged.bind_run, Logged.lift_run,
    File.Exist_apply, h, Option.isSome_some, if_true, File.ReadAllBytes_apply, Option.getD_some,
    World.opened_eq, Logged.pure_run, cacheClear_apply, List.nil_append, List.append_nil]
  cases hr : ReadNodeLog env (bytes.length + 1) bytes none (w.opened env path) with
  | mk r calls =>
    cases r with
    | ok a w1 => simp
    | error e w1 => simp

theorem Load_trace (env : Env) (path : ByteStr) (w : World) (bytes : List Byte)
    (h : env.files (fullPath env path) = some bytes) :
    (Resources.Load env path w).world.trace
      = (ReadNode env (bytes.length + 1) bytes none (w.opened env path)).world.trace := by
  rw [Load_present env path w bytes h]
  cases hr : ReadNode env (bytes.length + 1) bytes none (w.opened env path) with
  | ok a w1 => rfl
  | error e w1 => rfl

theorem keptBut_kept {env : Env} {p q : ByteStr} {a b c : World} (hab : KeptBut env p q a b)
    (hbc : Kept env p b c) : KeptBut env p q a c :=
  ⟨validKept_frame.trans a b c hab.1 hbc.1, (unasked_frame env p).trans a b c hab.2.1 hbc.2.2,
    fun h => (entryKept_frame env p).trans a b c (hab.2.2 h) hbc.2.1⟩

/-- What holds for a path `p` between the calls of a load of a scene file that
exists, from the state `ws` in which the file is handed to `ReadNode` to the
state `we` in which `ReadNode` ends. -/
theorem LoadCalls_kept (env : Env) (path : ByteStr) (w0 : World) (bytes : List Byte)
    (hf : env.files (fullPath env path) = some bytes) (p : ByteStr) :
    (∀ c ∈ Resources.LoadCalls env path w0,
      Kept env p (w0.opened env path) c.pre ∧
      Kept env p (c.post env)
        (ReadNode env (bytes.length + 1) bytes none (w0.opened env path)).world ∧
      (c.textures ≠ [] →
        c.pre.cache.lookup c.path = none ∧ ∃ b, env.files (fullPath env c.path) = some b) ∧
      (∀ t ∈ c.textures, Kept env p c.pre t.pre ∧ KeptBut env p c.path (t.post env) (c.post env)) ∧
      c.textures.Pairwise (fun t1 t2 => Kept env p (t1.post env) t2.pre)) ∧
    (Resources.LoadCalls env path w0).Pairwise (fun c1 c2 =>
      Kept env p (c1.post env) c2.pre ∧
      (∀ t2 ∈ c2.textures, Kept env p (c1.post env) t2.pre) ∧
      ∀ t1 ∈ c1.textures, KeptBut env p c1.path (t1.post env) c2.pre ∧
        ∀ t2 ∈ c2.textures, KeptBut env p c1.path (t1.post env) t2.pre) := by
  rw [LoadCalls_present env path w0 bytes hf]
  have ht := traced_apply (traced_ReadNodeLog env p (bytes.length + 1) bytes none)
    (w0.opened env path)
  rw [erases_apply (erases_ReadNodeLog env (bytes.length + 1) bytes none) (w0.opened env path)] at ht
  have hcall : ∀ c : MaterialCall, c.Faithful env →
      Kept env p (MaterialCall.pre c) (MaterialCall.post env c) :=
    fun c _ => kept_ReadMaterial env p c.path c.pre
  obtain ⟨h1, h2, -⟩ := chain_facts (kept_frame env p) (kept_frame env p).trans hcall ht
  have hbody : ∀ c ∈ (ReadNodeLog env (bytes.length + 1) bytes none (w0.opened env path)).2,
      (c.textures ≠ [] →
        c.pre.cache.lookup c.path = none ∧ ∃ b, env.files (fullPath env c.path) = some b) ∧
      (∀ t ∈ c.textures, Kept env p c.pre t.pre ∧ KeptBut env p c.path (t.post env) (c.post env)) ∧
      c.textures.Pairwise (fun t1 t2 => Kept env p (t1.post env) t2.pre) := by
    intro c hc
    have hfaith : c.textures = (ReadMaterialLog env c.path c.pre).2 := (h1 c hc).1
    obtain ⟨b1, b2, -⟩ := ReadMaterialLog_facts env p c.path c.pre
    rw [hfaith]
    exact ⟨ReadMaterialLog_calls_ne_nil env c.path c.pre, b1, b2⟩
  refine ⟨fun c hc => ⟨(h1 c hc).2.1, (h1 c hc).2.2, hbody c hc⟩, ?_⟩
  have h3 : (ReadNodeLog env (bytes.length + 1) bytes none (w0.opened env path)).2.Pairwise
      (fun c1 c2 => (c1 ∈ (ReadNodeLog env (bytes.length + 1) bytes none (w0.opened env path)).2 ∧
        c2 ∈ (ReadNodeLog env (bytes.length + 1) bytes none (w0.opened env path)).2) ∧
        Kept env p (c1.post env) c2.pre) :=
    List.Pairwise.and_mem.mp h2 |>.imp (fun h => ⟨⟨h.1, h.2.1⟩, h.2.2⟩)
  refine h3.imp ?_
  rintro c1 c2 ⟨⟨hc1, hc2⟩, hk⟩
  obtain ⟨-, g1, -⟩ := hbody c1 hc1
  obtain ⟨-, g2, -⟩ := hbody c2 hc2
  refine ⟨hk, fun t2 ht2 => (kept_frame env p).trans _ _ _ hk (g2 t2 ht2).1, fun t1 ht1 => ?_⟩
  have hb := keptBut_kept (g1 t1 ht1).2 hk
  exact ⟨hb, fun t2 ht2 => keptBut_kept hb (g2 t2 ht2).1⟩

theorem pairwise_forall {α ι : Type} {F : ι → α → α → Prop} {l : List α}
    (h : ∀ i, l.Pairwise (F i)) : l.Pairwise (fun a b => ∀ i, F i a b) := by
  induction l with
  | nil => exact List.Pairwise.nil
  | cons a l ih =>
    refine List.Pairwise.cons (fun b hb i => ?_) (ih (fun i => ?_))
    · exact (List.pairwise_cons.mp (h i)).1 b hb
    · exact (List.pairwise_cons.mp (h i)).2

/-- The facts of `LoadCalls_kept` for all paths at once, each pair of calls with
its membership in the record. -/
theorem LoadCalls_links (env : Env) (path : ByteStr) (w0 : World) (bytes : List Byte)
    (hf : env.files (fullPath env path) = some bytes) :
    (∀ c ∈ Resources.LoadCalls env path w0, ∀ p,
      Kept env p (w0.opened env path) c.pre ∧
      Kept env p (c.post env)
        (ReadNode env (bytes.length + 1) bytes none (w0.opened env path)).world ∧
      (c.textures ≠ [] →
        c.pre.cache.lookup c.path = none ∧ ∃ b, env.files (fullPath env c.path) = some b) ∧
      (∀ t ∈ c.textures, Kept env p c.pre t.pre ∧ KeptBut env p c.path (t.post env) (c.post env)) ∧
      c.textures.Pairwise (fun t1 t2 => Kept env p (t1.post env) t2.pre)) ∧
    (Resources.LoadCalls env path w0).Pairwise (fun c1 c2 =>
      (c1 ∈ Resources.LoadCalls env path w0 ∧ c2 ∈ Resources.LoadCalls env path w0) ∧ ∀ p,
      Kept env p (c1.post env) c2.pre ∧
      (∀ t2 ∈ c2.textures, Kept env p (c1.post env) t2.pre) ∧
      ∀ t1 ∈ c1.textures, KeptBut env p c1.path (t1.post env) c2.pre ∧
        ∀ t2 ∈ c2.textures, KeptBut env p c1.path (t1.post env) t2.pre) := by
  refine ⟨fun c hc p => (LoadCalls_kept env path w0 bytes hf p).1 c hc, ?_⟩
  have h := pairwise_forall (fun p => (LoadCalls_kept env path w0 bytes hf p).2)
  exact (List.Pairwise.and_mem.mp h).imp (fun h => ⟨⟨h.1, h.2.1⟩, h.2.2⟩)

theorem hit_empty (env : Env) (p : ByteStr) (w : World) (h : w.cache.lookup p = some none) :
    ReadTexture env p w = .ok none w ∧ ReadMaterial env p w = .ok none w := by
  rw [ReadTexture_hit env p w none h, ReadMaterial_hit env p w none h]
  exact ⟨RefCast_none_apply _ _ _, RefCast_none_apply _ _ _⟩

theorem ReadTexture_absent_post (env : Env) (t : TextureCall)
    (hf : env.files (fullPath env t.path) = none) (hmiss : t.pre.cache.lookup t.path = none) :
    (t.post env).cache.lookup t.path = some none ∧
      (t.post env).trace.count (.fileExist (fullPath env t.path))
        = t.pre.trace.count (.fileExist (fullPath env t.path)) + 1 := by
  unfold TextureCall.post
  rw [ReadTexture_miss_absent env t.path t.pre hmiss hf]
  exact ⟨lookup_Add_self _ _ _, count_fileExist_append_self _ _⟩

theorem ReadMaterial_absent_post (env : Env) (c : MaterialCall)
    (hf : env.files (fullPath env c.path) = none) (hmiss : c.pre.cache.lookup c.path = none) :
    (c.post env).cache.lookup c.path = some none ∧
      (c.post env).trace.count (.fileExist (fullPath env c.path))
        = c.pre.trace.count (.fileExist (fullPath env c.path)) + 1 := by
  unfold MaterialCall.post
  rw [ReadMaterial_miss_absent env c.path c.pre hmiss hf]
  exact ⟨lookup_Add_self _ _ _, count_fileExist_append_self _ _⟩

/-- C5: let the file of `p` not exist. A call `ReadTexture(p)` or
`ReadMaterial(p)` made while `p` is not cached returns the empty reference,
checks the existence of the file once and maps `p` to the empty entry. In the
record of the calls of one `Load`: after a call for `p` that found `p` not
cached, every later call for `p`, be it `ReadMaterial(p)` or a `ReadTexture(p)`
made within a later or within the same `ReadMaterial` call, returns the empty
reference from the cache and leaves the state as it is; a `ReadMaterial(p)` call
makes no `ReadTexture` call; and when the load ends, the existence of the file
of `p` has been checked exactly once more than before the load. -/
theorem missing_file_checked_once (env : Env) (p : ByteStr)
    (hf : env.files (fullPath env p) = none) :
    (∀ w : World, w.cache.lookup p = none →
      ReadTexture env p w = .ok none { w with cache := Map.Add w.cache p none,
                                              trace := w.trace ++ [.fileExist (fullPath env p)] } ∧
      ReadMaterial env p w = .ok none { w with cache := Map.Add w.cache p none,
                                               trace := w.trace ++ [.fileExist (fullPath env p)] }) ∧
    ∀ (path : ByteStr) (w0 : World),
      (Resources.LoadLog env path w0).1 = Resources.Load env path w0 ∧
      (Resources.LoadCalls env path w0).Pairwise (fun c1 c2 =>
        ((c1.path = p ∧ c1.pre.cache.lookup p = none) ∨
          ∃ t ∈ c1.textures, t.path = p ∧ t.pre.cache.lookup p = none) →
        (c2.path = p → ReadMaterial env p c2.pre = .ok none c2.pre) ∧
        ∀ t ∈ c2.textures, t.path = p → ReadTexture env p t.pre = .ok none t.pre) ∧
      (∀ c ∈ Resources.LoadCalls env path w0,
        (c.path = p → c.textures = []) ∧
        c.textures.Pairwise (fun t1 t2 => t1.path = p → t1.pre.cache.lookup p = none →
          t2.path = p → ReadTexture env p t2.pre = .ok none t2.pre)) ∧
      ((∃ c ∈ Resources.LoadCalls env path w0, (c.path = p ∧ c.pre.cache.lookup p = none) ∨
          ∃ t ∈ c.textures, t.path = p ∧ t.pre.cache.lookup p = none) →
        (Resources.Load env path w0).world.trace.count (.fileExist (fullPath env p))
          = w0.trace.count (.fileExist (fullPath env p)) + 1) := by
  refine ⟨fun w hw => ⟨ReadTexture_miss_absent env p w hw hf, ReadMaterial_miss_absent env p w hw hf⟩,
    fun path w0 => ⟨erases_apply (erases_LoadLog env path) w0, ?_⟩⟩
  cases hfile : env.files (fullPath env path) with
  | none =>
    rw [LoadCalls_absent env path w0 hfile]
    refine ⟨List.Pairwise.nil, fun c hc => (by cases hc), ?_⟩
    rintro ⟨c, hc, -⟩
    cases hc
  | some bytes =>
    obtain ⟨hmem, hpair⟩ := LoadCalls_links env path w0 bytes hfile
    have hne : ∀ c ∈ Resources.LoadCalls env path w0, c.textures ≠ [] → p ≠ c.path := by
      intro c hc hnil hp
      obtain ⟨-, b, hb⟩ := (hmem c hc p).2.2.1 hnil
      rw [← hp, hf] at hb
      cases hb
    refine ⟨hpair.imp ?_, fun c hc => ⟨fun hp => ?_, ?_⟩, ?_⟩
    · rintro c1 c2 ⟨⟨hc1, -⟩, hk⟩ hfirst
      have hentry : c2.pre.cache.lookup p = some none ∧
          ∀ t ∈ c2.textures, t.pre.cache.lookup p = some none := by
        rcases hfirst with ⟨hp, hmiss⟩ | ⟨t, ht, hp, hmiss⟩
        · subst hp
          obtain ⟨e1, -⟩ := ReadMaterial_absent_post env c1 hf hmiss
          exact ⟨((hk c1.path).1.2.1 none e1).1, fun t2 ht2 => (((hk c1.path).2.1 t2 ht2).2.1 none e1).1⟩
        · subst hp
          obtain ⟨e1, -⟩ := ReadTexture_absent_post env t hf hmiss
          have hn := hne c1 hc1 (List.ne_nil_of_mem ht)
          have hb := (hk t.path).2.2 t ht
          exact ⟨((hb.1.2.2 hn) none e1).1, fun t2 ht2 => (((hb.2 t2 ht2).2.2 hn) none e1).1⟩
      exact ⟨fun _ => (hit_empty env p c2.pre hentry.1).2,
        fun t ht _ => (hit_empty env p t.pre (hentry.2 t ht)).1⟩
    · by_contra hnil
      exact hne c hc hnil hp.symm
    · have hp := (hmem c hc p).2.2.2.2
      refine hp.imp ?_
      intro t1 t2 hk hp1 hmiss _
      subst hp1
      obtain ⟨e1, -⟩ := ReadTexture_absent_post env t1 hf hmiss
      exact (hit_empty env t1.path t2.pre (hk.2.1 none e1).1).1
    · rintro ⟨c, hc, hfirst⟩
      rw [Load_trace env path w0 bytes hfile]
      have hpp : p ≠ path := by
        rintro rfl
        rw [hf] at hfile
        cases hfile
      have hstart := count_opened env hpp w0
      obtain ⟨k1, k2, -, k4, -⟩ := hmem c hc p
      rcases hfirst with ⟨hp, hmiss⟩ | ⟨t, ht, hp, hmiss⟩
      · subst hp
        obtain ⟨e1, e2⟩ := ReadMaterial_absent_post env c hf hmiss
        rw [(k2.2.1 none e1).2, e2, (k1.2.2 hf hmiss).2, hstart]
      · subst hp
        obtain ⟨e1, e2⟩ := ReadTexture_absent_post env t hf hmiss
        have hn := hne c hc (List.ne_nil_of_mem ht)
        obtain ⟨g1, g2⟩ := k4 t ht
        obtain ⟨u1, u2⟩ := g1.2.2 hf hmiss
        obtain ⟨v1, v2⟩ := (g2.2.2 hn) none e1
        rw [(k2.2.1 none v1).2, v2, e2, u2, (k1.2.2 hf u1).2, hstart]

/-- In `cacheEnv` the path `x` has no file. The scene `gone` lists the materials
`x`, `m6`, `x`, and `m6` names the texture `x`: `ReadMaterial(x)` finds `x` not
cached and returns empty, the `ReadTexture(x)` within `ReadMaterial(m6)` and the
second `ReadMaterial(x)` return empty from the cache, and the load has checked
the existence of the file of `x` once. -/
theorem missing_file_checked_once_witness :
    cacheEnv.files (fullPath cacheEnv (ascii "x")) = none ∧
    callResults cacheEnv (Resources.LoadCalls cacheEnv (ascii "gone") World.initial)
      = [{ path := ascii "x", value := some none, textures := [] },
         { path := ascii "m6", value := some (some 0), textures := [(ascii "x", some none)] },
         { path := ascii "x", value := some none, textures := [] }] ∧
    (Resources.Load cacheEnv (ascii "gone") World.initial).world.trace.count
        (.fileExist (fullPath cacheEnv (ascii "x")))
      = World.initial.trace.count (.fileExist (fullPath cacheEnv (ascii "x"))) + 1 :=
  ⟨by decide!, by decide!,
    ((missing_file_checked_once cacheEnv (ascii "x") (by decide!)).2 (ascii "gone")
      World.initial).2.2.2 (by decide!)⟩

/-! ## One cache for textures and materials -/

end Viry3D
